import Mathlib

/-!
# nomad: a verification development of the filesystem translation layer

A shallow embedding of `api/fs/util.go`, `api/fs/node.go`, `api/types.go`, the
handlers of `api/handler`, the client of `api/cli/rest.go`, the kernel bridge
of `internal/fuse/fs`, `resolveArgs` of `internal/server/util.go` and the
mount command of `cmd/mount.go`.

* Go strings are byte sequences: `GoString` is a list of byte values, and
  `str` gives the UTF-8 bytes of a literal.
* `int64` values are integers, with `wrapInt64` applied where the Go arithmetic
  can overflow; `uint32` values are natural numbers.
* The operating system is a parameter: a `Kernel` gives the outcome of every
  system call on an abstract state, and a `World` pairs that state with the
  log of the calls made so far.
* The Go standard library functions that the code calls (`path.Clean`,
  `filepath.Join`, `filepath.Rel`, `encoding/base64`, `encoding/json`,
  `net/url`) are modelled from their documented behaviour on Linux.
-/

namespace Nomad

/-! ## Go strings -/

/-- A Go string: a sequence of bytes. -/
abbrev GoString := List Nat

/-- Every element is a byte value. -/
def IsBytes (s : GoString) : Prop := ∀ b ∈ s, b < 256

/-- The rune U+FFFD that Go substitutes for malformed input. -/
def RuneError : Nat := 0xFFFD

/-- Go `utf8.EncodeRune`: surrogates and values past U+10FFFF encode as U+FFFD. -/
def encodeRune (r : Nat) : GoString :=
  if r < 0x80 then [r]
  else if r < 0x800 then [0xC0 + r / 64, 0x80 + r % 64]
  else if (0xD800 ≤ r ∧ r < 0xE000) ∨ 0x10FFFF < r then [0xEF, 0xBF, 0xBD]
  else if r < 0x10000 then [0xE0 + r / 4096, 0x80 + r / 64 % 64, 0x80 + r % 64]
  else [0xF0 + r / 262144, 0x80 + r / 4096 % 64, 0x80 + r / 64 % 64, 0x80 + r % 64]

/-- The UTF-8 bytes of a text. -/
def str (s : String) : GoString := s.toList.flatMap (fun c => encodeRune c.toNat)

/-- The range `utf8` accepts for the second byte after the first byte `b0`. -/
def acceptLo (b0 : Nat) : Nat := if b0 = 0xE0 then 0xA0 else if b0 = 0xF0 then 0x90 else 0x80

/-- Upper end of the accepted range for the second byte, see `acceptLo`. -/
def acceptHi (b0 : Nat) : Nat := if b0 = 0xED then 0x9F else if b0 = 0xF4 then 0x8F else 0xBF

/-- A continuation byte `10xxxxxx`. -/
def isCont (b : Nat) : Bool := decide (0x80 ≤ b ∧ b ≤ 0xBF)

/-- Go `utf8.DecodeRune`: the first rune of the input and its width in bytes.
Malformed input gives `(RuneError, 1)`, empty input `(RuneError, 0)`. -/
def decodeRune : GoString → Nat × Nat
  | [] => (RuneError, 0)
  | b0 :: rest =>
    if b0 < 0x80 then (b0, 1)
    else if b0 < 0xC2 ∨ 0xF4 < b0 then (RuneError, 1)
    else
      match rest with
      | [] => (RuneError, 1)
      | b1 :: rest1 =>
        if b1 < acceptLo b0 ∨ acceptHi b0 < b1 then (RuneError, 1)
        else if b0 < 0xE0 then ((b0 % 32) * 64 + b1 % 64, 2)
        else
          match rest1 with
          | [] => (RuneError, 1)
          | b2 :: rest2 =>
            if !isCont b2 then (RuneError, 1)
            else if b0 < 0xF0 then ((b0 % 16) * 4096 + (b1 % 64) * 64 + b2 % 64, 3)
            else
              match rest2 with
              | [] => (RuneError, 1)
              | b3 :: _ =>
                if !isCont b3 then (RuneError, 1)
                else ((b0 % 8) * 262144 + (b1 % 64) * 4096 + (b2 % 64) * 64 + b3 % 64, 4)

/-- Well-formed UTF-8: the bytes of some sequence of Unicode scalar values. -/
def ValidUTF8 (s : GoString) : Prop := ∃ cs : List Char, s = cs.flatMap (fun c => encodeRune c.toNat)

/-- Go `strings.TrimPrefix`. -/
def trimPrefix (s pre : GoString) : GoString :=
  if pre.isPrefixOf s then s.drop pre.length else s

/-- Go `strings.HasSuffix`. -/
def hasSuffix (s suf : GoString) : Bool := suf.reverse.isPrefixOf s.reverse

/-! ## Lexical paths (`path`, `path/filepath` on Linux) -/

/-- The separator `/`. -/
def slash : Nat := 47

/-- The byte `.`. -/
def dot : Nat := 46

/-- The path element `..`. -/
def dotdot : GoString := [dot, dot]

/-- The elements between separators: `a//b/` gives `a`, the empty element, `b`
and the empty element. -/
def splitSlash : GoString → List GoString
  | [] => [[]]
  | c :: cs =>
    if c = slash then [] :: splitSlash cs
    else
      match splitSlash cs with
      | [] => [[c]]
      | e :: es => (c :: e) :: es

/-- Elements joined by single separators. -/
def joinSlash : List GoString → GoString
  | [] => []
  | [e] => e
  | e :: es => e ++ slash :: joinSlash es

/-- The element pass of `Clean`: `out` is the stack of elements kept so far,
innermost first. Empty elements and `.` are dropped; `..` removes the element
before it, is dropped at the root of a rooted path, and is kept at the start of
a relative one. -/
def cleanElems (rooted : Bool) : List GoString → List GoString → List GoString
  | out, [] => out.reverse
  | out, e :: es =>
    if e = [] ∨ e = [dot] then cleanElems rooted out es
    else if e = dotdot then
      match out with
      | top :: out1 =>
        if top = dotdot then cleanElems rooted (e :: out) es
        else cleanElems rooted out1 es
      | [] => if rooted then cleanElems rooted [] es else cleanElems rooted [e] es
    else cleanElems rooted (e :: out) es

/-- Go `path.Clean` (and `filepath.Clean` on Linux): the shortest equivalent
path by purely lexical processing. The empty path gives `.`. -/
def Clean (p : GoString) : GoString :=
  match p with
  | [] => [dot]
  | c :: _ =>
    let rooted := decide (c = slash)
    let out := cleanElems rooted [] (splitSlash p)
    if rooted then slash :: joinSlash out
    else if out = [] then [dot] else joinSlash out

/-- Go `path.Join` / `filepath.Join`: the elements from the first non-empty one
on, joined by separators and cleaned; the empty string if all are empty. -/
def Join : List GoString → GoString
  | [] => []
  | e :: es => if e = [] then Join es else Clean (joinSlash (e :: es))

/-- The element comparison loop of `filepath.Rel`. Both arguments are what is
left of base and target at the start of an iteration (`base[b0:]`, `targ[t0:]`);
the result is `base[b0:bi]`, `base[b0:]` and `targ[t0:]` when the loop ends. -/
def relLoop : Nat → GoString → GoString → GoString × GoString × GoString
  | 0, b, t => ([], b, t)
  | fuel + 1, b, t =>
    if b = [] ∨ t = [] then ([], b, t)
    else
      let eb := b.takeWhile (fun c => c ≠ slash)
      let et := t.takeWhile (fun c => c ≠ slash)
      if et ≠ eb then (eb, b, t)
      else relLoop fuel (b.drop (eb.length + 1)) (t.drop (et.length + 1))

/-- The `..` elements that lead from what is left of base up to the common
directory: `..` followed by one `/..` per separator. -/
def relUp : Nat → GoString
  | 0 => dotdot
  | n + 1 => relUp n ++ slash :: dotdot

/-- Go `filepath.Rel` on Linux: a relative path that is lexically equivalent
to `targpath` when joined to `basepath`; `none` when one of the two is rooted
and the other is not, or when base would have to be left through `..`. -/
def Rel (basepath targpath : GoString) : Option GoString :=
  let base := Clean basepath
  let targ := Clean targpath
  if targ = base then some [dot]
  else
    let base := if base = [dot] then [] else base
    if decide (base.head? = some slash) ≠ decide (targ.head? = some slash) then none
    else
      match relLoop (base.length + 1) base targ with
      | (eb, b, t) =>
        if eb = dotdot then none
        else if b ≠ [] then
          some (relUp (b.count slash) ++ (if t ≠ [] then slash :: t else []))
        else some t

/-! ## Errors (`api/types.go`) -/

/-- A Go `error` value, as far as `ToErrno` tells them apart. -/
inductive GoError where
  /-- A `syscall.Errno`. -/
  | errno (e : Nat)
  /-- The sentinel `os.ErrPermission`. -/
  | ErrPermission
  /-- The sentinel `os.ErrExist`. -/
  | ErrExist
  /-- The sentinel `os.ErrNotExist`. -/
  | ErrNotExist
  /-- The sentinel `os.ErrInvalid`. -/
  | ErrInvalid
  /-- An `*os.SyscallError` around `err`. -/
  | syscallError (err : GoError)
  /-- An `*os.PathError` around `err`. -/
  | pathError (err : GoError)
  /-- An `*os.LinkError` around `err`. -/
  | linkError (err : GoError)
  /-- Any other error, with its text. -/
  | other (msg : String)
  /-- An `*os.SyscallError` whose `Err` is nil. -/
  | syscallErrorNil
  /-- An `*os.PathError` whose `Err` is nil. -/
  | pathErrorNil
  /-- An `*os.LinkError` whose `Err` is nil. -/
  | linkErrorNil
  deriving DecidableEq, Repr

/-- Linux `EPERM`. -/
def EPERM : Nat := 1
/-- Linux `ENOENT`. -/
def ENOENT : Nat := 2
/-- Linux `EEXIST`. -/
def EEXIST : Nat := 17
/-- Linux `ENOTDIR`. -/
def ENOTDIR : Nat := 20
/-- Linux `EINVAL`. -/
def EINVAL : Nat := 22
/-- Linux `ENOSYS`. -/
def ENOSYS : Nat := 38
/-- Linux `ENOTSUP` (`EOPNOTSUPP`). -/
def ENOTSUP : Nat := 95

/-- Go `api.ToErrno`, for a non-nil error (nil gives `Errno(0)`, see
`ToErrno`). `none` is the panic of the type assertion `t.Err.(syscall.Errno)`
on a `SyscallError` that wraps something else, nil included. A `PathError` or
`LinkError` that wraps nil gives `ToErrno(nil)`, which is `Errno(0)`. -/
def toErrno : GoError → Option Nat
  | .ErrPermission => some EPERM
  | .ErrExist => some EEXIST
  | .ErrNotExist => some ENOENT
  | .ErrInvalid => some EINVAL
  | .errno e => some e
  | .syscallError (.errno e) => some e
  | .syscallError _ => none
  | .pathError err => toErrno err
  | .linkError err => toErrno err
  | .other _ => some ENOSYS
  | .syscallErrorNil => none
  | .pathErrorNil => some 0
  | .linkErrorNil => some 0

/-- Go `api.ToErrno`: `none` as argument is the nil error. -/
def ToErrno : Option GoError → Option Nat
  | none => some 0
  | some err => toErrno err

/-! ## Base64 (`base64.StdEncoding`) -/

/-- The character of the standard alphabet for a 6-bit value. -/
def b64Char (v : Nat) : Nat :=
  if v < 26 then 65 + v
  else if v < 52 then 97 + (v - 26)
  else if v < 62 then 48 + (v - 52)
  else if v = 62 then 43
  else 47

/-- The 6-bit value of a character of the standard alphabet. -/
def b64Val (c : Nat) : Option Nat :=
  if 65 ≤ c ∧ c ≤ 90 then some (c - 65)
  else if 97 ≤ c ∧ c ≤ 122 then some (c - 97 + 26)
  else if 48 ≤ c ∧ c ≤ 57 then some (c - 48 + 52)
  else if c = 43 then some 62
  else if c = 47 then some 63
  else none

/-- The padding character `=`. -/
def b64Pad : Nat := 61

/-- Go `base64.StdEncoding.EncodeToString`. -/
def b64Encode : GoString → GoString
  | [] => []
  | [a] => [b64Char (a / 4), b64Char (a % 4 * 16), b64Pad, b64Pad]
  | [a, b] => [b64Char (a / 4), b64Char (a % 4 * 16 + b / 16), b64Char (b % 16 * 4), b64Pad]
  | a :: b :: c :: rest =>
    b64Char (a / 4) :: b64Char (a % 4 * 16 + b / 16) :: b64Char (b % 16 * 4 + c / 64)
      :: b64Char (c % 64) :: b64Encode rest

/-- The quanta of a padded base64 text: four characters give three bytes, and
only the last quantum may be padded (`xx==` one byte, `xxx=` two bytes). -/
def b64DecodeQuanta : GoString → Option GoString
  | [] => some []
  | a :: b :: c :: d :: rest =>
    match b64Val a, b64Val b with
    | some va, some vb =>
      if c = b64Pad then
        if d = b64Pad ∧ rest = [] then some [va * 4 + vb / 16] else none
      else
        match b64Val c with
        | none => none
        | some vc =>
          if d = b64Pad then
            if rest = [] then some [va * 4 + vb / 16, vb % 16 * 16 + vc / 4] else none
          else
            match b64Val d with
            | none => none
            | some vd =>
              (b64DecodeQuanta rest).map
                (fun out => (va * 4 + vb / 16) :: (vb % 16 * 16 + vc / 4) :: (vc % 4 * 64 + vd) :: out)
    | _, _ => none
  | _ => none

/-- Go `base64.StdEncoding.DecodeString`: carriage returns and line feeds are
skipped, everything else must be padded base64. `none` is `CorruptInputError`. -/
def b64Decode (s : GoString) : Option GoString :=
  b64DecodeQuanta (s.filter (fun c => c ≠ 10 ∧ c ≠ 13))

/-! ## JSON encoding of the blob token (`encoding/json`) -/

/-- The payload of a blob token (Go `blobInfoHref`). -/
structure blobInfoHref where
  /-- The offset, `int64`. -/
  O : Int
  /-- The size, `int64`. -/
  S : Int
  /-- The permission bits, `uint32`. -/
  M : Nat
  /-- The path. -/
  P : GoString
  deriving DecidableEq, Repr

/-- Decimal digits of a number, most significant first. -/
def decDigits : Nat → Nat → GoString
  | 0, _ => []
  | fuel + 1, n => if n < 10 then [48 + n] else decDigits fuel (n / 10) ++ [48 + n % 10]

/-- Go `strconv.FormatUint(n, 10)`. -/
def formatNat (n : Nat) : GoString := decDigits (n + 1) n

/-- Go `strconv.FormatInt(x, 10)`. -/
def formatInt (x : Int) : GoString :=
  if x < 0 then 45 :: formatNat x.natAbs else formatNat x.natAbs

/-- A lower-case hexadecimal digit. -/
def hexDigit (v : Nat) : Nat := if v < 10 then 48 + v else 87 + v

/-- The ASCII bytes that `json.Marshal` copies unescaped (`htmlSafeSet`): all
from the space on except the quote, the backslash and `<`, `>`, `&`. -/
def jsonSafe (b : Nat) : Bool :=
  decide (0x20 ≤ b ∧ b < 0x80 ∧ b ≠ 34 ∧ b ≠ 92 ∧ b ≠ 60 ∧ b ≠ 62 ∧ b ≠ 38)

/-- The escape that `json.Marshal` writes for an ASCII byte that is not safe. -/
def jsonEscapeByte (b : Nat) : GoString :=
  if b = 92 ∨ b = 34 then [92, b]
  else if b = 8 then [92, 98]
  else if b = 12 then [92, 102]
  else if b = 10 then [92, 110]
  else if b = 13 then [92, 114]
  else if b = 9 then [92, 116]
  else [92, 117, 48, 48, hexDigit (b / 16), hexDigit (b % 16)]

/-- The text of a JSON string as `json.Marshal` writes it, without the quotes:
unsafe ASCII is escaped, malformed UTF-8 becomes the escape of U+FFFD, U+2028
and U+2029 are escaped, every other rune is copied. -/
def jsonStringBody : Nat → GoString → GoString
  | 0, _ => []
  | _, [] => []
  | fuel + 1, b :: rest =>
    if b < 0x80 then
      (if jsonSafe b then [b] else jsonEscapeByte b) ++ jsonStringBody fuel rest
    else
      match decodeRune ((b :: rest).take 4) with
      | (c, size) =>
        if c = RuneError ∧ size = 1 then
          [92, 117, 102, 102, 102, 100] ++ jsonStringBody fuel rest
        else if c = 0x2028 ∨ c = 0x2029 then
          [92, 117, 50, 48, 50, hexDigit (c % 16)] ++ jsonStringBody fuel (rest.drop (size - 1))
        else (b :: rest).take size ++ jsonStringBody fuel (rest.drop (size - 1))

/-- A JSON string literal as `json.Marshal` writes it. -/
def jsonString (s : GoString) : GoString := 34 :: jsonStringBody s.length s ++ [34]

/-- Go `json.Marshal` of a `blobInfoHref`: the compact object with the keys
`O`, `S`, `M`, `P` in declaration order, that is an opening brace, `"O":` and
the offset, `,"S":` and the size, `,"M":` and the permission bits, `,"P":` and
the path, and a closing brace. It cannot fail. -/
def jsonMarshal (v : blobInfoHref) : GoString :=
  [123, 34, 79, 34, 58] ++ formatInt v.O ++ [44, 34, 83, 34, 58] ++ formatInt v.S
    ++ [44, 34, 77, 34, 58] ++ formatNat v.M ++ [44, 34, 80, 34, 58] ++ jsonString v.P ++ [125]

/-! ## URLs (`net/url`) -/

/-- A Go `url.URL`. User information, the `RawPath` and `RawFragment` hints
and the `ForceQuery` and `OmitHost` flags are not modelled: the URLs of this
program are of the form `scheme://host/path`. -/
structure URL where
  /-- The scheme, lower case. -/
  Scheme : GoString := []
  /-- The opaque part of a URL `scheme:opaque`. -/
  Opaque : GoString := []
  /-- The host, with the port if any. -/
  Host : GoString := []
  /-- The path, decoded. -/
  Path : GoString := []
  /-- The query, without the question mark. -/
  RawQuery : GoString := []
  /-- The fragment, decoded, without the hash. -/
  Fragment : GoString := []
  deriving DecidableEq, Repr

/-- The part of a URL that a string is escaped for. -/
inductive Encoding where
  /-- The path (`encodePath`). -/
  | path
  /-- The host (`encodeHost`). -/
  | host
  /-- The fragment (`encodeFragment`). -/
  | fragment
  /-- The zone of an IPv6 literal (`encodeZone`). -/
  | zone
  /-- User name and password (`encodeUserPassword`). -/
  | userPassword
  deriving DecidableEq, Repr

/-- An ASCII letter or digit. -/
def isAlnum (c : Nat) : Bool :=
  decide ((97 ≤ c ∧ c ≤ 122) ∨ (65 ≤ c ∧ c ≤ 90) ∨ (48 ≤ c ∧ c ≤ 57))

/-- Go `url.shouldEscape`: whether the byte must be percent-escaped in the
given part of a URL. -/
def shouldEscape (c : Nat) (mode : Encoding) : Bool :=
  if isAlnum c then false
  else if (mode = .host ∨ mode = .zone)
      ∧ c ∈ [33, 36, 38, 39, 40, 41, 42, 43, 44, 59, 61, 58, 91, 93, 60, 62, 34] then false
  else if c ∈ [45, 95, 46, 126] then false
  else if c ∈ [36, 38, 43, 44, 47, 58, 59, 61, 63, 64] ∧ mode = .path then decide (c = 63)
  else if c ∈ [36, 38, 43, 44, 47, 58, 59, 61, 63, 64] ∧ mode = .userPassword then
    decide (c = 64 ∨ c = 47 ∨ c = 63 ∨ c = 58)
  else if c ∈ [36, 38, 43, 44, 47, 58, 59, 61, 63, 64] ∧ mode = .fragment then false
  else if mode = .fragment ∧ c ∈ [33, 40, 41, 42] then false
  else true

/-- An upper-case hexadecimal digit. -/
def upperHex (v : Nat) : Nat := if v < 10 then 48 + v else 55 + v

/-- Go `url.escape`: every byte that `shouldEscape` names becomes `%XX`. -/
def escape (s : GoString) (mode : Encoding) : GoString :=
  s.flatMap (fun c => if shouldEscape c mode then [37, upperHex (c / 16), upperHex (c % 16)] else [c])

/-- The value of a hexadecimal digit, either case. -/
def unhex (c : Nat) : Option Nat :=
  if 48 ≤ c ∧ c ≤ 57 then some (c - 48)
  else if 97 ≤ c ∧ c ≤ 102 then some (c - 97 + 10)
  else if 65 ≤ c ∧ c ≤ 70 then some (c - 65 + 10)
  else none

/-- Go `url.unescape`: `%XX` becomes the byte; `none` is an `EscapeError` for
a malformed escape or, in a host or zone, an `InvalidHostError` for a byte
that may not stand there or an escape of an ASCII byte other than `%25`. -/
def unescape (mode : Encoding) : GoString → Option GoString
  | [] => some []
  | c :: rest =>
    if c = 37 then
      match rest with
      | h1 :: h2 :: rest2 =>
        match unhex h1, unhex h2 with
        | some v1, some v2 =>
          if mode = .host ∧ v1 < 8 ∧ ¬ (h1 = 50 ∧ h2 = 53) then none
          else if mode = .zone ∧ ¬ (h1 = 50 ∧ h2 = 53) ∧ v1 * 16 + v2 ≠ 32
              ∧ shouldEscape (v1 * 16 + v2) .host then none
          else (unescape mode rest2).map (fun out => (v1 * 16 + v2) :: out)
        | _, _ => none
      | _ => none
    else if (mode = .host ∨ mode = .zone) ∧ c < 0x80 ∧ shouldEscape c .host then none
    else (unescape mode rest).map (fun out => c :: out)

/-- Go `(*URL).EscapedPath`, without the `RawPath` hint: the default encoding
of the path. -/
def URL.EscapedPath (u : URL) : GoString :=
  if u.Path = [42] then [42] else escape u.Path .path

/-- Go `(*URL).String`. -/
def URL.String (u : URL) : GoString :=
  let scheme := if u.Scheme ≠ [] then u.Scheme ++ [58] else []
  let body :=
    if u.Opaque ≠ [] then scheme ++ u.Opaque
    else
      let auth :=
        if u.Scheme ≠ [] ∨ u.Host ≠ [] then
          (if u.Host ≠ [] ∨ u.Path ≠ [] then [slash, slash] else []) ++ escape u.Host .host
        else []
      let path := u.EscapedPath
      let sep := if path ≠ [] ∧ path.head? ≠ some slash ∧ u.Host ≠ [] then [slash] else []
      let pre := scheme ++ auth ++ sep
      let rel :=
        if pre = [] ∧ 58 ∈ path.takeWhile (fun c => c ≠ slash) then [dot, slash] else []
      pre ++ rel ++ path
  let query := if u.RawQuery ≠ [] then 63 :: u.RawQuery else []
  let frag := if u.Fragment ≠ [] then 35 :: escape u.Fragment .fragment else []
  body ++ query ++ frag

/-- Go `(*URL).setPath`, without the `RawPath` hint: the path is left as it
was when the escaped path does not decode. -/
def URL.setPath (u : URL) (p : GoString) : URL :=
  match unescape .path p with
  | some path => { u with Path := path }
  | none => u

/-- Go `(*URL).JoinPath`: the escaped path and the elements are joined and
cleaned, a trailing separator of the last element is kept. -/
def URL.JoinPath (u : URL) (elem : List GoString) : URL :=
  let e0 := u.EscapedPath
  let p :=
    if e0.head? ≠ some slash then (Join ((slash :: e0) :: elem)).drop 1
    else Join (e0 :: elem)
  let last := (e0 :: elem).getLast!
  let p := if hasSuffix last [slash] ∧ ¬ hasSuffix p [slash] then p ++ [slash] else p
  u.setPath p

/-! ## Blob references (`api/fs/util.go`) -/

/-- Go `api.BlobInfo`. -/
structure BlobInfo where
  /-- Root-relative path of the file. -/
  Path : GoString := []
  /-- Offset of the transfer, `int64`. -/
  Offset : Int := 0
  /-- Size of the transfer, `int64`. -/
  Size : Int := 0
  /-- Permission bits, `uint32`. -/
  Perm : Nat := 0
  /-- The URL of the transfer. -/
  Href : GoString := []
  deriving DecidableEq, Repr

/-- Go `EncodeBlobHref`. `json.Marshal` does not fail on a `blobInfoHref`, so
the error is always nil. -/
def EncodeBlobHref (base : URL) (bi : BlobInfo) : Except GoError GoString :=
  let b := jsonMarshal ⟨bi.Offset, bi.Size, bi.Perm, bi.Path⟩
  let p := b64Encode b
  .ok (base.JoinPath [str "blob", p]).String

/-! ## JSON decoding of the blob token (`encoding/json`) -/

/-- A JSON value. Numbers keep their literal, strings are decoded. -/
inductive JVal where
  /-- The literal `null`. -/
  | null
  /-- The literals `true` and `false`. -/
  | bool (b : Bool)
  /-- A number, by its literal. -/
  | num (lit : GoString)
  /-- A string, decoded. -/
  | str (s : GoString)
  /-- An array. -/
  | arr (xs : List JVal)
  /-- An object: its members in order. -/
  | obj (kvs : List (GoString × JVal))

/-- An ASCII digit. -/
def isDigit (c : Nat) : Bool := decide (48 ≤ c ∧ c ≤ 57)

/-- JSON white space is skipped. -/
def skipWs : GoString → GoString
  | [] => []
  | c :: rest => if c = 32 ∨ c = 9 ∨ c = 13 ∨ c = 10 then skipWs rest else c :: rest

/-- Go `getu4`: the value of a leading `\uXXXX`. -/
def getu4 : GoString → Option Nat
  | b :: u :: h1 :: h2 :: h3 :: h4 :: _ =>
    if b = 92 ∧ u = 117 then
      match unhex h1, unhex h2, unhex h3, unhex h4 with
      | some a, some b, some c, some d => some (a * 4096 + b * 256 + c * 16 + d)
      | _, _, _, _ => none
    else none
  | _ => none

/-- A UTF-16 surrogate. -/
def isSurrogate (r : Nat) : Bool := decide (0xD800 ≤ r ∧ r < 0xE000)

/-- Go `utf16.DecodeRune`: the rune of a surrogate pair, U+FFFD if it is none. -/
def utf16DecodeRune (r1 r2 : Nat) : Nat :=
  if 0xD800 ≤ r1 ∧ r1 < 0xDC00 ∧ 0xDC00 ≤ r2 ∧ r2 < 0xE000 then
    (r1 - 0xD800) * 1024 + (r2 - 0xDC00) + 0x10000
  else RuneError

/-- The byte that a one-letter JSON escape stands for. -/
def jsonSimpleEscape (e : Nat) : Option Nat :=
  if e = 34 ∨ e = 92 ∨ e = 47 then some e
  else if e = 98 then some 8
  else if e = 102 then some 12
  else if e = 110 then some 10
  else if e = 114 then some 13
  else if e = 116 then some 9
  else none

/-- A JSON string literal after its opening quote: the decoded bytes and the
input after the closing quote. Escapes are resolved, a lone surrogate escape
and malformed UTF-8 become U+FFFD; a raw control character or an unknown
escape is a syntax error. -/
def parseStringBody : Nat → GoString → Option (GoString × GoString)
  | 0, _ => none
  | _, [] => none
  | fuel + 1, c :: rest =>
    if c = 34 then some ([], rest)
    else if c < 0x20 then none
    else if c = 92 then
      match rest with
      | [] => none
      | e :: rest1 =>
        if e = 117 then
          match getu4 (c :: rest) with
          | none => none
          | some r =>
            let rest2 := rest1.drop 4
            if isSurrogate r then
              match getu4 rest2 with
              | some r2 =>
                if utf16DecodeRune r r2 ≠ RuneError then
                  (parseStringBody fuel (rest2.drop 6)).map
                    (fun x => (encodeRune (utf16DecodeRune r r2) ++ x.1, x.2))
                else (parseStringBody fuel rest2).map (fun x => (encodeRune RuneError ++ x.1, x.2))
              | none => (parseStringBody fuel rest2).map (fun x => (encodeRune RuneError ++ x.1, x.2))
            else (parseStringBody fuel rest2).map (fun x => (encodeRune r ++ x.1, x.2))
        else
          match jsonSimpleEscape e with
          | none => none
          | some b => (parseStringBody fuel rest1).map (fun x => (b :: x.1, x.2))
    else if c < 0x80 then (parseStringBody fuel rest).map (fun x => (c :: x.1, x.2))
    else
      match decodeRune (c :: rest) with
      | (r, size) =>
        (parseStringBody fuel (rest.drop (size - 1))).map (fun x => (encodeRune r ++ x.1, x.2))

/-- The leading digits of the input and what follows them. -/
def spanDigits (s : GoString) : GoString × GoString := s.span isDigit

/-- A JSON number literal at the start of the input, and what follows it:
`-? (0 | [1-9][0-9]*) (. [0-9]+)? ([eE] [+-]? [0-9]+)?`. -/
def parseNumber (s : GoString) : Option (GoString × GoString) :=
  let (sign, s1) := match s with
    | c :: rest => if c = 45 then ([45], rest) else ([], s)
    | [] => ([], s)
  let (ds, s2) := spanDigits s1
  if ds = [] ∨ (ds.head? = some 48 ∧ ds.length ≠ 1) then none
  else
    let intPart := sign ++ ds
    let fracRes : Option (GoString × GoString) :=
      match s2 with
      | c :: rest =>
        if c = 46 then
          let (fs, s3) := spanDigits rest
          if fs = [] then none else some (46 :: fs, s3)
        else some ([], s2)
      | [] => some ([], s2)
    match fracRes with
    | none => none
    | some (frac, s3) =>
      match s3 with
      | c :: rest =>
        if c = 101 ∨ c = 69 then
          let (esign, s4) := match rest with
            | d :: rest1 => if d = 43 ∨ d = 45 then ([d], rest1) else ([], rest)
            | [] => ([], rest)
          let (es, s5) := spanDigits s4
          if es = [] then none else some (intPart ++ frac ++ c :: esign ++ es, s5)
        else some (intPart ++ frac, s3)
      | [] => some (intPart ++ frac, s3)

mutual
/-- A JSON value at the start of the input, after white space, and what
follows it; `none` is a syntax error. -/
def parseValue : Nat → GoString → Option (JVal × GoString)
  | 0, _ => none
  | fuel + 1, s =>
    match skipWs s with
    | [] => none
    | c :: rest =>
      if c = 123 then
        match skipWs rest with
        | [] => none
        | d :: rest1 =>
          if d = 125 then some (.obj [], rest1)
          else (parseMembers fuel (d :: rest1)).map (fun x => (.obj x.1, x.2))
      else if c = 91 then
        match skipWs rest with
        | [] => none
        | d :: rest1 =>
          if d = 93 then some (.arr [], rest1)
          else (parseElems fuel (d :: rest1)).map (fun x => (.arr x.1, x.2))
      else if c = 34 then
        (parseStringBody (rest.length + 1) rest).map (fun x => (.str x.1, x.2))
      else if c = 45 ∨ isDigit c then
        (parseNumber (c :: rest)).map (fun x => (.num x.1, x.2))
      else if [116, 114, 117, 101].isPrefixOf (c :: rest) then some (.bool true, rest.drop 3)
      else if [102, 97, 108, 115, 101].isPrefixOf (c :: rest) then some (.bool false, rest.drop 4)
      else if [110, 117, 108, 108].isPrefixOf (c :: rest) then some (.null, rest.drop 3)
      else none
/-- The members of a JSON object up to and including the closing brace. -/
def parseMembers : Nat → GoString → Option (List (GoString × JVal) × GoString)
  | 0, _ => none
  | fuel + 1, s =>
    match skipWs s with
    | [] => none
    | q :: rest =>
      if q ≠ 34 then none
      else
        match parseStringBody (rest.length + 1) rest with
        | none => none
        | some (key, r1) =>
          match skipWs r1 with
          | [] => none
          | colon :: r2 =>
            if colon ≠ 58 then none
            else
              match parseValue fuel r2 with
              | none => none
              | some (v, r3) =>
                match skipWs r3 with
                | [] => none
                | d :: r4 =>
                  if d = 44 then (parseMembers fuel r4).map (fun x => ((key, v) :: x.1, x.2))
                  else if d = 125 then some ([(key, v)], r4)
                  else none
/-- The elements of a JSON array up to and including the closing bracket. -/
def parseElems : Nat → GoString → Option (List JVal × GoString)
  | 0, _ => none
  | fuel + 1, s =>
    match parseValue fuel s with
    | none => none
    | some (v, r1) =>
      match skipWs r1 with
      | [] => none
      | d :: r2 =>
        if d = 44 then (parseElems fuel r2).map (fun x => (v :: x.1, x.2))
        else if d = 93 then some ([v], r2)
        else none
end

/-- The one JSON value that makes up the whole input, white space around it
allowed; `none` is a `SyntaxError`. -/
def jsonParse (s : GoString) : Option JVal :=
  match parseValue (s.length + 1) s with
  | some (v, rest) => if skipWs rest = [] then some v else none
  | none => none

/-- The value of a non-empty string of decimal digits. -/
def parseDec (s : GoString) : Option Nat :=
  if s ≠ [] ∧ s.all isDigit then some (s.foldl (fun a d => a * 10 + (d - 48)) 0) else none

/-- Go `strconv.ParseInt(s, 10, 64)` on a JSON number literal: `none` for a
literal with a fraction or an exponent, or a value outside `int64`. -/
def parseInt64 (lit : GoString) : Option Int :=
  match lit with
  | c :: ds =>
    if c = 45 then (parseDec ds).bind (fun n => if n ≤ 2 ^ 63 then some (-(n : Int)) else none)
    else (parseDec lit).bind (fun n => if n < 2 ^ 63 then some (n : Int) else none)
  | [] => none

/-- Go `strconv.ParseUint(s, 10, 64)` on a JSON number literal, with the
overflow check for a `uint32` field. -/
def parseUint32 (lit : GoString) : Option Nat :=
  (parseDec lit).bind (fun n => if n < 2 ^ 32 then some n else none)

/-- The fields of `blobInfoHref`. -/
inductive Field where
  /-- Field `O`. -/
  | O
  /-- Field `S`. -/
  | S
  /-- Field `M`. -/
  | M
  /-- Field `P`. -/
  | P
  deriving DecidableEq, Repr

/-- The field that an object key names: the exact name, or a name equal to it
under Unicode case folding (the long s, U+017F, folds to `S`). -/
def findField (key : GoString) : Option Field :=
  if key = [79] ∨ key = [111] then some .O
  else if key = [83] ∨ key = [115] ∨ key = [0xC5, 0xBF] then some .S
  else if key = [77] ∨ key = [109] then some .M
  else if key = [80] ∨ key = [112] then some .P
  else none

/-- One member of the object is stored into the struct: `null` leaves the
field as it is, a value of the wrong kind or a number that does not fit is an
`UnmarshalTypeError` (`none`), an unknown key is skipped. -/
def storeMember (v : blobInfoHref) (key : GoString) (val : JVal) : Option blobInfoHref :=
  match findField key, val with
  | none, _ => some v
  | some _, .null => some v
  | some .O, .num lit => (parseInt64 lit).map (fun n => { v with O := n })
  | some .S, .num lit => (parseInt64 lit).map (fun n => { v with S := n })
  | some .M, .num lit => (parseUint32 lit).map (fun n => { v with M := n })
  | some .P, .str s => some { v with P := s }
  | some _, _ => none

/-- The members of the object are stored in order, a later member overwrites
an earlier one. -/
def storeMembers : List (GoString × JVal) → blobInfoHref → Option blobInfoHref
  | [], v => some v
  | (key, val) :: rest, v =>
    match storeMember v key val, storeMembers rest v with
    | some v1, some _ => storeMembers rest v1
    | _, _ => none

/-- Go `json.Unmarshal` into a zero `blobInfoHref`. The input must be one
JSON value: `null` leaves the struct zero, an object fills it, anything else
is an `UnmarshalTypeError`. A type error does not stop the decoding but is
returned at the end, so every error leaves the caller without a result. -/
def jsonUnmarshal (data : GoString) : Except GoError blobInfoHref :=
  match jsonParse data with
  | none => .error (.other "json: syntax error")
  | some .null => .ok ⟨0, 0, 0, []⟩
  | some (.obj kvs) =>
    match storeMembers kvs ⟨0, 0, 0, []⟩ with
    | some v => .ok v
    | none => .error (.other "json: cannot unmarshal")
  | some _ => .error (.other "json: cannot unmarshal")

/-! ## URL parsing (`net/url`) -/

/-- An ASCII letter. -/
def isLetter (c : Nat) : Bool := decide ((97 ≤ c ∧ c ≤ 122) ∨ (65 ≤ c ∧ c ≤ 90))

/-- Go `url.getScheme`, the loop: `i` is the index of the next byte. -/
def getSchemeLoop (raw : GoString) : Nat → GoString → Option (GoString × GoString)
  | _, [] => some ([], raw)
  | i, c :: rest =>
    if isLetter c then getSchemeLoop raw (i + 1) rest
    else if isDigit c ∨ c = 43 ∨ c = 45 ∨ c = 46 then
      if i = 0 then some ([], raw) else getSchemeLoop raw (i + 1) rest
    else if c = 58 then
      if i = 0 then none else some (raw.take i, rest)
    else some ([], raw)

/-- Go `url.getScheme`: the scheme before the first colon, if what stands
there is one, and the rest; `none` is the error "missing protocol scheme". -/
def getScheme (raw : GoString) : Option (GoString × GoString) := getSchemeLoop raw 0 raw

/-- Go `strings.Cut` at a byte: the text before and after its first
occurrence. -/
def cut (s : GoString) (sep : Nat) : GoString × GoString :=
  (s.takeWhile (fun c => c ≠ sep), (s.dropWhile (fun c => c ≠ sep)).drop 1)

/-- The text before the last occurrence of a byte, and the text from that
occurrence on; `none` if it does not occur. -/
def cutLast (s : GoString) (sep : Nat) : Option (GoString × GoString) :=
  if sep ∈ s then
    let after := (s.reverse.takeWhile (fun c => c ≠ sep)).reverse
    some (s.take (s.length - after.length - 1), s.drop (s.length - after.length - 1))
  else none

/-- Go `strings.ToLower` on ASCII. -/
def toLower (s : GoString) : GoString := s.map (fun c => if 65 ≤ c ∧ c ≤ 90 then c + 32 else c)

/-- Go `url.validOptionalPort`: empty, or a colon and digits. -/
def validOptionalPort (port : GoString) : Bool :=
  match port with
  | [] => true
  | c :: ds => decide (c = 58) && ds.all isDigit

/-- Index of the first occurrence of `%25`. -/
def indexZone : GoString → Option Nat
  | [] => none
  | c :: rest =>
    if [37, 50, 53].isPrefixOf (c :: rest) then some 0 else (indexZone rest).map (fun i => i + 1)

/-- Go `url.parseHost`: the host is checked and decoded. -/
def parseHost (host : GoString) : Option GoString :=
  if host.head? = some 91 then
    match cutLast host 93 with
    | none => none
    | some (before, fromBracket) =>
      if !validOptionalPort (fromBracket.drop 1) then none
      else
        match indexZone before with
        | some zone =>
          match unescape .host (host.take zone), unescape .zone (before.drop zone),
              unescape .host fromBracket with
          | some h1, some h2, some h3 => some (h1 ++ h2 ++ h3)
          | _, _, _ => none
        | none => unescape .host host
  else
    match cutLast host 58 with
    | some (_, colonPort) => if !validOptionalPort colonPort then none else unescape .host host
    | none => unescape .host host

/-- Go `url.validUserinfo`. -/
def validUserinfo (s : GoString) : Bool :=
  s.all (fun c => isAlnum c ||
    decide (c ∈ [45, 46, 95, 58, 126, 33, 36, 38, 39, 40, 41, 42, 43, 44, 59, 61, 37, 64]))

/-- Go `url.parseAuthority`: the host of `[userinfo@]host[:port]`. The user
information is checked and then dropped. -/
def parseAuthority (authority : GoString) : Option GoString :=
  match cutLast authority 64 with
  | none => parseHost authority
  | some (userinfo, atHost) =>
    match parseHost (atHost.drop 1) with
    | none => none
    | some host =>
      if !validUserinfo userinfo then none
      else
        match unescape .userPassword (cut userinfo 58).1, unescape .userPassword (cut userinfo 58).2 with
        | some _, some _ => some host
        | _, _ => none

/-- Go `url.Parse`. An error is reported as it would be wrapped in a
`*url.Error`. -/
def Parse (rawURL : GoString) : Except GoError URL :=
  let u := (cut rawURL 35).1
  let frag := (cut rawURL 35).2
  if u.any (fun c => decide (c < 0x20 ∨ c = 0x7f)) then
    .error (.other "net/url: invalid control character in URL")
  else if u = [42] then
    match unescape .fragment frag with
    | some f => .ok { Path := [42], Fragment := f }
    | none => .error (.other "invalid URL escape")
  else
    match getScheme u with
    | none => .error (.other "missing protocol scheme")
    | some (scheme, rest0) =>
      let scheme := toLower scheme
      let rest := (cut rest0 63).1
      let query := (cut rest0 63).2
      if rest.head? ≠ some slash ∧ scheme ≠ [] then
        match unescape .fragment frag with
        | some f => .ok { Scheme := scheme, Opaque := rest, RawQuery := query, Fragment := f }
        | none => .error (.other "invalid URL escape")
      else if rest.head? ≠ some slash ∧ 58 ∈ (cut rest slash).1 then
        .error (.other "first path segment in URL cannot contain colon")
      else
        let hasAuth := [slash, slash].isPrefixOf rest
          ∧ (scheme ≠ [] ∨ ¬ [slash, slash, slash].isPrefixOf rest)
        let authority := if hasAuth then (rest.drop 2).takeWhile (fun c => c ≠ slash) else []
        let rest := if hasAuth then (rest.drop 2).dropWhile (fun c => c ≠ slash) else rest
        match (if hasAuth then parseAuthority authority else some []) with
        | none => .error (.other "invalid host")
        | some host =>
          match unescape .path rest, unescape .fragment frag with
          | some path, some f =>
            .ok { Scheme := scheme, Host := host, Path := path, RawQuery := query, Fragment := f }
          | _, _ => .error (.other "invalid URL escape")

/-- The second half of `DecodeBlobHref`: the token is base64-decoded and
JSON-decoded, and the blob is built with its `Href` left empty. -/
def decodeToken (p : GoString) : Except GoError BlobInfo :=
  match b64Decode p with
  | none => .error (.other "illegal base64 data")
  | some data =>
    match jsonUnmarshal data with
    | .error err => .error err
    | .ok bi => .ok { Offset := bi.O, Size := bi.S, Perm := bi.M, Path := bi.P }

/-- Go `DecodeBlobHref`. -/
def DecodeBlobHref (base : URL) (href : GoString) : Except GoError BlobInfo :=
  match Parse href with
  | .error err => .error err
  | .ok u => decodeToken (trimPrefix (trimPrefix u.Path base.Path) [slash])

/-! ## Attributes and system calls -/

/-- Go `api.Owner`. -/
structure Owner where
  /-- User id, `-1` for "leave unchanged". -/
  Uid : Int
  /-- Group id, `-1` for "leave unchanged". -/
  Gid : Int
  deriving DecidableEq, Repr

/-- A Go `time.Time`, by what `UnixNano` returns for it (an `int64`). -/
structure Time where
  /-- Nanoseconds since the epoch. -/
  UnixNano : Int
  deriving DecidableEq, Repr

/-- Go `api.Attr`: every field is a pointer, `none` is the nil pointer. -/
structure Attr where
  /-- Open flags or file type and permission bits, `uint32`. -/
  Mode : Option Nat := none
  /-- Permission bits for open and create, `uint32`. -/
  Perm : Option Nat := none
  /-- Size, `int64`. -/
  Size : Option Int := none
  /-- Offset, `int64`. -/
  Offset : Option Int := none
  /-- Access time. -/
  Atime : Option Time := none
  /-- Modification time. -/
  Mtime : Option Time := none
  /-- Change time. -/
  Ctime : Option Time := none
  /-- Owner. -/
  Owner : Option Owner := none
  deriving DecidableEq, Repr

/-- Go `syscall.Timespec`. -/
structure Timespec where
  /-- Seconds. -/
  Sec : Int
  /-- Nanoseconds. -/
  Nsec : Int
  deriving DecidableEq, Repr

/-- The fields of Go `syscall.Stat_t` that the program reads. -/
structure Stat_t where
  /-- Device. -/
  Dev : Nat := 0
  /-- Inode. -/
  Ino : Nat := 0
  /-- File type and permission bits. -/
  Mode : Nat := 0
  /-- Owner. -/
  Uid : Nat := 0
  /-- Group. -/
  Gid : Nat := 0
  /-- Size in bytes, `int64`. -/
  Size : Int := 0
  deriving DecidableEq, Repr

/-- The file type bit of a regular file, Linux `S_IFREG`. -/
def S_IFREG : Nat := 0x8000
/-- Mask of the file type bits, Linux `S_IFMT`. -/
def S_IFMT : Nat := 0xF000
/-- File type of a socket. -/
def S_IFSOCK : Nat := 0xC000
/-- File type of a symbolic link. -/
def S_IFLNK : Nat := 0xA000
/-- File type of a block device. -/
def S_IFBLK : Nat := 0x6000
/-- File type of a directory. -/
def S_IFDIR : Nat := 0x4000
/-- File type of a character device. -/
def S_IFCHR : Nat := 0x2000
/-- File type of a FIFO. -/
def S_IFIFO : Nat := 0x1000
/-- Linux `O_RDWR`. -/
def O_RDWR : Nat := 0x2
/-- Linux `O_CREAT`. -/
def O_CREAT : Nat := 0x40
/-- Linux `O_TRUNC`. -/
def O_TRUNC : Nat := 0x200
/-- Linux `O_CLOEXEC`. -/
def O_CLOEXEC : Nat := 0x80000
/-- Linux `O_DIRECTORY`. -/
def O_DIRECTORY : Nat := 0x10000

/-- The nanoseconds value that tells `utimensat` to leave a timestamp alone. -/
def _UTIME_OMIT : Int := (1 <<< 30) - 2

/-- An `int64` result of Go arithmetic: the value modulo `2^64`, in the range
of `int64`. -/
def wrapInt64 (x : Int) : Int := (x + 2 ^ 63) % 2 ^ 64 - 2 ^ 63

/-- Go `syscall.NsecToTimespec`; the division truncates towards zero. -/
def NsecToTimespec (nsec : Int) : Timespec :=
  let sec := nsec.tdiv 1000000000
  let ns := nsec.tmod 1000000000
  if ns < 0 then ⟨sec - 1, ns + 1000000000⟩ else ⟨sec, ns⟩

/-- Go `UtimeToTimespec`: nil becomes the omit value, a negative nanoseconds
field is set to zero. -/
def UtimeToTimespec (t : Option Time) : Timespec :=
  match t with
  | none => ⟨0, _UTIME_OMIT⟩
  | some t =>
    let ts := NsecToTimespec t.UnixNano
    if ts.Nsec < 0 then { ts with Nsec := 0 } else ts

/-- Go `IsRegular`. -/
def IsRegular (mode : Nat) : Bool := decide (mode &&& S_IFREG > 0)

/-- A system call with its arguments, as it is logged. -/
inductive Call where
  /-- `stat(path)`. -/
  | stat (path : GoString)
  /-- `lstat(path)`. -/
  | lstat (path : GoString)
  /-- `fstat(fd)`. -/
  | fstat (fd : Nat)
  /-- `open(path, flags, perm)`. -/
  | openat (path : GoString) (flags perm : Nat)
  /-- `close(fd)`. -/
  | close (fd : Nat)
  /-- `mkdir(path, mode)`. -/
  | mkdir (path : GoString) (mode : Nat)
  /-- `rmdir(path)`. -/
  | rmdir (path : GoString)
  /-- `unlink(path)`. -/
  | unlink (path : GoString)
  /-- `rename(old, new)`. -/
  | rename (old new : GoString)
  /-- `symlink(target, link)`. -/
  | symlink (target link : GoString)
  /-- `link(old, new)`. -/
  | link (old new : GoString)
  /-- `readlink(path, buf)` with the size of the buffer. -/
  | readlink (path : GoString) (bufsize : Nat)
  /-- `chmod(path, mode)`. -/
  | chmod (path : GoString) (mode : Nat)
  /-- `chown(path, uid, gid)`. -/
  | chown (path : GoString) (uid gid : Int)
  /-- `truncate(path, size)`. -/
  | truncate (path : GoString) (size : Int)
  /-- `utimensat(path, [atime, mtime])`. -/
  | utimensat (path : GoString) (atime mtime : Timespec)
  deriving DecidableEq, Repr

/-- The operating system: the outcome of each system call on a state `σ`, an
errno or a result, and the state after it. -/
structure Kernel (σ : Type) where
  /-- `stat`. -/
  stat : GoString → σ → Except Nat Stat_t × σ
  /-- `lstat`. -/
  lstat : GoString → σ → Except Nat Stat_t × σ
  /-- `fstat`. -/
  fstat : Nat → σ → Except Nat Stat_t × σ
  /-- `open`, giving a file descriptor. -/
  openat : GoString → Nat → Nat → σ → Except Nat Nat × σ
  /-- `close`. -/
  close : Nat → σ → Except Nat Unit × σ
  /-- `mkdir`. -/
  mkdir : GoString → Nat → σ → Except Nat Unit × σ
  /-- `rmdir`. -/
  rmdir : GoString → σ → Except Nat Unit × σ
  /-- `unlink`. -/
  unlink : GoString → σ → Except Nat Unit × σ
  /-- `rename`. -/
  rename : GoString → GoString → σ → Except Nat Unit × σ
  /-- `symlink`. -/
  symlink : GoString → GoString → σ → Except Nat Unit × σ
  /-- `link`. -/
  link : GoString → GoString → σ → Except Nat Unit × σ
  /-- `readlink` into a buffer of the given size: the bytes of the target. -/
  readlink : GoString → Nat → σ → Except Nat GoString × σ
  /-- `chmod`. -/
  chmod : GoString → Nat → σ → Except Nat Unit × σ
  /-- `chown`. -/
  chown : GoString → Int → Int → σ → Except Nat Unit × σ
  /-- `truncate`. -/
  truncate : GoString → Int → σ → Except Nat Unit × σ
  /-- `utimensat`. -/
  utimensat : GoString → Timespec → Timespec → σ → Except Nat Unit × σ

/-- The state of the operating system and the system calls made so far,
oldest first. -/
structure World (σ : Type) where
  /-- The state of the operating system. -/
  st : σ
  /-- The calls made so far. -/
  log : List Call

/-- The outcome of an operation of the server node: a value, a Go error, or a
panic. -/
inductive Res (α : Type) where
  /-- The operation returned a value and a nil error. -/
  | ok (v : α)
  /-- The operation returned an error. -/
  | err (e : GoError)
  /-- The operation panicked. -/
  | panic
  deriving DecidableEq, Repr

/-- A system call is made: the kernel gives outcome and state, the call is
logged. -/
def World.call {σ α : Type} (w : World σ) (c : Call) (f : σ → Except Nat α × σ) :
    Except Nat α × World σ :=
  ((f w.st).1, ⟨(f w.st).2, w.log ++ [c]⟩)

/-- The unit system calls among `Call`, run on a kernel; the other calls are
listed for completeness and run with their result dropped. -/
def Kernel.exec {σ : Type} (k : Kernel σ) (c : Call) (w : World σ) : Except Nat Unit × World σ :=
  match c with
  | .chmod p m => w.call c (k.chmod p m)
  | .chown p u g => w.call c (k.chown p u g)
  | .truncate p n => w.call c (k.truncate p n)
  | .utimensat p a m => w.call c (k.utimensat p a m)
  | .mkdir p m => w.call c (k.mkdir p m)
  | .rmdir p => w.call c (k.rmdir p)
  | .unlink p => w.call c (k.unlink p)
  | .rename a b => w.call c (k.rename a b)
  | .symlink a b => w.call c (k.symlink a b)
  | .link a b => w.call c (k.link a b)
  | .close fd => w.call c (k.close fd)
  | .stat p => w.call c (fun s => (((k.stat p s).1.map fun _ => ()), (k.stat p s).2))
  | .lstat p => w.call c (fun s => (((k.lstat p s).1.map fun _ => ()), (k.lstat p s).2))
  | .fstat fd => w.call c (fun s => (((k.fstat fd s).1.map fun _ => ()), (k.fstat fd s).2))
  | .openat p f m => w.call c (fun s => (((k.openat p f m s).1.map fun _ => ()), (k.openat p f m s).2))
  | .readlink p n => w.call c (fun s => (((k.readlink p n s).1.map fun _ => ()), (k.readlink p n s).2))

/-! ## The server node (`api/fs/node.go`) -/

/-- Go `FileNode`. -/
structure FileNode where
  /-- The exported root directory, a host path. -/
  Root : GoString
  /-- The device of the root. -/
  Dev : Nat
  /-- The base URL of the server. -/
  baseUrl : URL

/-- Go `(*FileNode).abs`: the host path of a root-relative path. -/
def FileNode.abs (n : FileNode) (p : GoString) : GoString := Join [n.Root, p]

/-- Go `(*FileNode).rel`: a host path made relative to the root; `none` is
the error of `filepath.Rel`. -/
def FileNode.rel (n : FileNode) (p : GoString) : Option GoString := Rel n.Root p

/-- Go `os.syscallMode`: the permission bits of an `os.FileMode` with the
setuid, setgid and sticky bits in their place. -/
def syscallMode (m : Nat) : Nat :=
  (m &&& 0o777) ||| (if m &&& (1 <<< 23) ≠ 0 then 0o4000 else 0)
    ||| (if m &&& (1 <<< 22) ≠ 0 then 0o2000 else 0)
    ||| (if m &&& (1 <<< 20) ≠ 0 then 0o1000 else 0)

/-- Go `os.Create`: the file is opened read-write, created and truncated; the
descriptor stays open. An errno is wrapped in a `*PathError`. -/
def osCreate {σ : Type} (k : Kernel σ) (path : GoString) (w : World σ) :
    Option GoError × World σ :=
  let flags := O_RDWR ||| O_CREAT ||| O_TRUNC ||| O_CLOEXEC
  match w.call (.openat path flags 0o666) (k.openat path flags 0o666) with
  | (.ok _, w1) => (none, w1)
  | (.error e, w1) => (some (.pathError (.errno e)), w1)

/-- Go `os.Mkdir`. An errno is wrapped in a `*PathError`. -/
def osMkdir {σ : Type} (k : Kernel σ) (path : GoString) (perm : Nat) (w : World σ) :
    Option GoError × World σ :=
  match w.call (.mkdir path (syscallMode perm)) (k.mkdir path (syscallMode perm)) with
  | (.ok _, w1) => (none, w1)
  | (.error e, w1) => (some (.pathError (.errno e)), w1)

/-- The error that `api.ToErrno` makes of a non-nil error, or its panic. -/
def errOfToErrno {α : Type} (err : GoError) : Res α :=
  match ToErrno (some err) with
  | some e => .err (.errno e)
  | none => .panic

/-- Go `(*FileNode).Mknod`. -/
def FileNode.Mknod {σ : Type} (k : Kernel σ) (n : FileNode) (rel : GoString) (attr : Option Attr)
    (w : World σ) : Res Stat_t × World σ :=
  match attr with
  | none => (.err (.errno EINVAL), w)
  | some a =>
    match a.Mode with
    | none => (.err (.errno EINVAL), w)
    | some mode =>
      let path := n.abs rel
      if !IsRegular mode then (.err (.errno ENOTSUP), w)
      else
        match osCreate k path w with
        | (some err, w1) => (errOfToErrno err, w1)
        | (none, w1) =>
          match w1.call (.lstat path) (k.lstat path) with
          | (.error e, w2) => (.err (.errno e), (w2.call (.rmdir path) (k.rmdir path)).2)
          | (.ok st, w2) => (.ok st, w2)

/-- Go `(*FileNode).Mkdir`. -/
def FileNode.Mkdir {σ : Type} (k : Kernel σ) (n : FileNode) (rel : GoString) (attr : Option Attr)
    (w : World σ) : Res Stat_t × World σ :=
  match attr with
  | none => (.err (.errno EINVAL), w)
  | some a =>
    match a.Mode with
    | none => (.err (.errno EINVAL), w)
    | some mode =>
      let path := n.abs rel
      match osMkdir k path mode w with
      | (some err, w1) => (errOfToErrno err, w1)
      | (none, w1) =>
        match w1.call (.lstat path) (k.lstat path) with
        | (.error e, w2) => (.err (.errno e), (w2.call (.rmdir path) (k.rmdir path)).2)
        | (.ok st, w2) => (.ok st, w2)

/-- The body shared by `Open` and `Create`: open, fstat, and the deferred
close. -/
def openStatClose {σ : Type} (k : Kernel σ) (path : GoString) (flags perm : Nat) (w : World σ) :
    Res Stat_t × World σ :=
  match w.call (.openat path flags perm) (k.openat path flags perm) with
  | (.error e, w1) => (.err (.errno e), w1)
  | (.ok fd, w1) =>
    match w1.call (.fstat fd) (k.fstat fd) with
    | (.error e, w2) => (.err (.errno e), (w2.call (.close fd) (k.close fd)).2)
    | (.ok st, w2) => (.ok st, (w2.call (.close fd) (k.close fd)).2)

/-- Go `(*FileNode).Open`. -/
def FileNode.Open {σ : Type} (k : Kernel σ) (n : FileNode) (rel : GoString) (attr : Option Attr)
    (w : World σ) : Res Stat_t × World σ :=
  match attr with
  | none => (.err (.errno EINVAL), w)
  | some a =>
    match a.Mode, a.Perm with
    | some mode, some perm => openStatClose k (n.abs rel) mode perm w
    | _, _ => (.err (.errno EINVAL), w)

/-- Go `(*FileNode).Create`. -/
def FileNode.Create {σ : Type} (k : Kernel σ) (n : FileNode) (rel : GoString) (attr : Option Attr)
    (w : World σ) : Res Stat_t × World σ :=
  match attr with
  | none => (.err (.errno EINVAL), w)
  | some a =>
    match a.Mode, a.Perm with
    | some mode, some perm => openStatClose k (n.abs rel) (mode ||| O_CREAT) perm w
    | _, _ => (.err (.errno EINVAL), w)

/-- Go `(*FileNode).Lstat`. -/
def FileNode.Lstat {σ : Type} (k : Kernel σ) (n : FileNode) (rel : GoString) (w : World σ) :
    Res Stat_t × World σ :=
  match w.call (.lstat (n.abs rel)) (k.lstat (n.abs rel)) with
  | (.error e, w1) => (.err (.errno e), w1)
  | (.ok st, w1) => (.ok st, w1)

/-- Go `(*FileNode).Stat`. -/
def FileNode.Stat {σ : Type} (k : Kernel σ) (n : FileNode) (rel : GoString) (w : World σ) :
    Res Stat_t × World σ :=
  match w.call (.stat (n.abs rel)) (k.stat (n.abs rel)) with
  | (.error e, w1) => (.err (.errno e), w1)
  | (.ok st, w1) => (.ok st, w1)

/-- Go `(*FileNode).Chmod`. -/
def FileNode.Chmod {σ : Type} (k : Kernel σ) (n : FileNode) (rel : GoString) (attr : Option Attr)
    (w : World σ) : Res Unit × World σ :=
  match attr with
  | none => (.err (.errno EINVAL), w)
  | some a =>
    match a.Mode with
    | none => (.err (.errno EINVAL), w)
    | some mode =>
      match w.call (.chmod (n.abs rel) mode) (k.chmod (n.abs rel) mode) with
      | (.error e, w1) => (.err (.errno e), w1)
      | (.ok _, w1) => (.ok (), w1)

/-- Go `(*FileNode).Chown`. -/
def FileNode.Chown {σ : Type} (k : Kernel σ) (n : FileNode) (rel : GoString) (attr : Option Attr)
    (w : World σ) : Res Unit × World σ :=
  match attr with
  | none => (.err (.errno EINVAL), w)
  | some a =>
    match a.Owner with
    | none => (.err (.errno EINVAL), w)
    | some owner =>
      match w.call (.chown (n.abs rel) owner.Uid owner.Gid) (k.chown (n.abs rel) owner.Uid owner.Gid) with
      | (.error e, w1) => (.err (.errno e), w1)
      | (.ok _, w1) => (.ok (), w1)

/-- Go `(*FileNode).Truncate`. -/
def FileNode.Truncate {σ : Type} (k : Kernel σ) (n : FileNode) (rel : GoString)
    (attr : Option Attr) (w : World σ) : Res Unit × World σ :=
  match attr with
  | none => (.err (.errno EINVAL), w)
  | some a =>
    match a.Size with
    | none => (.err (.errno EINVAL), w)
    | some size =>
      match w.call (.truncate (n.abs rel) size) (k.truncate (n.abs rel) size) with
      | (.error e, w1) => (.err (.errno e), w1)
      | (.ok _, w1) => (.ok (), w1)

/-- Go `(*FileNode).Setattr`. -/
def FileNode.Setattr {σ : Type} (k : Kernel σ) (n : FileNode) (rel : GoString)
    (attr : Option Attr) (w : World σ) : Res Stat_t × World σ :=
  match attr with
  | none => (.err (.errno EINVAL), w)
  | some a =>
    let path := n.abs rel
    let r1 : Except Nat Unit × World σ :=
      match a.Mode with
      | some mode => w.call (.chmod path mode) (k.chmod path mode)
      | none => (.ok (), w)
    match r1 with
    | (.error e, w1) => (.err (.errno e), w1)
    | (.ok _, w1) =>
      let r2 : Except Nat Unit × World σ :=
        match a.Owner with
        | some owner => w1.call (.chown path owner.Uid owner.Gid) (k.chown path owner.Uid owner.Gid)
        | none => (.ok (), w1)
      match r2 with
      | (.error e, w2) => (.err (.errno e), w2)
      | (.ok _, w2) =>
        let ts0 := UtimeToTimespec a.Atime
        let ts1 := UtimeToTimespec a.Mtime
        match w2.call (.utimensat path ts0 ts1) (k.utimensat path ts0 ts1) with
        | (.error e, w3) => (.err (.errno e), w3)
        | (.ok _, w3) =>
          let r4 : Except Nat Unit × World σ :=
            match a.Size with
            | some size => w3.call (.truncate path size) (k.truncate path size)
            | none => (.ok (), w3)
          match r4 with
          | (.error e, w4) => (.err (.errno e), w4)
          | (.ok _, w4) =>
            match w4.call (.lstat path) (k.lstat path) with
            | (.error e, w5) => (.err (.errno e), w5)
            | (.ok st, w5) => (.ok st, w5)

/-- The result of `EncodeBlobHref` is stored in the `Href` of the blob. -/
def withHref (base : URL) (bi : BlobInfo) : Res BlobInfo :=
  match EncodeBlobHref base bi with
  | .error err => .err err
  | .ok href => .ok { bi with Href := href }

/-- Go `(*FileNode).Read`. The subtraction is `int64` arithmetic. -/
def FileNode.Read {σ : Type} (k : Kernel σ) (n : FileNode) (rel : GoString) (attr : Option Attr)
    (w : World σ) : Res BlobInfo × World σ :=
  match attr with
  | none => (.err (.errno EINVAL), w)
  | some a =>
    match a.Offset, a.Size with
    | some offset, some size =>
      match w.call (.stat (n.abs rel)) (k.stat (n.abs rel)) with
      | (.error e, w1) => (.err (.errno e), w1)
      | (.ok st, w1) =>
        if offset > st.Size then (.err (.errno EINVAL), w1)
        else
          let min := fun (x y : Int) => if x > y then y else x
          let allR := 0o400 ||| 0o040 ||| 0o004
          let perm := (st.Mode % 2 ^ 32) &&& allR
          (withHref n.baseUrl
            { Path := rel, Offset := offset, Size := min size (wrapInt64 (st.Size - offset)),
              Perm := perm, Href := [] }, w1)
    | _, _ => (.err (.errno EINVAL), w)

/-- Go `(*FileNode).Write`. -/
def FileNode.Write {σ : Type} (k : Kernel σ) (n : FileNode) (rel : GoString) (attr : Option Attr)
    (w : World σ) : Res BlobInfo × World σ :=
  match attr with
  | none => (.err (.errno EINVAL), w)
  | some a =>
    match a.Offset, a.Size with
    | some offset, some size =>
      match w.call (.stat (n.abs rel)) (k.stat (n.abs rel)) with
      | (.error e, w1) => (.err (.errno e), w1)
      | (.ok st, w1) =>
        let allW := 0o200 ||| 0o020 ||| 0o002
        let perm := (st.Mode % 2 ^ 32) &&& allW
        (withHref n.baseUrl
          { Path := rel, Offset := offset, Size := size, Perm := perm, Href := [] }, w1)
    | _, _ => (.err (.errno EINVAL), w)

/-- The loop of `Readlink`: the buffer starts at 256 bytes and doubles until
the target is shorter than the buffer. After 55 doublings the size leaves the
range of `int` and the allocation panics. -/
def readlinkLoop {σ : Type} (k : Kernel σ) (n : FileNode) (path : GoString) :
    Nat → Nat → World σ → Res GoString × World σ
  | 0, _, w => (.panic, w)
  | fuel + 1, l, w =>
    match w.call (.readlink path l) (k.readlink path l) with
    | (.error e, w1) => (.err (.errno e), w1)
    | (.ok target, w1) =>
      let buf := target.take l
      if buf.length < l then
        match n.rel buf with
        | some r => (.ok r, w1)
        | none => (.err (.other "Rel: can't make target relative to root"), w1)
      else readlinkLoop k n path fuel (l * 2) w1

/-- Go `(*FileNode).Readlink`. -/
def FileNode.Readlink {σ : Type} (k : Kernel σ) (n : FileNode) (rel : GoString) (w : World σ) :
    Res GoString × World σ :=
  readlinkLoop k n (n.abs rel) 55 256 w

/-! ## Reference behaviour of `Setattr` -/

/-- The unit system calls of a list, made in order: the first one that fails
ends the run with its errno. -/
def runSteps {σ : Type} (k : Kernel σ) : List Call → World σ → Except Nat Unit × World σ
  | [], w => (.ok (), w)
  | c :: cs, w =>
    match k.exec c w with
    | (.error e, w1) => (.error e, w1)
    | (.ok _, w1) => runSteps k cs w1

/-- The steps of a `setattr` as the specification orders them: chmod when the
mode is present, chown when the owner is present, utimes, truncate when the
size is present. -/
def setattrSteps (path : GoString) (a : Attr) : List Call :=
  (match a.Mode with
    | some mode => [Call.chmod path mode]
    | none => [])
  ++ (match a.Owner with
    | some owner => [Call.chown path owner.Uid owner.Gid]
    | none => [])
  ++ [Call.utimensat path (UtimeToTimespec a.Atime) (UtimeToTimespec a.Mtime)]
  ++ (match a.Size with
    | some size => [Call.truncate path size]
    | none => [])

/-- The `setattr` of the specification: the steps in order, then the re-stat
whose result is returned; a failing step ends the operation with its errno. -/
def SetattrSpec {σ : Type} (k : Kernel σ) (n : FileNode) (rel : GoString) (a : Attr)
    (w : World σ) : Res Stat_t × World σ :=
  match runSteps k (setattrSteps (n.abs rel) a) w with
  | (.error e, w1) => (.err (.errno e), w1)
  | (.ok _, w1) => n.Lstat k rel w1

/-! ## A small file system to run the operations on -/

/-- A file of the in-memory file system. -/
structure MemFile where
  /-- The host path. -/
  path : GoString
  /-- File type and permission bits. -/
  mode : Nat
  /-- Owner. -/
  uid : Nat := 0
  /-- Group. -/
  gid : Nat := 0
  /-- Size in bytes. -/
  size : Int := 0
  /-- Access time. -/
  atime : Timespec := ⟨0, 0⟩
  /-- Modification time. -/
  mtime : Timespec := ⟨0, 0⟩
  /-- The target, for a symbolic link. -/
  target : GoString := []
  deriving DecidableEq, Repr

/-- The in-memory file system: its files by path, and the paths of the open
file descriptors (descriptor `3 + i` is entry `i`). -/
structure MemFS where
  /-- The files. -/
  files : List MemFile
  /-- The open descriptors. -/
  fds : List GoString := []
  deriving DecidableEq, Repr

/-- The file at a path. -/
def MemFS.find (fs : MemFS) (path : GoString) : Option MemFile :=
  fs.files.find? (fun f => f.path = path)

/-- The stat buffer of a file; the inode number is the position in the list. -/
def MemFS.statOf (fs : MemFS) (f : MemFile) : Stat_t :=
  { Dev := 1, Ino := fs.files.indexOf f + 1, Mode := f.mode, Uid := f.uid, Gid := f.gid,
    Size := f.size }

/-- The file at a path is replaced by its image under `g`; `ENOENT` if there
is none. -/
def MemFS.update (fs : MemFS) (path : GoString) (g : MemFile → MemFile) :
    Except Nat Unit × MemFS :=
  match fs.find path with
  | none => (.error ENOENT, fs)
  | some _ =>
    (.ok (), { fs with files := fs.files.map (fun f => if f.path = path then g f else f) })

/-- The in-memory file system as a kernel. Paths are looked up as they are
written: directories are not traversed and permissions are not checked. -/
def memKernel : Kernel MemFS where
  stat := fun p fs =>
    match fs.find p with
    | none => (.error ENOENT, fs)
    | some f =>
      if f.mode &&& S_IFMT = S_IFLNK then
        match fs.find f.target with
        | none => (.error ENOENT, fs)
        | some g => (.ok (fs.statOf g), fs)
      else (.ok (fs.statOf f), fs)
  lstat := fun p fs =>
    match fs.find p with
    | none => (.error ENOENT, fs)
    | some f => (.ok (fs.statOf f), fs)
  fstat := fun fd fs =>
    match fs.fds.get? (fd - 3) with
    | none => (.error 9, fs)
    | some p =>
      match fs.find p with
      | none => (.error ENOENT, fs)
      | some f => (.ok (fs.statOf f), fs)
  openat := fun p flags perm fs =>
    match fs.find p with
    | some _ =>
      let fs1 : MemFS :=
        if flags &&& O_TRUNC ≠ 0 then (fs.update p (fun f => { f with size := 0 })).2 else fs
      (.ok (3 + fs1.fds.length), { fs1 with fds := fs1.fds ++ [p] })
    | none =>
      if flags &&& O_CREAT ≠ 0 then
        (.ok (3 + fs.fds.length),
          { files := fs.files ++ [{ path := p, mode := S_IFREG ||| (perm &&& 0o777) }],
            fds := fs.fds ++ [p] })
      else (.error ENOENT, fs)
  close := fun _ fs => (.ok (), fs)
  mkdir := fun p mode fs =>
    match fs.find p with
    | some _ => (.error EEXIST, fs)
    | none => (.ok (), { fs with files := fs.files ++ [{ path := p, mode := S_IFDIR ||| mode }] })
  rmdir := fun p fs =>
    match fs.find p with
    | none => (.error ENOENT, fs)
    | some f =>
      if f.mode &&& S_IFMT = S_IFDIR then
        (.ok (), { fs with files := fs.files.filter (fun g => g.path ≠ p) })
      else (.error ENOTDIR, fs)
  unlink := fun p fs =>
    match fs.find p with
    | none => (.error ENOENT, fs)
    | some f =>
      if f.mode &&& S_IFMT = S_IFDIR then (.error 21, fs)
      else (.ok (), { fs with files := fs.files.filter (fun g => g.path ≠ p) })
  rename := fun old new fs => fs.update old (fun f => { f with path := new })
  symlink := fun target link fs =>
    match fs.find link with
    | some _ => (.error EEXIST, fs)
    | none =>
      (.ok (), { fs with files := fs.files ++
        [{ path := link, mode := S_IFLNK ||| 0o777, size := target.length, target := target }] })
  link := fun old new fs =>
    match fs.find old, fs.find new with
    | some f, none => (.ok (), { fs with files := fs.files ++ [{ f with path := new }] })
    | none, _ => (.error ENOENT, fs)
    | some _, some _ => (.error EEXIST, fs)
  readlink := fun p bufsize fs =>
    match fs.find p with
    | none => (.error ENOENT, fs)
    | some f =>
      if f.mode &&& S_IFMT = S_IFLNK then (.ok (f.target.take bufsize), fs)
      else (.error EINVAL, fs)
  chmod := fun p mode fs =>
    fs.update p (fun f => { f with mode := (f.mode &&& S_IFMT) ||| (mode &&& 0o7777) })
  chown := fun p uid gid fs =>
    fs.update p (fun f =>
      { f with uid := if uid = -1 then f.uid else uid.toNat,
               gid := if gid = -1 then f.gid else gid.toNat })
  truncate := fun p size fs =>
    if size < 0 then (.error EINVAL, fs) else fs.update p (fun f => { f with size := size })
  utimensat := fun p atime mtime fs =>
    fs.update p (fun f =>
      { f with atime := if atime.Nsec = _UTIME_OMIT then f.atime else atime,
               mtime := if mtime.Nsec = _UTIME_OMIT then f.mtime else mtime })

/-- The node of the examples: root `/srv`, base URL `http://localhost:58080/`. -/
def exampleNode : FileNode :=
  { Root := str "/srv", Dev := 1,
    baseUrl := { Scheme := str "http", Host := str "localhost:58080", Path := str "/" } }

/-- The world of the examples: the root directory, a file `/srv/data` of 1000
bytes with mode 0644, a symbolic link `/srv/ln` to `/srv/a/b` and a symbolic
link `/srv/up` to `/srv/../srv/a`; no call made yet. -/
def exampleWorld : World MemFS :=
  { st := { files :=
      [ { path := str "/srv", mode := S_IFDIR ||| 0o755 },
        { path := str "/srv/data", mode := S_IFREG ||| 0o644, size := 1000 },
        { path := str "/srv/ln", mode := S_IFLNK ||| 0o777, size := 8, target := str "/srv/a/b" },
        { path := str "/srv/up", mode := S_IFLNK ||| 0o777, size := 13,
          target := str "/srv/../srv/a" } ] },
    log := [] }

/-! ## Reference behaviour of `Create` -/

/-- The `create` of the specification: `open` with `O_CREAT` forced set in
the mode, the other fields of the attributes as they are. -/
def CreateSpec {σ : Type} (k : Kernel σ) (n : FileNode) (rel : GoString) (attr : Option Attr)
    (w : World σ) : Res Stat_t × World σ :=
  n.Open k rel (attr.map fun a => { a with Mode := a.Mode.map fun m => m ||| O_CREAT }) w

/-! ## Inode ids of the kernel bridge (`internal/fuse/fs/node.go`) -/

/-- Go `WebRoot`: the fields that `idFromStat` reads. -/
structure WebRoot where
  /-- The path to the root of the underlying file system. -/
  Path : GoString := []
  /-- The device of the root, `uint64`. -/
  Dev : Nat := 0
  deriving DecidableEq, Repr

/-- The go-fuse `fs.StableAttr`. -/
structure StableAttr where
  /-- File type bits, `uint32`. -/
  Mode : Nat
  /-- Generation, `uint64`. -/
  Gen : Nat
  /-- Inode id, `uint64`. -/
  Ino : Nat
  deriving DecidableEq, Repr

/-- Go `(*WebRoot).idFromStat`. The shifts are `uint64` arithmetic: the left
shift drops the bits above bit 63. -/
def idFromStat (r : WebRoot) (st : Stat_t) : StableAttr :=
  let swapped := ((st.Dev <<< 32) % 2 ^ 64) ||| (st.Dev >>> 32)
  let swappedRootDev := ((r.Dev <<< 32) % 2 ^ 64) ||| (r.Dev >>> 32)
  { Mode := st.Mode % 2 ^ 32, Gen := 1, Ino := (swapped ^^^ swappedRootDev) ^^^ st.Ino }

/-- The exchange of the two 32-bit halves of a 64-bit value, as the
specification writes it: `(x << 32) | (x >> 32)` on 64 bits. -/
def swap32 (x : Nat) : Nat := ((x <<< 32) ||| (x >>> 32)) % 2 ^ 64

/-! ## The other operations of the server node (`api/fs/node.go`) -/

/-- Go `syscall.Statfs_t` on linux/amd64. -/
structure Statfs_t where
  /-- File system type, `int64`. -/
  Type_ : Int := 0
  /-- Block size, `int64`. -/
  Bsize : Int := 0
  /-- Blocks, `uint64`. -/
  Blocks : Nat := 0
  /-- Free blocks, `uint64`. -/
  Bfree : Nat := 0
  /-- Blocks available to unprivileged users, `uint64`. -/
  Bavail : Nat := 0
  /-- Inodes, `uint64`. -/
  Files : Nat := 0
  /-- Free inodes, `uint64`. -/
  Ffree : Nat := 0
  /-- File system id, two `int32`. -/
  Fsid : Int × Int := (0, 0)
  /-- Maximum length of a name, `int64`. -/
  Namelen : Int := 0
  /-- Fragment size, `int64`. -/
  Frsize : Int := 0
  /-- Mount flags, `int64`. -/
  Flags : Int := 0
  /-- Four spare `int64`. -/
  Spare : List Int := [0, 0, 0, 0]
  deriving DecidableEq, Repr

/-- A Go `time.Time` as `MarshalJSON` checks it: the year in the location of
the time, and the offset of its zone in seconds east of UTC. -/
structure WallTime where
  /-- The year. -/
  Year : Int := 1
  /-- The zone offset in seconds. -/
  ZoneOffset : Int := 0
  deriving DecidableEq, Repr

/-- Go `api.FileInfo`. -/
structure FileInfo where
  /-- Base name. -/
  Name : GoString := []
  /-- Size, `int64`. -/
  Size : Int := 0
  /-- Mode, `uint32`. -/
  Mode : Nat := 0
  /-- Modification time. -/
  ModTime : WallTime := {}
  /-- Whether it is a directory. -/
  IsDir : Bool := false
  deriving DecidableEq, Repr

/-- Go `api.DirEntry`. -/
structure DirEntry where
  /-- Base name. -/
  Name : GoString := []
  /-- Whether it is a directory. -/
  IsDir : Bool := false
  /-- Type bits, `uint32`. -/
  Type_ : Nat := 0
  /-- What `Info()` gave, the zero value when it failed. -/
  Info : FileInfo := {}
  deriving DecidableEq, Repr

/-- The part of the operating system behind `Statfs` and `Readdir`. These
calls are not entered in the log of a `World`. -/
structure KernelDir (σ : Type) where
  /-- `statfs`. -/
  statfs : GoString → σ → Except Nat Statfs_t × σ
  /-- Go `os.ReadDir` with `api.ToDirEntry` applied to its entries: the
  entries read, and the errno of the failure if there was one. -/
  readDir : GoString → σ → (List DirEntry × Option Nat) × σ

/-- Go `(*FileNode).Statfs`. -/
def FileNode.Statfs {σ : Type} (kd : KernelDir σ) (n : FileNode) (rel : GoString) (w : World σ) :
    Res Statfs_t × World σ :=
  match kd.statfs (n.abs rel) w.st with
  | (.error e, s1) => (.err (.errno e), { w with st := s1 })
  | (.ok st, s1) => (.ok st, { w with st := s1 })

/-- Go `(*FileNode).Rmdir`. -/
def FileNode.Rmdir {σ : Type} (k : Kernel σ) (n : FileNode) (rel : GoString) (w : World σ) :
    Res Unit × World σ :=
  match w.call (.rmdir (n.abs rel)) (k.rmdir (n.abs rel)) with
  | (.error e, w1) => (.err (.errno e), w1)
  | (.ok _, w1) => (.ok (), w1)

/-- Go `(*FileNode).Unlink`. -/
def FileNode.Unlink {σ : Type} (k : Kernel σ) (n : FileNode) (rel : GoString) (w : World σ) :
    Res Unit × World σ :=
  match w.call (.unlink (n.abs rel)) (k.unlink (n.abs rel)) with
  | (.error e, w1) => (.err (.errno e), w1)
  | (.ok _, w1) => (.ok (), w1)

/-- Go `(*FileNode).Rename`. -/
def FileNode.Rename {σ : Type} (k : Kernel σ) (n : FileNode) (rel1 rel2 : GoString)
    (w : World σ) : Res Unit × World σ :=
  match w.call (.rename (n.abs rel1) (n.abs rel2)) (k.rename (n.abs rel1) (n.abs rel2)) with
  | (.error e, w1) => (.err (.errno e), w1)
  | (.ok _, w1) => (.ok (), w1)

/-- Go `(*FileNode).Symlink`: `rel` is the target, `dir` the place of the new
link. -/
def FileNode.Symlink {σ : Type} (k : Kernel σ) (n : FileNode) (rel dir : GoString)
    (w : World σ) : Res Stat_t × World σ :=
  let path := n.abs rel
  let link := n.abs dir
  match w.call (.symlink path link) (k.symlink path link) with
  | (.error e, w1) => (.err (.errno e), w1)
  | (.ok _, w1) =>
    match w1.call (.lstat link) (k.lstat link) with
    | (.error e, w2) => (.err (.errno e), (w2.call (.unlink link) (k.unlink link)).2)
    | (.ok st, w2) => (.ok st, w2)

/-- Go `(*FileNode).Link`. -/
def FileNode.Link {σ : Type} (k : Kernel σ) (n : FileNode) (rel dir : GoString)
    (w : World σ) : Res Stat_t × World σ :=
  let path := n.abs rel
  let link := n.abs dir
  match w.call (.link path link) (k.link path link) with
  | (.error e, w1) => (.err (.errno e), w1)
  | (.ok _, w1) =>
    match w1.call (.lstat link) (k.lstat link) with
    | (.error e, w2) => (.err (.errno e), (w2.call (.unlink link) (k.unlink link)).2)
    | (.ok st, w2) => (.ok st, w2)

/-- Go `(*FileNode).Opendir`. -/
def FileNode.Opendir {σ : Type} (k : Kernel σ) (n : FileNode) (rel : GoString) (w : World σ) :
    Res Unit × World σ :=
  match w.call (.openat (n.abs rel) O_DIRECTORY 0o755) (k.openat (n.abs rel) O_DIRECTORY 0o755) with
  | (.error e, w1) => (.err (.errno e), w1)
  | (.ok fd, w1) => (.ok (), (w1.call (.close fd) (k.close fd)).2)

/-- Go `(*FileNode).Readdir`: the entries and the error of `os.ReadDir`, an
errno in a `*PathError`; both can be present. -/
def FileNode.Readdir {σ : Type} (kd : KernelDir σ) (n : FileNode) (rel : GoString)
    (w : World σ) : (List DirEntry × Option GoError) × World σ :=
  match kd.readDir (n.abs rel) w.st with
  | ((es, err), s1) => ((es, err.map fun e => .pathError (.errno e)), { w with st := s1 })

/-- A second world for the examples: the root directory `/srv` with a symbolic
link `/srv/out` to `/etc/passwd`, outside the root, and a symbolic link
`/srv/near` to the relative target `a/b`; no call made yet. -/
def linksWorld : World MemFS :=
  { st := { files :=
      [ { path := str "/srv", mode := S_IFDIR ||| 0o755 },
        { path := str "/srv/out", mode := S_IFLNK ||| 0o777, size := 11,
          target := str "/etc/passwd" },
        { path := str "/srv/near", mode := S_IFLNK ||| 0o777, size := 3, target := str "a/b" } ] },
    log := [] }

/-! ## The call handler (`api/handler/fs.go`, `api/handler/util.go`) -/

/-- Go `api.CallArgs`. -/
structure CallArgs where
  /-- The path, or the target of a symlink, or the source of a rename. -/
  Path : GoString := []
  /-- The place of a new link. -/
  Link : GoString := []
  /-- The destination of a rename. -/
  To : GoString := []
  /-- The attributes, a pointer. -/
  Attr : Option Attr := none
  deriving DecidableEq, Repr

/-- Go `handler.StatfsOut`. -/
structure StatfsOut where
  /-- Blocks, `uint64`. -/
  Blocks : Nat := 0
  /-- Free blocks, `uint64`. -/
  Bfree : Nat := 0
  /-- Available blocks, `uint64`. -/
  Bavail : Nat := 0
  /-- Inodes, `uint64`. -/
  Files : Nat := 0
  /-- Free inodes, `uint64`. -/
  Ffree : Nat := 0
  /-- Block size, `uint32`. -/
  Bsize : Nat := 0
  /-- Maximum length of a name, `uint32`. -/
  NameLen : Nat := 0
  /-- Fragment size, `uint32`. -/
  Frsize : Nat := 0
  /-- Padding, `uint32`. -/
  Padding : Nat := 0
  /-- Six spare `uint32`. -/
  Spare : List Nat := [0, 0, 0, 0, 0, 0]
  deriving DecidableEq, Repr

/-- A JSON number that `json.Unmarshal` stores into a `uint32`. -/
def fitsUint32 (x : Int) : Bool := decide (0 ≤ x ∧ x < 2 ^ 32)

/-- Go `ToStatfsOut`: the `Statfs_t` is written as JSON and read back into a
`StatfsOut`. The fields are matched by name, without regard to case, so
`Namelen` fills `NameLen`; `Type`, `Fsid` and `Flags` have no counterpart and
`Padding` stays zero; the first four elements of `Spare` are filled. A nil
pointer is written as `null`, which leaves the zero value. An `int64` that
does not fit a `uint32` is an `UnmarshalTypeError`. -/
def ToStatfsOut (v : Option Statfs_t) : Except GoError StatfsOut :=
  match v with
  | none => .ok {}
  | some s =>
    if fitsUint32 s.Bsize ∧ fitsUint32 s.Namelen ∧ fitsUint32 s.Frsize
        ∧ (s.Spare.take 6).all fitsUint32 then
      .ok { Blocks := s.Blocks, Bfree := s.Bfree, Bavail := s.Bavail, Files := s.Files,
            Ffree := s.Ffree, Bsize := s.Bsize.toNat, NameLen := s.Namelen.toNat,
            Frsize := s.Frsize.toNat, Padding := 0,
            Spare := ((s.Spare.take 6).map Int.toNat ++ List.replicate 6 0).take 6 }
    else .error (.other "json: cannot unmarshal number into Go struct field of type uint32")

/-- The value of the `data` field of a reply, a Go `interface{}`, by its
dynamic type. -/
inductive Data where
  /-- A `*syscall.Stat_t`; `none` is the nil pointer. -/
  | stat (st : Option Stat_t)
  /-- A `*StatfsOut`. -/
  | statfs (st : StatfsOut)
  /-- A `string`. -/
  | text (s : GoString)
  /-- A `*api.BlobInfo`; `none` is the nil pointer. -/
  | blob (bi : Option BlobInfo)
  /-- A `[]api.DirEntry`. -/
  | entries (es : List DirEntry)
  deriving DecidableEq, Repr

/-- Go `api.CallResult`, the envelope of a reply. -/
structure CallResult where
  /-- The errno, 0 for success. -/
  Status : Nat
  /-- The text of the error, empty for none. -/
  Error : GoString
  /-- The data. -/
  Data : Data
  deriving DecidableEq, Repr

/-- The error of Go `time.Time.MarshalJSON`: the year must have four digits
and the hour of the zone offset must be below 24. -/
def WallTime.marshalError (t : WallTime) : Option GoError :=
  if t.Year < 0 ∨ 9999 < t.Year then
    some (.other "Time.MarshalJSON: year outside of range [0,9999]")
  else if t.ZoneOffset ≠ 0 ∧ 24 ≤ t.ZoneOffset.natAbs / 60 / 60 then
    some (.other "Time.MarshalJSON: timezone hour outside of range [0,23]")
  else none

/-- The error of `json.Marshal` on an envelope. Numbers, strings and structs
of them are always written; the modification time of a directory entry is
written by `time.Time.MarshalJSON`, which can fail. -/
def CallResult.marshalError (v : CallResult) : Option GoError :=
  match v.Data with
  | .entries es => es.findSome? fun e => e.Info.ModTime.marshalError
  | _ => none

/-- What a handler reads of an HTTP request. -/
structure Request where
  /-- The method. -/
  Method : GoString
  /-- The path of the URL. -/
  Path : GoString
  /-- The body. -/
  Body : GoString := []
  deriving DecidableEq, Repr

/-- The body of an HTTP response. -/
inductive Body where
  /-- The JSON text that `json.Marshal` writes for the envelope. -/
  | json (v : CallResult)
  /-- A plain text. -/
  | text (s : GoString)
  deriving DecidableEq, Repr

/-- What a handler does with its response writer: it writes a status code and
a body, or it panics before writing. -/
inductive Reply where
  /-- `WriteHeader(code)` and `Write(body)`. -/
  | response (code : Nat) (body : Body)
  /-- A panic. -/
  | panic
  deriving DecidableEq, Repr

/-- The library functions that the handler calls and that are parameters here. -/
structure Lib where
  /-- The method `Error()` of an error value. -/
  errorText : GoError → GoString
  /-- Go `json.NewDecoder(body).Decode(&args)` for a `CallArgs`. -/
  decodeArgs : GoString → Except GoError CallArgs
  /-- The verb `%q` of `fmt` on a string. -/
  quote : GoString → GoString

/-- Go `FileHandler`. -/
structure FileHandler where
  /-- The path under which the handler is mounted, Go `prefix`. -/
  Prefix : GoString
  /-- The server node. -/
  node : FileNode

/-- Go `errPrefixMismatch`. -/
def errPrefixMismatch : GoError := .other "prefix mismatch"

/-- Go `(*FileHandler).stripPrefix`. -/
def FileHandler.stripPrefix (h : FileHandler) (p : GoString) : Except GoError GoString :=
  if h.Prefix = [] then .ok p
  else if (trimPrefix p h.Prefix).length < p.length then .ok (trimPrefix p h.Prefix)
  else .error errPrefixMismatch

/-- Go `internalServerError`. -/
def internalServerError (lib : Lib) (err : GoError) : Reply :=
  .response 500 (.text (str "internal server error: " ++ lib.errorText err ++ [10]))

/-- Go `notSupported`. -/
def notSupported (lib : Lib) (r : Request) (v : GoString) : Reply :=
  .response 404 (.text (str "not supported: " ++ lib.quote r.Method ++ [32] ++ v ++ [10]))

/-- Go `jsonResponse` on an envelope. -/
def jsonResponse (lib : Lib) (v : CallResult) : Reply :=
  match v.marshalError with
  | some err => internalServerError lib err
  | none => .response 200 (.json v)

/-- What the `switch` of `handle` leaves behind: the values of `data` and
`sterr`, or an early return with the reply already written, or a panic of the
node method. -/
inductive Dispatched where
  /-- The switch is left with `data` and `sterr` set. -/
  | outcome (data : Data) (sterr : Option GoError)
  /-- The handler has replied and returned. -/
  | early (reply : Reply)
  /-- The node method panicked. -/
  | panic
  deriving DecidableEq, Repr

/-- The `data` and `sterr` of a node method that returns a `*Stat_t`. -/
def Dispatched.ofStat : Res Stat_t → Dispatched
  | .ok st => .outcome (.stat (some st)) none
  | .err e => .outcome (.stat none) (some e)
  | .panic => .panic

/-- The `data` and `sterr` of a node method that returns only an error: the
data is the empty string. -/
def Dispatched.ofUnit : Res Unit → Dispatched
  | .ok _ => .outcome (.text []) none
  | .err e => .outcome (.text []) (some e)
  | .panic => .panic

/-- The `data` and `sterr` of a node method that returns a string. -/
def Dispatched.ofText : Res GoString → Dispatched
  | .ok s => .outcome (.text s) none
  | .err e => .outcome (.text []) (some e)
  | .panic => .panic

/-- The `data` and `sterr` of a node method that returns a `*BlobInfo`. -/
def Dispatched.ofBlob : Res BlobInfo → Dispatched
  | .ok bi => .outcome (.blob (some bi)) none
  | .err e => .outcome (.blob none) (some e)
  | .panic => .panic

/-- The `switch call` of `handle`, in the order of the source. -/
def FileHandler.dispatch {σ : Type} (lib : Lib) (k : Kernel σ) (kd : KernelDir σ)
    (h : FileHandler) (r : Request) (call : GoString) (args : CallArgs) (w : World σ) :
    Dispatched × World σ :=
  if call = str "statfs" then
    match h.node.Statfs kd args.Path w with
    | (.panic, w1) => (.panic, w1)
    | (.err e, w1) =>
      match ToStatfsOut none with
      | .error err => (.early (internalServerError lib err), w1)
      | .ok out => (.outcome (.statfs out) (some e), w1)
    | (.ok v, w1) =>
      match ToStatfsOut (some v) with
      | .error err => (.early (internalServerError lib err), w1)
      | .ok out => (.outcome (.statfs out) none, w1)
  else if call = str "lstat" then
    ((Dispatched.ofStat (h.node.Lstat k args.Path w).1), (h.node.Lstat k args.Path w).2)
  else if call = str "stat" then
    ((Dispatched.ofStat (h.node.Stat k args.Path w).1), (h.node.Stat k args.Path w).2)
  else if call = str "mknod" then
    ((Dispatched.ofStat (h.node.Mknod k args.Path args.Attr w).1),
      (h.node.Mknod k args.Path args.Attr w).2)
  else if call = str "mkdir" then
    ((Dispatched.ofStat (h.node.Mkdir k args.Path args.Attr w).1),
      (h.node.Mkdir k args.Path args.Attr w).2)
  else if call = str "rmdir" then
    ((Dispatched.ofUnit (h.node.Rmdir k args.Path w).1), (h.node.Rmdir k args.Path w).2)
  else if call = str "unlink" then
    ((Dispatched.ofUnit (h.node.Unlink k args.Path w).1), (h.node.Unlink k args.Path w).2)
  else if call = str "rename" then
    ((Dispatched.ofUnit (h.node.Rename k args.Path args.To w).1),
      (h.node.Rename k args.Path args.To w).2)
  else if call = str "symlink" then
    ((Dispatched.ofStat (h.node.Symlink k args.Path args.Link w).1),
      (h.node.Symlink k args.Path args.Link w).2)
  else if call = str "link" then
    ((Dispatched.ofStat (h.node.Link k args.Path args.Link w).1),
      (h.node.Link k args.Path args.Link w).2)
  else if call = str "readlink" then
    ((Dispatched.ofText (h.node.Readlink k args.Path w).1), (h.node.Readlink k args.Path w).2)
  else if call = str "open" then
    ((Dispatched.ofStat (h.node.Open k args.Path args.Attr w).1),
      (h.node.Open k args.Path args.Attr w).2)
  else if call = str "create" then
    ((Dispatched.ofStat (h.node.Create k args.Path args.Attr w).1),
      (h.node.Create k args.Path args.Attr w).2)
  else if call = str "opendir" then
    ((Dispatched.ofUnit (h.node.Opendir k args.Path w).1), (h.node.Opendir k args.Path w).2)
  else if call = str "readdir" then
    (.outcome (.entries (h.node.Readdir kd args.Path w).1.1) (h.node.Readdir kd args.Path w).1.2,
      (h.node.Readdir kd args.Path w).2)
  else if call = str "chmod" then
    ((Dispatched.ofUnit (h.node.Chmod k args.Path args.Attr w).1),
      (h.node.Chmod k args.Path args.Attr w).2)
  else if call = str "chown" then
    ((Dispatched.ofUnit (h.node.Chown k args.Path args.Attr w).1),
      (h.node.Chown k args.Path args.Attr w).2)
  else if call = str "truncate" then
    ((Dispatched.ofUnit (h.node.Truncate k args.Path args.Attr w).1),
      (h.node.Truncate k args.Path args.Attr w).2)
  else if call = str "setattr" then
    ((Dispatched.ofStat (h.node.Setattr k args.Path args.Attr w).1),
      (h.node.Setattr k args.Path args.Attr w).2)
  else if call = str "read" then
    ((Dispatched.ofBlob (h.node.Read k args.Path args.Attr w).1),
      (h.node.Read k args.Path args.Attr w).2)
  else if call = str "write" then
    ((Dispatched.ofBlob (h.node.Write k args.Path args.Attr w).1),
      (h.node.Write k args.Path args.Attr w).2)
  else (.early (notSupported lib r r.Path), w)

/-- The closure `toMsg` of `handle`. -/
def toMsg (lib : Lib) (e : Option GoError) : GoString :=
  match e with
  | none => []
  | some err => lib.errorText err

/-- The end of `handle`: the envelope is built and written. `ToErrno` can
panic. -/
def respond (lib : Lib) (data : Data) (sterr : Option GoError) : Reply :=
  match ToErrno sterr with
  | none => .panic
  | some e => jsonResponse lib { Status := e, Error := toMsg lib sterr, Data := data }

/-- Go `(*FileHandler).handle`. -/
def FileHandler.handle {σ : Type} (lib : Lib) (k : Kernel σ) (kd : KernelDir σ)
    (h : FileHandler) (r : Request) (w : World σ) : Reply × World σ :=
  match h.stripPrefix r.Path with
  | .error err => (internalServerError lib err, w)
  | .ok call =>
    match lib.decodeArgs r.Body with
    | .error err => (internalServerError lib err, w)
    | .ok args =>
      match h.dispatch lib k kd r call args w with
      | (.early reply, w1) => (reply, w1)
      | (.panic, w1) => (.panic, w1)
      | (.outcome data sterr, w1) => (respond lib data sterr, w1)

/-- Go `(*FileHandler).handleOptions`. The headers it sets are not modelled:
the reply is the implicit status 200 with an empty body. -/
def FileHandler.handleOptions (lib : Lib) (h : FileHandler) (r : Request) : Reply :=
  match h.stripPrefix r.Path with
  | .error err => internalServerError lib err
  | .ok _ => .response 200 (.text [])

/-- Go `(*FileHandler).ServeHTTP`. -/
def FileHandler.ServeHTTP {σ : Type} (lib : Lib) (k : Kernel σ) (kd : KernelDir σ)
    (h : FileHandler) (r : Request) (w : World σ) : Reply × World σ :=
  if r.Method = str "OPTIONS" then (h.handleOptions lib r, w)
  else if r.Method = str "GET" ∨ r.Method = str "HEAD" then h.handle lib k kd r w
  else if r.Method = str "POST" then h.handle lib k kd r w
  else if r.Method = str "DELETE" then h.handle lib k kd r w
  else if r.Method = str "PUT" ∨ r.Method = str "PATCH" then h.handle lib k kd r w
  else (notSupported lib r r.Path, w)

/-- The known operations, as the specification lists them. -/
def knownOps : List GoString :=
  [str "statfs", str "stat", str "lstat", str "mknod", str "mkdir", str "rmdir", str "unlink",
    str "rename", str "symlink", str "link", str "readlink", str "open", str "create",
    str "opendir", str "readdir", str "chmod", str "chown", str "truncate", str "setattr",
    str "read", str "write"]

/-! ## The client (`api/cli/rest.go`) -/

/-- Go `api.CallResultRaw`: the envelope with its data left as JSON text. -/
structure CallResultRaw where
  /-- The errno, a `uintptr`. -/
  Status : Nat := 0
  /-- The text of the error. -/
  Error : GoString := []
  /-- The data, a `json.RawMessage`: the text of the JSON value. -/
  Data : GoString := []
  deriving DecidableEq, Repr

/-- What the client reads of an HTTP response. -/
structure HTTPResponse where
  /-- The status code, an `int`. -/
  StatusCode : Int
  /-- The status line, such as `404 Not Found`. -/
  Status : String
  /-- What `ioutil.ReadAll(resp.Body)` returns. -/
  Body : Except GoError GoString

/-- Go `statusIsValid`; the division of `int` truncates. -/
def statusIsValid (resp : HTTPResponse) : Bool := decide (resp.StatusCode.tdiv 100 = 2)

/-- The members of a JSON object up to and including the closing brace, each
with its key, its value and the text of its value without the white space
around it. -/
def parseMembersRaw : Nat → GoString → Option (List (GoString × JVal × GoString) × GoString)
  | 0, _ => none
  | fuel + 1, s =>
    match skipWs s with
    | [] => none
    | q :: rest =>
      if q ≠ 34 then none
      else
        match parseStringBody (rest.length + 1) rest with
        | none => none
        | some (key, r1) =>
          match skipWs r1 with
          | [] => none
          | colon :: r2 =>
            if colon ≠ 58 then none
            else
              match parseValue (r2.length + 1) r2 with
              | none => none
              | some (v, r3) =>
                let raw := (skipWs r2).take ((skipWs r2).length - r3.length)
                match skipWs r3 with
                | [] => none
                | d :: r4 =>
                  if d = 44 then
                    (parseMembersRaw fuel r4).map (fun x => ((key, v, raw) :: x.1, x.2))
                  else if d = 125 then some ([(key, v, raw)], r4)
                  else none

/-- The case folding that matches an object key with a field name made of
ASCII letters: upper case becomes lower case, the long s (U+017F) becomes `s`
and the Kelvin sign (U+212A) becomes `k`. The first argument counts the bytes
still to skip of a character that has been folded. -/
def foldKeyFrom : Nat → GoString → GoString
  | _, [] => []
  | skip + 1, _ :: rest => foldKeyFrom skip rest
  | 0, c :: rest =>
    if [0xC5, 0xBF].isPrefixOf (c :: rest) then 115 :: foldKeyFrom 1 rest
    else if [0xE2, 0x84, 0xAA].isPrefixOf (c :: rest) then 107 :: foldKeyFrom 2 rest
    else (if 65 ≤ c ∧ c ≤ 90 then c + 32 else c) :: foldKeyFrom 0 rest

/-- The folded form of an object key. -/
def foldKey (key : GoString) : GoString := foldKeyFrom 0 key

/-- Go `strconv.ParseUint(s, 10, 64)` on a JSON number literal. -/
def parseUint64 (lit : GoString) : Option Nat :=
  (parseDec lit).bind (fun n => if n < 2 ^ 64 then some n else none)

/-- One member of the object is stored into the envelope: `status` takes an
unsigned integer, `error` a string, `data` the text of any value, `null`
included; `null` leaves `status` and `error` as they are; a value of the wrong
kind is an `UnmarshalTypeError` (`none`); an unknown key is skipped. -/
def storeEnvMember (cr : CallResultRaw) (key : GoString) (val : JVal) (raw : GoString) :
    Option CallResultRaw :=
  if foldKey key = str "status" then
    match val with
    | .null => some cr
    | .num lit => (parseUint64 lit).map (fun n => { cr with Status := n })
    | _ => none
  else if foldKey key = str "error" then
    match val with
    | .null => some cr
    | .str s => some { cr with Error := s }
    | _ => none
  else if foldKey key = str "data" then some { cr with Data := raw }
  else some cr

/-- The members are stored in order, a later member overwrites an earlier
one; one member that cannot be stored makes the whole an error. -/
def storeEnvelope : List (GoString × JVal × GoString) → CallResultRaw → Option CallResultRaw
  | [], cr => some cr
  | (key, val, raw) :: rest, cr =>
    match storeEnvMember cr key val raw with
    | some cr1 => storeEnvelope rest cr1
    | none => none

/-- Go `json.Unmarshal(data, &cr)` into a zero `CallResultRaw`: the input must
be one JSON value; `null` leaves the envelope zero, an object fills it,
anything else is an `UnmarshalTypeError`. -/
def decodeEnvelope (data : GoString) : Except GoError CallResultRaw :=
  match jsonParse data with
  | none => .error (.other "json: syntax error")
  | some .null => .ok {}
  | some (.obj []) => .ok {}
  | some (.obj _) =>
    match parseMembersRaw (data.length + 1) ((skipWs data).drop 1) with
    | none => .error (.other "json: syntax error")
    | some (ms, _) =>
      match storeEnvelope ms {} with
      | some cr => .ok cr
      | none => .error (.other "json: cannot unmarshal")
  | some _ => .error (.other "json: cannot unmarshal")

/-- The second half of Go `(*Client).fs`, from the check of the status code
on. `result` is the pointer that the caller supplied, `none` for nil, and
`unmarshal` is `json.Unmarshal` into a value of its type: the error and the
value afterwards. -/
def Client.fsResponse {ρ : Type} (unmarshal : GoString → ρ → Option GoError × ρ)
    (resp : HTTPResponse) (result : Option ρ) : Option GoError × Option ρ :=
  if !statusIsValid resp then (some (.other resp.Status), result)
  else
    match resp.Body with
    | .error err => (some err, result)
    | .ok data =>
      match decodeEnvelope data with
      | .error err => (some err, result)
      | .ok cr =>
        if cr.Status ≠ 0 then (some (.errno cr.Status), result)
        else
          match result with
          | none => (none, none)
          | some r => ((unmarshal cr.Data r).1, some (unmarshal cr.Data r).2)

/-- Go `(*Client).fs`. `send` stands for the first half: the URL
`/fs/<call>` is resolved against the base, the arguments are written as JSON
and posted, and the response or the error of one of these steps comes back. -/
def Client.fs {ρ : Type} (send : GoString → CallArgs → Except GoError HTTPResponse)
    (unmarshal : GoString → ρ → Option GoError × ρ) (call : GoString) (args : CallArgs)
    (result : Option ρ) : Option GoError × Option ρ :=
  match send (str "/fs/" ++ toLower call) args with
  | .error err => (some err, result)
  | .ok resp => Client.fsResponse unmarshal resp result

/-- Go `json.Unmarshal` into a `*string`: a JSON string is stored, `null`
leaves the value as it is, any other value is an `UnmarshalTypeError`. -/
def unmarshalString (data : GoString) (old : GoString) : Option GoError × GoString :=
  match jsonParse data with
  | none => (some (.other "json: syntax error"), old)
  | some (.str s) => (none, s)
  | some .null => (none, old)
  | some _ => (some (.other "json: cannot unmarshal"), old)

/-! ## Fixtures for the examples of the handler and the client -/

/-- Linux `ENOTEMPTY`. -/
def ENOTEMPTY : Nat := 39

/-- The in-memory kernel with an `rmdir` that refuses a directory under which
there are files. -/
def strictKernel : Kernel MemFS :=
  { memKernel with
    rmdir := fun p fs =>
      if fs.files.any (fun f => (p ++ [slash]).isPrefixOf f.path) then (.error ENOTEMPTY, fs)
      else memKernel.rmdir p fs }

/-- A stand-in for the rest of the operating system: every `statfs` gives the
zero value, and every directory holds one file `far` whose modification time
is in the year 10000. -/
def farDir : KernelDir MemFS where
  statfs := fun _ fs => (.ok {}, fs)
  readDir := fun _ fs =>
    (([{ Name := str "far", Info := { Name := str "far", ModTime := { Year := 10000 } } }],
      none), fs)

/-- A stand-in for the library: the text of `ENOTEMPTY` is the one of Go,
another errno is written as its number, a wrapper has the text of what it
wraps; the arguments are a JSON object of which the string members `path`,
`link` and `to` are read; quoting puts the text between double quotes. -/
def exampleLib : Lib where
  errorText := fun e =>
    match toErrno e, e with
    | _, .other msg => str msg
    | some n, _ => if n = ENOTEMPTY then str "directory not empty" else str "errno " ++ formatNat n
    | none, _ => str "error"
  decodeArgs := fun body =>
    match jsonParse body with
    | some (.obj kvs) =>
      .ok (kvs.foldl (fun (a : CallArgs) kv =>
        match kv with
        | (key, .str s) =>
          if key = str "path" then { a with Path := s }
          else if key = str "link" then { a with Link := s }
          else if key = str "to" then { a with To := s }
          else a
        | _ => a) {})
    | _ => .error (.other "json: cannot unmarshal")
  quote := fun s => [34] ++ s ++ [34]

/-- The handler of the examples, mounted at `/fs/` on the node of the
examples. -/
def exampleHandler : FileHandler := { Prefix := str "/fs/", node := exampleNode }

/-! ## Attributes of a kernel request (`internal/fuse/fs/node.go`) -/

/-- The go-fuse `FATTR_MODE`: the mode of a setattr request is valid. -/
def FATTR_MODE : Nat := 1 <<< 0
/-- The go-fuse `FATTR_UID`. -/
def FATTR_UID : Nat := 1 <<< 1
/-- The go-fuse `FATTR_GID`. -/
def FATTR_GID : Nat := 1 <<< 2
/-- The go-fuse `FATTR_SIZE`. -/
def FATTR_SIZE : Nat := 1 <<< 3
/-- The go-fuse `FATTR_ATIME`. -/
def FATTR_ATIME : Nat := 1 <<< 4
/-- The go-fuse `FATTR_MTIME`. -/
def FATTR_MTIME : Nat := 1 <<< 5
/-- The go-fuse `FATTR_ATIME_NOW`. -/
def FATTR_ATIME_NOW : Nat := 1 <<< 7
/-- The go-fuse `FATTR_MTIME_NOW`. -/
def FATTR_MTIME_NOW : Nat := 1 <<< 8
/-- The go-fuse `FATTR_CTIME`. -/
def FATTR_CTIME : Nat := 1 <<< 10

/-- The go-fuse `fuse.SetAttrIn`, the setattr request of the kernel: the
fields that its getters read. -/
structure SetAttrIn where
  /-- The bits that say which fields are valid, `uint32`. -/
  Valid : Nat := 0
  /-- Size, `uint64`. -/
  Size : Nat := 0
  /-- Access time, seconds, `uint64`. -/
  Atime : Nat := 0
  /-- Modification time, seconds, `uint64`. -/
  Mtime : Nat := 0
  /-- Change time, seconds, `uint64`. -/
  Ctime : Nat := 0
  /-- Access time, nanoseconds, `uint32`. -/
  Atimensec : Nat := 0
  /-- Modification time, nanoseconds, `uint32`. -/
  Mtimensec : Nat := 0
  /-- Change time, nanoseconds, `uint32`. -/
  Ctimensec : Nat := 0
  /-- Mode, `uint32`. -/
  Mode : Nat := 0
  /-- User id, `uint32`. -/
  Uid : Nat := 0
  /-- Group id, `uint32`. -/
  Gid : Nat := 0
  deriving DecidableEq, Repr

/-- Go `time.Unix(int64(sec), int64(nsec))` for a `uint64` and a `uint32`, by
what `UnixNano` returns for it. -/
def timeUnix (sec nsec : Nat) : Time := ⟨wrapInt64 (wrapInt64 sec * 1000000000 + nsec)⟩

/-- The go-fuse `GetMode`; the pair `(v, ok)` of a getter is an option here,
`none` for `ok = false`. -/
def SetAttrIn.GetMode (s : SetAttrIn) : Option Nat :=
  if s.Valid &&& FATTR_MODE ≠ 0 then some (s.Mode &&& 0o7777) else none

/-- The go-fuse `GetUID`. -/
def SetAttrIn.GetUID (s : SetAttrIn) : Option Nat :=
  if s.Valid &&& FATTR_UID ≠ 0 then some s.Uid else none

/-- The go-fuse `GetGID`. -/
def SetAttrIn.GetGID (s : SetAttrIn) : Option Nat :=
  if s.Valid &&& FATTR_GID ≠ 0 then some s.Gid else none

/-- The go-fuse `GetSize`. -/
def SetAttrIn.GetSize (s : SetAttrIn) : Option Nat :=
  if s.Valid &&& FATTR_SIZE ≠ 0 then some s.Size else none

/-- The go-fuse `GetATime`; `now` is what `time.Now()` returns. -/
def SetAttrIn.GetATime (now : Time) (s : SetAttrIn) : Option Time :=
  if s.Valid &&& FATTR_ATIME ≠ 0 then
    some (if s.Valid &&& FATTR_ATIME_NOW ≠ 0 then now else timeUnix s.Atime s.Atimensec)
  else none

/-- The go-fuse `GetMTime`; `now` is what `time.Now()` returns. -/
def SetAttrIn.GetMTime (now : Time) (s : SetAttrIn) : Option Time :=
  if s.Valid &&& FATTR_MTIME ≠ 0 then
    some (if s.Valid &&& FATTR_MTIME_NOW ≠ 0 then now else timeUnix s.Mtime s.Mtimensec)
  else none

/-- The go-fuse `GetCTime`. -/
def SetAttrIn.GetCTime (s : SetAttrIn) : Option Time :=
  if s.Valid &&& FATTR_CTIME ≠ 0 then some (timeUnix s.Ctime s.Ctimensec) else none

/-- Go `ToAttr`. The conversion `int(v)` of a `uint32` keeps the value: `int`
is 64 bits wide. -/
def ToAttr (now : Time) (i : SetAttrIn) : Attr :=
  let owner : Owner := { Uid := -1, Gid := -1 }
  let owner : Owner :=
    match i.GetUID with
    | some v => { owner with Uid := (v : Int) }
    | none => owner
  let owner : Owner :=
    match i.GetGID with
    | some v => { owner with Gid := (v : Int) }
    | none => owner
  { Mode := i.GetMode
    Size := i.GetSize.map (fun v => wrapInt64 v)
    Atime := i.GetATime now
    Mtime := i.GetMTime now
    Ctime := i.GetCTime
    Owner := if owner.Uid ≠ -1 ∨ owner.Gid ≠ -1 then some owner else none }

/-! ## File handles of the kernel bridge (`internal/fuse/fs/file.go`) -/

/-- Linux `EBADF`. -/
def EBADF : Nat := 9

/-- Go `webFile`: the path that stands for the file descriptor. The mutex and
the pointer to the client, which no method assigns, are not modelled. -/
structure webFile where
  /-- The file path. -/
  fd : GoString
  deriving DecidableEq, Repr

/-- Go `newWebFile`. -/
def newWebFile (fd : GoString) : webFile := { fd := fd }

/-- Go `(*webFile).Release`: the errno returned, `fs.OK` being 0, and the
handle after the call. -/
def webFile.Release (f : webFile) : Nat × webFile :=
  if f.fd ≠ [] then (0, { f with fd := [] }) else (EBADF, f)

/-- The methods of `webFile`. -/
inductive FileMethod where
  /-- `Read`. -/
  | Read
  /-- `Write`. -/
  | Write
  /-- `Release`. -/
  | Release
  /-- `Flush`. -/
  | Flush
  /-- `Fsync`. -/
  | Fsync
  /-- `Getlk`. -/
  | Getlk
  /-- `Setlk`. -/
  | Setlk
  /-- `Setlkw`. -/
  | Setlkw
  /-- `Setattr`. -/
  | Setattr
  /-- `fchmod`. -/
  | fchmod
  /-- `fchown`. -/
  | fchown
  /-- `ftruncate`. -/
  | ftruncate
  /-- `Getattr`. -/
  | Getattr
  /-- `Lseek`. -/
  | Lseek
  /-- `Allocate`. -/
  | Allocate
  deriving DecidableEq, Repr

/-- The handle after a call of one of its methods: `Release` is the only
method that assigns to a field of the handle. -/
def webFile.after (f : webFile) : FileMethod → webFile
  | .Release => f.Release.2
  | _ => f

/-! ## The mount command (`cmd/mount.go`) -/

/-- The values of the flags of the mount command once the command line is
parsed; a flag that is not given has its default. -/
structure MountFlags where
  /-- The flag `--debug`. -/
  debug : Bool := false
  /-- The flag `--allow-other`. -/
  allowOther : Bool := false
  /-- The flag `--quiet`. -/
  quiet : Bool := false
  /-- The flag `--read-only`. -/
  readOnly : Bool := false
  /-- The flag `--direct-mount`. -/
  directMount : Bool := false
  /-- The flag `--direct-mount-strict`. -/
  directMountStrict : Bool := false
  /-- The flag `--cpu-profile`. -/
  cpuProfile : GoString := []
  /-- The flag `--mem-profile`. -/
  memProfile : GoString := []
  deriving DecidableEq, Repr

/-- Go `mountConfig`. -/
structure mountConfig where
  /-- Go `debug`. -/
  debug : Bool := false
  /-- Go `allowOther`. -/
  allowOther : Bool := false
  /-- Go `directMount`. -/
  directMount : Bool := false
  /-- Go `directMountStrict`. -/
  directMountStrict : Bool := false
  /-- Go `readOnly`. -/
  readOnly : Bool := false
  /-- Go `quiet`. -/
  quiet : Bool := false
  /-- Go `cpuProfile`. -/
  cpuProfile : GoString := []
  /-- Go `memProfile`. -/
  memProfile : GoString := []
  /-- Go `mountPoint`. -/
  mountPoint : GoString := []
  /-- Go `remote`. -/
  remote : GoString := []
  deriving DecidableEq, Repr

/-- The go-fuse `fuse.MountOptions`: the fields that `mount` sets. -/
structure MountOptions where
  /-- Go `AllowOther`. -/
  AllowOther : Bool := false
  /-- Go `Debug`. -/
  Debug : Bool := false
  /-- Go `DirectMount`. -/
  DirectMount : Bool := false
  /-- Go `DirectMountStrict`. -/
  DirectMountStrict : Bool := false
  /-- Go `FsName`. -/
  FsName : GoString := []
  /-- Go `Name`. -/
  Name : GoString := []
  /-- The `-o` options handed to the kernel bridge. -/
  Options : List GoString := []
  deriving DecidableEq, Repr

/-- The go-fuse `fs.Options`: the fields that `mount` sets. A timeout is a
pointer to a duration in nanoseconds. -/
structure Options where
  /-- Go `AttrTimeout`. -/
  AttrTimeout : Option Nat := none
  /-- Go `EntryTimeout`. -/
  EntryTimeout : Option Nat := none
  /-- Go `NullPermissions`. -/
  NullPermissions : Bool := false
  /-- Go `MountOptions`. -/
  MountOptions : MountOptions := {}
  /-- Whether a `Logger` is set. -/
  Logger : Bool := false
  deriving DecidableEq, Repr

/-- Go `time.Second`, in nanoseconds. -/
def Second : Nat := 1000000000

/-- The `Run` of `mountCmd`, up to the call of `mount`: the configuration it
builds from the flags, `none` for the exit with status 2 when there are not
two arguments. `GetBool` and `GetString` return the value of a flag of that
type; `GetString` on the boolean flag `direct-mount-strict` returns the empty
string and an error, which is dropped. -/
def mountCmd.Run (flags : MountFlags) (args : List GoString) : Option mountConfig :=
  match args with
  | [a0, a1] =>
    some { mountPoint := a0
           remote := a1
           debug := flags.debug
           allowOther := flags.allowOther
           quiet := flags.readOnly
           directMount := flags.directMount
           directMountStrict := flags.directMountStrict
           cpuProfile := flags.cpuProfile
           memProfile := [] }
  | _ => none

/-- The options that `mount` builds for `fs.Mount`. -/
def mountOptions (cfg : mountConfig) : Options :=
  let opts : Options :=
    { AttrTimeout := some Second
      EntryTimeout := some Second
      NullPermissions := true
      MountOptions :=
        { AllowOther := cfg.allowOther
          Debug := cfg.debug
          DirectMount := cfg.directMount
          DirectMountStrict := cfg.directMountStrict
          FsName := cfg.remote
          Name := str "nomad" } }
  let opts : Options :=
    if opts.MountOptions.AllowOther then
      { opts with MountOptions :=
          { opts.MountOptions with
            Options := opts.MountOptions.Options ++ [str "default_permissions"] } }
    else opts
  let opts : Options :=
    if cfg.readOnly then
      { opts with MountOptions :=
          { opts.MountOptions with Options := opts.MountOptions.Options ++ [str "ro"] } }
    else opts
  if !cfg.quiet then { opts with Logger := true } else opts

/-- What `mount` meets outside the program. -/
structure MountEnv where
  /-- Whether `os.Create` of the profile file fails. -/
  createFails : GoString → Bool
  /-- Whether `fs.NewWebRoot` of the remote fails. -/
  rootFails : GoString → Bool

/-- Go `mount`, up to the call of `fs.Mount`: the options handed to the kernel
bridge, `none` when `log.Fatal` ends the program before the call. -/
def mount (env : MountEnv) (cfg : mountConfig) : Option Options :=
  if cfg.cpuProfile ≠ [] ∧ env.createFails cfg.cpuProfile then none
  else if env.rootFails cfg.remote then none
  else some (mountOptions cfg)

/-- The mount command from the parsed command line to the call of `fs.Mount`. -/
def mountCommand (env : MountEnv) (flags : MountFlags) (args : List GoString) : Option Options :=
  match mountCmd.Run flags args with
  | none => none
  | some cfg => mount env cfg

/-! ## Arguments of a remote process (`internal/server/util.go`) -/

/-- The closure `resolve` of `resolveArgs`; `opt` is the option seen last. -/
def resolveArgs.resolve (root : GoString) (options : List GoString) (opt arg : GoString) :
    Except GoError GoString :=
  if (str "file:").isPrefixOf arg then
    match Parse arg with
    | .error err => .error err
    | .ok u => .ok (Join [root, u.Path])
  else if options.any (fun v => v = opt) then .ok (Join [root, arg])
  else .ok arg

/-- The loop of `resolveArgs` over what is left of `args`, with the values of
`opt` and `resolved` at the start of the iteration. -/
def resolveArgs.loop (root : GoString) (options : List GoString) :
    GoString → List GoString → List GoString → Except GoError (List GoString)
  | _, resolved, [] => .ok resolved
  | opt, resolved, v :: rest =>
    if (str "-").isPrefixOf v then resolveArgs.loop root options v (resolved ++ [v]) rest
    else
      match resolveArgs.resolve root options opt v with
      | .error err => .error err
      | .ok arg => resolveArgs.loop root options [] (resolved ++ [arg]) rest

/-- Go `resolveArgs`. -/
def resolveArgs (root : GoString) (options args : List GoString) :
    Except GoError (List GoString) :=
  resolveArgs.loop root options [] [] args

/-- The path of the URL that an argument parses as, empty if it does not
parse. -/
def urlPathOf (arg : GoString) : GoString :=
  match Parse arg with
  | .ok u => u.Path
  | .error _ => []

/-- What the specification makes of one argument, given the argument
immediately before it (`none` for the first one): unchanged if it starts with
`-`; the root joined with the path of the URL if it starts with `file:`; the
root joined with the argument if the argument before it starts with `-` and is
listed in the options; unchanged otherwise. -/
def resolvedSpec (root : GoString) (options : List GoString) (before : Option GoString)
    (arg : GoString) : GoString :=
  if (str "-").isPrefixOf arg then arg
  else if (str "file:").isPrefixOf arg then Join [root, urlPathOf arg]
  else
    match before with
    | some b => if (str "-").isPrefixOf b ∧ b ∈ options then Join [root, arg] else arg
    | none => arg

/-- The arguments of the specification: every argument with the one before
it, in the order of the input. -/
def resolveArgsSpec (root : GoString) (options : List GoString) :
    Option GoString → List GoString → List GoString
  | _, [] => []
  | before, v :: rest =>
    resolvedSpec root options before v :: resolveArgsSpec root options (some v) rest

/-! ## The blob handler (`api/handler/blob.go`) -/

/-- Linux `O_RDONLY`. -/
def O_RDONLY : Nat := 0

/-- Go `blobHandler`. -/
structure blobHandler where
  /-- The path under which the handler is mounted, Go `prefix`. -/
  Prefix : GoString
  /-- The exported root directory. -/
  root : GoString
  deriving DecidableEq, Repr

/-- Go `blobRe.MatchString`, for the expression `^\/blob\/(.+)$`: the text
`/blob/` and then at least one character up to the end of the path, none of
them a line feed. -/
def blobReMatch (p : GoString) : Bool :=
  (str "/blob/").isPrefixOf p && decide (6 < p.length) && !(p.drop 6).contains 10

/-- Go `(*blobHandler).resolvePath`. -/
def blobHandler.resolvePath (h : blobHandler) (name : GoString) : GoString := Join [h.root, name]

/-- Go `(*blobHandler).readBlobInfo`: the pair `(bi, err)` it returns, `none`
for a panic. `DecodeBlobHref` returns a nil pointer together with every
error. When the prefix does not parse, `base` is nil and `DecodeBlobHref`
panics on `base.Path` once it has parsed the path of the request. -/
def blobHandler.readBlobInfo (h : blobHandler) (r : Request) :
    Option (Option BlobInfo × Option GoError) :=
  match Parse h.Prefix with
  | .ok base =>
    match DecodeBlobHref base r.Path with
    | .ok bi => some (some bi, none)
    | .error err => some (none, some err)
  | .error _ =>
    match Parse r.Path with
    | .error err => some (none, some err)
    | .ok _ => none

/-- What a blob handler has done when it ends: the replies it wrote to the
response writer, first to last, and whether it ended in a panic. -/
structure Served where
  /-- The replies written. -/
  writes : List Reply := []
  /-- Whether the handler panicked. -/
  panicked : Bool := false
  deriving DecidableEq, Repr

/-- The transfers of the blob handler between a request, a response and an
open file, parameters here. -/
structure BlobFiles (σ : Type) where
  /-- The part of `Download` from `f.Read` on, for the open file `fd` at the
  host path: what is written to the response, and the state after it. -/
  send : Nat → GoString → BlobInfo → σ → Served × σ
  /-- The calls `ParseMultipartForm`, `FormFile` and `ReadAll` of `Upload`: the
  bytes of the uploaded file. -/
  formFile : Request → Except GoError (List Nat)
  /-- The calls `Seek` and `WriteAt` of `write` on the open file `fd`: the
  number of bytes written. -/
  writeAt : Nat → Int → List Nat → σ → Except GoError Nat × σ

/-- Go `notFound` on a string. -/
def notFound (v : GoString) : Reply :=
  .response 404 (.text (str "not found: " ++ v ++ [10]))

/-- Go `jsonResponse` on a `BlobResult`, which `json.Marshal` always writes. -/
def blobResult (n : Nat) : Reply :=
  .response 200 (.text ([123, 34, 78, 34, 58] ++ formatNat n ++ [125]))

/-- Go `(*blobHandler).Download`. After `internalServerError` there is no
`return`: the next statement reads `bi.Offset`, which panics on the nil
pointer. The deferred `Close` is a system call only for a file that was
opened. -/
def blobHandler.Download {σ : Type} (lib : Lib) (k : Kernel σ) (files : BlobFiles σ)
    (h : blobHandler) (r : Request) (w : World σ) : Served × World σ :=
  match h.readBlobInfo r with
  | none => ({ panicked := true }, w)
  | some (bi, err) =>
    let ws : List Reply :=
      match err with
      | some e => [internalServerError lib e]
      | none => []
    match bi with
    | none => ({ writes := ws, panicked := true }, w)
    | some bi =>
      let p := h.resolvePath bi.Path
      match w.call (.openat p (O_RDONLY ||| O_CLOEXEC) 0) (k.openat p (O_RDONLY ||| O_CLOEXEC) 0) with
      | (.error _, w1) => ({ writes := ws ++ [notFound p] }, w1)
      | (.ok fd, w1) =>
        let s := files.send fd p bi w1.st
        ({ s.1 with writes := ws ++ s.1.writes },
          (World.call { w1 with st := s.2 } (.close fd) (k.close fd)).2)

/-- Go `(*blobHandler).write`: the pair `(n, err)` it returns. -/
def blobHandler.write {σ : Type} (k : Kernel σ) (files : BlobFiles σ) (h : blobHandler)
    (bi : BlobInfo) (data : List Nat) (w : World σ) : (Nat × Option GoError) × World σ :=
  let p := h.resolvePath bi.Path
  match w.call (.openat p (O_RDWR ||| O_CLOEXEC) 0o644) (k.openat p (O_RDWR ||| O_CLOEXEC) 0o644) with
  | (.error e, w1) => ((0, some (.pathError (.errno e))), w1)
  | (.ok fd, w1) =>
    let x := files.writeAt fd bi.Offset data w1.st
    let w2 := (World.call { w1 with st := x.2 } (.close fd) (k.close fd)).2
    match x.1 with
    | .error err => ((0, some err), w2)
    | .ok n => ((n, none), w2)

/-- Go `(*blobHandler).Upload`. After the first `internalServerError` there
is no `return`: the next statement reads `bi.Offset`, which panics on the nil
pointer. There is none after a failed `write` either: the result is written
after the error. -/
def blobHandler.Upload {σ : Type} (lib : Lib) (k : Kernel σ) (files : BlobFiles σ)
    (h : blobHandler) (r : Request) (w : World σ) : Served × World σ :=
  match h.readBlobInfo r with
  | none => ({ panicked := true }, w)
  | some (bi, err) =>
    let ws : List Reply :=
      match err with
      | some e => [internalServerError lib e]
      | none => []
    match bi with
    | none => ({ writes := ws, panicked := true }, w)
    | some bi =>
      match files.formFile r with
      | .error e => ({ writes := ws ++ [internalServerError lib e] }, w)
      | .ok data =>
        match h.write k files bi data w with
        | ((n, werr), w1) =>
          let ws1 : List Reply :=
            match werr with
            | some e => ws ++ [internalServerError lib e]
            | none => ws
          ({ writes := ws1 ++ [blobResult n] }, w1)

/-- Go `(*blobHandler).ServeHTTP`. -/
def blobHandler.ServeHTTP {σ : Type} (lib : Lib) (k : Kernel σ) (files : BlobFiles σ)
    (h : blobHandler) (r : Request) (w : World σ) : Served × World σ :=
  if r.Method = str "GET" ∧ blobReMatch r.Path then h.Download lib k files r w
  else if r.Method = str "POST" ∧ blobReMatch r.Path then h.Upload lib k files r w
  else ({ writes := [notSupported lib r r.Path] }, w)

/-! ## Fixtures for the examples of the cleanup and of the blob handler -/

/-- Linux `EIO`. -/
def EIO : Nat := 5

/-- The in-memory kernel with an `lstat` that fails with `EIO`. -/
def blindKernel : Kernel MemFS :=
  { memKernel with lstat := fun _ fs => (.error EIO, fs) }

/-- The blob handler of the examples, mounted at `/blob/` on the root of the
node of the examples. -/
def exampleBlobHandler : blobHandler := { Prefix := str "/blob/", root := str "/srv" }

/-- A stand-in for the transfers: nothing is sent, no form is accepted and
nothing is written. -/
def noFiles : BlobFiles MemFS where
  send := fun _ _ _ fs => ({}, fs)
  formFile := fun _ => .error (.other "no multipart form")
  writeAt := fun _ _ _ fs => (.ok 0, fs)

/-! ## Auxiliary notions of the proofs -/

/-- An element that `Clean` keeps as it is. -/
def Normal (e : GoString) : Prop := e ≠ [] ∧ e ≠ [dot] ∧ e ≠ dotdot ∧ slash ∉ e

/-- What `Parse` does with a URL from the path on, once scheme and host are
known: fragment and query are cut off and path and fragment are decoded. -/
def parseRooted (scheme host tail : GoString) : Except GoError URL :=
  let u := (cut tail 35).1
  let frag := (cut tail 35).2
  if u.any (fun c => decide (c < 0x20 ∨ c = 0x7f)) then
    .error (.other "net/url: invalid control character in URL")
  else
    match unescape .path (cut u 63).1, unescape .fragment frag with
    | some path, some f =>
      .ok { Scheme := scheme, Host := host, Path := path, RawQuery := (cut u 63).2, Fragment := f }
    | _, _ => .error (.other "invalid URL escape")

/-- A character that may stand in the authority of a URL: none of `/`, `?`,
`#`, and no control character. -/
def authChar (c : Nat) : Bool :=
  decide (c ≠ slash ∧ c ≠ 63 ∧ c ≠ 35 ∧ ¬ c < 0x20 ∧ c ≠ 0x7f)

/-- A token begins with a separator, written out or percent-escaped. -/
def beginsWithSlash (t : GoString) : Bool :=
  [slash].isPrefixOf t || [37, 50, 70].isPrefixOf t || [37, 50, 102].isPrefixOf t

/-- A text of path elements none of which is empty: it begins with a byte
that is no separator, and every separator is followed by such a text. -/
def okTok : GoString → Bool
  | [] => false
  | [c] => decide (c ≠ slash)
  | c :: d :: rest => decide (c ≠ slash) && (if d = slash then okTok rest else okTok (d :: rest))

/-- A character that base64 writes: a letter or digit, `+`, `/` or `=`. -/
def b64OutChar (c : Nat) : Bool := isAlnum c || decide (c = 43 ∨ c = 47 ∨ c = 61)

/-- A text without one trailing separator. -/
def trimSlash (s : GoString) : GoString := if hasSuffix s [slash] then s.dropLast else s

/-- A Unicode scalar value: a code point that is no surrogate. -/
def ValidScalar (n : Nat) : Prop := n < 0xD800 ∨ (0xDFFF < n ∧ n < 0x110000)

/-- What `json.Marshal` writes for one scalar value of a well-formed string. -/
def jsonCharOut (n : Nat) : GoString :=
  if n < 0x80 then (if jsonSafe n then [n] else jsonEscapeByte n)
  else if n = 0x2028 ∨ n = 0x2029 then [92, 117, 50, 48, 50, hexDigit (n % 16)]
  else encodeRune n

/-- An error inside a stack of wrappers, outermost first: `true` is a
`*os.PathError`, `false` a `*os.LinkError`. -/
def wrapErr : List Bool → GoError → GoError
  | [], e => e
  | true :: ws, e => .pathError (wrapErr ws e)
  | false :: ws, e => .linkError (wrapErr ws e)

/-- What the switch leaves behind for an operation that is not `statfs`: a
panic of the node method, or a `data` and an `sterr` on which `ToErrno`
returns. -/
def Dispatched.Settled (d : Dispatched) : Prop :=
  d = .panic ∨ ∃ data sterr, d = .outcome data sterr ∧ ToErrno sterr ≠ none

/-- The operations whose data is the empty string, as the specification lists
them. -/
def unitOps : List GoString :=
  [str "rmdir", str "unlink", str "rename", str "opendir", str "chmod", str "chown",
    str "truncate"]

/-- What the switch leaves behind for the operation `op`, other than
`statfs`: it is settled, its data is a list of directory entries only for
`readdir`, and its data is the empty string for the operations of `unitOps`. -/
def Dispatched.Fits (op : GoString) (d : Dispatched) : Prop :=
  d.Settled
  ∧ (op ≠ str "readdir" → ∀ data sterr, d = .outcome data sterr → ∀ es, data ≠ .entries es)
  ∧ (op ∈ unitOps → ∀ data sterr, d = .outcome data sterr → data = .text [])

/-- A host path is the root or lies under it: it is the root, or it begins
with the root and a separator (with the root alone when the root is `/`). -/
def underRoot (root q : GoString) : Bool :=
  decide (q = root) || (if root = [slash] then root else root ++ [slash]).isPrefixOf q

/-- The elements of a path that `Clean` keeps when none of them is `..`:
those that are not empty and not `.`. -/
def keptElems (p : GoString) : List GoString :=
  (splitSlash p).filter (fun e => decide (e ≠ [] ∧ e ≠ [dot]))

end Nomad

/-! ## Theorems -/

namespace Nomad

/-! ### `IsRegular` -/

theorem and_S_IFREG (mode : Nat) : mode &&& S_IFREG = (mode.testBit 15).toNat * 2 ^ 15 := by
  have h : S_IFREG = 2 ^ 15 := by decide
  rw [h, Nat.and_two_pow]

/-- C7: `IsRegular(mode)` is true exactly when `(mode & S_IFREG) != 0`, that is
when bit 15 (`0x8000`) of the mode is set; the six modes of the test table
give true, true, true, false, true and false. -/
theorem IsRegular_iff (mode : Nat) :
    (IsRegular mode = true ↔ mode &&& S_IFREG ≠ 0)
    ∧ (IsRegular mode = true ↔ mode.testBit 15 = true)
    ∧ S_IFREG = 0x8000
    ∧ IsRegular 0x81a4 = true ∧ IsRegular 33188 = true ∧ IsRegular 32768 = true
    ∧ IsRegular 0xffff8fff = true ∧ IsRegular 0xffff0fff = false ∧ IsRegular 0x71a4 = false := by
  refine ⟨?_, ?_, rfl, by decide, by decide, by decide, by decide, by decide, by decide⟩
  · simp [IsRegular, Nat.pos_iff_ne_zero]
  · simp only [IsRegular, decide_eq_true_eq, and_S_IFREG]
    cases mode.testBit 15 <;> simp

/-! ### Timestamps -/

theorem NsecToTimespec_Nsec_range (nsec : Int) :
    0 ≤ (NsecToTimespec nsec).Nsec ∧ (NsecToTimespec nsec).Nsec < 1000000000 := by
  have h1 : nsec.tmod 1000000000 < 1000000000 := Int.tmod_lt_of_pos _ (by decide)
  have h2 : -1000000000 < nsec.tmod 1000000000 := by
    cases nsec with
    | ofNat n =>
      have h3 : 0 ≤ Int.tmod (Int.ofNat n) 1000000000 :=
        Int.tmod_nonneg 1000000000 (Int.ofNat_nonneg n)
      exact Int.lt_of_lt_of_le (by decide) h3
    | negSucc n =>
      have h3 : Int.tmod (Int.negSucc n) 1000000000 = -((n.succ % 1000000000 : Nat) : Int) := rfl
      rw [h3]
      omega
  unfold NsecToTimespec
  simp only
  split <;> simp only <;> omega

theorem UtimeToTimespec_some_Nsec_range (t : Time) :
    0 ≤ (UtimeToTimespec (some t)).Nsec ∧ (UtimeToTimespec (some t)).Nsec < 1000000000 := by
  have h := NsecToTimespec_Nsec_range t.UnixNano
  simp only [UtimeToTimespec]
  split_ifs
  · exact ⟨Int.le_refl 0, show (0 : Int) < 1000000000 by decide⟩
  · exact h

theorem UTIME_OMIT_val : _UTIME_OMIT = 1073741822 := by decide

theorem UtimeToTimespec_omit_iff (t : Option Time) :
    (UtimeToTimespec t).Nsec = _UTIME_OMIT ↔ t = none := by
  cases t with
  | none => simp [UtimeToTimespec]
  | some t =>
    have h := UtimeToTimespec_some_Nsec_range t
    rw [UTIME_OMIT_val]
    constructor
    · intro h1; omega
    · intro h1; cases h1

end Nomad
namespace Nomad

/-! ### Preconditions of the node operations -/

/-- C5: every node operation whose required attr field is absent (or whose
attr is nil) returns `EINVAL` and leaves the world as it was: the state of the
operating system is unchanged and no system call has been made. -/
theorem missing_field_is_EINVAL {σ : Type} (k : Kernel σ) (n : FileNode) (rel : GoString)
    (a : Attr) (w : World σ) :
    n.Mknod k rel none w = (.err (.errno EINVAL), w)
    ∧ n.Mknod k rel (some { a with Mode := none }) w = (.err (.errno EINVAL), w)
    ∧ n.Mkdir k rel none w = (.err (.errno EINVAL), w)
    ∧ n.Mkdir k rel (some { a with Mode := none }) w = (.err (.errno EINVAL), w)
    ∧ n.Open k rel none w = (.err (.errno EINVAL), w)
    ∧ n.Open k rel (some { a with Mode := none }) w = (.err (.errno EINVAL), w)
    ∧ n.Open k rel (some { a with Perm := none }) w = (.err (.errno EINVAL), w)
    ∧ n.Create k rel none w = (.err (.errno EINVAL), w)
    ∧ n.Create k rel (some { a with Mode := none }) w = (.err (.errno EINVAL), w)
    ∧ n.Create k rel (some { a with Perm := none }) w = (.err (.errno EINVAL), w)
    ∧ n.Chmod k rel none w = (.err (.errno EINVAL), w)
    ∧ n.Chmod k rel (some { a with Mode := none }) w = (.err (.errno EINVAL), w)
    ∧ n.Chown k rel none w = (.err (.errno EINVAL), w)
    ∧ n.Chown k rel (some { a with Owner := none }) w = (.err (.errno EINVAL), w)
    ∧ n.Truncate k rel none w = (.err (.errno EINVAL), w)
    ∧ n.Truncate k rel (some { a with Size := none }) w = (.err (.errno EINVAL), w)
    ∧ n.Read k rel none w = (.err (.errno EINVAL), w)
    ∧ n.Read k rel (some { a with Offset := none }) w = (.err (.errno EINVAL), w)
    ∧ n.Read k rel (some { a with Size := none }) w = (.err (.errno EINVAL), w)
    ∧ n.Write k rel none w = (.err (.errno EINVAL), w)
    ∧ n.Write k rel (some { a with Offset := none }) w = (.err (.errno EINVAL), w)
    ∧ n.Write k rel (some { a with Size := none }) w = (.err (.errno EINVAL), w)
    ∧ n.Setattr k rel none w = (.err (.errno EINVAL), w) := by
  refine ⟨rfl, rfl, rfl, rfl, rfl, rfl, ?_, rfl, rfl, ?_, rfl, rfl, rfl, rfl, rfl, rfl, rfl, rfl,
    ?_, rfl, rfl, ?_, rfl⟩
  · simp only [FileNode.Open]; cases a.Mode <;> rfl
  · simp only [FileNode.Create]; cases a.Mode <;> rfl
  · simp only [FileNode.Read]; cases a.Offset <;> rfl
  · simp only [FileNode.Write]; cases a.Offset <;> rfl

/-! ### `Read` -/

/-- C4, the claim fails in two places. Where `F - offset` leaves the range of
`int64`: for the file of 1000 bytes and the request with offset `-2^63` and
size 1, `Read` succeeds with a size that is not `min(1, 1000 - offset)`. And
at the end of the file for a negative size: the request with offset 1000 and
size `-5` gives the size `-5`, not 0. -/
theorem Read_size_overflow :
    (∃ bi, (exampleNode.Read memKernel (str "data")
        (some { Offset := some (-2 ^ 63), Size := some 1 }) exampleWorld).1 = .ok bi
      ∧ bi.Offset = -2 ^ 63 ∧ bi.Size = -9223372036854774808
      ∧ bi.Size ≠ min 1 (1000 - (-2 ^ 63)))
    ∧ (∃ bi, (exampleNode.Read memKernel (str "data")
        (some { Offset := some 1000, Size := some (-5) }) exampleWorld).1 = .ok bi
      ∧ bi.Offset = 1000 ∧ bi.Size = -5 ∧ bi.Size ≠ 0) :=
  ⟨⟨_, rfl, rfl, rfl, by decide⟩, ⟨_, rfl, rfl, rfl, by decide⟩⟩

theorem wrapInt64_of_range (x : Int) (h1 : -2 ^ 63 ≤ x) (h2 : x < 2 ^ 63) : wrapInt64 x = x := by
  unfold wrapInt64
  omega

/-- C4, amended: for a file of size `F` and a request with offset and size
present such that `F - offset` fits an `int64`, `Read` fails with `EINVAL`
when `offset > F`, and otherwise returns a blob whose offset is the requested
one and whose size is `min(size, F - offset)`; an offset exactly at the end of
the file gives the size `min(size, 0)`, which is 0 when the requested size is
not negative. -/
theorem Read_offset_and_size {σ : Type} (k : Kernel σ) (n : FileNode) (rel : GoString) (a : Attr)
    (offset size : Int) (st : Stat_t) (w : World σ)
    (hoff : a.Offset = some offset) (hsize : a.Size = some size)
    (hstat : (k.stat (n.abs rel) w.st).1 = .ok st)
    (hfit : st.Size - offset < 2 ^ 63) :
    (st.Size < offset → (n.Read k rel (some a) w).1 = .err (.errno EINVAL))
    ∧ (offset ≤ st.Size → ∃ bi, (n.Read k rel (some a) w).1 = .ok bi
        ∧ bi.Offset = offset ∧ bi.Size = min size (st.Size - offset))
    ∧ (offset = st.Size → ∃ bi, (n.Read k rel (some a) w).1 = .ok bi
        ∧ bi.Offset = offset ∧ bi.Size = min size 0 ∧ (0 ≤ size → bi.Size = 0)) := by
  have hmid : offset ≤ st.Size → ∃ bi, (n.Read k rel (some a) w).1 = .ok bi
      ∧ bi.Offset = offset ∧ bi.Size = min size (st.Size - offset) := by
    simp only [FileNode.Read, hoff, hsize, World.call, hstat]
    intro h
    have h1 : ¬ offset > st.Size := by omega
    simp only [h1, if_false, withHref, EncodeBlobHref]
    refine ⟨_, rfl, rfl, ?_⟩
    simp only
    rw [wrapInt64_of_range _ (by omega) hfit]
    rcases Int.le_total size (st.Size - offset) with h2 | h2
    · rw [min_eq_left h2]; simp; omega
    · rw [min_eq_right h2]
      by_cases h3 : size > st.Size - offset
      · simp [h3]
      · have : size = st.Size - offset := by omega
        simp [this]
  refine ⟨?_, hmid, ?_⟩
  · simp only [FileNode.Read, hoff, hsize, World.call, hstat]
    intro h
    simp [h]
  · intro h
    obtain ⟨bi, h1, h2, h3⟩ := hmid (by omega)
    have h4 : st.Size - offset = 0 := by omega
    rw [h4] at h3
    refine ⟨bi, h1, h2, h3, fun h0 => ?_⟩
    rw [h3]
    exact min_eq_right h0

/-- C4, on the file of 1000 bytes: read(900, 200) gives size 100, read(1001, 1)
gives `EINVAL`, read(0, 0) gives size 0, and read(1000, 5), at the end of the
file, gives size 0. -/
theorem Read_offset_and_size_witness :
    (∃ bi, (exampleNode.Read memKernel (str "data")
        (some { Offset := some 900, Size := some 200 }) exampleWorld).1 = .ok bi
      ∧ bi.Offset = 900 ∧ bi.Size = min 200 (1000 - 900))
    ∧ (exampleNode.Read memKernel (str "data")
        (some { Offset := some 1001, Size := some 1 }) exampleWorld).1 = .err (.errno EINVAL)
    ∧ (∃ bi, (exampleNode.Read memKernel (str "data")
        (some { Offset := some 0, Size := some 0 }) exampleWorld).1 = .ok bi
      ∧ bi.Offset = 0 ∧ bi.Size = min 0 (1000 - 0))
    ∧ (∃ bi, (exampleNode.Read memKernel (str "data")
        (some { Offset := some 1000, Size := some 5 }) exampleWorld).1 = .ok bi
      ∧ bi.Offset = 1000 ∧ bi.Size = min 5 0 ∧ ((0 : Int) ≤ 5 → bi.Size = 0)) :=
  ⟨(Read_offset_and_size memKernel exampleNode (str "data")
      { Offset := some 900, Size := some 200 } 900 200
      { Dev := 1, Ino := 2, Mode := S_IFREG ||| 0o644, Size := 1000 } exampleWorld
      rfl rfl rfl (by decide)).2.1 (by decide),
   (Read_offset_and_size memKernel exampleNode (str "data")
      { Offset := some 1001, Size := some 1 } 1001 1
      { Dev := 1, Ino := 2, Mode := S_IFREG ||| 0o644, Size := 1000 } exampleWorld
      rfl rfl rfl (by decide)).1 (by decide),
   (Read_offset_and_size memKernel exampleNode (str "data")
      { Offset := some 0, Size := some 0 } 0 0
      { Dev := 1, Ino := 2, Mode := S_IFREG ||| 0o644, Size := 1000 } exampleWorld
      rfl rfl rfl (by decide)).2.1 (by decide),
   (Read_offset_and_size memKernel exampleNode (str "data")
      { Offset := some 1000, Size := some 5 } 1000 5
      { Dev := 1, Ino := 2, Mode := S_IFREG ||| 0o644, Size := 1000 } exampleWorld
      rfl rfl rfl (by decide)).2.2 rfl⟩

/-! ### `Mknod` -/

/-- C6, the failing input: a socket mode has the bit of `S_IFREG` set, so
`IsRegular` accepts it and `Mknod` goes on to create the file, on every kernel;
on the example file system the result is a regular file, not `ENOTSUP`. -/
theorem Mknod_socket_mode_creates_file {σ : Type} (k : Kernel σ) (n : FileNode) (rel : GoString)
    (w : World σ) :
    (S_IFSOCK ||| 0o644) &&& S_IFMT = S_IFSOCK
    ∧ IsRegular (S_IFSOCK ||| 0o644) = true
    ∧ (∃ rest, (n.Mknod k rel (some { Mode := some (S_IFSOCK ||| 0o644) }) w).2.log
        = w.log ++ Call.openat (n.abs rel) (O_RDWR ||| O_CREAT ||| O_TRUNC ||| O_CLOEXEC) 0o666 :: rest)
    ∧ (exampleNode.Mknod memKernel (str "f") (some { Mode := some (S_IFSOCK ||| 0o644) })
        exampleWorld).1 = .ok { Dev := 1, Ino := 5, Mode := S_IFREG ||| 0o666 }
    ∧ (exampleNode.Mknod memKernel (str "f") (some { Mode := some (S_IFCHR ||| 0o644) })
        exampleWorld) = (.err (.errno ENOTSUP), exampleWorld) := by
  refine ⟨by decide, by decide, ?_, rfl, rfl⟩
  have h : IsRegular (S_IFSOCK ||| 0o644) = true := by decide
  simp only [FileNode.Mknod, h, Bool.not_true, Bool.false_eq_true, if_false, osCreate, World.call]
  cases h1 : (k.openat (n.abs rel) (O_RDWR ||| O_CREAT ||| O_TRUNC ||| O_CLOEXEC) 0o666 w.st).1 with
  | error e => exact ⟨[], by simp⟩
  | ok fd =>
    simp only
    cases h2 : (k.lstat (n.abs rel)
        (k.openat (n.abs rel) (O_RDWR ||| O_CREAT ||| O_TRUNC ||| O_CLOEXEC) 0o666 w.st).2).1 with
    | error e => exact ⟨[Call.lstat (n.abs rel), Call.rmdir (n.abs rel)], by simp⟩
    | ok st => exact ⟨[Call.lstat (n.abs rel)], by simp⟩

/-! ### `Setattr` -/

theorem exec_log {σ : Type} (k : Kernel σ) (c : Call) (w : World σ) :
    (k.exec c w).2.log = w.log ++ [c] := by
  cases c <;> rfl

theorem runSteps_log {σ : Type} (k : Kernel σ) (cs : List Call) (w : World σ) :
    ∃ m, (runSteps k cs w).2.log = w.log ++ cs.take m
      ∧ (∀ u, (runSteps k cs w).1 = .ok u → (runSteps k cs w).2.log = w.log ++ cs) := by
  induction cs generalizing w with
  | nil => exact ⟨0, by simp [runSteps], by simp [runSteps]⟩
  | cons c cs ih =>
    have hl := exec_log k c w
    rcases hr : k.exec c w with ⟨r, w1⟩
    rw [hr] at hl
    simp only at hl
    cases r with
    | error e =>
      refine ⟨1, ?_, ?_⟩
      · simp [runSteps, hr, hl]
      · intro u hu
        simp [runSteps, hr] at hu
    | ok u0 =>
      obtain ⟨m, hm, hok⟩ := ih w1
      refine ⟨m + 1, ?_, ?_⟩
      · simp only [runSteps, hr, hm]
        rw [hl]
        simp
      · intro u hu
        simp only [runSteps, hr] at hu ⊢
        rw [hok u hu]
        rw [hl]
        simp

theorem Setattr_eq_spec {σ : Type} (k : Kernel σ) (n : FileNode) (rel : GoString) (a : Attr)
    (w : World σ) : n.Setattr k rel (some a) w = SetattrSpec k n rel a w := by
  obtain ⟨mode, perm, size, offset, atime, mtime, ctime, owner⟩ := a
  cases mode <;> cases owner <;> cases size <;>
    simp only [FileNode.Setattr, SetattrSpec, setattrSteps, runSteps, Kernel.exec, World.call,
      FileNode.Lstat, List.nil_append, List.cons_append, List.append_nil, List.append_assoc] <;>
    repeat' split <;> simp_all

/-- C8: `Setattr` is the `setattr` of the specification: chmod (mode present),
chown (owner present), utimes, truncate (size present) are made in this order,
the first failure ends the operation with its errno, and after the last step
the result of the re-stat is returned. The system calls that it makes are an
initial part of that list of steps and the re-stat. -/
theorem Setattr_order {σ : Type} (k : Kernel σ) (n : FileNode) (rel : GoString) (a : Attr)
    (w : World σ) :
    n.Setattr k rel (some a) w = SetattrSpec k n rel a w
    ∧ ∃ m, (n.Setattr k rel (some a) w).2.log
        = w.log ++ (setattrSteps (n.abs rel) a ++ [Call.lstat (n.abs rel)]).take m := by
  refine ⟨Setattr_eq_spec k n rel a w, ?_⟩
  rw [Setattr_eq_spec]
  obtain ⟨m, hm, hok⟩ := runSteps_log k (setattrSteps (n.abs rel) a) w
  unfold SetattrSpec
  rcases hr : runSteps k (setattrSteps (n.abs rel) a) w with ⟨r, w1⟩
  rw [hr] at hm hok
  cases r with
  | error e =>
    refine ⟨min m (setattrSteps (n.abs rel) a).length, ?_⟩
    simp only at hm ⊢
    rw [hm, List.take_append_of_le_length (Nat.min_le_right _ _)]
    congr 1
    rw [← List.take_take]
    simp
  | ok u =>
    refine ⟨(setattrSteps (n.abs rel) a).length + 1, ?_⟩
    have h := hok u rfl
    simp only at h ⊢
    simp only [FileNode.Lstat, World.call]
    rw [List.take_of_length_le (by simp)]
    cases (k.lstat (n.abs rel) w1.st).1 <;> simp [h]

/-- C9: the timespec that `Setattr` hands to `utimensat` for atime, and the one
for mtime, has the omit value `(1<<30)-2` as nanoseconds if and only if that
timestamp is absent from the attr. -/
theorem Setattr_utimensat_omit_iff {σ : Type} (k : Kernel σ) (n : FileNode) (rel : GoString)
    (a : Attr) (s : σ) (p : GoString) (x y : Timespec)
    (h : Call.utimensat p x y ∈ (n.Setattr k rel (some a) ⟨s, []⟩).2.log) :
    (x.Nsec = _UTIME_OMIT ↔ a.Atime = none) ∧ (y.Nsec = _UTIME_OMIT ↔ a.Mtime = none)
    ∧ _UTIME_OMIT = (1 <<< 30) - 2 := by
  obtain ⟨m, hm⟩ := (Setattr_order k n rel a ⟨s, []⟩).2
  rw [hm] at h
  simp only [List.nil_append] at h
  have h1 := List.mem_of_mem_take h
  have h2 : x = UtimeToTimespec a.Atime ∧ y = UtimeToTimespec a.Mtime := by
    obtain ⟨mode, perm, size, offset, atime, mtime, ctime, owner⟩ := a
    cases mode <;> cases owner <;> cases size <;> simp [setattrSteps] at h1 <;> simp [h1]
  rw [h2.1, h2.2]
  exact ⟨UtimeToTimespec_omit_iff _, UtimeToTimespec_omit_iff _, rfl⟩

/-- C9, on the example file system: a `setattr` with the atime set to the epoch
and no mtime passes zero nanoseconds for atime and the omit value for mtime. -/
theorem Setattr_utimensat_omit_iff_witness :
    Call.utimensat (str "/srv/data") ⟨0, 0⟩ ⟨0, 1073741822⟩
      ∈ (exampleNode.Setattr memKernel (str "data") (some { Atime := some ⟨0⟩ })
          ⟨exampleWorld.st, []⟩).2.log
    ∧ (((⟨0, 0⟩ : Timespec).Nsec = _UTIME_OMIT ↔ (some (⟨0⟩ : Time)) = none)
      ∧ ((⟨0, 1073741822⟩ : Timespec).Nsec = _UTIME_OMIT ↔ (none : Option Time) = none)
      ∧ _UTIME_OMIT = (1 <<< 30) - 2) :=
  ⟨by decide,
   Setattr_utimensat_omit_iff memKernel exampleNode (str "data") { Atime := some ⟨0⟩ }
     exampleWorld.st (str "/srv/data") ⟨0, 0⟩ ⟨0, 1073741822⟩ (by decide)⟩

end Nomad
namespace Nomad

/-! ### Lexical paths -/

theorem splitSlash_ne_nil (s : GoString) : splitSlash s ≠ [] := by
  cases s with
  | nil => simp [splitSlash]
  | cons c cs =>
    simp only [splitSlash]
    split
    · simp
    · split <;> simp

theorem splitSlash_no_slash (s : GoString) : ∀ e ∈ splitSlash s, slash ∉ e := by
  induction s with
  | nil => simp [splitSlash]
  | cons c cs ih =>
    intro e he
    simp only [splitSlash] at he
    split at he
    · rcases List.mem_cons.1 he with h | h
      · subst h; simp
      · exact ih e h
    · rename_i hc
      split at he
      · rename_i h0
        exact absurd h0 (splitSlash_ne_nil cs)
      · rename_i e0 es h0
        rw [h0] at ih
        rcases List.mem_cons.1 he with h | h
        · subst h
          intro hmem
          rcases List.mem_cons.1 hmem with h1 | h1
          · exact hc h1.symm
          · exact ih e0 (List.mem_cons_self _ _) h1
        · exact ih e (List.mem_cons_of_mem _ h)

theorem splitSlash_cons_slash (s : GoString) : splitSlash (slash :: s) = [] :: splitSlash s := by
  simp [splitSlash]

theorem splitSlash_cons_of_ne (c : Nat) (s e : GoString) (es : List GoString) (hc : c ≠ slash)
    (h : splitSlash s = e :: es) : splitSlash (c :: s) = (c :: e) :: es := by
  simp [splitSlash, hc, h]

theorem splitSlash_append_slash (a b : GoString) :
    splitSlash (a ++ slash :: b) = splitSlash a ++ splitSlash b := by
  induction a with
  | nil => simp [splitSlash]
  | cons c cs ih =>
    by_cases hc : c = slash
    · subst hc
      rw [List.cons_append, splitSlash_cons_slash, splitSlash_cons_slash, ih]
      rfl
    · rcases h : splitSlash cs with _ | ⟨e, es⟩
      · exact absurd h (splitSlash_ne_nil cs)
      · rw [List.cons_append, splitSlash_cons_of_ne c cs e es hc h,
          splitSlash_cons_of_ne c (cs ++ slash :: b) e (es ++ splitSlash b) hc (by rw [ih, h]; rfl)]
        rfl

theorem cleanElems_skip_empty (r : Bool) (out es : List GoString) :
    cleanElems r out ([] :: es) = cleanElems r out es := by
  simp [cleanElems]

theorem cleanElems_skip_dot (r : Bool) (out es : List GoString) :
    cleanElems r out ([dot] :: es) = cleanElems r out es := by
  simp [cleanElems]

theorem Clean_rooted_unfold (cs : GoString) :
    Clean (slash :: cs) = slash :: joinSlash (cleanElems true [] (splitSlash (slash :: cs))) := by
  simp [Clean]

theorem splitSlash_of_no_slash (e : GoString) (h : slash ∉ e) : splitSlash e = [e] := by
  induction e with
  | nil => rfl
  | cons c cs ih =>
    have hc : c ≠ slash := fun h1 => h (by simp [h1])
    have hcs : slash ∉ cs := fun h1 => h (List.mem_cons_of_mem _ h1)
    simp [splitSlash, hc, ih hcs]

theorem joinSlash_cons (e : GoString) (es : List GoString) (h : es ≠ []) :
    joinSlash (e :: es) = e ++ slash :: joinSlash es := by
  cases es with
  | nil => exact absurd rfl h
  | cons e1 es1 => rfl

theorem splitSlash_joinSlash (es : List GoString) (hne : es ≠ [])
    (h : ∀ e ∈ es, slash ∉ e) : splitSlash (joinSlash es) = es := by
  induction es with
  | nil => exact absurd rfl hne
  | cons e es ih =>
    cases es with
    | nil => simpa [joinSlash] using splitSlash_of_no_slash e (h e (List.mem_cons_self _ _))
    | cons e1 es1 =>
      rw [joinSlash_cons e (e1 :: es1) (by simp), splitSlash_append_slash,
        splitSlash_of_no_slash e (h e (List.mem_cons_self _ _)),
        ih (by simp) (fun x hx => h x (List.mem_cons_of_mem _ hx))]
      rfl

theorem cleanElems_normal (r : Bool) (es out : List GoString) (h : ∀ e ∈ es, Normal e) :
    cleanElems r out es = out.reverse ++ es := by
  induction es generalizing out with
  | nil => simp [cleanElems]
  | cons e es ih =>
    obtain ⟨h1, h2, h3, _⟩ := h e (List.mem_cons_self _ _)
    simp only [cleanElems, h1, h2, h3, or_self, if_false]
    rw [ih _ (fun x hx => h x (List.mem_cons_of_mem _ hx))]
    simp

theorem cleanElems_append (r : Bool) (es1 es2 out : List GoString) :
    cleanElems r out (es1 ++ es2) = cleanElems r (cleanElems r out es1).reverse es2 := by
  induction es1 generalizing out with
  | nil => simp [cleanElems]
  | cons e es ih =>
    simp only [List.cons_append, cleanElems]
    split
    · exact ih _
    · split
      · split
        · split
          · exact ih _
          · exact ih _
        · split
          · exact ih _
          · exact ih _
      · exact ih _

theorem cleanElems_all_normal (r : Bool) (es out : List GoString)
    (hout : ∀ e ∈ out, Normal e) (hes : ∀ e ∈ es, slash ∉ e)
    (hdd : r = true ∨ dotdot ∉ es) : ∀ e ∈ cleanElems r out es, Normal e := by
  induction es generalizing out with
  | nil => simpa [cleanElems] using hout
  | cons e es ih =>
    have hes' : ∀ x ∈ es, slash ∉ x := fun x hx => hes x (List.mem_cons_of_mem _ hx)
    have hdd' : r = true ∨ dotdot ∉ es := by
      rcases hdd with h | h
      · exact Or.inl h
      · exact Or.inr (fun hx => h (List.mem_cons_of_mem _ hx))
    simp only [cleanElems]
    split
    · exact ih out hout hes' hdd'
    · rename_i h1
      split
      · rename_i h2
        split
        · rename_i top out1
          split
          · rename_i h3
            exact absurd h3 (hout top (List.mem_cons_self _ _)).2.2.1
          · exact ih out1 (fun x hx => hout x (List.mem_cons_of_mem _ hx)) hes' hdd'
        · split
          · exact ih [] (by simp) hes' hdd'
          · rename_i h4
            rcases hdd with h | h
            · exact absurd h h4
            · exact absurd (by simp [h2]) h
      · rename_i h2
        have hn : Normal e := by
          refine ⟨fun h => h1 (Or.inl h), fun h => h1 (Or.inr h), h2, hes e (List.mem_cons_self _ _)⟩
        apply ih (e :: out) _ hes' hdd'
        intro x hx
        rcases List.mem_cons.1 hx with h | h
        · subst h; exact hn
        · exact hout x h

theorem Clean_rooted_form (R : GoString) (habs : R.head? = some slash) (hclean : Clean R = R) :
    ∃ es, (∀ e ∈ es, Normal e) ∧ R = slash :: joinSlash es := by
  cases R with
  | nil => simp at habs
  | cons c cs =>
    have hc : c = slash := by simpa using habs
    subst hc
    refine ⟨cleanElems true [] (splitSlash (slash :: cs)), ?_, ?_⟩
    · exact cleanElems_all_normal true _ [] (by simp) (splitSlash_no_slash _) (Or.inl rfl)
    · rw [Clean_rooted_unfold] at hclean
      exact hclean.symm

theorem Clean_relative_form (p : GoString) (hne : p ≠ []) (hrel : p.head? ≠ some slash)
    (hclean : Clean p = p) (hdd : dotdot ∉ splitSlash p) :
    p = [dot] ∨ ∃ ps, ps ≠ [] ∧ (∀ e ∈ ps, Normal e) ∧ p = joinSlash ps := by
  cases p with
  | nil => exact absurd rfl hne
  | cons c cs =>
    have hc : c ≠ slash := by simpa using hrel
    have hn := cleanElems_all_normal false (splitSlash (c :: cs)) [] (by simp)
      (splitSlash_no_slash _) (Or.inr hdd)
    simp only [Clean, hc, decide_False, Bool.false_eq_true, if_false] at hclean
    split at hclean
    · exact Or.inl hclean.symm
    · rename_i h
      exact Or.inr ⟨_, h, hn, hclean.symm⟩

theorem Clean_rooted_join (es : List GoString) (h : ∀ e ∈ es, Normal e) :
    Clean (slash :: joinSlash es) = slash :: joinSlash es := by
  rw [Clean_rooted_unfold, splitSlash_cons_slash, cleanElems_skip_empty]
  cases es with
  | nil => simp [joinSlash, splitSlash, cleanElems]
  | cons e es1 =>
    rw [splitSlash_joinSlash _ (by simp) (fun x hx => (h x hx).2.2.2),
      cleanElems_normal _ _ _ h]
    simp

/-- The target `R/p` in cleaned form, for a root in cleaned form and normal
elements `ps`. -/
theorem Clean_root_slash_join (es ps : List GoString) (hes : ∀ e ∈ es, Normal e)
    (hps : ∀ e ∈ ps, Normal e) (hne : ps ≠ []) :
    Clean ((slash :: joinSlash es) ++ slash :: joinSlash ps) = slash :: joinSlash (es ++ ps) := by
  rw [List.cons_append, Clean_rooted_unfold, splitSlash_cons_slash, cleanElems_skip_empty,
    splitSlash_append_slash, splitSlash_joinSlash ps hne (fun x hx => (hps x hx).2.2.2)]
  have hall : ∀ e ∈ es ++ ps, Normal e := by
    intro e he
    rcases List.mem_append.1 he with h | h
    · exact hes e h
    · exact hps e h
  cases es with
  | nil =>
    have h0 : splitSlash (joinSlash []) = [[]] := rfl
    rw [h0, List.singleton_append, cleanElems_skip_empty, cleanElems_normal _ _ _ hps]
    simp
  | cons e es1 =>
    rw [splitSlash_joinSlash _ (by simp) (fun x hx => (hes x hx).2.2.2),
      cleanElems_normal _ _ _ hall]
    simp

theorem Clean_root_slash_dot (es : List GoString) (hes : ∀ e ∈ es, Normal e) :
    Clean ((slash :: joinSlash es) ++ [slash, dot]) = slash :: joinSlash es := by
  have h1 : splitSlash [dot] = [[dot]] := rfl
  rw [List.cons_append, Clean_rooted_unfold, splitSlash_cons_slash, cleanElems_skip_empty,
    splitSlash_append_slash, h1]
  cases es with
  | nil =>
    have h0 : splitSlash (joinSlash []) = [[]] := rfl
    rw [h0]
    simp [joinSlash, cleanElems]
  | cons e es1 =>
    rw [splitSlash_joinSlash _ (by simp) (fun x hx => (hes x hx).2.2.2),
      cleanElems_append, cleanElems_normal _ _ _ hes]
    simp [cleanElems]

end Nomad
namespace Nomad

/-! ### `filepath.Rel` below the root -/

theorem takeWhile_ne_slash_append (e rest : GoString) (h : slash ∉ e) :
    (e ++ slash :: rest).takeWhile (fun c => c ≠ slash) = e := by
  induction e with
  | nil => exact List.takeWhile_cons_of_neg (by simp)
  | cons c cs ih =>
    have hc : c ≠ slash := fun h1 => h (by simp [h1])
    have hcs : slash ∉ cs := fun h1 => h (List.mem_cons_of_mem _ h1)
    rw [List.cons_append, List.takeWhile_cons_of_pos (by simp [hc]), ih hcs]

theorem takeWhile_ne_slash_self (e : GoString) (h : slash ∉ e) :
    e.takeWhile (fun c => c ≠ slash) = e := by
  induction e with
  | nil => rfl
  | cons c cs ih =>
    have hc : c ≠ slash := fun h1 => h (by simp [h1])
    have hcs : slash ∉ cs := fun h1 => h (List.mem_cons_of_mem _ h1)
    rw [List.takeWhile_cons_of_pos (by simp [hc]), ih hcs]

theorem takeWhile_ne_slash_cons_slash (rest : GoString) :
    (slash :: rest).takeWhile (fun c => c ≠ slash) = [] :=
  List.takeWhile_cons_of_neg (by simp)

theorem joinSlash_ne_nil (ps : List GoString) (hne : ps ≠ []) (h : ∀ e ∈ ps, Normal e) :
    joinSlash ps ≠ [] := by
  cases ps with
  | nil => exact absurd rfl hne
  | cons e es =>
    have he := (h e (List.mem_cons_self _ _)).1
    cases es with
    | nil => simpa [joinSlash] using he
    | cons e1 es1 =>
      rw [joinSlash_cons e _ (by simp)]
      simp

theorem joinSlash_append (es ps : List GoString) (h1 : es ≠ []) (h2 : ps ≠ []) :
    joinSlash (es ++ ps) = joinSlash es ++ slash :: joinSlash ps := by
  induction es with
  | nil => exact absurd rfl h1
  | cons e es ih =>
    cases es with
    | nil =>
      rw [List.singleton_append, joinSlash_cons e ps h2]
      rfl
    | cons e1 es1 =>
      rw [List.cons_append, joinSlash_cons e _ (by simp), ih (by simp),
        joinSlash_cons e (e1 :: es1) (by simp)]
      simp

theorem joinSlash_length_ge (es : List GoString) (h : ∀ e ∈ es, Normal e) :
    es.length ≤ (joinSlash es).length := by
  induction es with
  | nil => simp
  | cons e es ih =>
    have he : 0 < e.length := List.length_pos.2 (h e (List.mem_cons_self _ _)).1
    cases es with
    | nil => simpa [joinSlash] using he
    | cons e1 es1 =>
      rw [joinSlash_cons e _ (by simp)]
      have := ih (fun x hx => h x (List.mem_cons_of_mem _ hx))
      simp only [List.length_append, List.length_cons] at this ⊢
      omega

theorem relLoop_common (es ps : List GoString) (hes : ∀ e ∈ es, Normal e)
    (hne : ps ≠ []) :
    ∀ fuel, es.length + 1 ≤ fuel →
      relLoop fuel (joinSlash es) (joinSlash (es ++ ps)) = ([], [], joinSlash ps) := by
  induction es with
  | nil =>
    intro fuel hf
    cases fuel with
    | zero => omega
    | succ f => simp [relLoop, joinSlash]
  | cons e es ih =>
    intro fuel hf
    cases fuel with
    | zero => omega
    | succ f =>
      obtain ⟨he1, _, _, he4⟩ := hes e (List.mem_cons_self _ _)
      have hes' : ∀ x ∈ es, Normal x := fun x hx => hes x (List.mem_cons_of_mem _ hx)
      have ht : joinSlash (e :: es ++ ps) = e ++ slash :: joinSlash (es ++ ps) := by
        rw [List.cons_append, joinSlash_cons e _ (by simp [hne])]
      have hb1 : (joinSlash (e :: es)).takeWhile (fun c => c ≠ slash) = e := by
        cases es with
        | nil => exact takeWhile_ne_slash_self e he4
        | cons e1 es1 =>
          rw [joinSlash_cons e _ (by simp)]
          exact takeWhile_ne_slash_append e _ he4
      have hb2 : (joinSlash (e :: es)).drop (e.length + 1) = joinSlash es := by
        cases es with
        | nil => simp [joinSlash]
        | cons e1 es1 =>
          rw [joinSlash_cons e _ (by simp)]
          simp
      have hb3 : joinSlash (e :: es) ≠ [] := joinSlash_ne_nil _ (by simp) hes
      have ht1 : (joinSlash (e :: es ++ ps)).takeWhile (fun c => c ≠ slash) = e := by
        rw [ht]; exact takeWhile_ne_slash_append e _ he4
      have ht2 : (joinSlash (e :: es ++ ps)).drop (e.length + 1) = joinSlash (es ++ ps) := by
        rw [ht]; simp
      have ht3 : joinSlash (e :: es ++ ps) ≠ [] := by rw [ht]; simp
      rw [relLoop]
      simp only [hb3, ht3, or_self, if_false, hb1, ht1, ne_eq, not_true_eq_false, hb2, ht2]
      exact ih hes' f (by simp only [List.length_cons] at hf; omega)

/-- `Rel` of a cleaned root and a target `root/p` with normal elements gives
`p`. -/
theorem Rel_root_target (es ps : List GoString) (hes : ∀ e ∈ es, Normal e)
    (hps : ∀ e ∈ ps, Normal e) (hne : ps ≠ []) :
    Rel (slash :: joinSlash es) ((slash :: joinSlash es) ++ slash :: joinSlash ps)
      = some (joinSlash ps) := by
  have hps0 := joinSlash_ne_nil ps hne hps
  have hneq : slash :: joinSlash (es ++ ps) ≠ slash :: joinSlash es := by
    intro h
    have h1 := congrArg List.length (List.cons.inj h).2
    cases es with
    | nil =>
      simp only [List.nil_append, joinSlash, List.length_nil] at h1
      exact hps0 (List.length_eq_zero.1 h1)
    | cons e es1 =>
      rw [joinSlash_append _ _ (by simp) hne] at h1
      simp only [List.length_append, List.length_cons] at h1
      omega
  have hdot : slash :: joinSlash es ≠ [dot] := by
    intro h
    have := (List.cons.inj h).1
    exact absurd this (by decide)
  have hloop : relLoop ((slash :: joinSlash es).length + 1) (slash :: joinSlash es)
      (slash :: joinSlash (es ++ ps)) = ([], [], joinSlash ps) := by
    rw [relLoop]
    simp only [reduceCtorEq, or_self, if_false, takeWhile_ne_slash_cons_slash, ne_eq,
      not_true_eq_false, List.length_nil, Nat.zero_add, List.drop_succ_cons, List.drop_zero]
    apply relLoop_common es ps hes hne
    have := joinSlash_length_ge es hes
    simp only [List.length_cons]
    omega
  unfold Rel
  simp only [Clean_rooted_join es hes, Clean_root_slash_join es ps hes hps hne, hneq, hdot,
    if_false, List.head?_cons, hloop]
  simp [dotdot]

theorem Rel_root_dot (es : List GoString) (hes : ∀ e ∈ es, Normal e) :
    Rel (slash :: joinSlash es) ((slash :: joinSlash es) ++ [slash, dot]) = some [dot] := by
  unfold Rel
  simp only [Clean_rooted_join es hes, Clean_root_slash_dot es hes, if_true]

/-- For an absolute, clean root and a clean relative `p` without `..`
elements, `Rel(root, root/p)` is `p`. -/
theorem Rel_of_clean (R p : GoString) (habs : R.head? = some slash) (hR : Clean R = R)
    (hne : p ≠ []) (hrel : p.head? ≠ some slash) (hp : Clean p = p)
    (hdd : dotdot ∉ splitSlash p) : Rel R (R ++ slash :: p) = some p := by
  obtain ⟨es, hes, rfl⟩ := Clean_rooted_form R habs hR
  rcases Clean_relative_form p hne hrel hp hdd with rfl | ⟨ps, hps0, hps, rfl⟩
  · exact Rel_root_dot es hes
  · exact Rel_root_target es ps hes hps hps0

/-! ### `Readlink` -/

theorem readlinkLoop_found {σ : Type} (k : Kernel σ) (n : FileNode) (path target : GoString)
    (s0 : σ) (h : ∀ l, k.readlink path l s0 = (.ok (target.take l), s0)) :
    ∀ fuel l (w : World σ), w.st = s0 → target.length < l * 2 ^ fuel →
      (readlinkLoop k n path (fuel + 1) l w).1
        = (match n.rel target with
            | some r => Res.ok r
            | none => Res.err (.other "Rel: can't make target relative to root")) := by
  intro fuel
  induction fuel with
  | zero =>
    intro l w hw hl
    have hlt : target.length < l := by simpa using hl
    simp only [readlinkLoop, World.call, hw, h, List.take_take, Nat.min_self,
      List.take_of_length_le (Nat.le_of_lt hlt), hlt, if_true]
    cases n.rel target <;> rfl
  | succ f ih =>
    intro l w hw hl
    by_cases hlt : target.length < l
    · simp only [readlinkLoop, World.call, hw, h, List.take_take, Nat.min_self,
        List.take_of_length_le (Nat.le_of_lt hlt), hlt, if_true]
      cases n.rel target <;> rfl
    · have hlen : ¬ (target.take l).length < l := by
        simp only [List.length_take]
        omega
      rw [readlinkLoop]
      simp only [World.call, hw, h, List.take_take, Nat.min_self, hlen, if_false]
      apply ih _ _ rfl
      have h2 : l * 2 * 2 ^ f = l * 2 ^ (f + 1) := by ring
      rw [h2]
      exact hl

/-- C10, the claim fails for a `p` that leaves the root through `..` and comes
back: root `/srv` and `p = ../srv/a` are clean, the link `/srv/up` holds the
target `/srv/../srv/a`, and `Readlink` returns `a`, not `p`. -/
theorem Readlink_dotdot_target :
    Clean (str "/srv") = str "/srv" ∧ Clean (str "../srv/a") = str "../srv/a"
    ∧ (memKernel.readlink (exampleNode.abs (str "up")) 256 exampleWorld.st).1
        = .ok (exampleNode.Root ++ slash :: str "../srv/a")
    ∧ (exampleNode.Readlink memKernel (str "up") exampleWorld).1 = .ok (str "a")
    ∧ str "a" ≠ str "../srv/a" := by
  refine ⟨by decide, by decide, rfl, rfl, by decide⟩

/-- C10, amended: for an absolute, clean root `R` and a link whose target is
`R/p` (`readlink` gives the first bytes of `R/p` that fit the buffer and
leaves the state alone), with `p` a non-empty clean relative path without
`..` elements, `Readlink` returns `p`. -/
theorem Readlink_under_root {σ : Type} (k : Kernel σ) (n : FileNode) (rel p : GoString)
    (w : World σ)
    (habs : n.Root.head? = some slash) (hroot : Clean n.Root = n.Root)
    (hne : p ≠ []) (hrel : p.head? ≠ some slash) (hp : Clean p = p)
    (hdd : dotdot ∉ splitSlash p)
    (hlen : (n.Root ++ slash :: p).length < 2 ^ 62)
    (hlink : ∀ l, k.readlink (n.abs rel) l w.st = (.ok ((n.Root ++ slash :: p).take l), w.st)) :
    (n.Readlink k rel w).1 = .ok p := by
  unfold FileNode.Readlink
  rw [readlinkLoop_found k n (n.abs rel) (n.Root ++ slash :: p) w.st hlink 54 256 w rfl
    (by omega)]
  simp only [FileNode.rel, Rel_of_clean n.Root p habs hroot hne hrel hp hdd]

/-- C10, on the example file system: the link `/srv/ln` with the target
`/srv/a/b` reads as `a/b`. -/
theorem Readlink_under_root_witness :
    (exampleNode.Readlink memKernel (str "ln") exampleWorld).1 = .ok (str "a/b") :=
  Readlink_under_root memKernel exampleNode (str "ln") (str "a/b") exampleWorld
    (by decide) (by decide) (by decide) (by decide) (by decide) (by decide) (by decide)
    (fun _ => rfl)

end Nomad
namespace Nomad

/-! ### `url.Parse` on the URLs of blobs -/

theorem cut_append (pre y : GoString) (sep : Nat) (h : sep ∉ pre) :
    cut (pre ++ y) sep = (pre ++ (cut y sep).1, (cut y sep).2) := by
  have hp : ∀ a ∈ pre, (fun c => decide (c ≠ sep)) a = true := by
    intro a ha
    have : a ≠ sep := fun h1 => h (h1 ▸ ha)
    simp [this]
  simp only [cut, List.takeWhile_append_of_pos hp, List.dropWhile_append_of_pos hp]

theorem cut_cons_of_ne (c : Nat) (y : GoString) (sep : Nat) (h : c ≠ sep) :
    cut (c :: y) sep = (c :: (cut y sep).1, (cut y sep).2) := by
  have := cut_append [c] y sep (by simpa using h.symm)
  simpa using this

theorem getSchemeLoop_letters (s : GoString) (hs : ∀ c ∈ s, isLetter c = true) :
    ∀ (raw : GoString) (i : Nat) (rest : GoString),
      getSchemeLoop raw i (s ++ 58 :: rest)
        = if i + s.length = 0 then none else some (raw.take (i + s.length), rest) := by
  induction s with
  | nil =>
    intro raw i rest
    simp [getSchemeLoop, isLetter, isDigit]
  | cons c s ih =>
    intro raw i rest
    have hc := hs c (List.mem_cons_self _ _)
    rw [List.cons_append, getSchemeLoop]
    simp only [hc, if_true]
    rw [ih (fun x hx => hs x (List.mem_cons_of_mem _ hx))]
    have h1 : i + 1 + s.length = i + (c :: s).length := by simp; omega
    rw [h1]

theorem getScheme_letters (s rest : GoString) (hne : s ≠ []) (hs : ∀ c ∈ s, isLetter c = true) :
    getScheme (s ++ 58 :: rest) = some (s, rest) := by
  unfold getScheme
  rw [getSchemeLoop_letters s hs]
  have h1 : 0 + s.length ≠ 0 := by
    have := List.length_pos.2 hne
    omega
  have h2 : s.length ≠ 0 := by omega
  simp [h2]

theorem getScheme_slash (y : GoString) : getScheme (slash :: y) = some ([], slash :: y) := by
  simp [getScheme, getSchemeLoop, isLetter, isDigit, slash]

theorem letter_props (c : Nat) (h : isLetter c = true) :
    c ≠ 35 ∧ c ≠ 63 ∧ c ≠ slash ∧ ¬ c < 0x20 ∧ c ≠ 0x7f ∧ c ≠ 42 := by
  simp only [isLetter, decide_eq_true_eq] at h
  simp only [slash]
  omega

theorem authChar_props (c : Nat) (h : authChar c = true) :
    c ≠ 35 ∧ c ≠ 63 ∧ c ≠ slash ∧ ¬ c < 0x20 ∧ c ≠ 0x7f := by
  simp only [authChar, decide_eq_true_eq] at h
  tauto

/-- `Parse` of an absolute URL `scheme://authority/...` is `parseRooted` of
its part from the path on. -/
theorem Parse_absolute (scheme auth host y : GoString) (hne : scheme ≠ [])
    (hs : ∀ c ∈ scheme, isLetter c = true) (ha : ∀ c ∈ auth, authChar c = true)
    (hhost : parseAuthority auth = some host) :
    Parse (scheme ++ [58, slash, slash] ++ auth ++ slash :: y)
      = parseRooted (toLower scheme) host (slash :: y) := by
  have hpre : ∀ c ∈ scheme ++ [58, slash, slash] ++ auth,
      c ≠ 35 ∧ c ≠ 63 ∧ ¬ c < 0x20 ∧ c ≠ 0x7f := by
    intro c hc
    simp only [List.mem_append, List.mem_cons, List.mem_singleton, List.not_mem_nil,
      or_false] at hc
    rcases hc with (h | h | h | h) | h
    · have := letter_props c (hs c h); tauto
    · subst h; decide
    · subst h; decide
    · subst h; decide
    · have := authChar_props c (ha c h); tauto
  have h35 : (35 : Nat) ∉ scheme ++ [58, slash, slash] ++ auth := fun h => (hpre 35 h).1 rfl
  have hcut1 := cut_append (scheme ++ [58, slash, slash] ++ auth) (slash :: y) 35 h35
  have hcs : cut (slash :: y) 35 = (slash :: (cut y 35).1, (cut y 35).2) :=
    cut_cons_of_ne slash y 35 (by decide)
  have hany : ((scheme ++ [58, slash, slash] ++ auth) ++ slash :: (cut y 35).1).any
      (fun c => decide (c < 0x20 ∨ c = 0x7f))
      = (slash :: (cut y 35).1).any (fun c => decide (c < 0x20 ∨ c = 0x7f)) := by
    rw [List.any_append]
    have : (scheme ++ [58, slash, slash] ++ auth).any (fun c => decide (c < 0x20 ∨ c = 0x7f))
        = false := by
      rw [List.any_eq_false]
      intro c hc
      have := hpre c hc
      simp only [decide_eq_true_eq]
      tauto
    rw [this, Bool.false_or]
  have hstar : (scheme ++ [58, slash, slash] ++ auth) ++ slash :: (cut y 35).1 ≠ [42] := by
    intro h
    have := congrArg List.length h
    simp at this
    omega
  have hsch : getScheme ((scheme ++ [58, slash, slash] ++ auth) ++ slash :: (cut y 35).1)
      = some (scheme, [slash, slash] ++ auth ++ slash :: (cut y 35).1) := by
    have := getScheme_letters scheme ([slash, slash] ++ auth ++ slash :: (cut y 35).1) hne hs
    simpa using this
  have h63 : (63 : Nat) ∉ [slash, slash] ++ auth := by
    intro h
    exact (hpre 63 (by simp only [List.mem_append] at h ⊢; rcases h with h | h
                       · exact Or.inl (Or.inr (by simp at h ⊢; tauto))
                       · exact Or.inr h)).2.1 rfl
  have hcut2 : cut ([slash, slash] ++ auth ++ slash :: (cut y 35).1) 63
      = ([slash, slash] ++ auth ++ slash :: (cut (cut y 35).1 63).1, (cut (cut y 35).1 63).2) := by
    rw [cut_append _ _ 63 h63, cut_cons_of_ne slash _ 63 (by decide)]
  have hlow : toLower scheme ≠ [] := by
    simpa [toLower] using hne
  have hauth : ∀ a ∈ auth, (fun c => decide (c ≠ slash)) a = true := by
    intro a h
    have := (authChar_props a (ha a h)).2.2.1
    simp [this]
  have htw : (auth ++ slash :: (cut (cut y 35).1 63).1).takeWhile (fun c => c ≠ slash) = auth := by
    rw [List.takeWhile_append_of_pos hauth, takeWhile_ne_slash_cons_slash]
    simp
  have hdw : (auth ++ slash :: (cut (cut y 35).1 63).1).dropWhile (fun c => c ≠ slash)
      = slash :: (cut (cut y 35).1 63).1 := by
    rw [List.dropWhile_append_of_pos hauth]
    exact List.dropWhile_cons_of_neg (by simp)
  unfold Parse parseRooted
  simp only [hcut1, hcs, hany, hstar, if_false, hsch, hcut2]
  split
  · rfl
  · simp only [List.cons_append, List.nil_append, List.head?_cons, ne_eq, not_true_eq_false,
      false_and, if_false, List.isPrefixOf, beq_self_eq_true, Bool.and_self, Bool.true_and,
      hlow, not_false_eq_true, true_or, and_self, if_true, List.drop_succ_cons, List.drop_zero,
      htw, hdw, hhost, cut_cons_of_ne slash _ 63 (by decide : slash ≠ 63)]

/-- `Parse` of a path-only URL `/b...` is `parseRooted` with empty scheme and
host. -/
theorem Parse_path_only (y : GoString) :
    Parse (slash :: 98 :: y) = parseRooted [] [] (slash :: 98 :: y) := by
  have hc1 : cut (slash :: 98 :: y) 35 = (slash :: 98 :: (cut y 35).1, (cut y 35).2) := by
    rw [cut_cons_of_ne slash _ 35 (by decide), cut_cons_of_ne 98 _ 35 (by decide)]
  have hc2 : cut (slash :: 98 :: (cut y 35).1) 63
      = (slash :: 98 :: (cut (cut y 35).1 63).1, (cut (cut y 35).1 63).2) := by
    rw [cut_cons_of_ne slash _ 63 (by decide), cut_cons_of_ne 98 _ 63 (by decide)]
  unfold Parse parseRooted
  simp only [hc1, hc2, getScheme_slash]
  split
  · rfl
  · simp [toLower, slash]

end Nomad
namespace Nomad

/-! ### `DecodeBlobHref` -/

theorem str_blob : str "/blob/" = [slash, 98, 108, 111, 98, slash] := by decide

theorem str_blob_noslash : str "/blob" = [slash, 98, 108, 111, 98] := by decide

theorem str_colon_slashes : str "://" = [58, slash, slash] := by decide

theorem unescape_path_cons (c : Nat) (t : GoString) (hc : c ≠ 37) :
    unescape Encoding.path (c :: t) = (unescape Encoding.path t).map (fun out => c :: out) := by
  rcases t with _ | ⟨a, _ | ⟨b, r⟩⟩ <;> simp [unescape, hc]

/-- `parseRooted` of a blob URL: an error, or a URL whose path is `/blob/`
and the decoded token. -/
theorem parseRooted_blob (sc h T : GoString) :
    (∃ e, parseRooted sc h (str "/blob/" ++ T) = .error e)
    ∨ ∃ u U, parseRooted sc h (str "/blob/" ++ T) = .ok u ∧ u.Path = str "/blob/" ++ U
        ∧ unescape Encoding.path (cut (cut T 35).1 63).1 = some U := by
  have hc1 : cut (str "/blob/" ++ T) 35 = (str "/blob/" ++ (cut T 35).1, (cut T 35).2) :=
    cut_append _ _ 35 (by decide)
  have hc2 : cut (str "/blob/" ++ (cut T 35).1) 63
      = (str "/blob/" ++ (cut (cut T 35).1 63).1, (cut (cut T 35).1 63).2) :=
    cut_append _ _ 63 (by decide)
  have hun : unescape Encoding.path (str "/blob/" ++ (cut (cut T 35).1 63).1)
      = (unescape Encoding.path (cut (cut T 35).1 63).1).map (fun out => str "/blob/" ++ out) := by
    rw [str_blob]
    simp only [List.cons_append, List.nil_append]
    rw [unescape_path_cons _ _ (by decide), unescape_path_cons _ _ (by decide),
      unescape_path_cons _ _ (by decide), unescape_path_cons _ _ (by decide),
      unescape_path_cons _ _ (by decide), unescape_path_cons _ _ (by decide)]
    cases unescape Encoding.path (cut (cut T 35).1 63).1 <;> rfl
  unfold parseRooted
  simp only [hc1, hc2, hun]
  split
  · exact Or.inl ⟨_, rfl⟩
  · cases hU : unescape Encoding.path (cut (cut T 35).1 63).1 with
    | none => exact Or.inl ⟨_, rfl⟩
    | some U =>
      cases hf : unescape Encoding.fragment (cut T 35).2 with
      | none => exact Or.inl ⟨_, rfl⟩
      | some f => exact Or.inr ⟨_, U, rfl, rfl, rfl⟩

/-- What `DecodeBlobHref` makes of a parsed URL depends on its path only. -/
theorem parseRooted_path_only (sc1 h1 sc2 h2 tail : GoString) (F : GoString → Except GoError BlobInfo) :
    (match parseRooted sc1 h1 tail with
      | Except.error err => Except.error err
      | Except.ok u => F u.Path)
    = (match parseRooted sc2 h2 tail with
      | Except.error err => Except.error err
      | Except.ok u => F u.Path) := by
  unfold parseRooted
  simp only
  by_cases hc : ((cut tail 35).1.any fun c => decide (c < 0x20 ∨ c = 0x7f)) = true
  · simp only [hc, if_true]
  · simp only [hc, if_false]
    cases unescape Encoding.path (cut (cut tail 35).1 63).1 with
    | none => rfl
    | some p =>
      cases unescape Encoding.fragment (cut tail 35).2 with
      | none => rfl
      | some f => rfl

theorem unescape_head_slash (t U : GoString) (h : unescape Encoding.path t = some U)
    (hU : U.head? = some slash) : beginsWithSlash t = true := by
  cases t with
  | nil => simp [unescape] at h; subst h; simp at hU
  | cons c rest =>
    by_cases hc : c = 37
    · subst hc
      rcases rest with _ | ⟨a, _ | ⟨b, rest2⟩⟩
      · simp [unescape] at h
      · simp [unescape] at h
      · simp only [unescape, if_true] at h
        cases ha : unhex a with
        | none => simp [ha] at h
        | some v1 =>
          cases hb : unhex b with
          | none => simp [ha, hb] at h
          | some v2 =>
            simp only [ha, hb, reduceCtorEq, false_and, if_false] at h
            cases hr : unescape Encoding.path rest2 with
            | none => simp [hr] at h
            | some out =>
              simp only [hr, Option.map_some', Option.some.injEq] at h
              subst h
              simp only [List.head?_cons, Option.some.injEq, slash] at hU
              have h1 : v1 < 16 := by
                simp only [unhex] at ha
                split_ifs at ha <;> simp at ha <;> omega
              have h2 : v2 < 16 := by
                simp only [unhex] at hb
                split_ifs at hb <;> simp at hb <;> omega
              have hv1 : v1 = 2 := by omega
              have hv2 : v2 = 15 := by omega
              subst hv1 hv2
              have ha' : a = 50 := by
                simp only [unhex] at ha
                split_ifs at ha <;> simp at ha
                omega
              have hb' : b = 70 ∨ b = 102 := by
                simp only [unhex] at hb
                split_ifs at hb <;> simp at hb <;> omega
              subst ha'
              rcases hb' with rfl | rfl <;> simp [beginsWithSlash, List.isPrefixOf]
    · rw [unescape_path_cons c rest hc] at h
      cases hr : unescape Encoding.path rest with
      | none => simp [hr] at h
      | some out =>
        simp only [hr, Option.map_some', Option.some.injEq] at h
        subst h
        simp only [List.head?_cons, Option.some.injEq] at hU
        subst hU
        simp [beginsWithSlash, List.isPrefixOf]

theorem beginsWithSlash_of_initial (t T : GoString) (hp : t <+: T) (h : beginsWithSlash t = true) :
    beginsWithSlash T = true := by
  simp only [beginsWithSlash, Bool.or_eq_true, List.isPrefixOf_iff_prefix] at h ⊢
  rcases h with (h | h) | h
  · exact Or.inl (Or.inl (h.trans hp))
  · exact Or.inl (Or.inr (h.trans hp))
  · exact Or.inr (h.trans hp)

theorem cut_cut_initial (T : GoString) : (cut (cut T 35).1 63).1 <+: T :=
  List.IsPrefix.trans ( List.takeWhile_prefix _) ( List.takeWhile_prefix _)

theorem trimPrefix_blob (U : GoString) (hU : U.head? ≠ some slash) :
    trimPrefix (trimPrefix (str "/blob/" ++ U) (str "/blob")) [slash] = U
    ∧ trimPrefix (trimPrefix (str "/blob/" ++ U) (str "/blob/")) [slash] = U := by
  rw [str_blob, str_blob_noslash]
  constructor
  · simp [trimPrefix, List.isPrefixOf]
  · cases U with
    | nil => simp [trimPrefix, List.isPrefixOf]
    | cons c rest =>
      have hc : c ≠ slash := by simpa using hU
      have hc' : slash ≠ c := fun h => hc h.symm
      simp [trimPrefix, List.isPrefixOf, hc']

theorem decodeToken_Href (p : GoString) (bi : BlobInfo) (h : decodeToken p = .ok bi) :
    bi.Href = [] := by
  unfold decodeToken at h
  split at h
  · cases h
  · split at h
    · cases h
    · cases h; rfl

/-- C3, the claim fails for a token that begins with a separator: with the
href `/blob//T`, `T` the token of the tests, the base path `/blob/` decodes the
blob and the base path `/blob` fails. -/
theorem DecodeBlobHref_leading_slash :
    DecodeBlobHref { Path := str "/blob/" }
        (str "/blob//eyJPIjoxMDAsIlMiOjY0LCJNIjo1MTEsIlAiOiIvdG1wL2ZpbGUifQ==")
      = .ok { Offset := 100, Size := 64, Perm := 511, Path := str "/tmp/file", Href := [] }
    ∧ DecodeBlobHref { Path := str "/blob" }
        (str "/blob//eyJPIjoxMDAsIlMiOjY0LCJNIjo1MTEsIlAiOiIvdG1wL2ZpbGUifQ==")
      = .error (.other "illegal base64 data") :=
  ⟨rfl, rfl⟩

/-- C3, amended: for every token `T` that does not begin with a separator
(written out or as `%2F`), `DecodeBlobHref` returns the same result for the
base paths `/blob` and `/blob/` and for the absolute href
`scheme://authority/blob/T` and the path-only href `/blob/T`: the parsed path is
`/blob/` and the decoded token `U`, the result is that of base64-decoding and
JSON-decoding `U`, and a blob that is returned has an empty `Href`. -/
theorem DecodeBlobHref_forms (b1 b2 : URL) (scheme auth host T : GoString)
    (hb1 : b1.Path = str "/blob") (hb2 : b2.Path = str "/blob/")
    (hne : scheme ≠ []) (hs : ∀ c ∈ scheme, isLetter c = true)
    (ha : ∀ c ∈ auth, authChar c = true) (hhost : parseAuthority auth = some host)
    (hT : beginsWithSlash T = false) :
    DecodeBlobHref b1 (scheme ++ str "://" ++ auth ++ str "/blob/" ++ T)
        = DecodeBlobHref b1 (str "/blob/" ++ T)
    ∧ DecodeBlobHref b2 (scheme ++ str "://" ++ auth ++ str "/blob/" ++ T)
        = DecodeBlobHref b1 (str "/blob/" ++ T)
    ∧ DecodeBlobHref b2 (str "/blob/" ++ T) = DecodeBlobHref b1 (str "/blob/" ++ T)
    ∧ (∀ u, Parse (str "/blob/" ++ T) = .ok u →
        ∃ U, u.Path = str "/blob/" ++ U ∧ DecodeBlobHref b1 (str "/blob/" ++ T) = decodeToken U)
    ∧ (∀ (b : URL) (href : GoString) (bi : BlobInfo),
        DecodeBlobHref b href = .ok bi → bi.Href = []) := by
  have habs : Parse (scheme ++ str "://" ++ auth ++ str "/blob/" ++ T)
      = parseRooted (toLower scheme) host (str "/blob/" ++ T) := by
    have := Parse_absolute scheme auth host (98 :: 108 :: 111 :: 98 :: slash :: T) hne hs ha hhost
    rw [str_colon_slashes, str_blob]
    simpa using this
  have hrel : Parse (str "/blob/" ++ T) = parseRooted [] [] (str "/blob/" ++ T) := by
    have := Parse_path_only (108 :: 111 :: 98 :: slash :: T)
    rw [str_blob]
    simpa using this
  have hsame : ∀ b : URL, DecodeBlobHref b (scheme ++ str "://" ++ auth ++ str "/blob/" ++ T)
      = DecodeBlobHref b (str "/blob/" ++ T) := by
    intro b
    unfold DecodeBlobHref
    rw [habs, hrel]
    exact parseRooted_path_only _ _ _ _ _
      (fun p => decodeToken (trimPrefix (trimPrefix p b.Path) [slash]))
  have hbase : ∀ u U, parseRooted [] [] (str "/blob/" ++ T) = .ok u → u.Path = str "/blob/" ++ U →
      unescape Encoding.path (cut (cut T 35).1 63).1 = some U →
      DecodeBlobHref b1 (str "/blob/" ++ T) = decodeToken U
      ∧ DecodeBlobHref b2 (str "/blob/" ++ T) = decodeToken U := by
    intro u U hu hp hU
    have hhead : U.head? ≠ some slash := by
      intro h
      have h1 := unescape_head_slash _ U hU h
      have h2 := beginsWithSlash_of_initial _ T (cut_cut_initial T) h1
      rw [hT] at h2
      cases h2
    unfold DecodeBlobHref
    rw [hrel, hu]
    simp only [hp, hb1, hb2, (trimPrefix_blob U hhead).1, (trimPrefix_blob U hhead).2, and_self]
  have h12 : DecodeBlobHref b2 (str "/blob/" ++ T) = DecodeBlobHref b1 (str "/blob/" ++ T) := by
    rcases parseRooted_blob [] [] T with ⟨e, he⟩ | ⟨u, U, hu, hp, hU⟩
    · unfold DecodeBlobHref
      rw [hrel, he]
    · rw [(hbase u U hu hp hU).1, (hbase u U hu hp hU).2]
  refine ⟨hsame b1, ?_, h12, ?_, ?_⟩
  · rw [hsame b2, h12]
  · intro u hu
    rw [hrel] at hu
    rcases parseRooted_blob [] [] T with ⟨e, he⟩ | ⟨v, U, hv, hp, hU⟩
    · rw [he] at hu; cases hu
    · have huv : v = u := by
        rw [hv] at hu
        exact Except.ok.inj hu
      subst huv
      exact ⟨U, hp, (hbase v U hv hp hU).1⟩
  · intro b href bi h
    unfold DecodeBlobHref at h
    split at h
    · cases h
    · exact decodeToken_Href _ bi h

/-- C3, the token of the tests decodes to offset 100, size 64, perm 511 and
path `/tmp/file` in all four combinations. -/
theorem DecodeBlobHref_forms_witness :
    DecodeBlobHref { Path := str "/blob" }
        (str "http" ++ str "://" ++ str "localhost:58080" ++ str "/blob/"
          ++ str "eyJPIjoxMDAsIlMiOjY0LCJNIjo1MTEsIlAiOiIvdG1wL2ZpbGUifQ==")
      = DecodeBlobHref { Path := str "/blob" }
          (str "/blob/" ++ str "eyJPIjoxMDAsIlMiOjY0LCJNIjo1MTEsIlAiOiIvdG1wL2ZpbGUifQ==")
    ∧ DecodeBlobHref { Path := str "/blob/" }
        (str "http" ++ str "://" ++ str "localhost:58080" ++ str "/blob/"
          ++ str "eyJPIjoxMDAsIlMiOjY0LCJNIjo1MTEsIlAiOiIvdG1wL2ZpbGUifQ==")
      = DecodeBlobHref { Path := str "/blob" }
          (str "/blob/" ++ str "eyJPIjoxMDAsIlMiOjY0LCJNIjo1MTEsIlAiOiIvdG1wL2ZpbGUifQ==")
    ∧ DecodeBlobHref { Path := str "/blob/" }
        (str "/blob/" ++ str "eyJPIjoxMDAsIlMiOjY0LCJNIjo1MTEsIlAiOiIvdG1wL2ZpbGUifQ==")
      = DecodeBlobHref { Path := str "/blob" }
          (str "/blob/" ++ str "eyJPIjoxMDAsIlMiOjY0LCJNIjo1MTEsIlAiOiIvdG1wL2ZpbGUifQ==")
    ∧ DecodeBlobHref { Path := str "/blob" }
        (str "/blob/" ++ str "eyJPIjoxMDAsIlMiOjY0LCJNIjo1MTEsIlAiOiIvdG1wL2ZpbGUifQ==")
      = .ok { Offset := 100, Size := 64, Perm := 511, Path := str "/tmp/file", Href := [] } :=
  have h := DecodeBlobHref_forms { Path := str "/blob" } { Path := str "/blob/" } (str "http")
    (str "localhost:58080") (str "localhost:58080")
    (str "eyJPIjoxMDAsIlMiOjY0LCJNIjo1MTEsIlAiOiIvdG1wL2ZpbGUifQ==")
    rfl rfl (by decide) (by decide) (by decide) (by decide) (by decide)
  ⟨h.1, h.2.1, h.2.2.1, rfl⟩

end Nomad
namespace Nomad

/-! ### The bytes of a token -/

theorem decDigits_digits (fuel n : Nat) : ∀ b ∈ decDigits fuel n, 48 ≤ b ∧ b ≤ 57 := by
  induction fuel generalizing n with
  | zero => simp [decDigits]
  | succ f ih =>
    intro b hb
    simp only [decDigits] at hb
    split at hb
    · simp only [List.mem_singleton] at hb
      omega
    · rcases List.mem_append.1 hb with h | h
      · exact ih _ b h
      · simp only [List.mem_singleton] at h
        omega

theorem formatInt_bytes (x : Int) : ∀ b ∈ formatInt x, 45 ≤ b ∧ b ≤ 57 := by
  intro b hb
  unfold formatInt formatNat at hb
  split at hb
  · rcases List.mem_cons.1 hb with h | h
    · omega
    · have := decDigits_digits _ _ b h
      omega
  · have := decDigits_digits _ _ b hb
    omega

theorem hexDigit_lt (v : Nat) (h : v < 16) : 48 ≤ hexDigit v ∧ hexDigit v < 103 := by
  unfold hexDigit
  split <;> omega

theorem jsonEscapeByte_bytes (b : Nat) (hb : b < 0x80) : ∀ x ∈ jsonEscapeByte b, x < 128 := by
  intro x hx
  have h1 := hexDigit_lt (b / 16) (by omega)
  have h2 := hexDigit_lt (b % 16) (by omega)
  unfold jsonEscapeByte at hx
  split_ifs at hx <;> simp at hx <;> omega

theorem acceptHi_le (b : Nat) : acceptHi b ≤ 0xBF := by
  unfold acceptHi
  split_ifs <;> omega

/-- Unless it reports a malformed byte, `decodeRune` on a non-ASCII first byte
reads two to four bytes, each below `0xF5`. -/
theorem decodeRune_width (b : Nat) (rest : GoString) (hb : 0x80 ≤ b) :
    decodeRune (b :: rest) = (RuneError, 1)
    ∨ (2 ≤ (decodeRune (b :: rest)).2 ∧ (decodeRune (b :: rest)).2 ≤ 4
        ∧ ∀ x ∈ (b :: rest).take (decodeRune (b :: rest)).2, x < 245) := by
  have hb0 : ¬ b < 0x80 := by omega
  rcases rest with _ | ⟨b1, _ | ⟨b2, _ | ⟨b3, r⟩⟩⟩ <;>
    simp only [decodeRune, hb0, if_false] <;>
    split_ifs <;>
    first
      | (left; rfl)
      | (right
         refine ⟨by simp, by simp, ?_⟩
         intro x hx
         have h1 := acceptHi_le b
         simp only [isCont, Bool.not_eq_true', decide_eq_false_iff_not, not_and, not_le,
           not_or, not_lt, Classical.not_imp] at *
         simp at hx
         rcases hx with rfl | rfl | rfl | rfl <;> omega)

theorem jsonStringBody_bytes (fuel : Nat) (s : GoString) :
    ∀ x ∈ jsonStringBody fuel s, x < 245 := by
  induction fuel generalizing s with
  | zero => simp [jsonStringBody]
  | succ f ih =>
    cases s with
    | nil => simp [jsonStringBody]
    | cons b rest =>
      intro x hx
      rw [jsonStringBody] at hx
      split_ifs at hx with h1 h2
      · rcases List.mem_append.1 hx with h | h
        · simp only [List.mem_singleton] at h
          omega
        · exact ih _ x h
      · rcases List.mem_append.1 hx with h | h
        · have := jsonEscapeByte_bytes b h1 x h
          omega
        · exact ih _ x h
      · have hw := decodeRune_width b (rest.take 3) (by omega)
        have ht : (b :: rest).take 4 = b :: rest.take 3 := rfl
        rw [ht] at hx
        rcases hd : decodeRune (b :: rest.take 3) with ⟨c, size⟩
        rw [hd] at hx hw
        simp only at hx
        split_ifs at hx with h3 h4
        · rcases List.mem_append.1 hx with h | h
          · simp at h
            rcases h with rfl | rfl | rfl | rfl <;> omega
          · exact ih _ x h
        · rcases List.mem_append.1 hx with h | h
          · have := hexDigit_lt (c % 16) (by omega)
            simp at h
            rcases h with rfl | rfl | rfl | rfl | rfl | rfl <;> omega
          · exact ih _ x h
        · rcases List.mem_append.1 hx with h | h
          · rcases hw with hw | ⟨hw1, hw2, hw3⟩
            · exact absurd (by simpa using Prod.mk.inj hw) h3
            · apply hw3 x
              have h5 : (b :: rest).take size = (b :: rest.take 3).take size := by
                rw [← ht, List.take_take, Nat.min_eq_left hw2]
              rw [← h5]
              exact h
          · exact ih _ x h

theorem jsonMarshal_bytes (v : blobInfoHref) : ∀ x ∈ jsonMarshal v, x < 245 := by
  intro x hx
  unfold jsonMarshal jsonString at hx
  simp only [List.mem_append, List.mem_cons, List.mem_singleton, List.not_mem_nil,
    or_false] at hx
  have hO := formatInt_bytes v.O x
  have hS := formatInt_bytes v.S x
  have hM := decDigits_digits (v.M + 1) v.M x
  have hP := jsonStringBody_bytes v.P.length v.P x
  unfold formatNat at hx
  rcases hx with ((((((((h | h) | h) | h) | h) | h) | h) | h) | h)
  all_goals first
    | omega
    | exact Nat.lt_of_le_of_lt (hO h).2 (by decide)
    | exact Nat.lt_of_le_of_lt (hS h).2 (by decide)
    | exact Nat.lt_of_le_of_lt (hM h).2 (by decide)
    | (rcases h with h | h | h | h | h <;> omega)
    | (rcases h with (h | h) | h <;> first | omega | exact hP h)

theorem jsonMarshal_split (v : blobInfoHref) :
    ∃ body, jsonMarshal v = 123 :: (body ++ [125]) := by
  unfold jsonMarshal
  refine ⟨[34, 79, 34, 58] ++ formatInt v.O ++ [44, 34, 83, 34, 58] ++ formatInt v.S
    ++ [44, 34, 77, 34, 58] ++ formatNat v.M ++ [44, 34, 80, 34, 58] ++ jsonString v.P, ?_⟩
  simp

end Nomad
namespace Nomad

/-! ### Base64 text as a path -/

theorem b64Char_out (v : Nat) : b64OutChar (b64Char v) = true := by
  unfold b64Char b64OutChar isAlnum
  split_ifs <;> simp <;> omega

theorem b64Encode_out (bs : GoString) : ∀ c ∈ b64Encode bs, b64OutChar c = true := by
  induction bs using b64Encode.induct with
  | case1 => simp [b64Encode]
  | case2 a =>
    intro c hc
    simp only [b64Encode, List.mem_cons, List.mem_singleton, List.not_mem_nil, or_false] at hc
    rcases hc with rfl | rfl | rfl | rfl <;> first | exact b64Char_out _ | decide
  | case3 a b =>
    intro c hc
    simp only [b64Encode, List.mem_cons, List.mem_singleton, List.not_mem_nil, or_false] at hc
    rcases hc with rfl | rfl | rfl | rfl <;> first | exact b64Char_out _ | decide
  | case4 a b c rest ih =>
    intro x hx
    simp only [b64Encode, List.mem_cons] at hx
    rcases hx with rfl | rfl | rfl | rfl | h
    · exact b64Char_out _
    · exact b64Char_out _
    · exact b64Char_out _
    · exact b64Char_out _
    · exact ih x h

theorem b64Char_ne_slash (v : Nat) (h : v < 63) : b64Char v ≠ slash := by
  unfold b64Char slash
  split_ifs <;> omega

theorem okTok_head (t : GoString) (h : okTok t = true) : ∃ c r, t = c :: r ∧ c ≠ slash := by
  rcases t with _ | ⟨c, _ | ⟨d, r⟩⟩
  · simp [okTok] at h
  · exact ⟨c, [], rfl, by simpa [okTok] using h⟩
  · simp only [okTok, Bool.and_eq_true, decide_eq_true_eq] at h
    exact ⟨c, d :: r, rfl, h.1⟩

theorem okTok_cons (c : Nat) (t : GoString) (hc : c ≠ slash) (h : okTok t = true) :
    okTok (c :: t) = true := by
  obtain ⟨d, r, rfl, hd⟩ := okTok_head t h
  simp [okTok, hc, hd, h]

theorem okTok_cons_slash (c : Nat) (t : GoString) (hc : c ≠ slash) (h : okTok t = true) :
    okTok (c :: slash :: t) = true := by
  simp [okTok, hc, h]

theorem okTok_cons_any (c d : Nat) (t : GoString) (hc : c ≠ slash) (h : okTok t = true) :
    okTok (c :: d :: t) = true := by
  by_cases hd : d = slash
  · subst hd; exact okTok_cons_slash c t hc h
  · exact okTok_cons c _ hc (okTok_cons d t hd h)

/-- The base64 text of bytes below 252 that do not end in a byte with the low
six bits set has no empty path element. -/
theorem okTok_b64Encode (bs : GoString) (hne : bs ≠ []) (hb : ∀ b ∈ bs, b < 252)
    (hlast : ∀ b, bs.getLast? = some b → b % 64 ≠ 63) : okTok (b64Encode bs) = true := by
  induction bs using b64Encode.induct with
  | case1 => exact absurd rfl hne
  | case2 a =>
    have ha := hb a (by simp)
    have h1 := b64Char_ne_slash (a / 4) (by omega)
    have h2 := b64Char_ne_slash (a % 4 * 16) (by omega)
    simp only [slash] at h1 h2
    simp [b64Encode, okTok, h1, h2, slash, b64Pad]
  | case3 a b =>
    have ha := hb a (by simp)
    have hb2 := hb b (by simp)
    have h1 := b64Char_ne_slash (a / 4) (by omega)
    have h3 := b64Char_ne_slash (b % 16 * 4) (by omega)
    have h4 : okTok [b64Char (b % 16 * 4), b64Pad] = true := by
      have h5 := h3
      simp only [slash] at h5
      simp [okTok, h5, slash, b64Pad]
    simp only [b64Encode]
    exact okTok_cons_any _ _ _ h1 h4
  | case4 a b c rest ih =>
    have ha := hb a (by simp)
    have hb2 := hb b (by simp)
    have hc := hb c (by simp)
    have h1 := b64Char_ne_slash (a / 4) (by omega)
    simp only [b64Encode]
    -- the text after the third character
    have htail : (b64Char (c % 64) ≠ slash ∧ okTok (b64Char (c % 64) :: b64Encode rest) = true)
        ∨ (b64Char (c % 64) = slash ∧ okTok (b64Encode rest) = true ∧ c % 64 = 63) := by
      by_cases hr : rest = []
      · subst hr
        have hl := hlast c (by simp)
        have h4 := b64Char_ne_slash (c % 64) (by omega)
        left
        exact ⟨h4, by simp [b64Encode, okTok, h4]⟩
      · have hrest := ih hr (fun x hx => hb x (by simp [hx]))
          (fun x hx => hlast x (by
            rw [← hx]
            rcases rest with _ | ⟨r0, rs⟩
            · exact absurd rfl hr
            · simp [List.getLast?_cons_cons]))
        by_cases h4 : b64Char (c % 64) = slash
        · right
          refine ⟨h4, hrest, ?_⟩
          by_contra hcon
          exact b64Char_ne_slash (c % 64) (by omega) h4
        · left
          exact ⟨h4, okTok_cons _ _ h4 hrest⟩
    by_cases h3 : b64Char (b % 16 * 4 + c / 64) = slash
    · have hv3 : ¬ b % 16 * 4 + c / 64 < 63 := fun h => b64Char_ne_slash _ h h3
      have h2 := b64Char_ne_slash (a % 4 * 16 + b / 16) (by omega)
      rcases htail with ⟨h4, hok⟩ | ⟨h4, hok, hc63⟩
      · rw [h3]
        exact okTok_cons _ _ h1 (okTok_cons_slash _ _ h2 hok)
      · omega
    · rcases htail with ⟨h4, hok⟩ | ⟨h4, hok, hc63⟩
      · exact okTok_cons_any _ _ _ h1 (okTok_cons _ _ h3 hok)
      · rw [h4]
        exact okTok_cons_any _ _ _ h1 (okTok_cons_slash _ _ h3 hok)

end Nomad
namespace Nomad

theorem okTok_form (t : GoString) (h : okTok t = true) (hdot : dot ∉ t) :
    ∃ ts, ts ≠ [] ∧ (∀ e ∈ ts, Normal e) ∧ t = joinSlash ts := by
  induction t using okTok.induct with
  | case1 => simp [okTok] at h
  | case2 c =>
    have hc : c ≠ slash := by simpa [okTok] using h
    have hd : c ≠ dot := fun h1 => hdot (by simp [h1])
    refine ⟨[[c]], by simp, ?_, rfl⟩
    intro e he
    simp only [List.mem_singleton] at he
    subst he
    refine ⟨by simp, by simpa using hd, by simp [dotdot], by simpa using hc.symm⟩
  | case3 c d rest ih1 ih2 =>
    have hd : c ≠ dot := fun h1 => hdot (by simp [h1])
    by_cases hds : d = slash
    · subst hds
      simp only [okTok, if_true, Bool.and_eq_true, decide_eq_true_eq] at h
      obtain ⟨ts, hts, hn, hr⟩ := ih1 h.2 (fun hx => hdot (by simp [hx]))
      refine ⟨[c] :: ts, by simp, ?_, ?_⟩
      · intro e he
        rcases List.mem_cons.1 he with h1 | h1
        · subst h1
          exact ⟨by simp, by simpa using hd, by simp [dotdot], by simpa using h.1.symm⟩
        · exact hn e h1
      · rw [joinSlash_cons _ _ hts, ← hr]
        rfl
    · simp only [okTok, hds, if_false, Bool.and_eq_true, decide_eq_true_eq] at h
      obtain ⟨ts, hts, hn, hr⟩ := ih2 h.2 (fun hx => hdot (List.mem_cons_of_mem _ hx))
      rcases ts with _ | ⟨e, es⟩
      · exact absurd rfl hts
      · obtain ⟨he1, he2, he3, he4⟩ := hn e (List.mem_cons_self _ _)
        have hce : Normal (c :: e) := by
          refine ⟨by simp, ?_, ?_, ?_⟩
          · intro h1
            exact he1 (List.cons.inj h1).2
          · intro h1
            exact hd (List.cons.inj h1).1
          · intro h1
            rcases List.mem_cons.1 h1 with h2 | h2
            · exact h.1 h2.symm
            · exact he4 h2
        refine ⟨(c :: e) :: es, by simp, ?_, ?_⟩
        · intro x hx
          rcases List.mem_cons.1 hx with h1 | h1
          · subst h1; exact hce
          · exact hn x (List.mem_cons_of_mem _ h1)
        · cases es with
          | nil =>
            simp only [joinSlash] at hr ⊢
            rw [hr]
          | cons e1 es1 =>
            rw [joinSlash_cons _ _ (by simp)] at hr ⊢
            rw [List.cons_append, ← hr]

/-- The token of a blob is a path of normal elements. -/
theorem token_form (v : blobInfoHref) :
    ∃ ts, ts ≠ [] ∧ (∀ e ∈ ts, Normal e) ∧ b64Encode (jsonMarshal v) = joinSlash ts := by
  apply okTok_form
  · obtain ⟨body, hbody⟩ := jsonMarshal_split v
    apply okTok_b64Encode
    · rw [hbody]; simp
    · intro b hb
      have := jsonMarshal_bytes v b hb
      omega
    · intro b hb
      rw [hbody] at hb
      have h1 : (123 :: (body ++ [125])).getLast? = some 125 := by
        rw [← List.cons_append, List.getLast?_append]
        simp
      rw [h1] at hb
      cases hb
      decide
  · intro h
    have := b64Encode_out _ dot h
    exact absurd this (by decide)

theorem Clean_root_slashes_join (es ps : List GoString) (hes : ∀ e ∈ es, Normal e)
    (hps : ∀ e ∈ ps, Normal e) (hne : ps ≠ []) :
    Clean ((slash :: joinSlash es) ++ slash :: slash :: joinSlash ps)
      = slash :: joinSlash (es ++ ps) := by
  rw [List.cons_append, Clean_rooted_unfold, splitSlash_cons_slash, cleanElems_skip_empty,
    splitSlash_append_slash, splitSlash_cons_slash,
    splitSlash_joinSlash ps hne (fun x hx => (hps x hx).2.2.2)]
  have hall : ∀ e ∈ es ++ ps, Normal e := by
    intro e he
    rcases List.mem_append.1 he with h | h
    · exact hes e h
    · exact hps e h
  cases es with
  | nil =>
    have h0 : splitSlash (joinSlash []) = [[]] := rfl
    rw [h0, List.singleton_append, cleanElems_skip_empty, cleanElems_skip_empty,
      cleanElems_normal _ _ _ hps]
    simp
  | cons e es1 =>
    rw [splitSlash_joinSlash _ (by simp) (fun x hx => (hes x hx).2.2.2),
      cleanElems_append, cleanElems_normal _ _ _ hes]
    simp only [List.reverse_nil, List.nil_append, List.reverse_reverse]
    rw [cleanElems_skip_empty, cleanElems_normal _ _ _ hps]
    simp

end Nomad
namespace Nomad

/-! ### `EncodeBlobHref` -/

theorem escape_id (s : GoString) (mode : Encoding)
    (h : ∀ c ∈ s, shouldEscape c mode = false) : escape s mode = s := by
  induction s with
  | nil => rfl
  | cons c cs ih =>
    have hc := h c (List.mem_cons_self _ _)
    have hcs := ih (fun x hx => h x (List.mem_cons_of_mem _ hx))
    unfold escape at hcs ⊢
    simp only [List.flatMap_cons, hc, Bool.false_eq_true, if_false, hcs, List.singleton_append]

theorem unescape_id (s : GoString) (h : ∀ c ∈ s, c ≠ 37) :
    unescape Encoding.path s = some s := by
  induction s with
  | nil => simp [unescape]
  | cons c cs ih =>
    rw [unescape_path_cons c cs (h c (List.mem_cons_self _ _)),
      ih (fun x hx => h x (List.mem_cons_of_mem _ hx))]
    rfl

theorem shouldEscape_ne_percent (c : Nat) (h : shouldEscape c Encoding.path = false) : c ≠ 37 := by
  intro hc
  subst hc
  exact absurd h (by decide)

theorem b64OutChar_safe (c : Nat) (h : b64OutChar c = true) :
    shouldEscape c Encoding.path = false := by
  simp only [b64OutChar, Bool.or_eq_true, decide_eq_true_eq] at h
  rcases h with h | h | h | h
  · simp only [shouldEscape, h, if_true]
  · subst h; decide
  · subst h; decide
  · subst h; decide

theorem hasSuffix_slash (s : GoString) :
    hasSuffix s [slash] = true ↔ s.getLast? = some slash := by
  unfold hasSuffix
  rw [← List.head?_reverse]
  cases s.reverse with
  | nil => simp [List.isPrefixOf]
  | cons c cs =>
    simp only [List.reverse_cons, List.reverse_nil, List.nil_append, List.isPrefixOf,
      Bool.and_true, beq_iff_eq, List.head?_cons, Option.some.injEq]
    exact eq_comm

theorem joinSlash_getLast (ts : List GoString) (hne : ts ≠ []) (h : ∀ e ∈ ts, Normal e) :
    (joinSlash ts).getLast? ≠ some slash := by
  induction ts with
  | nil => exact absurd rfl hne
  | cons e es ih =>
    obtain ⟨he1, _, _, he4⟩ := h e (List.mem_cons_self _ _)
    cases es with
    | nil =>
      intro hl
      simp only [joinSlash] at hl
      exact he4 (List.mem_of_getLast?_eq_some hl)
    | cons e1 es1 =>
      rw [joinSlash_cons _ _ (by simp)]
      have h2 := ih (by simp) (fun x hx => h x (List.mem_cons_of_mem _ hx))
      have h3 : joinSlash (e1 :: es1) ≠ [] :=
        joinSlash_ne_nil _ (by simp) (fun x hx => h x (List.mem_cons_of_mem _ hx))
      rw [List.getLast?_append_of_ne_nil _ (by simp)]
      rcases hj : joinSlash (e1 :: es1) with _ | ⟨x, xs⟩
      · exact absurd hj h3
      · rw [hj] at h2
        rw [List.getLast?_cons_cons]
        exact h2

/-- The text of a URL `scheme://host/path` whose path needs no escaping. -/
theorem String_plain (u : URL) (hO : u.Opaque = []) (hQ : u.RawQuery = [])
    (hF : u.Fragment = []) (hH : u.Host ≠ [])
    (hesc : ∀ c ∈ u.Path, shouldEscape c Encoding.path = false) :
    u.String = (if u.Scheme ≠ [] then u.Scheme ++ [58] else []) ++ [slash, slash]
      ++ escape u.Host Encoding.host
      ++ (if u.Path ≠ [] ∧ u.Path.head? ≠ some slash then [slash] else []) ++ u.Path := by
  have hstar : u.Path ≠ [42] := by
    intro h
    have := hesc 42 (by simp [h])
    exact absurd this (by decide)
  have hep : u.EscapedPath = u.Path := by
    unfold URL.EscapedPath
    rw [if_neg hstar, escape_id _ _ hesc]
  unfold URL.String
  simp only [hO, hQ, hF, hep, ne_eq, not_true_eq_false, if_false, hH, not_false_eq_true, or_true,
    true_or, if_true, and_true, List.append_nil]
  simp

end Nomad
namespace Nomad

theorem str_blob_elem : str "blob" = [98, 108, 111, 98] := by decide

theorem Normal_blob : Normal (str "blob") := by
  rw [str_blob_elem]
  refine ⟨by simp, by simp [dot], by simp [dotdot], by simp [slash]⟩

/-- The path that `JoinPath("blob", token)` computes from an escaped base
path: empty, a cleaned rooted path, or such a path with a trailing separator. -/
theorem Join_blob (es ts : List GoString) (hes : ∀ e ∈ es, Normal e) (hts : ∀ e ∈ ts, Normal e)
    (hne : ts ≠ []) :
    Join [slash :: joinSlash es, str "blob", joinSlash ts]
        = slash :: joinSlash (es ++ str "blob" :: ts)
    ∧ Join [(slash :: joinSlash es) ++ [slash], str "blob", joinSlash ts]
        = slash :: joinSlash (es ++ str "blob" :: ts) := by
  have hps : ∀ e ∈ str "blob" :: ts, Normal e := by
    intro e he
    rcases List.mem_cons.1 he with h | h
    · subst h; exact Normal_blob
    · exact hts e h
  have hj : joinSlash [str "blob", joinSlash ts] = joinSlash (str "blob" :: ts) := by
    rw [joinSlash_cons _ ts hne]
    rfl
  constructor
  · have h1 : joinSlash [slash :: joinSlash es, str "blob", joinSlash ts]
        = (slash :: joinSlash es) ++ slash :: joinSlash (str "blob" :: ts) := by
      rw [joinSlash_cons _ _ (by simp), hj]
    simp only [Join, reduceCtorEq, if_false, h1]
    exact Clean_root_slash_join es _ hes hps (by simp)
  · have h1 : joinSlash [(slash :: joinSlash es) ++ [slash], str "blob", joinSlash ts]
        = (slash :: joinSlash es) ++ slash :: slash :: joinSlash (str "blob" :: ts) := by
      rw [joinSlash_cons _ _ (by simp), hj]
      simp
    have h2 : (slash :: joinSlash es) ++ [slash] ≠ [] := by simp
    simp only [Join, h2, if_false, h1]
    exact Clean_root_slashes_join es _ hes hps (by simp)

theorem blob_path_safe (R tok : GoString) (hR : ∀ c ∈ R, shouldEscape c Encoding.path = false)
    (hout : ∀ c ∈ tok, b64OutChar c = true) :
    ∀ c ∈ R ++ str "/blob/" ++ tok, shouldEscape c Encoding.path = false := by
  intro c hc
  rw [str_blob] at hc
  simp only [List.mem_append, List.mem_cons, List.mem_singleton, List.not_mem_nil,
    or_false] at hc
  rcases hc with (h | h) | h
  · exact hR c h
  · rcases h with rfl | rfl | rfl | rfl | rfl | rfl <;> decide
  · exact b64OutChar_safe c (hout c h)

theorem setPath_safe (u : URL) (p : GoString)
    (h : ∀ c ∈ p, shouldEscape c Encoding.path = false) : u.setPath p = { u with Path := p } := by
  unfold URL.setPath
  rw [unescape_id p (fun c hc => shouldEscape_ne_percent c (h c hc))]

theorem EscapedPath_safe (u : URL) (h : ∀ c ∈ u.Path, shouldEscape c Encoding.path = false) :
    u.EscapedPath = u.Path := by
  have hstar : u.Path ≠ [42] := by
    intro h1
    have := h 42 (by simp [h1])
    exact absurd this (by decide)
  unfold URL.EscapedPath
  rw [if_neg hstar, escape_id _ _ h]

theorem JoinPath_no_trailing (u : URL) (a tok : GoString)
    (hlast : hasSuffix tok [slash] = false) :
    u.JoinPath [a, tok]
      = u.setPath (if u.EscapedPath.head? ≠ some slash
          then (Join ((slash :: u.EscapedPath) :: [a, tok])).drop 1
          else Join (u.EscapedPath :: [a, tok])) := by
  have hl : (u.EscapedPath :: [a, tok]).getLast! = tok := rfl
  unfold URL.JoinPath
  simp only [hl, hlast, Bool.false_eq_true, false_and, if_false]

/-- `JoinPath("blob", token)` on a base whose path is `R` or `R/`, with `R`
empty or a cleaned rooted path other than the root. -/
theorem JoinPath_blob (base : URL) (R : GoString) (ts : List GoString)
    (hts : ∀ e ∈ ts, Normal e) (hne : ts ≠ [])
    (hout : ∀ c ∈ joinSlash ts, b64OutChar c = true)
    (hR : R = [] ∨ (R.head? = some slash ∧ Clean R = R ∧ R ≠ [slash]))
    (hP : base.Path = R ∨ base.Path = R ++ [slash])
    (hesc : ∀ c ∈ base.Path, shouldEscape c Encoding.path = false) :
    base.JoinPath [str "blob", joinSlash ts]
      = { base with
          Path := ((if base.Path = [] then [] else R ++ [slash]) ++ str "blob"
            ++ slash :: joinSlash ts) } := by
  have hRsafe : ∀ c ∈ R, shouldEscape c Encoding.path = false := by
    intro c hc
    rcases hP with h | h
    · exact hesc c (h ▸ hc)
    · exact hesc c (by rw [h]; exact List.mem_append_left _ hc)
  have hlast : hasSuffix (joinSlash ts) [slash] = false := by
    rw [Bool.eq_false_iff]
    intro h
    exact joinSlash_getLast ts hne hts ((hasSuffix_slash _).1 h)
  have hsafe := blob_path_safe R (joinSlash ts) hRsafe hout
  have hsafe0 := blob_path_safe [] (joinSlash ts) (by simp) hout
  have hjb : joinSlash (str "blob" :: ts) = str "blob" ++ slash :: joinSlash ts :=
    joinSlash_cons _ ts hne
  have hs0 : ∀ c ∈ str "blob" ++ slash :: joinSlash ts,
      shouldEscape c Encoding.path = false := by
    intro c hc
    apply hsafe0 c
    rw [str_blob]
    rw [str_blob_elem] at hc
    simp only [List.nil_append, List.cons_append, List.mem_cons, List.mem_append] at hc ⊢
    tauto
  have hs1 : ∀ c ∈ slash :: (str "blob" ++ slash :: joinSlash ts),
      shouldEscape c Encoding.path = false := by
    intro c hc
    rcases List.mem_cons.1 hc with h | h
    · subst h; decide
    · exact hs0 c h
  rw [JoinPath_no_trailing base _ _ hlast, EscapedPath_safe base hesc]
  rcases hR with hR0 | ⟨hR1, hR2, hR3⟩
  · subst hR0
    have hj := (Join_blob [] ts (by simp) hts hne).1
    simp only [joinSlash, List.nil_append, hjb] at hj
    rcases hP with h | h
    · -- empty base path
      simp only [h, List.head?_nil, ne_eq, reduceCtorEq, not_false_eq_true, if_true, hj,
        List.drop_succ_cons, List.drop_zero, List.nil_append]
      rw [setPath_safe _ _ hs0]
    · -- the root as base path
      simp only [List.nil_append] at h
      simp only [h, List.head?_cons, ne_eq, not_true_eq_false, if_false, hj, reduceCtorEq,
        List.nil_append]
      rw [setPath_safe _ _ hs1]
      rfl
  · obtain ⟨es, hes, rfl⟩ := Clean_rooted_form R hR1 hR2
    have hes0 : es ≠ [] := by
      intro h
      subst h
      exact hR3 rfl
    have hpath : slash :: joinSlash (es ++ str "blob" :: ts)
        = (slash :: joinSlash es) ++ [slash] ++ str "blob" ++ slash :: joinSlash ts := by
      rw [joinSlash_append es _ hes0 (by simp), hjb]
      simp
    have hj1 := (Join_blob es ts hes hts hne).1
    have hj2 := (Join_blob es ts hes hts hne).2
    have hsafe2 : ∀ c ∈ (slash :: joinSlash es) ++ [slash] ++ str "blob" ++ slash :: joinSlash ts,
        shouldEscape c Encoding.path = false := by
      intro c hc
      apply hsafe c
      rw [str_blob]
      rw [str_blob_elem] at hc
      simp only [List.cons_append, List.nil_append, List.mem_cons, List.mem_append,
        List.append_assoc] at hc ⊢
      tauto
    have hpne : base.Path ≠ [] := by
      rcases hP with h | h <;> rw [h] <;> simp
    have hhead : base.Path.head? = some slash := by
      rcases hP with h | h <;> rw [h] <;> simp
    simp only [hhead, ne_eq, not_true_eq_false, if_false, hpne]
    rcases hP with h | h
    · rw [h, hj1, hpath, setPath_safe _ _ hsafe2]
    · rw [h, hj2, hpath, setPath_safe _ _ hsafe2]

end Nomad
namespace Nomad

set_option maxRecDepth 100000 in
/-- C2, the claim fails for a base whose path is not clean: `JoinPath` cleans
the joined path, so for the base `http://localhost:58080/a/../b` the href is
`http://localhost:58080/b/blob/...`, which is not the base URL followed by
`/blob/` and the token. -/
theorem EncodeBlobHref_unclean_base :
    EncodeBlobHref { Scheme := str "http", Host := str "localhost:58080", Path := str "/a/../b" }
        { Offset := 100, Size := 64, Perm := 0o777, Path := str "/tmp/file" }
      = .ok (str "http://localhost:58080/b/blob/eyJPIjoxMDAsIlMiOjY0LCJNIjo1MTEsIlAiOiIvdG1wL2ZpbGUifQ==")
    ∧ URL.String { Scheme := str "http", Host := str "localhost:58080", Path := str "/a/../b" }
        = str "http://localhost:58080/a/../b"
    ∧ b64Encode (jsonMarshal ⟨100, 64, 0o777, str "/tmp/file"⟩)
        = str "eyJPIjoxMDAsIlMiOjY0LCJNIjo1MTEsIlAiOiIvdG1wL2ZpbGUifQ=="
    ∧ str "http://localhost:58080/b/blob/eyJPIjoxMDAsIlMiOjY0LCJNIjo1MTEsIlAiOiIvdG1wL2ZpbGUifQ=="
        ≠ str "http://localhost:58080/a/../b" ++ str "/blob/"
            ++ str "eyJPIjoxMDAsIlMiOjY0LCJNIjo1MTEsIlAiOiIvdG1wL2ZpbGUifQ==" :=
  ⟨rfl, rfl, rfl, by decide⟩

/-- The href of a blob on a base URL `scheme://host/path` whose path is `R` or
`R/`: the text of the base with path `R`, `/blob/` and the token. -/
theorem EncodeBlobHref_href (base : URL) (bi : BlobInfo) (R : GoString)
    (hO : base.Opaque = []) (hQ : base.RawQuery = []) (hF : base.Fragment = [])
    (hH : base.Host ≠ [])
    (hR : R = [] ∨ (R.head? = some slash ∧ Clean R = R ∧ R ≠ [slash]))
    (hP : base.Path = R ∨ base.Path = R ++ [slash])
    (hesc : ∀ c ∈ base.Path, shouldEscape c Encoding.path = false) :
    EncodeBlobHref base bi
      = .ok (URL.String { base with Path := R } ++ str "/blob/"
          ++ b64Encode (jsonMarshal ⟨bi.Offset, bi.Size, bi.Perm, bi.Path⟩)) := by
  obtain ⟨ts, hne, hts, htok⟩ := token_form ⟨bi.Offset, bi.Size, bi.Perm, bi.Path⟩
  have hout : ∀ c ∈ joinSlash ts, b64OutChar c = true := by
    rw [← htok]
    exact b64Encode_out _
  have hRsafe : ∀ c ∈ R, shouldEscape c Encoding.path = false := by
    intro c hc
    rcases hP with h | h
    · exact hesc c (h ▸ hc)
    · exact hesc c (by rw [h]; exact List.mem_append_left _ hc)
  have hXsafe : ∀ c ∈ (if base.Path = [] then [] else R ++ [slash]) ++ str "blob"
      ++ slash :: joinSlash ts, shouldEscape c Encoding.path = false := by
    intro c hc
    have hb := blob_path_safe R (joinSlash ts) hRsafe hout c
    rw [str_blob] at hb
    rw [str_blob_elem] at hc
    simp only [List.cons_append, List.nil_append, List.mem_cons, List.mem_append,
      List.append_assoc, List.mem_singleton, List.not_mem_nil, or_false] at hc hb
    rcases hc with h | h | h | h | h | h | h
    · split_ifs at h
      · simp at h
      · rcases List.mem_append.1 h with h1 | h1
        · exact hb (Or.inl h1)
        · simp only [List.mem_singleton] at h1
          exact hb (Or.inr (Or.inl h1))
    all_goals exact hb (by simp only [h, true_or, or_true])
  have hsR := String_plain { base with Path := R } hO hQ hF hH hRsafe
  have hsX := String_plain
    { base with Path := (if base.Path = [] then [] else R ++ [slash]) ++ str "blob"
        ++ slash :: joinSlash ts } hO hQ hF hH hXsafe
  unfold EncodeBlobHref
  simp only [htok]
  rw [JoinPath_blob base R ts hts hne hout hR hP hesc, hsX, hsR]
  simp only
  rcases hR with hR0 | ⟨hR1, _, _⟩
  · subst hR0
    rcases hP with h | h
    · rw [str_blob, str_blob_elem]
      simp [h, slash]
    · rw [str_blob, str_blob_elem]
      simp [h, slash]
  · rcases R with _ | ⟨r0, rs⟩
    · simp at hR1
    · have hpne : base.Path ≠ [] := by
        rcases hP with h | h <;> rw [h] <;> simp
      simp only [List.head?_cons, Option.some.injEq] at hR1
      subst hR1
      rw [str_blob, str_blob_elem]
      simp [hpne]

/-- C2, amended: for every blob and every base URL `scheme://host/path`
(non-empty host, no opaque part, query or fragment) whose path is `R` or `R/`,
with `R` empty or a clean absolute path, of characters that need no
percent-escaping, `EncodeBlobHref` returns the base URL with path `R` (the
base without its trailing separator) followed by `/blob/` and the
standard-alphabet, padded base64 of the compact JSON object with the keys `O`,
`S`, `M`, `P`. -/
theorem EncodeBlobHref_form (base : URL) (bi : BlobInfo) (R : GoString)
    (hO : base.Opaque = []) (hQ : base.RawQuery = []) (hF : base.Fragment = [])
    (hH : base.Host ≠ [])
    (hR : R = [] ∨ (R.head? = some slash ∧ Clean R = R ∧ R ≠ [slash]))
    (hP : base.Path = R ∨ base.Path = R ++ [slash])
    (hesc : ∀ c ∈ base.Path, shouldEscape c Encoding.path = false) :
    EncodeBlobHref base bi
      = .ok (URL.String { base with Path := R } ++ str "/blob/"
          ++ b64Encode (jsonMarshal ⟨bi.Offset, bi.Size, bi.Perm, bi.Path⟩))
    ∧ base.String = URL.String { base with Path := R } ++ (if base.Path = R then [] else [slash])
    ∧ jsonMarshal ⟨bi.Offset, bi.Size, bi.Perm, bi.Path⟩
        = [123, 34, 79, 34, 58] ++ formatInt bi.Offset ++ [44, 34, 83, 34, 58]
          ++ formatInt bi.Size ++ [44, 34, 77, 34, 58] ++ formatNat bi.Perm
          ++ [44, 34, 80, 34, 58] ++ jsonString bi.Path ++ [125] := by
  have hRsafe : ∀ c ∈ R, shouldEscape c Encoding.path = false := by
    intro c hc
    rcases hP with h | h
    · exact hesc c (h ▸ hc)
    · exact hesc c (by rw [h]; exact List.mem_append_left _ hc)
  have hsR := String_plain { base with Path := R } hO hQ hF hH hRsafe
  have hsB := String_plain base hO hQ hF hH hesc
  refine ⟨EncodeBlobHref_href base bi R hO hQ hF hH hR hP hesc, ?_, ?_⟩
  rotate_left 1
  · unfold jsonMarshal
    rfl
  · rw [hsB, hsR]
    simp only
    rcases hP with h | h
    · simp [h]
    · rcases hR with hR0 | ⟨hR1, _, _⟩
      · subst hR0
        simp [h]
      · rcases R with _ | ⟨r0, rs⟩
        · simp at hR1
        · simp only [List.head?_cons, Option.some.injEq] at hR1
          subst hR1
          simp [h]

set_option maxRecDepth 100000 in
/-- C2, the bases `http://localhost:58080` and `http://localhost:58080/` with
offset 100, size 64, perm 0777 and path `/tmp/file` give the same href. -/
theorem EncodeBlobHref_form_witness :
    EncodeBlobHref { Scheme := str "http", Host := str "localhost:58080" }
        { Offset := 100, Size := 64, Perm := 0o777, Path := str "/tmp/file" }
      = .ok (str "http://localhost:58080/blob/eyJPIjoxMDAsIlMiOjY0LCJNIjo1MTEsIlAiOiIvdG1wL2ZpbGUifQ==")
    ∧ EncodeBlobHref { Scheme := str "http", Host := str "localhost:58080", Path := str "/" }
        { Offset := 100, Size := 64, Perm := 0o777, Path := str "/tmp/file" }
      = .ok (str "http://localhost:58080/blob/eyJPIjoxMDAsIlMiOjY0LCJNIjo1MTEsIlAiOiIvdG1wL2ZpbGUifQ==") :=
  ⟨(EncodeBlobHref_form { Scheme := str "http", Host := str "localhost:58080" }
      { Offset := 100, Size := 64, Perm := 0o777, Path := str "/tmp/file" } []
      rfl rfl rfl (by decide) (Or.inl rfl) (Or.inl rfl) (by decide)).1.trans rfl,
   (EncodeBlobHref_form { Scheme := str "http", Host := str "localhost:58080", Path := str "/" }
      { Offset := 100, Size := 64, Perm := 0o777, Path := str "/tmp/file" } []
      rfl rfl rfl (by decide) (Or.inl rfl) (Or.inr rfl) (by decide)).1.trans rfl⟩

end Nomad

namespace Nomad

/-! ### Base64 round trip -/

theorem b64Val_b64Char (v : Nat) (h : v < 64) : b64Val (b64Char v) = some v := by
  unfold b64Char b64Val
  split_ifs <;> first | omega | (congr 1; omega)

theorem b64Char_ne_pad (v : Nat) : b64Char v ≠ b64Pad := by
  unfold b64Char b64Pad
  split_ifs <;> omega

theorem b64DecodeQuanta_encode (bs : GoString) (h : ∀ b ∈ bs, b < 256) :
    b64DecodeQuanta (b64Encode bs) = some bs := by
  induction bs using b64Encode.induct with
  | case1 => rfl
  | case2 a =>
    have ha := h a (by simp)
    simp only [b64Encode, b64DecodeQuanta, b64Val_b64Char (a / 4) (by omega),
      b64Val_b64Char (a % 4 * 16) (by omega), if_true, and_self]
    congr 2
    omega
  | case3 a b =>
    have ha := h a (by simp)
    have hb := h b (by simp)
    simp only [b64Encode, b64DecodeQuanta, b64Val_b64Char (a / 4) (by omega),
      b64Val_b64Char (a % 4 * 16 + b / 16) (by omega), b64Val_b64Char (b % 16 * 4) (by omega),
      b64Char_ne_pad, if_false, if_true]
    congr 2
    · omega
    · congr 1
      omega
  | case4 a b c rest ih =>
    have ha := h a (by simp)
    have hb := h b (by simp)
    have hc := h c (by simp)
    simp only [b64Encode, b64DecodeQuanta, b64Val_b64Char (a / 4) (by omega),
      b64Val_b64Char (a % 4 * 16 + b / 16) (by omega),
      b64Val_b64Char (b % 16 * 4 + c / 64) (by omega), b64Val_b64Char (c % 64) (by omega),
      b64Char_ne_pad, if_false, ih (fun x hx => h x (by simp [hx])), Option.map_some']
    congr 2
    · omega
    · congr 1
      · omega
      · congr 1
        omega

theorem b64Decode_encode (bs : GoString) (h : ∀ b ∈ bs, b < 256) :
    b64Decode (b64Encode bs) = some bs := by
  unfold b64Decode
  have hf : (b64Encode bs).filter (fun c => decide (c ≠ 10 ∧ c ≠ 13)) = b64Encode bs := by
    rw [List.filter_eq_self]
    intro c hc
    have := b64Encode_out bs c hc
    simp only [b64OutChar, isAlnum, Bool.or_eq_true, decide_eq_true_eq] at this
    simp only [decide_eq_true_eq]
    omega
  rw [hf]
  exact b64DecodeQuanta_encode bs h

end Nomad

namespace Nomad

/-! ### Numbers of the token -/

theorem decDigits_ne_nil (fuel n : Nat) (h : n < fuel) : decDigits fuel n ≠ [] := by
  cases fuel with
  | zero => omega
  | succ f =>
    simp only [decDigits]
    split <;> simp

theorem decDigits_isDigit (fuel n : Nat) : ∀ b ∈ decDigits fuel n, isDigit b = true := by
  intro b hb
  have := decDigits_digits fuel n b hb
  simp only [isDigit, decide_eq_true_eq]
  exact this

theorem decDigits_value (fuel n : Nat) (h : n < fuel) :
    (decDigits fuel n).foldl (fun a d => a * 10 + (d - 48)) 0 = n := by
  induction fuel generalizing n with
  | zero => omega
  | succ f ih =>
    simp only [decDigits]
    split
    · simp
    · rw [List.foldl_append, ih (n / 10) (by omega)]
      simp only [List.foldl_cons, List.foldl_nil]
      omega

theorem decDigits_head (fuel n : Nat) (h : n < fuel) (hn : 1 ≤ n) :
    ∃ d rest, decDigits fuel n = d :: rest ∧ d ≠ 48 ∧ 48 ≤ d ∧ d ≤ 57 := by
  induction fuel generalizing n with
  | zero => omega
  | succ f ih =>
    simp only [decDigits]
    split
    · exact ⟨48 + n, [], rfl, by omega, by omega, by omega⟩
    · obtain ⟨d, rest, hd, h1, h2, h3⟩ := ih (n / 10) (by omega) (by omega)
      exact ⟨d, rest ++ [48 + n % 10], by rw [hd]; rfl, h1, h2, h3⟩

theorem formatNat_zero : formatNat 0 = [48] := rfl

theorem parseDec_formatNat (n : Nat) : parseDec (formatNat n) = some n := by
  unfold parseDec formatNat
  have h1 := decDigits_ne_nil (n + 1) n (by omega)
  have h2 : (decDigits (n + 1) n).all isDigit = true := by
    rw [List.all_eq_true]
    exact decDigits_isDigit _ _
  simp only [ne_eq, h1, not_false_eq_true, h2, and_self, if_true,
    decDigits_value (n + 1) n (by omega)]

theorem spanDigits_append (ds rest : GoString) (c : Nat) (hds : ∀ b ∈ ds, isDigit b = true)
    (hc : isDigit c = false) : spanDigits (ds ++ c :: rest) = (ds, c :: rest) := by
  unfold spanDigits
  rw [List.span_eq_take_drop, List.takeWhile_append_of_pos hds,
    List.dropWhile_append_of_pos hds, List.takeWhile_cons_of_neg (by simp [hc]),
    List.dropWhile_cons_of_neg (by simp [hc])]
  simp

/-- A formatted natural number is read back as a JSON number literal. -/
theorem parseNumber_formatNat (n : Nat) (rest : GoString) :
    parseNumber (formatNat n ++ 44 :: rest) = some (formatNat n, 44 :: rest) := by
  have hds := decDigits_isDigit (n + 1) n
  have hne := decDigits_ne_nil (n + 1) n (by omega)
  have hsp := spanDigits_append (decDigits (n + 1) n) rest 44 hds (by decide)
  have hlead : ¬ ((decDigits (n + 1) n).head? = some 48 ∧ (decDigits (n + 1) n).length ≠ 1) := by
    intro ⟨h1, h2⟩
    rcases Nat.eq_zero_or_pos n with h0 | h0
    · subst h0
      exact h2 rfl
    · obtain ⟨d, r, hd, hd1, _, _⟩ := decDigits_head (n + 1) n (by omega) h0
      rw [hd] at h1
      simp only [List.head?_cons, Option.some.injEq] at h1
      exact hd1 h1
  obtain ⟨d, r, hd, _, hd2, hd3⟩ : ∃ d r, decDigits (n + 1) n = d :: r ∧ True ∧ 48 ≤ d ∧ d ≤ 57 := by
    rcases hdn : decDigits (n + 1) n with _ | ⟨d, r⟩
    · exact absurd hdn hne
    · have := decDigits_digits (n + 1) n d (by rw [hdn]; simp)
      exact ⟨d, r, rfl, trivial, this.1, this.2⟩
  have hd45 : d ≠ 45 := by omega
  unfold parseNumber formatNat
  rw [hd] at hsp hlead hne ⊢
  simp only [List.cons_append, hd45, if_false]
  rw [← List.cons_append, hsp]
  simp only [hne, hlead, or_self, if_false, List.nil_append]
  simp

/-- A formatted integer is read back as a JSON number literal. -/
theorem parseNumber_formatInt (x : Int) (rest : GoString) :
    parseNumber (formatInt x ++ 44 :: rest) = some (formatInt x, 44 :: rest) := by
  unfold formatInt
  split
  · have hds := decDigits_isDigit (x.natAbs + 1) x.natAbs
    have hne := decDigits_ne_nil (x.natAbs + 1) x.natAbs (by omega)
    have hsp := spanDigits_append (decDigits (x.natAbs + 1) x.natAbs) rest 44 hds (by decide)
    have hlead : ¬ ((decDigits (x.natAbs + 1) x.natAbs).head? = some 48
        ∧ (decDigits (x.natAbs + 1) x.natAbs).length ≠ 1) := by
      intro ⟨h1, h2⟩
      obtain ⟨d, r, hd, hd1, _, _⟩ := decDigits_head (x.natAbs + 1) x.natAbs (by omega) (by omega)
      rw [hd] at h1
      simp only [List.head?_cons, Option.some.injEq] at h1
      exact hd1 h1
    unfold parseNumber formatNat
    simp only [List.cons_append, if_true, hsp, hne, hlead, or_self, if_false]
    simp
  · exact parseNumber_formatNat x.natAbs rest

theorem parseInt64_formatInt (x : Int) (h1 : -2 ^ 63 ≤ x) (h2 : x < 2 ^ 63) :
    parseInt64 (formatInt x) = some x := by
  unfold formatInt
  split
  · rename_i hx
    simp only [parseInt64, if_true, parseDec_formatNat, Option.some_bind]
    have : x.natAbs ≤ 2 ^ 63 := by omega
    simp only [this, if_true, Option.some.injEq]
    omega
  · rename_i hx
    obtain ⟨d, r, hd, hd2⟩ : ∃ d r, formatNat x.natAbs = d :: r ∧ d ≠ 45 := by
      unfold formatNat
      rcases hdn : decDigits (x.natAbs + 1) x.natAbs with _ | ⟨d, r⟩
      · exact absurd hdn (decDigits_ne_nil _ _ (by omega))
      · have := decDigits_digits (x.natAbs + 1) x.natAbs d (by rw [hdn]; simp)
        exact ⟨d, r, rfl, by omega⟩
    have hp := parseDec_formatNat x.natAbs
    rw [hd] at hp ⊢
    simp only [parseInt64, hd2, if_false, hp, Option.some_bind]
    have : x.natAbs < 2 ^ 63 := by omega
    simp only [this, if_true, Option.some.injEq]
    omega

theorem parseUint32_formatNat (n : Nat) (h : n < 2 ^ 32) : parseUint32 (formatNat n) = some n := by
  have h1 : n < 4294967296 := h
  simp [parseUint32, parseDec_formatNat, h1]

end Nomad

namespace Nomad

/-! ### Strings of the token -/

theorem decodeRune_encodeRune (n : Nat) (hv : ValidScalar n) (h80 : 0x80 ≤ n)
    (rest : GoString) :
    decodeRune (encodeRune n ++ rest) = (n, (encodeRune n).length) := by
  unfold ValidScalar at hv
  have h1 : ¬ n < 0x80 := by omega
  by_cases h2 : n < 0x800
  · have hb0 : ¬ (0xC0 + n / 64 < 0x80) := by omega
    have hb1 : ¬ (0xC0 + n / 64 < 0xC2 ∨ 0xF4 < 0xC0 + n / 64) := by omega
    have hlo : acceptLo (0xC0 + n / 64) = 0x80 := by
      unfold acceptLo; split_ifs <;> omega
    have hhi : acceptHi (0xC0 + n / 64) = 0xBF := by
      unfold acceptHi; split_ifs <;> omega
    have hb2 : ¬ (0x80 + n % 64 < 0x80 ∨ 0xBF < 0x80 + n % 64) := by omega
    have hb3 : 0xC0 + n / 64 < 0xE0 := by omega
    simp only [encodeRune, h1, h2, if_false, if_true, List.cons_append, List.nil_append,
      decodeRune, hb0, hb1, hlo, hhi, hb2, hb3, List.length_cons, List.length_nil]
    congr 1
    omega
  · by_cases h3 : n < 0x10000
    · have hs : ¬ ((0xD800 ≤ n ∧ n < 0xE000) ∨ 0x10FFFF < n) := by omega
      have hb0 : ¬ (0xE0 + n / 4096 < 0x80) := by omega
      have hb1 : ¬ (0xE0 + n / 4096 < 0xC2 ∨ 0xF4 < 0xE0 + n / 4096) := by omega
      have hacc : ¬ (0x80 + n / 64 % 64 < acceptLo (0xE0 + n / 4096)
          ∨ acceptHi (0xE0 + n / 4096) < 0x80 + n / 64 % 64) := by
        unfold acceptLo acceptHi
        split_ifs <;> omega
      have hb3 : ¬ (0xE0 + n / 4096 < 0xE0) := by omega
      have hc2 : isCont (0x80 + n % 64) = true := by
        simp only [isCont, decide_eq_true_eq]; omega
      have hb4 : 0xE0 + n / 4096 < 0xF0 := by omega
      simp only [encodeRune, h1, h2, hs, h3, if_false, if_true, List.cons_append,
        List.nil_append, decodeRune, hb0, hb1, hacc, hb3, hc2, Bool.not_true, Bool.false_eq_true,
        hb4, List.length_cons, List.length_nil]
      congr 1
      omega
    · have hs : ¬ ((0xD800 ≤ n ∧ n < 0xE000) ∨ 0x10FFFF < n) := by omega
      have hb0 : ¬ (0xF0 + n / 262144 < 0x80) := by omega
      have hb1 : ¬ (0xF0 + n / 262144 < 0xC2 ∨ 0xF4 < 0xF0 + n / 262144) := by omega
      have hacc : ¬ (0x80 + n / 4096 % 64 < acceptLo (0xF0 + n / 262144)
          ∨ acceptHi (0xF0 + n / 262144) < 0x80 + n / 4096 % 64) := by
        unfold acceptLo acceptHi
        split_ifs <;> omega
      have hb3 : ¬ (0xF0 + n / 262144 < 0xE0) := by omega
      have hc2 : isCont (0x80 + n / 64 % 64) = true := by
        simp only [isCont, decide_eq_true_eq]; omega
      have hc3 : isCont (0x80 + n % 64) = true := by
        simp only [isCont, decide_eq_true_eq]; omega
      have hb4 : ¬ (0xF0 + n / 262144 < 0xF0) := by omega
      simp only [encodeRune, h1, h2, hs, h3, if_false, List.cons_append,
        List.nil_append, decodeRune, hb0, hb1, hacc, hb3, hc2, hc3, Bool.not_true,
        Bool.false_eq_true, hb4, List.length_cons, List.length_nil]
      congr 1
      omega

theorem encodeRune_shape (n : Nat) (h80 : 0x80 ≤ n) :
    ∃ b r, encodeRune n = b :: r ∧ 0x80 ≤ b ∧ r.length ≤ 3 ∧ 1 ≤ r.length := by
  unfold encodeRune
  split_ifs
  · omega
  · exact ⟨_, _, rfl, by omega, by simp, by simp⟩
  · exact ⟨_, _, rfl, by omega, by simp, by simp⟩
  · exact ⟨_, _, rfl, by omega, by simp, by simp⟩
  · exact ⟨_, _, rfl, by omega, by simp, by simp⟩

theorem encodeRune_ascii (n : Nat) (h : n < 0x80) : encodeRune n = [n] := by
  simp [encodeRune, h]

/-- One scalar value of a well-formed string through `json.Marshal`. -/
theorem jsonStringBody_scalar (f n : Nat) (hv : ValidScalar n) (rest : GoString) :
    jsonStringBody (f + 1) (encodeRune n ++ rest) = jsonCharOut n ++ jsonStringBody f rest := by
  by_cases h : n < 0x80
  · rw [encodeRune_ascii n h]
    simp only [List.singleton_append, jsonStringBody, h, if_true, jsonCharOut]
    rfl
  · obtain ⟨b, r, hbr, hb, hr3, hr1⟩ := encodeRune_shape n (by omega)
    have hd : decodeRune ((b :: (r ++ rest)).take 4) = (n, (encodeRune n).length) := by
      have h1 : (b :: (r ++ rest)).take 4 = encodeRune n ++ rest.take (3 - r.length) := by
        rw [hbr]
        simp only [List.take_succ_cons, List.cons_append, List.cons.injEq, true_and]
        rw [List.take_append_eq_append_take, List.take_of_length_le hr3]
      rw [h1]
      exact decodeRune_encodeRune n hv (by omega) _
    have hb0 : ¬ b < 0x80 := by omega
    rw [hbr, List.cons_append, jsonStringBody]
    simp only [hb0, if_false, hd]
    have hlen : (encodeRune n).length = r.length + 1 := by rw [hbr]; rfl
    have hne : ¬ (n = RuneError ∧ (encodeRune n).length = 1) := by
      rw [hlen]; omega
    have htake : (b :: (r ++ rest)).take (encodeRune n).length = b :: r := by
      rw [hlen]
      simp
    have hdrop : (r ++ rest).drop ((encodeRune n).length - 1) = rest := by
      rw [hlen]
      simp
    simp only [hne, if_false, htake, hdrop, jsonCharOut, h]
    split_ifs
    · rfl
    · rw [hbr]

end Nomad

namespace Nomad

theorem parseStringBody_ascii (f n : Nat) (h : n < 0x80) (tail : GoString) :
    parseStringBody (f + 1) (jsonCharOut n ++ tail)
      = (parseStringBody f tail).map (fun x => (encodeRune n ++ x.1, x.2)) := by
  interval_cases n <;> rfl

/-- What `json.Marshal` writes for one scalar value is read back as that
value, and takes one step of the reader. -/
theorem parseStringBody_scalar (f n : Nat) (hv : ValidScalar n) (tail : GoString) :
    parseStringBody (f + 1) (jsonCharOut n ++ tail)
      = (parseStringBody f tail).map (fun x => (encodeRune n ++ x.1, x.2)) := by
  by_cases h : n < 0x80
  · exact parseStringBody_ascii f n h tail
  · by_cases h2 : n = 0x2028 ∨ n = 0x2029
    · rcases h2 with h2 | h2 <;> subst h2 <;> rfl
    · obtain ⟨b, r, hbr, hb, hr3, hr1⟩ := encodeRune_shape n (by omega)
      have hd := decodeRune_encodeRune n hv (by omega) tail
      have hlen : (encodeRune n).length = r.length + 1 := by rw [hbr]; rfl
      simp only [jsonCharOut, h, h2, if_false]
      rw [hbr] at hd ⊢
      rw [List.cons_append] at hd ⊢
      have c1 : ¬ b = 34 := by omega
      have c2 : ¬ b < 0x20 := by omega
      have c3 : ¬ b = 92 := by omega
      have c4 : ¬ b < 0x80 := by omega
      simp only [parseStringBody, c1, c2, c3, c4, if_false, hd, List.length_cons,
        Nat.add_sub_cancel, List.drop_left]
      rw [hbr]

theorem jsonCharOut_ne_nil (n : Nat) : jsonCharOut n ≠ [] := by
  unfold jsonCharOut jsonEscapeByte encodeRune
  split_ifs <;> simp

theorem encodeRune_ne_nil (n : Nat) : encodeRune n ≠ [] := by
  unfold encodeRune
  split_ifs <;> simp

theorem jsonStringBody_chars (cs : List Char) (f : Nat) (h : cs.length ≤ f) :
    jsonStringBody f (cs.flatMap (fun c => encodeRune c.toNat))
      = cs.flatMap (fun c => jsonCharOut c.toNat) := by
  induction cs generalizing f with
  | nil => cases f <;> rfl
  | cons c cs ih =>
    obtain ⟨g, rfl⟩ : ∃ g, f = g + 1 := ⟨f - 1, by simp at h; omega⟩
    simp only [List.flatMap_cons]
    rw [jsonStringBody_scalar g c.toNat c.valid, ih g (by simpa using h)]

theorem flatMap_length_le (cs : List Char) (g : Nat → GoString) (hg : ∀ n, g n ≠ []) :
    cs.length ≤ (cs.flatMap (fun c => g c.toNat)).length := by
  induction cs with
  | nil => simp
  | cons c cs ih =>
    simp only [List.flatMap_cons, List.length_cons, List.length_append]
    have := List.length_pos.mpr (hg c.toNat)
    omega

theorem jsonString_chars (cs : List Char) :
    jsonString (cs.flatMap (fun c => encodeRune c.toNat))
      = 34 :: cs.flatMap (fun c => jsonCharOut c.toNat) ++ [34] := by
  unfold jsonString
  rw [jsonStringBody_chars cs _ (flatMap_length_le cs encodeRune encodeRune_ne_nil)]

theorem parseStringBody_chars (cs : List Char) (f : Nat) (h : cs.length + 1 ≤ f)
    (tail : GoString) :
    parseStringBody f (cs.flatMap (fun c => jsonCharOut c.toNat) ++ 34 :: tail)
      = some (cs.flatMap (fun c => encodeRune c.toNat), tail) := by
  induction cs generalizing f with
  | nil =>
    obtain ⟨g, rfl⟩ : ∃ g, f = g + 1 := ⟨f - 1, by simp at h; omega⟩
    rfl
  | cons c cs ih =>
    obtain ⟨g, rfl⟩ : ∃ g, f = g + 1 := ⟨f - 1, by omega⟩
    simp only [List.flatMap_cons, List.append_assoc]
    rw [parseStringBody_scalar g c.toNat c.valid, ih g (by simpa using h)]
    rfl

/-- A string literal written by `json.Marshal` for well-formed UTF-8 is read
back as the same string. -/
theorem parseValue_string (f : Nat) (cs : List Char) (tail : GoString) :
    parseValue (f + 1) (jsonString (cs.flatMap (fun c => encodeRune c.toNat)) ++ tail)
      = some (.str (cs.flatMap (fun c => encodeRune c.toNat)), tail) := by
  rw [jsonString_chars]
  simp only [List.cons_append, List.append_assoc, List.singleton_append]
  rw [parseValue]
  simp only [skipWs, show ¬ ((34 : Nat) = 32 ∨ (34 : Nat) = 9 ∨ (34 : Nat) = 13 ∨ (34 : Nat) = 10) by decide,
    show ¬ ((34 : Nat) = 123) by decide, show ¬ ((34 : Nat) = 91) by decide, if_false, if_true]
  have h := parseStringBody_chars cs
    ((cs.flatMap (fun c => jsonCharOut c.toNat) ++ 34 :: tail).length + 1)
    (by
      have := flatMap_length_le cs jsonCharOut jsonCharOut_ne_nil
      simp only [List.length_append, List.length_cons]
      omega) tail
  rw [List.nil_append, h]
  rfl

end Nomad

namespace Nomad

/-! ### The object of the token -/

theorem formatInt_head (x : Int) :
    ∃ c r, formatInt x = c :: r ∧ (c = 45 ∨ (48 ≤ c ∧ c ≤ 57)) := by
  unfold formatInt
  split
  · exact ⟨45, _, rfl, Or.inl rfl⟩
  · have hne := decDigits_ne_nil (x.natAbs + 1) x.natAbs (by omega)
    unfold formatNat
    rcases hd : decDigits (x.natAbs + 1) x.natAbs with _ | ⟨c, r⟩
    · exact absurd hd hne
    · refine ⟨c, r, rfl, Or.inr ?_⟩
      have := decDigits_isDigit (x.natAbs + 1) x.natAbs c (by rw [hd]; exact List.mem_cons_self _ _)
      simpa [isDigit] using this

theorem formatInt_ofNat (n : Nat) : formatInt (n : Int) = formatNat n := by
  unfold formatInt
  rw [if_neg (by omega)]
  rfl

/-- A number written by `json.Marshal` before a comma is read back as its
literal. -/
theorem parseValue_number (f : Nat) (x : Int) (rest : GoString) :
    parseValue (f + 1) (formatInt x ++ 44 :: rest) = some (.num (formatInt x), 44 :: rest) := by
  have hp := parseNumber_formatInt x rest
  obtain ⟨c, r, hcr, hc⟩ := formatInt_head x
  rw [hcr] at hp ⊢
  rw [List.cons_append] at hp ⊢
  rw [parseValue]
  have w : ¬ (c = 32 ∨ c = 9 ∨ c = 13 ∨ c = 10) := by omega
  have c1 : ¬ c = 123 := by omega
  have c2 : ¬ c = 91 := by omega
  have c3 : ¬ c = 34 := by omega
  have c4 : c = 45 ∨ isDigit c = true := by
    rcases hc with hc | hc
    · exact Or.inl hc
    · exact Or.inr (by simp only [isDigit, decide_eq_true_eq]; exact hc)
  simp only [skipWs, w, c1, c2, c3, c4, if_false, if_true, hp, Option.map_some']

theorem parseMembers_key (f k : Nat) (hk : k = 79 ∨ k = 83 ∨ k = 77 ∨ k = 80) (r : GoString) :
    parseMembers (f + 1) (34 :: k :: 34 :: 58 :: r)
      = match parseValue f r with
        | none => none
        | some (v, r3) =>
          match skipWs r3 with
          | [] => none
          | d :: r4 =>
            if d = 44 then (parseMembers f r4).map (fun x => (([k], v) :: x.1, x.2))
            else if d = 125 then some ([([k], v)], r4)
            else none := by
  rcases hk with hk | hk | hk | hk <;> subst hk <;> rfl

/-- The object that `json.Marshal` writes for a token is read back member by
member. -/
theorem parseValue_marshal (f : Nat) (v : blobInfoHref) (cs : List Char)
    (hP : v.P = cs.flatMap (fun c => encodeRune c.toNat)) :
    parseValue (f + 6) (jsonMarshal v)
      = some (.obj [([79], .num (formatInt v.O)), ([83], .num (formatInt v.S)),
          ([77], .num (formatNat v.M)), ([80], .str v.P)], []) := by
  unfold jsonMarshal
  simp only [List.cons_append, List.nil_append, List.append_assoc]
  rw [parseValue]
  simp only [skipWs, show ¬ ((123 : Nat) = 32 ∨ (123 : Nat) = 9 ∨ (123 : Nat) = 13 ∨ (123 : Nat) = 10) by decide,
    show ¬ ((34 : Nat) = 32 ∨ (34 : Nat) = 9 ∨ (34 : Nat) = 13 ∨ (34 : Nat) = 10) by decide,
    show ¬ ((34 : Nat) = 125) by decide, if_false, if_true]
  rw [parseMembers_key (f + 4) 79 (by decide), parseValue_number]
  simp only [skipWs, show ¬ ((44 : Nat) = 32 ∨ (44 : Nat) = 9 ∨ (44 : Nat) = 13 ∨ (44 : Nat) = 10) by decide,
    if_false, if_true]
  rw [parseMembers_key (f + 3) 83 (by decide), parseValue_number]
  simp only [skipWs, show ¬ ((44 : Nat) = 32 ∨ (44 : Nat) = 9 ∨ (44 : Nat) = 13 ∨ (44 : Nat) = 10) by decide,
    if_false, if_true]
  rw [parseMembers_key (f + 2) 77 (by decide), ← formatInt_ofNat, parseValue_number]
  simp only [skipWs, show ¬ ((44 : Nat) = 32 ∨ (44 : Nat) = 9 ∨ (44 : Nat) = 13 ∨ (44 : Nat) = 10) by decide,
    if_false, if_true]
  rw [parseMembers_key (f + 1) 80 (by decide), hP, parseValue_string]
  rfl

end Nomad

namespace Nomad

theorem jsonMarshal_length (v : blobInfoHref) : 5 ≤ (jsonMarshal v).length := by
  unfold jsonMarshal
  simp only [List.length_append, List.length_cons, List.length_nil]
  omega

/-- What `json.Marshal` writes for a token whose numbers are in range and
whose path is well-formed UTF-8 is what `json.Unmarshal` reads back. -/
theorem jsonUnmarshal_marshal (v : blobInfoHref) (hO1 : -2 ^ 63 ≤ v.O) (hO2 : v.O < 2 ^ 63)
    (hS1 : -2 ^ 63 ≤ v.S) (hS2 : v.S < 2 ^ 63) (hM : v.M < 2 ^ 32) (hP : ValidUTF8 v.P) :
    jsonUnmarshal (jsonMarshal v) = .ok v := by
  obtain ⟨cs, hcs⟩ := hP
  obtain ⟨f, hf⟩ : ∃ f, (jsonMarshal v).length + 1 = f + 6 :=
    ⟨(jsonMarshal v).length - 5, by have := jsonMarshal_length v; omega⟩
  have hparse : jsonParse (jsonMarshal v)
      = some (.obj [([79], .num (formatInt v.O)), ([83], .num (formatInt v.S)),
          ([77], .num (formatNat v.M)), ([80], .str v.P)]) := by
    unfold jsonParse
    rw [hf, parseValue_marshal f v cs hcs]
    rfl
  have e1 := parseInt64_formatInt v.O hO1 hO2
  have e2 := parseInt64_formatInt v.S hS1 hS2
  have e3 := parseUint32_formatNat v.M hM
  have f1 : findField [79] = some Field.O := by decide
  have f2 : findField [83] = some Field.S := by decide
  have f3 : findField [77] = some Field.M := by decide
  have f4 : findField [80] = some Field.P := by decide
  unfold jsonUnmarshal
  rw [hparse]
  simp only [storeMembers, storeMember, f1, f2, f3, f4, e1, e2, e3, Option.map_some']

end Nomad

namespace Nomad

/-! ### The round trip of a blob reference -/

theorem shouldEscape_path_props (c : Nat) (h : shouldEscape c Encoding.path = false) :
    c ≠ 35 ∧ c ≠ 63 ∧ c ≠ 37 ∧ ¬ c < 0x20 ∧ c ≠ 0x7f := by
  refine ⟨?_, ?_, ?_, ?_, ?_⟩
  · rintro rfl; exact absurd h (by decide)
  · rintro rfl; exact absurd h (by decide)
  · rintro rfl; exact absurd h (by decide)
  · intro hc
    interval_cases c <;> exact absurd h (by decide)
  · rintro rfl; exact absurd h (by decide)

theorem cut_absent (s : GoString) (sep : Nat) (h : sep ∉ s) : cut s sep = (s, []) := by
  unfold cut
  have h1 : s.takeWhile (fun c => decide (c ≠ sep)) = s := by
    rw [List.takeWhile_eq_self_iff]
    intro c hc
    simp only [decide_eq_true_eq]
    rintro rfl
    exact h hc
  have h2 : s.dropWhile (fun c => decide (c ≠ sep)) = [] := by
    rw [List.dropWhile_eq_nil_iff]
    intro c hc
    simp only [decide_eq_true_eq]
    rintro rfl
    exact h hc
  rw [h1, h2]
  rfl

/-- `parseRooted` of a path that needs no escaping is that path, without
query and fragment. -/
theorem parseRooted_plain (sc h tail : GoString)
    (hsafe : ∀ c ∈ tail, shouldEscape c Encoding.path = false) :
    parseRooted sc h tail
      = .ok { Scheme := sc, Host := h, Path := tail, RawQuery := [], Fragment := [] } := by
  have h35 : (35 : Nat) ∉ tail := fun hm => (shouldEscape_path_props 35 (hsafe 35 hm)).1 rfl
  have h63 : (63 : Nat) ∉ tail := fun hm => (shouldEscape_path_props 63 (hsafe 63 hm)).2.1 rfl
  have hctl : (tail.any fun c => decide (c < 0x20 ∨ c = 0x7f)) = false := by
    rw [Bool.eq_false_iff]
    intro hany
    obtain ⟨c, hc, hd⟩ := List.any_eq_true.1 hany
    have hp := shouldEscape_path_props c (hsafe c hc)
    simp only [decide_eq_true_eq] at hd
    rcases hd with hd | hd
    · exact hp.2.2.2.1 hd
    · exact hp.2.2.2.2 hd
  have hun : unescape Encoding.path tail = some tail :=
    unescape_id tail (fun c hc => (shouldEscape_path_props c (hsafe c hc)).2.2.1)
  unfold parseRooted
  simp only [cut_absent tail 35 h35, cut_absent tail 63 h63, hctl, Bool.false_eq_true, if_false,
    hun]
  rfl

theorem token_head (v : blobInfoHref) : ∃ r, b64Encode (jsonMarshal v) = 101 :: r := by
  unfold jsonMarshal
  exact ⟨_, rfl⟩

/-- The token of a blob whose numbers are in range and whose path is
well-formed UTF-8 decodes to the blob, with an empty `Href`. -/
theorem decodeToken_encode (bi : BlobInfo) (hO1 : -2 ^ 63 ≤ bi.Offset) (hO2 : bi.Offset < 2 ^ 63)
    (hS1 : -2 ^ 63 ≤ bi.Size) (hS2 : bi.Size < 2 ^ 63) (hM : bi.Perm < 2 ^ 32)
    (hP : ValidUTF8 bi.Path) :
    decodeToken (b64Encode (jsonMarshal ⟨bi.Offset, bi.Size, bi.Perm, bi.Path⟩))
      = .ok { Path := bi.Path, Offset := bi.Offset, Size := bi.Size, Perm := bi.Perm,
              Href := [] } := by
  unfold decodeToken
  rw [b64Decode_encode _ (fun b hb => Nat.lt_trans (jsonMarshal_bytes _ b hb) (by decide))]
  simp only
  rw [jsonUnmarshal_marshal ⟨bi.Offset, bi.Size, bi.Perm, bi.Path⟩ hO1 hO2 hS1 hS2 hM hP]

/-- The href of a blob on a base URL `scheme://host` or `scheme://host/`
decodes, under the base path `/blob` or `/blob/`, to the token. -/
theorem DecodeBlobHref_encoded (base pre : URL) (bi : BlobInfo)
    (hsch : base.Scheme ≠ []) (hlet : ∀ c ∈ base.Scheme, isLetter c = true)
    (hH : base.Host ≠ [])
    (hauth : ∀ c ∈ escape base.Host Encoding.host, authChar c = true)
    (hpa : parseAuthority (escape base.Host Encoding.host) ≠ none)
    (hOp : base.Opaque = []) (hQ : base.RawQuery = []) (hF : base.Fragment = [])
    (hBP : base.Path = [] ∨ base.Path = [slash])
    (hpre : pre.Path = str "/blob" ∨ pre.Path = str "/blob/") :
    ∃ href, EncodeBlobHref base bi = .ok href
      ∧ DecodeBlobHref pre href
        = decodeToken (b64Encode (jsonMarshal ⟨bi.Offset, bi.Size, bi.Perm, bi.Path⟩)) := by
  have hesc : ∀ c ∈ base.Path, shouldEscape c Encoding.path = false := by
    intro c hc
    rcases hBP with h | h
    · rw [h] at hc; cases hc
    · rw [h] at hc
      simp only [List.mem_singleton] at hc
      subst hc
      decide
  have henc := EncodeBlobHref_href base bi [] hOp hQ hF hH (Or.inl rfl)
    (by simpa using hBP) hesc
  refine ⟨_, henc, ?_⟩
  obtain ⟨host, hhost⟩ := Option.ne_none_iff_exists'.1 hpa
  have hstr := String_plain { base with Path := [] } hOp hQ hF hH (by simp)
  have hout := b64Encode_out (jsonMarshal ⟨bi.Offset, bi.Size, bi.Perm, bi.Path⟩)
  obtain ⟨r, hr⟩ := token_head ⟨bi.Offset, bi.Size, bi.Perm, bi.Path⟩
  generalize b64Encode (jsonMarshal ⟨bi.Offset, bi.Size, bi.Perm, bi.Path⟩) = tok at hout hr ⊢
  have hsafe : ∀ c ∈ str "/blob/" ++ tok, shouldEscape c Encoding.path = false :=
    blob_path_safe [] tok (by simp) hout
  have hhref : URL.String { base with Path := [] } ++ str "/blob/" ++ tok
      = base.Scheme ++ [58, slash, slash] ++ escape base.Host Encoding.host
        ++ slash :: ([98, 108, 111, 98, slash] ++ tok) := by
    rw [hstr, str_blob]
    simp [hsch]
  have hparse := Parse_absolute base.Scheme (escape base.Host Encoding.host) host
    ([98, 108, 111, 98, slash] ++ tok) hsch hlet hauth hhost
  have htail : slash :: ([98, 108, 111, 98, slash] ++ tok) = str "/blob/" ++ tok := by
    rw [str_blob]; rfl
  rw [htail] at hparse hhref
  have htrim := trimPrefix_blob tok (by rw [hr]; simp [slash])
  unfold DecodeBlobHref
  rw [hhref, hparse, parseRooted_plain _ _ _ hsafe]
  simp only
  rcases hpre with h | h
  · rw [h, htrim.1]
  · rw [h, htrim.2]

end Nomad

namespace Nomad

set_option maxRecDepth 100000 in
/-- C1, the claim fails for a path that is not well-formed UTF-8: the blob
with the path `/tmp/` and the byte `0xff` (no control character) on the base
`http://localhost:58080` has an href whose token is the JSON text with the
escape of U+FFFD for that byte, and the blob decoded from it under the base
path `/blob` has the path `/tmp/` and the three bytes of U+FFFD. -/
theorem blob_codec_invalid_utf8 :
    EncodeBlobHref { Scheme := str "http", Host := str "localhost:58080" }
        { Offset := 100, Size := 64, Perm := 0o777, Path := str "/tmp/" ++ [0xff] }
      = .ok (str "http://localhost:58080/blob/eyJPIjoxMDAsIlMiOjY0LCJNIjo1MTEsIlAiOiIvdG1wL1x1ZmZmZCJ9")
    ∧ DecodeBlobHref { Path := str "/blob" }
        (str "http://localhost:58080/blob/eyJPIjoxMDAsIlMiOjY0LCJNIjo1MTEsIlAiOiIvdG1wL1x1ZmZmZCJ9")
      = .ok { Offset := 100, Size := 64, Perm := 0o777,
              Path := str "/tmp/" ++ [0xef, 0xbf, 0xbd], Href := [] }
    ∧ str "/tmp/" ++ [0xef, 0xbf, 0xbd] ≠ str "/tmp/" ++ [0xff] :=
  ⟨rfl, rfl, by decide⟩

/-- C1, amended: for every offset and size in `int64`, every perm in `uint32`
and every path that is well-formed UTF-8, and for every base URL
`scheme://host` or `scheme://host/` (a scheme of letters, a host that
`url.Parse` accepts, no opaque part, query or fragment), `EncodeBlobHref`
returns an href, and `DecodeBlobHref` of that href under the base path `/blob`
or `/blob/` returns the blob with the same offset, size, perm and path and an
empty `Href`. -/
theorem blob_codec_round_trip (base pre : URL) (bi : BlobInfo)
    (hO1 : -2 ^ 63 ≤ bi.Offset) (hO2 : bi.Offset < 2 ^ 63)
    (hS1 : -2 ^ 63 ≤ bi.Size) (hS2 : bi.Size < 2 ^ 63) (hM : bi.Perm < 2 ^ 32)
    (hP : ValidUTF8 bi.Path)
    (hsch : base.Scheme ≠ []) (hlet : ∀ c ∈ base.Scheme, isLetter c = true)
    (hH : base.Host ≠ [])
    (hauth : ∀ c ∈ escape base.Host Encoding.host, authChar c = true)
    (hpa : parseAuthority (escape base.Host Encoding.host) ≠ none)
    (hOp : base.Opaque = []) (hQ : base.RawQuery = []) (hF : base.Fragment = [])
    (hBP : base.Path = [] ∨ base.Path = [slash])
    (hpre : pre.Path = str "/blob" ∨ pre.Path = str "/blob/") :
    ∃ href, EncodeBlobHref base bi = .ok href
      ∧ DecodeBlobHref pre href
        = .ok { Path := bi.Path, Offset := bi.Offset, Size := bi.Size, Perm := bi.Perm,
                Href := [] } := by
  obtain ⟨href, h1, h2⟩ :=
    DecodeBlobHref_encoded base pre bi hsch hlet hH hauth hpa hOp hQ hF hBP hpre
  exact ⟨href, h1, h2.trans (decodeToken_encode bi hO1 hO2 hS1 hS2 hM hP)⟩

/-- C1, the round trip of the blob of the tests: offset 100, size 64, perm
0777 and path `/tmp/file` on the base `http://localhost:58080/`, decoded under
the base path `/blob`. -/
theorem blob_codec_round_trip_witness :
    ∃ href, EncodeBlobHref
          { Scheme := str "http", Host := str "localhost:58080", Path := str "/" }
          { Offset := 100, Size := 64, Perm := 0o777, Path := str "/tmp/file" }
        = .ok href
      ∧ DecodeBlobHref { Path := str "/blob" } href
        = .ok { Path := str "/tmp/file", Offset := 100, Size := 64, Perm := 0o777, Href := [] } :=
  blob_codec_round_trip
    { Scheme := str "http", Host := str "localhost:58080", Path := str "/" }
    { Path := str "/blob" }
    { Offset := 100, Size := 64, Perm := 0o777, Path := str "/tmp/file" }
    (by decide) (by decide) (by decide) (by decide) (by decide)
    ⟨"/tmp/file".toList, rfl⟩
    (by decide) (by decide) (by decide) (by decide) (by decide) rfl rfl rfl
    (Or.inr rfl) (Or.inl rfl)

end Nomad

namespace Nomad

/-! ### `Create` and `Open` -/

/-- C20: for every path, attributes and state of the operating system,
`Create` behaves as `Open` with `O_CREAT` set in the mode: the same result
(stat, errno or `EINVAL` for a missing field), the same state afterwards and
the same system calls. -/
theorem Create_eq_CreateSpec {σ : Type} (k : Kernel σ) (n : FileNode) (rel : GoString)
    (attr : Option Attr) (w : World σ) :
    n.Create k rel attr w = CreateSpec k n rel attr w := by
  unfold CreateSpec FileNode.Create FileNode.Open
  cases attr with
  | none => rfl
  | some a =>
    cases hm : a.Mode <;> cases hp : a.Perm <;> simp [hm, hp]

/-! ### The permission bits of a transfer -/

theorem mod_and_mask (m mask : Nat) (h : mask < 2 ^ 32) : (m % 2 ^ 32) &&& mask = m &&& mask := by
  apply Nat.eq_of_testBit_eq
  intro i
  simp only [Nat.testBit_and, Nat.testBit_mod_two_pow]
  by_cases hi : i < 32
  · simp [hi]
  · have : mask.testBit i = false := by
      apply Nat.testBit_eq_false_of_lt
      exact Nat.lt_of_lt_of_le h (Nat.pow_le_pow_right (by decide) (by omega))
    simp [this]

end Nomad

namespace Nomad

theorem withHref_ok (base : URL) (bi : BlobInfo) :
    ∃ href, withHref base bi = .ok { bi with Href := href } := by
  unfold withHref EncodeBlobHref
  exact ⟨_, rfl⟩

/-- C19: for every file whose `stat` succeeds with mode `m`, and every request
with offset and size present, the blob that `Read` returns (it returns one
when the offset is not beyond the size of the file) has `Perm = m & 0444` and
the root-relative path of the request, and the blob that `Write` returns has
`Perm = m & 0222`, the path, the offset and the size of the request. -/
theorem Read_Write_perm {σ : Type} (k : Kernel σ) (n : FileNode) (rel : GoString) (a : Attr)
    (offset size : Int) (w : World σ) (st : Stat_t)
    (ho : a.Offset = some offset) (hs : a.Size = some size)
    (hst : (k.stat (n.abs rel) w.st).1 = .ok st) :
    (offset ≤ st.Size →
      ∃ bi, (n.Read k rel (some a) w).1 = .ok bi ∧ bi.Perm = st.Mode &&& 0o444 ∧ bi.Path = rel
        ∧ bi.Offset = offset)
    ∧ ∃ bi, (n.Write k rel (some a) w).1 = .ok bi ∧ bi.Perm = st.Mode &&& 0o222
        ∧ bi.Path = rel ∧ bi.Offset = offset ∧ bi.Size = size := by
  constructor
  · intro hle
    obtain ⟨href, hh⟩ := withHref_ok n.baseUrl
      { Path := rel, Offset := offset,
        Size := (if size > wrapInt64 (st.Size - offset) then wrapInt64 (st.Size - offset) else size),
        Perm := (st.Mode % 2 ^ 32) &&& (0o400 ||| 0o040 ||| 0o004), Href := [] }
    refine ⟨
      { Path := rel, Offset := offset,
        Size := (if size > wrapInt64 (st.Size - offset) then wrapInt64 (st.Size - offset) else size),
        Perm := (st.Mode % 2 ^ 32) &&& (0o400 ||| 0o040 ||| 0o004), Href := href }, ?_, ?_, ?_, ?_⟩
    · simp only [FileNode.Read, ho, hs, World.call, hst, not_lt.mpr hle, if_false]
      exact hh
    · exact mod_and_mask st.Mode _ (by decide)
    · rfl
    · rfl
  · obtain ⟨href, hh⟩ := withHref_ok n.baseUrl
      { Path := rel, Offset := offset, Size := size,
        Perm := (st.Mode % 2 ^ 32) &&& (0o200 ||| 0o020 ||| 0o002), Href := [] }
    refine ⟨
      { Path := rel, Offset := offset, Size := size,
        Perm := (st.Mode % 2 ^ 32) &&& (0o200 ||| 0o020 ||| 0o002), Href := href },
      ?_, ?_, ?_, ?_, ?_⟩
    · simp only [FileNode.Write, ho, hs, World.call, hst]
      exact hh
    · exact mod_and_mask st.Mode _ (by decide)
    · rfl
    · rfl
    · rfl

/-- C19, on the file `/srv/data` of the example (mode 0644, 1000 bytes) with
offset 900 and size 200: `Read` gives `Perm = 0444`, `Write` gives
`Perm = 0200`. -/
theorem Read_Write_perm_witness :
    (∃ bi, (exampleNode.Read memKernel (str "data") (some { Offset := some 900, Size := some 200 })
        exampleWorld).1 = .ok bi ∧ bi.Perm = (S_IFREG ||| 0o644) &&& 0o444 ∧ bi.Path = str "data"
        ∧ bi.Offset = 900)
    ∧ ∃ bi, (exampleNode.Write memKernel (str "data")
        (some { Offset := some 900, Size := some 200 }) exampleWorld).1 = .ok bi
        ∧ bi.Perm = (S_IFREG ||| 0o644) &&& 0o222 ∧ bi.Path = str "data" ∧ bi.Offset = 900
        ∧ bi.Size = 200 :=
  ⟨(Read_Write_perm memKernel exampleNode (str "data") { Offset := some 900, Size := some 200 }
      900 200 exampleWorld
      { Dev := 1, Ino := 2, Mode := S_IFREG ||| 0o644, Size := 1000 } rfl rfl rfl).1 (by decide),
   (Read_Write_perm memKernel exampleNode (str "data") { Offset := some 900, Size := some 200 }
      900 200 exampleWorld
      { Dev := 1, Ino := 2, Mode := S_IFREG ||| 0o644, Size := 1000 } rfl rfl rfl).2⟩

end Nomad

namespace Nomad

/-! ### Inode ids -/

/-- The left shift by 32 on 64 bits moves the low half up. -/
theorem shl32_mod (x : Nat) : (x <<< 32) % 2 ^ 64 = 2 ^ 32 * (x % 2 ^ 32) := by
  rw [Nat.shiftLeft_eq]
  omega

/-- The exchange of halves as the code computes it: the low half times
`2^32` plus the high half. -/
theorem swapped_eq (x : Nat) (hx : x < 2 ^ 64) :
    ((x <<< 32) % 2 ^ 64) ||| (x >>> 32) = 2 ^ 32 * (x % 2 ^ 32) + x / 2 ^ 32 := by
  rw [shl32_mod, Nat.shiftRight_eq_div_pow]
  exact (Nat.mul_add_lt_is_or (by omega) _).symm

theorem swapped_lt (x : Nat) (hx : x < 2 ^ 64) :
    ((x <<< 32) % 2 ^ 64) ||| (x >>> 32) < 2 ^ 64 := by
  rw [swapped_eq x hx]
  omega

theorem swap32_eq (x : Nat) (hx : x < 2 ^ 64) :
    swap32 x = ((x <<< 32) % 2 ^ 64) ||| (x >>> 32) := by
  unfold swap32
  apply Nat.eq_of_testBit_eq
  intro i
  simp only [Nat.testBit_mod_two_pow, Nat.testBit_or]
  by_cases hi : i < 64
  · simp [hi]
  · have h1 : (x >>> 32).testBit i = false := by
      apply Nat.testBit_eq_false_of_lt
      rw [Nat.shiftRight_eq_div_pow]
      have : 2 ^ 64 ≤ 2 ^ i := Nat.pow_le_pow_right (by decide) (by omega)
      omega
    simp [hi, h1]

/-- C18: for every stat buffer with device `d` and inode `i` and every root
device `D`, all 64-bit, `idFromStat` returns the inode id
`swap(d) XOR swap(D) XOR i`, a 64-bit value, with generation 1, where `swap`
exchanges the two 32-bit halves; the id is the same for any two stat buffers
and roots that agree on `(d, i, D)`; and when `d = D` the id is `i`. -/
theorem idFromStat_id (r : WebRoot) (st : Stat_t) (hd : st.Dev < 2 ^ 64) (hD : r.Dev < 2 ^ 64)
    (hi : st.Ino < 2 ^ 64) :
    (idFromStat r st).Ino = (swap32 st.Dev ^^^ swap32 r.Dev) ^^^ st.Ino
    ∧ (idFromStat r st).Gen = 1
    ∧ (idFromStat r st).Ino < 2 ^ 64
    ∧ swap32 st.Dev = 2 ^ 32 * (st.Dev % 2 ^ 32) + st.Dev / 2 ^ 32
    ∧ (∀ (r1 : WebRoot) (st1 : Stat_t), st1.Dev = st.Dev → st1.Ino = st.Ino → r1.Dev = r.Dev →
        (idFromStat r1 st1).Ino = (idFromStat r st).Ino)
    ∧ (st.Dev = r.Dev → (idFromStat r st).Ino = st.Ino) := by
  refine ⟨?_, rfl, ?_, ?_, ?_, ?_⟩
  · rw [swap32_eq _ hd, swap32_eq _ hD]
    rfl
  · exact Nat.xor_lt_two_pow
      (Nat.xor_lt_two_pow (swapped_lt _ hd) (swapped_lt _ hD)) hi
  · rw [swap32_eq _ hd, swapped_eq _ hd]
  · intro r1 st1 h1 h2 h3
    simp only [idFromStat, h1, h2, h3]
  · intro h
    simp only [idFromStat, h, Nat.xor_self, Nat.zero_xor]

/-- C18 on device `0x801`, inode 42: with the root on the same device the id
is 42, with the root on device `0x802` the device bits are mixed into the
high half. -/
theorem idFromStat_id_witness :
    (idFromStat { Dev := 0x801 } { Dev := 0x801, Ino := 42 }).Ino = 42
    ∧ (idFromStat { Dev := 0x802 } { Dev := 0x801, Ino := 42 }).Ino = 0x30000002a
    ∧ (idFromStat { Dev := 0x802 } { Dev := 0x801, Ino := 42 }).Gen = 1 :=
  ⟨(idFromStat_id { Dev := 0x801 } { Dev := 0x801, Ino := 42 }
      (by decide) (by decide) (by decide)).2.2.2.2.2 rfl,
   (idFromStat_id { Dev := 0x802 } { Dev := 0x801, Ino := 42 }
      (by decide) (by decide) (by decide)).1.trans (by decide),
   (idFromStat_id { Dev := 0x802 } { Dev := 0x801, Ino := 42 }
      (by decide) (by decide) (by decide)).2.1⟩

end Nomad

namespace Nomad

/-! ### `ToErrno` -/

theorem toErrno_wrapErr (ws : List Bool) (err : GoError) :
    toErrno (wrapErr ws err) = toErrno err := by
  induction ws with
  | nil => rfl
  | cons b ws ih => cases b <;> simpa [wrapErr, toErrno] using ih

/-- C14, the claim fails for an `*os.SyscallError`, which is none of the
errors it lists: one that wraps `ENOENT` is mapped to `ENOENT`, not to
`ENOSYS`, and on one that wraps an error that is no errno `ToErrno` panics. -/
theorem ToErrno_SyscallError :
    ToErrno (some (.syscallError (.errno ENOENT))) = some ENOENT
    ∧ ENOENT ≠ ENOSYS
    ∧ ToErrno (some (.syscallError (.other "EOF"))) = none :=
  ⟨rfl, by decide, rfl⟩

/-- C14, amended: `ToErrno` maps nil to 0; the sentinels `os.ErrPermission`,
`os.ErrExist`, `os.ErrNotExist` and `os.ErrInvalid` to `EPERM`, `EEXIST`,
`ENOENT` and `EINVAL`; an errno to itself; a `SyscallError` around an errno to
that errno, and it panics on a `SyscallError` around anything else, nil
included; a `PathError` or `LinkError` to `ToErrno` of the error it wraps, nil
included, through any stack of such wrappers; and every other error to
`ENOSYS`. -/
theorem ToErrno_cases :
    ToErrno none = some 0
    ∧ ToErrno (some .ErrPermission) = some EPERM
    ∧ ToErrno (some .ErrExist) = some EEXIST
    ∧ ToErrno (some .ErrNotExist) = some ENOENT
    ∧ ToErrno (some .ErrInvalid) = some EINVAL
    ∧ (∀ e, ToErrno (some (.errno e)) = some e)
    ∧ (∀ e, ToErrno (some (.syscallError (.errno e))) = some e)
    ∧ ToErrno (some (.syscallError .ErrPermission)) = none
    ∧ ToErrno (some (.syscallError .ErrExist)) = none
    ∧ ToErrno (some (.syscallError .ErrNotExist)) = none
    ∧ ToErrno (some (.syscallError .ErrInvalid)) = none
    ∧ (∀ err, ToErrno (some (.syscallError (.syscallError err))) = none)
    ∧ (∀ err, ToErrno (some (.syscallError (.pathError err))) = none)
    ∧ (∀ err, ToErrno (some (.syscallError (.linkError err))) = none)
    ∧ (∀ msg, ToErrno (some (.syscallError (.other msg))) = none)
    ∧ (∀ err, ToErrno (some (.pathError err)) = ToErrno (some err))
    ∧ (∀ err, ToErrno (some (.linkError err)) = ToErrno (some err))
    ∧ (∀ ws err, ToErrno (some (wrapErr ws err)) = ToErrno (some err))
    ∧ (∀ msg, ToErrno (some (.other msg)) = some ENOSYS)
    ∧ ToErrno (some .syscallErrorNil) = none
    ∧ ToErrno (some (.syscallError .syscallErrorNil)) = none
    ∧ ToErrno (some (.syscallError .pathErrorNil)) = none
    ∧ ToErrno (some (.syscallError .linkErrorNil)) = none
    ∧ ToErrno (some .pathErrorNil) = ToErrno none
    ∧ ToErrno (some .linkErrorNil) = ToErrno none :=
  ⟨rfl, rfl, rfl, rfl, rfl, fun _ => rfl, fun _ => rfl, rfl, rfl, rfl, rfl, fun _ => rfl,
    fun _ => rfl, fun _ => rfl, fun _ => rfl, fun _ => rfl, fun _ => rfl,
    fun ws err => toErrno_wrapErr ws err, fun _ => rfl, rfl, rfl, rfl, rfl, rfl, rfl⟩

end Nomad

namespace Nomad

/-! ### `Symlink` -/

/-- C12, the claim fails: `Symlink("a", "link")` on the root `/srv` hands the
target `/srv/a` to the symlink call, and that is what the link then holds, not
the argument `a`. -/
theorem Symlink_stores_resolved_target :
    (exampleNode.Symlink memKernel (str "a") (str "link") exampleWorld).2.log
      = [Call.symlink (str "/srv/a") (str "/srv/link"), Call.lstat (str "/srv/link")]
    ∧ (memKernel.readlink (str "/srv/link") 256
        (exampleNode.Symlink memKernel (str "a") (str "link") exampleWorld).2.st).1
      = .ok (str "/srv/a")
    ∧ str "/srv/a" ≠ str "a" := by
  refine ⟨by decide, rfl, by decide⟩

end Nomad

namespace Nomad

/-! ### `filepath.Rel` outside the root -/

theorem cleanElems_plain (r : Bool) (es out : List GoString)
    (hout : ∀ e ∈ out, e ≠ [] ∧ slash ∉ e) (hes : ∀ e ∈ es, slash ∉ e) :
    ∀ e ∈ cleanElems r out es, e ≠ [] ∧ slash ∉ e := by
  induction es generalizing out with
  | nil =>
    intro e he
    simp only [cleanElems, List.mem_reverse] at he
    exact hout e he
  | cons x xs ih =>
    have hxs : ∀ e ∈ xs, slash ∉ e := fun e he => hes e (List.mem_cons_of_mem _ he)
    have hx : slash ∉ x := hes x (List.mem_cons_self _ _)
    by_cases h1 : x = [] ∨ x = [dot]
    · simp only [cleanElems, h1, if_true]
      exact ih out hout hxs
    · have hx0 : x ≠ [] := fun h => h1 (Or.inl h)
      have hkeep : ∀ e ∈ x :: out, e ≠ [] ∧ slash ∉ e := by
        intro e he
        rcases List.mem_cons.1 he with rfl | he
        · exact ⟨hx0, hx⟩
        · exact hout e he
      by_cases h2 : x = dotdot
      · subst h2
        cases out with
        | nil =>
          cases r
          · simp only [cleanElems, h1, if_false, if_true, Bool.false_eq_true]
            exact ih [dotdot] hkeep hxs
          · simp only [cleanElems, h1, if_false, if_true]
            exact ih [] (by simp) hxs
        | cons top out1 =>
          by_cases h3 : top = dotdot
          · simp only [cleanElems, h1, h3, if_false, if_true]
            exact ih _ (by simpa [h3] using hkeep) hxs
          · simp only [cleanElems, h1, h3, if_false, if_true]
            exact ih out1 (fun e he => hout e (List.mem_cons_of_mem _ he)) hxs
      · simp only [cleanElems, h1, h2, if_false]
        exact ih (x :: out) hkeep hxs

theorem joinSlash_head (es : List GoString) (h : ∀ e ∈ es, e ≠ [] ∧ slash ∉ e) :
    (joinSlash es).head? ≠ some slash := by
  cases es with
  | nil => simp [joinSlash]
  | cons e es =>
    obtain ⟨he0, hes⟩ := h e (List.mem_cons_self _ _)
    cases e with
    | nil => exact absurd rfl he0
    | cons c cs =>
      have hc : c ≠ slash := fun hc => hes (by simp [hc])
      cases es with
      | nil => simpa [joinSlash] using hc
      | cons e1 es1 =>
        rw [joinSlash_cons _ _ (by simp)]
        simpa using hc

/-- `Clean` of a relative path is a relative path. -/
theorem Clean_relative_head (p : GoString) (h : p.head? ≠ some slash) :
    (Clean p).head? ≠ some slash := by
  cases p with
  | nil => simp [Clean, dot, slash]
  | cons c cs =>
    have hc : c ≠ slash := by simpa using h
    simp only [Clean, hc, decide_False, Bool.false_eq_true, if_false]
    split_ifs
    · simp [dot, slash]
    · exact joinSlash_head _
        (cleanElems_plain false _ [] (by simp) (splitSlash_no_slash _))

/-- `Rel` fails when the base is rooted and the target is not. -/
theorem Rel_relative_target (R T : GoString) (habs : R.head? = some slash) (hR : Clean R = R)
    (hT : T.head? ≠ some slash) : Rel R T = none := by
  have h1 := Clean_relative_head T hT
  have hne : Clean T ≠ R := by
    intro h
    rw [h] at h1
    exact h1 habs
  have hdot : R ≠ [dot] := by
    intro h
    rw [h] at habs
    exact absurd habs (by decide)
  unfold Rel
  simp only [hR, hne, hdot, if_false, habs, h1, decide_True, decide_False, ne_eq,
    Bool.true_eq_false, not_false_eq_true, if_true]

end Nomad

namespace Nomad

theorem joinSlash_take_drop (e : GoString) (es : List GoString) (he : slash ∉ e) :
    (joinSlash (e :: es)).takeWhile (fun c => c ≠ slash) = e
    ∧ (joinSlash (e :: es)).drop (e.length + 1) = joinSlash es := by
  cases es with
  | nil => exact ⟨takeWhile_ne_slash_self e he, by simp [joinSlash]⟩
  | cons e1 es1 =>
    rw [joinSlash_cons e _ (by simp)]
    exact ⟨takeWhile_ne_slash_append e _ he, by simp⟩

theorem joinSlash_cons_ne_nil (e : GoString) (es : List GoString) (he : e ≠ []) :
    joinSlash (e :: es) ≠ [] := by
  cases es with
  | nil => simpa [joinSlash] using he
  | cons e1 es1 =>
    rw [joinSlash_cons e _ (by simp)]
    simp

/-- The comparison loop of `Rel` on a base and a target that share the
elements `cs` and then part: it stops at the first element of the rest of the
base. -/
theorem relLoop_diverge (cs bs ts : List GoString) (b : GoString)
    (hcs : ∀ e ∈ cs, Normal e) (hb : Normal b)
    (hd : ts = [] ∨ ∃ t ts1, ts = t :: ts1 ∧ Normal t ∧ t ≠ b) :
    ∀ fuel, cs.length + 1 ≤ fuel →
      relLoop fuel (joinSlash (cs ++ b :: bs)) (joinSlash (cs ++ ts))
        = ((if ts = [] then [] else b), joinSlash (b :: bs), joinSlash ts) := by
  induction cs with
  | nil =>
    intro fuel hf
    obtain ⟨f, rfl⟩ : ∃ f, fuel = f + 1 := ⟨fuel - 1, by omega⟩
    have hb0 := joinSlash_cons_ne_nil b bs hb.1
    rcases hd with rfl | ⟨t, ts1, rfl, ht, hne⟩
    · simp [relLoop, joinSlash]
    · have ht0 := joinSlash_cons_ne_nil t ts1 ht.1
      have h1 := (joinSlash_take_drop b bs hb.2.2.2).1
      have h2 := (joinSlash_take_drop t ts1 ht.2.2.2).1
      rw [List.nil_append, List.nil_append, relLoop]
      simp only [hb0, ht0, or_self, if_false, h1, h2, ne_eq, hne, not_false_eq_true, if_true,
        reduceCtorEq]
  | cons c cs ih =>
    intro fuel hf
    obtain ⟨f, rfl⟩ : ∃ f, fuel = f + 1 := ⟨fuel - 1, by omega⟩
    have hc := hcs c (List.mem_cons_self _ _)
    have hcs1 : ∀ x ∈ cs, Normal x := fun x hx => hcs x (List.mem_cons_of_mem _ hx)
    have hb1 := joinSlash_take_drop c (cs ++ b :: bs) hc.2.2.2
    have ht1 := joinSlash_take_drop c (cs ++ ts) hc.2.2.2
    have hb0 := joinSlash_cons_ne_nil c (cs ++ b :: bs) hc.1
    have ht0 := joinSlash_cons_ne_nil c (cs ++ ts) hc.1
    rw [List.cons_append, List.cons_append, relLoop]
    simp only [hb0, ht0, or_self, if_false, hb1.1, ht1.1, ne_eq, not_true_eq_false, hb1.2, ht1.2]
    exact ih hcs1 f (by simp only [List.length_cons] at hf; omega)

theorem joinSlash_count (e : GoString) (es : List GoString) (h : ∀ x ∈ e :: es, slash ∉ x) :
    (joinSlash (e :: es)).count slash = es.length := by
  induction es generalizing e with
  | nil =>
    simp only [joinSlash, List.length_nil]
    exact List.count_eq_zero.2 (h e (List.mem_cons_self _ _))
  | cons e1 es1 ih =>
    rw [joinSlash_cons e _ (by simp), List.count_append, List.count_cons_self,
      ih e1 (fun x hx => h x (List.mem_cons_of_mem _ hx)),
      List.count_eq_zero.2 (h e (List.mem_cons_self _ _))]
    simp

theorem relUp_eq (n : Nat) : relUp n = joinSlash (List.replicate (n + 1) dotdot) := by
  induction n with
  | zero => rfl
  | succ n ih =>
    have h : List.replicate (n + 1 + 1) dotdot = List.replicate (n + 1) dotdot ++ [dotdot] := by
      rw [List.replicate_succ' (n + 1)]
    rw [relUp, ih, h, joinSlash_append _ _ (by simp) (by simp)]
    rfl

end Nomad

namespace Nomad

theorem joinSlash_inj_cons (cs xs ys : List GoString) (hcs : ∀ e ∈ cs, Normal e)
    (hxs : ∀ e ∈ xs, Normal e) (hys : ∀ e ∈ ys, Normal e)
    (h : joinSlash (cs ++ xs) = joinSlash (cs ++ ys)) : xs = ys := by
  have hall : ∀ zs : List GoString, (∀ e ∈ zs, Normal e) → ∀ e ∈ cs ++ zs, Normal e := by
    intro zs hzs e he
    rcases List.mem_append.1 he with h1 | h1
    · exact hcs e h1
    · exact hzs e h1
  by_cases hx : cs ++ xs = []
  · by_cases hy : cs ++ ys = []
    · exact List.append_cancel_left (hx.trans hy.symm)
    · exact absurd (h ▸ (by rw [hx]; rfl)) (joinSlash_ne_nil _ hy (hall ys hys))
  · by_cases hy : cs ++ ys = []
    · exact absurd (h.symm ▸ (by rw [hy]; rfl)) (joinSlash_ne_nil _ hx (hall xs hxs))
    · have e1 := splitSlash_joinSlash _ hx (fun e he => (hall xs hxs e he).2.2.2)
      have e2 := splitSlash_joinSlash _ hy (fun e he => (hall ys hys e he).2.2.2)
      rw [h, e2] at e1
      exact List.append_cancel_left e1.symm

/-- `Rel` of a cleaned rooted base `/cs/b/bs` and a target that cleans to
`/cs/ts`, where `ts` is empty or begins with an element other than `b`: one
`..` for every element of the base after `cs`, then `ts`. -/
theorem Rel_outside (cs bs ts : List GoString) (b T : GoString)
    (hcs : ∀ e ∈ cs, Normal e) (hb : Normal b) (hbs : ∀ e ∈ bs, Normal e)
    (hts : ∀ e ∈ ts, Normal e)
    (hd : ts = [] ∨ ∃ t ts1, ts = t :: ts1 ∧ t ≠ b)
    (hT : Clean T = slash :: joinSlash (cs ++ ts)) :
    Rel (slash :: joinSlash (cs ++ b :: bs)) T
      = some (joinSlash (List.replicate (bs.length + 1) dotdot ++ ts)) := by
  have hbase : ∀ e ∈ cs ++ b :: bs, Normal e := by
    intro e he
    rcases List.mem_append.1 he with h1 | h1
    · exact hcs e h1
    · rcases List.mem_cons.1 h1 with rfl | h2
      · exact hb
      · exact hbs e h2
  have hbbs : ∀ e ∈ b :: bs, Normal e := fun e he => hbase e (List.mem_append_right _ he)
  have hd1 : ts = [] ∨ ∃ t ts1, ts = t :: ts1 ∧ Normal t ∧ t ≠ b := by
    rcases hd with h | ⟨t, ts1, h, hne⟩
    · exact Or.inl h
    · exact Or.inr ⟨t, ts1, h, hts t (by simp [h]), hne⟩
  have hneq : slash :: joinSlash (cs ++ ts) ≠ slash :: joinSlash (cs ++ b :: bs) := by
    intro h
    have := joinSlash_inj_cons cs ts (b :: bs) hcs hts hbbs (List.cons.inj h).2
    rcases hd with h1 | ⟨t, ts1, h1, hne⟩
    · rw [h1] at this; cases this
    · rw [h1] at this
      exact hne (List.cons.inj this).1
  have hdot : slash :: joinSlash (cs ++ b :: bs) ≠ [dot] := by
    intro h
    exact absurd (List.cons.inj h).1 (by decide)
  have hloop : relLoop ((slash :: joinSlash (cs ++ b :: bs)).length + 1)
      (slash :: joinSlash (cs ++ b :: bs)) (slash :: joinSlash (cs ++ ts))
      = ((if ts = [] then [] else b), joinSlash (b :: bs), joinSlash ts) := by
    rw [relLoop]
    simp only [reduceCtorEq, or_self, if_false, takeWhile_ne_slash_cons_slash, ne_eq,
      not_true_eq_false, List.length_nil, Nat.zero_add, List.drop_succ_cons, List.drop_zero]
    apply relLoop_diverge cs bs ts b hcs hb hd1
    have := joinSlash_length_ge _ hbase
    simp only [List.length_append, List.length_cons] at this ⊢
    omega
  have hb0 := joinSlash_cons_ne_nil b bs hb.1
  have heb : (if ts = [] then [] else b) ≠ dotdot := by
    split_ifs
    · simp [dotdot]
    · exact hb.2.2.1
  have hcount := joinSlash_count b bs (fun x hx => (hbbs x hx).2.2.2)
  unfold Rel
  simp only [Clean_rooted_join _ hbase, hT, hneq, hdot, if_false, List.head?_cons, hloop, heb,
    hb0, ne_eq, not_false_eq_true, if_true, hcount, relUp_eq]
  by_cases hts0 : ts = []
  · subst hts0
    simp [joinSlash]
  · have : joinSlash ts ≠ [] := joinSlash_ne_nil ts hts0 hts
    simp only [this, not_false_eq_true, if_true]
    rw [joinSlash_append _ _ (by simp) hts0]
    simp

end Nomad

namespace Nomad

/-! ### `Readlink` of a target that is not under the root -/

set_option maxRecDepth 100000 in
/-- C11, the claim fails: on the root `/srv`, the link to `/etc/passwd` is
read as `../etc/passwd`, not as the target, and reading the link to the
relative target `a/b` fails. -/
theorem Readlink_not_verbatim :
    (memKernel.readlink (exampleNode.abs (str "out")) 256 linksWorld.st).1
        = .ok (str "/etc/passwd")
    ∧ (exampleNode.Readlink memKernel (str "out") linksWorld).1 = .ok (str "../etc/passwd")
    ∧ (memKernel.readlink (exampleNode.abs (str "near")) 256 linksWorld.st).1 = .ok (str "a/b")
    ∧ (exampleNode.Readlink memKernel (str "near") linksWorld).1
        = .err (.other "Rel: can't make target relative to root") :=
  ⟨rfl, rfl, rfl, rfl⟩

/-- C11, amended: let the root be absolute and clean and let the operating
system return the target `T` for the link. If `T` is relative, `Readlink`
fails with the error of `filepath.Rel`. If `T` is absolute and not under the
root (the root is `/cs/b/bs` and `T` cleans to `/cs/ts`, with `ts` empty or
beginning with an element other than `b`), `Readlink` succeeds and returns
`T` made relative to the root: one `..` for each of the elements `b`, `bs` of
the root, then `ts`; that is never `T` itself. -/
theorem Readlink_not_under_root {σ : Type} (k : Kernel σ) (n : FileNode) (rel T : GoString)
    (w : World σ)
    (habs : n.Root.head? = some slash) (hroot : Clean n.Root = n.Root)
    (hlen : T.length < 2 ^ 62)
    (hlink : ∀ l, k.readlink (n.abs rel) l w.st = (.ok (T.take l), w.st)) :
    (T.head? ≠ some slash →
      (n.Readlink k rel w).1 = .err (.other "Rel: can't make target relative to root"))
    ∧ (∀ (cs bs ts : List GoString) (b : GoString),
        n.Root = slash :: joinSlash (cs ++ b :: bs) →
        (∀ e ∈ cs, Normal e) → Normal b → (∀ e ∈ bs, Normal e) → (∀ e ∈ ts, Normal e) →
        (ts = [] ∨ ∃ t ts1, ts = t :: ts1 ∧ t ≠ b) →
        Clean T = slash :: joinSlash (cs ++ ts) →
        (n.Readlink k rel w).1 = .ok (joinSlash (List.replicate (bs.length + 1) dotdot ++ ts))
        ∧ joinSlash (List.replicate (bs.length + 1) dotdot ++ ts) ≠ T) := by
  have hfound := readlinkLoop_found k n (n.abs rel) T w.st hlink 54 256 w rfl
    (Nat.lt_of_lt_of_le hlen (by decide))
  constructor
  · intro hT
    unfold FileNode.Readlink
    rw [hfound]
    simp only [FileNode.rel, Rel_relative_target n.Root T habs hroot hT]
  · intro cs bs ts b hR hcs hb hbs hts hd hT
    constructor
    · unfold FileNode.Readlink
      rw [hfound]
      simp only [FileNode.rel, hR, Rel_outside cs bs ts b T hcs hb hbs hts hd hT]
    · intro h
      have h1 : T.head? = some slash := by
        by_contra hc
        have := Clean_relative_head T hc
        rw [hT] at this
        exact this rfl
      rw [← h, List.replicate_succ, List.cons_append] at h1
      have h2 := joinSlash_head (dotdot :: (List.replicate bs.length dotdot ++ ts)) (by
        intro e he
        rcases List.mem_cons.1 he with rfl | he
        · exact ⟨by simp [dotdot], by simp [dotdot, dot, slash]⟩
        · rcases List.mem_append.1 he with he | he
          · rw [List.eq_of_mem_replicate he]
            exact ⟨by simp [dotdot], by simp [dotdot, dot, slash]⟩
          · exact ⟨(hts e he).1, (hts e he).2.2.2⟩)
      exact h2 h1

set_option maxRecDepth 100000 in
/-- C11 on the root `/srv`: the link to `a/b` is not read, the link to
`/etc/passwd` is read as `../etc/passwd`. -/
theorem Readlink_not_under_root_witness :
    (exampleNode.Readlink memKernel (str "near") linksWorld).1
        = .err (.other "Rel: can't make target relative to root")
    ∧ (exampleNode.Readlink memKernel (str "out") linksWorld).1
        = .ok (joinSlash ([dotdot] ++ [[101, 116, 99], [112, 97, 115, 115, 119, 100]])) :=
  ⟨(Readlink_not_under_root memKernel exampleNode (str "near") (str "a/b") linksWorld
      rfl rfl (by decide) (fun _ => rfl)).1 (by decide),
   ((Readlink_not_under_root memKernel exampleNode (str "out") (str "/etc/passwd") linksWorld
      rfl rfl (by decide) (fun _ => rfl)).2 [] [] [[101, 116, 99], [112, 97, 115, 115, 119, 100]]
      [115, 114, 118] rfl (by simp) (by unfold Normal; decide) (by simp)
      (by unfold Normal; decide) (Or.inr ⟨_, _, rfl, by decide⟩) rfl).1⟩

end Nomad

namespace Nomad

/-! ### `Symlink`, then `Readlink` -/

theorem Rel_congr (R a b : GoString) (h : Clean a = Clean b) : Rel R a = Rel R b := by
  unfold Rel
  simp only [h]

theorem abs_eq (n : FileNode) (t : GoString) (h : n.Root ≠ []) :
    n.abs t = Clean (n.Root ++ slash :: t) := by
  unfold FileNode.abs Join
  rw [if_neg h]
  rfl

theorem Clean_ne_nil (p : GoString) : Clean p ≠ [] := by
  cases p with
  | nil => simp [Clean]
  | cons c cs =>
    simp only [Clean]
    split_ifs with h1 h2
    · simp
    · simp
    · have hpl := cleanElems_plain (decide (c = slash)) (splitSlash (c :: cs)) [] (by simp)
        (splitSlash_no_slash _)
      rcases hout : cleanElems (decide (c = slash)) [] (splitSlash (c :: cs)) with _ | ⟨e, es⟩
      · exact absurd hout h2
      · rw [hout] at hpl
        exact joinSlash_cons_ne_nil e es (hpl e (List.mem_cons_self _ _)).1

/-- What `rel` makes of what `abs` made of a clean path: the path without
its leading separator, unless the path is the separator alone. -/
theorem rel_abs (n : FileNode) (t : GoString) (habs : n.Root.head? = some slash)
    (hroot : Clean n.Root = n.Root) (ht : Clean t = t) (hdd : dotdot ∉ splitSlash t)
    (hne : t ≠ [slash]) : n.rel (n.abs t) = some (trimPrefix t [slash]) := by
  have hR0 : n.Root ≠ [] := by
    intro h
    rw [h] at habs
    cases habs
  have ht0 : t ≠ [] := by
    rw [← ht]
    exact Clean_ne_nil t
  rw [abs_eq n t hR0]
  unfold FileNode.rel
  obtain ⟨es, hes, hR⟩ := Clean_rooted_form n.Root habs hroot
  rw [hR]
  by_cases hrel : t.head? = some slash
  · obtain ⟨ps, hps, hp⟩ := Clean_rooted_form t hrel ht
    have hps0 : ps ≠ [] := by
      intro h
      rw [h] at hp
      exact hne hp
    have htrim : trimPrefix t [slash] = joinSlash ps := by
      rw [hp]
      simp [trimPrefix, List.isPrefixOf]
    rw [htrim, hp, Rel_congr _ _ ((slash :: joinSlash es) ++ slash :: joinSlash ps)
      (by rw [Clean_root_slashes_join es ps hes hps hps0,
        Clean_root_slash_join es ps hes hps hps0,
        Clean_rooted_join _ (fun e he => (List.mem_append.1 he).elim (hes e) (hps e))])]
    exact Rel_root_target es ps hes hps hps0
  · have htrim : trimPrefix t [slash] = t := by
      cases t with
      | nil => rfl
      | cons c cs =>
        have hc : ¬ slash = c := fun h => hrel (by simp [h])
        simp [trimPrefix, List.isPrefixOf, hc]
    have hidem : Clean (Clean ((slash :: joinSlash es) ++ slash :: t))
        = Clean ((slash :: joinSlash es) ++ slash :: t) := by
      rcases Clean_relative_form t ht0 hrel ht hdd with rfl | ⟨ps, hps0, hps, rfl⟩
      · rw [show (slash :: joinSlash es) ++ slash :: [dot]
            = (slash :: joinSlash es) ++ [slash, dot] from rfl,
          Clean_root_slash_dot es hes, Clean_rooted_join es hes]
      · rw [Clean_root_slash_join es ps hes hps hps0,
          Clean_rooted_join _ (fun e he => (List.mem_append.1 he).elim (hes e) (hps e))]
    rw [htrim, Rel_congr _ _ _ hidem, ← hR]
    exact Rel_of_clean n.Root t habs hroot ht0 hrel ht hdd

end Nomad

namespace Nomad

set_option maxRecDepth 100000 in
/-- C13, the claim fails for the clean target `/`: `Symlink("/", "link")` on
the root `/srv` stores `/srv`, and `Readlink("link")` then returns `.`, not the
empty string that is left of `/` without its leading separator. -/
theorem Symlink_Readlink_root_target :
    Clean [slash] = [slash] ∧ dotdot ∉ splitSlash [slash]
    ∧ (exampleNode.Symlink memKernel [slash] (str "link") exampleWorld).2.log
        = [Call.symlink (str "/srv") (str "/srv/link"), Call.lstat (str "/srv/link")]
    ∧ (exampleNode.Readlink memKernel (str "link")
        (exampleNode.Symlink memKernel [slash] (str "link") exampleWorld).2).1 = .ok [dot]
    ∧ trimPrefix [slash] [slash] = []
    ∧ exampleNode.rel (exampleNode.abs [slash]) = some [dot] :=
  ⟨by decide, by decide, by decide, rfl, rfl, by decide⟩

/-- C13, amended: for every absolute, clean root and every clean target `t`
with no `..` element, other than `/` itself: `rel(abs(t))` is `t` without its
leading separator, and when the operating system gives back for the link what
`Symlink(t, link)` stored in it, `Readlink(link)` after that `Symlink`
returns `t` without its leading separator. -/
theorem Symlink_Readlink {σ : Type} (k : Kernel σ) (n : FileNode) (t link : GoString)
    (w : World σ)
    (habs : n.Root.head? = some slash) (hroot : Clean n.Root = n.Root)
    (ht : Clean t = t) (hdd : dotdot ∉ splitSlash t) (hne : t ≠ [slash])
    (hlen : (n.abs t).length < 2 ^ 62)
    (hlink : ∀ l, k.readlink (n.abs link) l (n.Symlink k t link w).2.st
      = (.ok ((n.abs t).take l), (n.Symlink k t link w).2.st)) :
    n.rel (n.abs t) = some (trimPrefix t [slash])
    ∧ (n.Readlink k link (n.Symlink k t link w).2).1 = .ok (trimPrefix t [slash]) := by
  have hrel := rel_abs n t habs hroot ht hdd hne
  refine ⟨hrel, ?_⟩
  unfold FileNode.Readlink
  rw [readlinkLoop_found k n (n.abs link) (n.abs t) _ hlink 54 256 _ rfl
    (Nat.lt_of_lt_of_le hlen (by decide)), hrel]

set_option maxRecDepth 100000 in
/-- C13 on the root `/srv`: after `Symlink("/a", "/link")`, `Readlink("/link")`
returns `a`. -/
theorem Symlink_Readlink_witness :
    exampleNode.rel (exampleNode.abs (str "/a")) = some (str "a")
    ∧ (exampleNode.Readlink memKernel (str "/link")
        (exampleNode.Symlink memKernel (str "/a") (str "/link") exampleWorld).2).1
      = .ok (str "a") :=
  Symlink_Readlink memKernel exampleNode (str "/a") (str "/link") exampleWorld
    (by decide) (by decide) (by decide) (by decide) (by decide) (by decide) (fun _ => rfl)

end Nomad

namespace Nomad

/-! ### The errors of the node methods -/

theorem Lstat_err {σ : Type} (k : Kernel σ) (n : FileNode) (p : GoString)
    (w : World σ) (e : GoError) (h : (n.Lstat k p w).1 = .err e) : toErrno e ≠ none := by
  unfold FileNode.Lstat at h
  simp only [World.call] at h
  repeat' split at h
  all_goals first
    | (simp at h; done)
    | (simp at h; subst h; simp [toErrno])

theorem Stat_err {σ : Type} (k : Kernel σ) (n : FileNode) (p : GoString)
    (w : World σ) (e : GoError) (h : (n.Stat k p w).1 = .err e) : toErrno e ≠ none := by
  unfold FileNode.Stat at h
  simp only [World.call] at h
  repeat' split at h
  all_goals first
    | (simp at h; done)
    | (simp at h; subst h; simp [toErrno])

theorem Mknod_err {σ : Type} (k : Kernel σ) (n : FileNode) (p : GoString) (a : Option Attr)
    (w : World σ) (e : GoError) (h : (n.Mknod k p a w).1 = .err e) : toErrno e ≠ none := by
  unfold FileNode.Mknod osCreate errOfToErrno ToErrno at h
  simp only [World.call] at h
  repeat' split at h
  all_goals first
    | (simp at h; done)
    | (simp at h; subst h; simp [toErrno])

theorem Mkdir_err {σ : Type} (k : Kernel σ) (n : FileNode) (p : GoString) (a : Option Attr)
    (w : World σ) (e : GoError) (h : (n.Mkdir k p a w).1 = .err e) : toErrno e ≠ none := by
  unfold FileNode.Mkdir osMkdir errOfToErrno ToErrno at h
  simp only [World.call] at h
  repeat' split at h
  all_goals first
    | (simp at h; done)
    | (simp at h; subst h; simp [toErrno])

theorem Rmdir_err {σ : Type} (k : Kernel σ) (n : FileNode) (p : GoString)
    (w : World σ) (e : GoError) (h : (n.Rmdir k p w).1 = .err e) : toErrno e ≠ none := by
  unfold FileNode.Rmdir at h
  simp only [World.call] at h
  repeat' split at h
  all_goals first
    | (simp at h; done)
    | (simp at h; subst h; simp [toErrno])

theorem Unlink_err {σ : Type} (k : Kernel σ) (n : FileNode) (p : GoString)
    (w : World σ) (e : GoError) (h : (n.Unlink k p w).1 = .err e) : toErrno e ≠ none := by
  unfold FileNode.Unlink at h
  simp only [World.call] at h
  repeat' split at h
  all_goals first
    | (simp at h; done)
    | (simp at h; subst h; simp [toErrno])

theorem Rename_err {σ : Type} (k : Kernel σ) (n : FileNode) (p q : GoString)
    (w : World σ) (e : GoError) (h : (n.Rename k p q w).1 = .err e) : toErrno e ≠ none := by
  unfold FileNode.Rename at h
  simp only [World.call] at h
  repeat' split at h
  all_goals first
    | (simp at h; done)
    | (simp at h; subst h; simp [toErrno])

theorem Symlink_err {σ : Type} (k : Kernel σ) (n : FileNode) (p q : GoString)
    (w : World σ) (e : GoError) (h : (n.Symlink k p q w).1 = .err e) : toErrno e ≠ none := by
  unfold FileNode.Symlink at h
  simp only [World.call] at h
  repeat' split at h
  all_goals first
    | (simp at h; done)
    | (simp at h; subst h; simp [toErrno])

theorem Link_err {σ : Type} (k : Kernel σ) (n : FileNode) (p q : GoString)
    (w : World σ) (e : GoError) (h : (n.Link k p q w).1 = .err e) : toErrno e ≠ none := by
  unfold FileNode.Link at h
  simp only [World.call] at h
  repeat' split at h
  all_goals first
    | (simp at h; done)
    | (simp at h; subst h; simp [toErrno])

theorem Open_err {σ : Type} (k : Kernel σ) (n : FileNode) (p : GoString) (a : Option Attr)
    (w : World σ) (e : GoError) (h : (n.Open k p a w).1 = .err e) : toErrno e ≠ none := by
  unfold FileNode.Open openStatClose at h
  simp only [World.call] at h
  repeat' split at h
  all_goals first
    | (simp at h; done)
    | (simp at h; subst h; simp [toErrno])

theorem Create_err {σ : Type} (k : Kernel σ) (n : FileNode) (p : GoString) (a : Option Attr)
    (w : World σ) (e : GoError) (h : (n.Create k p a w).1 = .err e) : toErrno e ≠ none := by
  unfold FileNode.Create openStatClose at h
  simp only [World.call] at h
  repeat' split at h
  all_goals first
    | (simp at h; done)
    | (simp at h; subst h; simp [toErrno])

theorem Opendir_err {σ : Type} (k : Kernel σ) (n : FileNode) (p : GoString)
    (w : World σ) (e : GoError) (h : (n.Opendir k p w).1 = .err e) : toErrno e ≠ none := by
  unfold FileNode.Opendir at h
  simp only [World.call] at h
  repeat' split at h
  all_goals first
    | (simp at h; done)
    | (simp at h; subst h; simp [toErrno])

theorem Chmod_err {σ : Type} (k : Kernel σ) (n : FileNode) (p : GoString) (a : Option Attr)
    (w : World σ) (e : GoError) (h : (n.Chmod k p a w).1 = .err e) : toErrno e ≠ none := by
  unfold FileNode.Chmod at h
  simp only [World.call] at h
  repeat' split at h
  all_goals first
    | (simp at h; done)
    | (simp at h; subst h; simp [toErrno])

theorem Chown_err {σ : Type} (k : Kernel σ) (n : FileNode) (p : GoString) (a : Option Attr)
    (w : World σ) (e : GoError) (h : (n.Chown k p a w).1 = .err e) : toErrno e ≠ none := by
  unfold FileNode.Chown at h
  simp only [World.call] at h
  repeat' split at h
  all_goals first
    | (simp at h; done)
    | (simp at h; subst h; simp [toErrno])

theorem Truncate_err {σ : Type} (k : Kernel σ) (n : FileNode) (p : GoString) (a : Option Attr)
    (w : World σ) (e : GoError) (h : (n.Truncate k p a w).1 = .err e) : toErrno e ≠ none := by
  unfold FileNode.Truncate at h
  simp only [World.call] at h
  repeat' split at h
  all_goals first
    | (simp at h; done)
    | (simp at h; subst h; simp [toErrno])

theorem Setattr_err {σ : Type} (k : Kernel σ) (n : FileNode) (p : GoString) (a : Option Attr)
    (w : World σ) (e : GoError) (h : (n.Setattr k p a w).1 = .err e) : toErrno e ≠ none := by
  unfold FileNode.Setattr at h
  simp only [World.call] at h
  repeat' split at h
  all_goals first
    | (simp at h; done)
    | (simp at h; subst h; simp [toErrno])

theorem Read_err {σ : Type} (k : Kernel σ) (n : FileNode) (p : GoString) (a : Option Attr)
    (w : World σ) (e : GoError) (h : (n.Read k p a w).1 = .err e) : toErrno e ≠ none := by
  unfold FileNode.Read withHref EncodeBlobHref at h
  simp only [World.call] at h
  repeat' split at h
  all_goals first
    | (simp at h; done)
    | (simp at h; subst h; simp [toErrno])

theorem Write_err {σ : Type} (k : Kernel σ) (n : FileNode) (p : GoString) (a : Option Attr)
    (w : World σ) (e : GoError) (h : (n.Write k p a w).1 = .err e) : toErrno e ≠ none := by
  unfold FileNode.Write withHref EncodeBlobHref at h
  simp only [World.call] at h
  repeat' split at h
  all_goals first
    | (simp at h; done)
    | (simp at h; subst h; simp [toErrno])

end Nomad

namespace Nomad

/-! ### The switch of `handle` -/

theorem dispatch_statfs {σ : Type} (lib : Lib) (k : Kernel σ) (kd : KernelDir σ)
    (h : FileHandler) (r : Request) (args : CallArgs) (w : World σ) :
    h.dispatch lib k kd r (str "statfs") args w
      = ((match (h.node.Statfs kd args.Path w).1 with
          | .panic => Dispatched.panic
          | .err e => .outcome (.statfs {}) (some e)
          | .ok v =>
            match ToStatfsOut (some v) with
            | .error err => .early (internalServerError lib err)
            | .ok out => .outcome (.statfs out) none),
        (h.node.Statfs kd args.Path w).2) := by
  unfold FileHandler.dispatch
  rw [if_pos rfl]
  rcases hs : h.node.Statfs kd args.Path w with ⟨x, w1⟩
  cases x with
  | panic => rfl
  | err e => rfl
  | ok v =>
    simp only
    cases ToStatfsOut (some v) <;> rfl

theorem dispatch_lstat {σ : Type} (lib : Lib) (k : Kernel σ) (kd : KernelDir σ)
    (h : FileHandler) (r : Request) (args : CallArgs) (w : World σ) :
    h.dispatch lib k kd r (str "lstat") args w
      = (Dispatched.ofStat (h.node.Lstat k args.Path w).1, (h.node.Lstat k args.Path w).2) := by
  unfold FileHandler.dispatch
  rw [if_neg (by decide), if_pos rfl]

theorem dispatch_stat {σ : Type} (lib : Lib) (k : Kernel σ) (kd : KernelDir σ)
    (h : FileHandler) (r : Request) (args : CallArgs) (w : World σ) :
    h.dispatch lib k kd r (str "stat") args w
      = (Dispatched.ofStat (h.node.Stat k args.Path w).1, (h.node.Stat k args.Path w).2) := by
  unfold FileHandler.dispatch
  rw [if_neg (by decide), if_neg (by decide), if_pos rfl]

theorem dispatch_mknod {σ : Type} (lib : Lib) (k : Kernel σ) (kd : KernelDir σ)
    (h : FileHandler) (r : Request) (args : CallArgs) (w : World σ) :
    h.dispatch lib k kd r (str "mknod") args w
      = (Dispatched.ofStat (h.node.Mknod k args.Path args.Attr w).1, (h.node.Mknod k args.Path args.Attr w).2) := by
  unfold FileHandler.dispatch
  rw [if_neg (by decide), if_neg (by decide), if_neg (by decide), if_pos rfl]

theorem dispatch_mkdir {σ : Type} (lib : Lib) (k : Kernel σ) (kd : KernelDir σ)
    (h : FileHandler) (r : Request) (args : CallArgs) (w : World σ) :
    h.dispatch lib k kd r (str "mkdir") args w
      = (Dispatched.ofStat (h.node.Mkdir k args.Path args.Attr w).1, (h.node.Mkdir k args.Path args.Attr w).2) := by
  unfold FileHandler.dispatch
  rw [if_neg (by decide), if_neg (by decide), if_neg (by decide), if_neg (by decide), if_pos rfl]

theorem dispatch_rmdir {σ : Type} (lib : Lib) (k : Kernel σ) (kd : KernelDir σ)
    (h : FileHandler) (r : Request) (args : CallArgs) (w : World σ) :
    h.dispatch lib k kd r (str "rmdir") args w
      = (Dispatched.ofUnit (h.node.Rmdir k args.Path w).1, (h.node.Rmdir k args.Path w).2) := by
  unfold FileHandler.dispatch
  rw [if_neg (by decide), if_neg (by decide), if_neg (by decide), if_neg (by decide), if_neg (by decide), if_pos rfl]

theorem dispatch_unlink {σ : Type} (lib : Lib) (k : Kernel σ) (kd : KernelDir σ)
    (h : FileHandler) (r : Request) (args : CallArgs) (w : World σ) :
    h.dispatch lib k kd r (str "unlink") args w
      = (Dispatched.ofUnit (h.node.Unlink k args.Path w).1, (h.node.Unlink k args.Path w).2) := by
  unfold FileHandler.dispatch
  rw [if_neg (by decide), if_neg (by decide), if_neg (by decide), if_neg (by decide), if_neg (by decide), if_neg (by decide), if_pos rfl]

theorem dispatch_rename {σ : Type} (lib : Lib) (k : Kernel σ) (kd : KernelDir σ)
    (h : FileHandler) (r : Request) (args : CallArgs) (w : World σ) :
    h.dispatch lib k kd r (str "rename") args w
      = (Dispatched.ofUnit (h.node.Rename k args.Path args.To w).1, (h.node.Rename k args.Path args.To w).2) := by
  unfold FileHandler.dispatch
  rw [if_neg (by decide), if_neg (by decide), if_neg (by decide), if_neg (by decide), if_neg (by decide), if_neg (by decide), if_neg (by decide), if_pos rfl]

theorem dispatch_symlink {σ : Type} (lib : Lib) (k : Kernel σ) (kd : KernelDir σ)
    (h : FileHandler) (r : Request) (args : CallArgs) (w : World σ) :
    h.dispatch lib k kd r (str "symlink") args w
      = (Dispatched.ofStat (h.node.Symlink k args.Path args.Link w).1, (h.node.Symlink k args.Path args.Link w).2) := by
  unfold FileHandler.dispatch
  rw [if_neg (by decide), if_neg (by decide), if_neg (by decide), if_neg (by decide), if_neg (by decide), if_neg (by decide), if_neg (by decide), if_neg (by decide), if_pos rfl]

theorem dispatch_link {σ : Type} (lib : Lib) (k : Kernel σ) (kd : KernelDir σ)
    (h : FileHandler) (r : Request) (args : CallArgs) (w : World σ) :
    h.dispatch lib k kd r (str "link") args w
      = (Dispatched.ofStat (h.node.Link k args.Path args.Link w).1, (h.node.Link k args.Path args.Link w).2) := by
  unfold FileHandler.dispatch
  rw [if_neg (by decide), if_neg (by decide), if_neg (by decide), if_neg (by decide), if_neg (by decide), if_neg (by decide), if_neg (by decide), if_neg (by decide), if_neg (by decide), if_pos rfl]

theorem dispatch_readlink {σ : Type} (lib : Lib) (k : Kernel σ) (kd : KernelDir σ)
    (h : FileHandler) (r : Request) (args : CallArgs) (w : World σ) :
    h.dispatch lib k kd r (str "readlink") args w
      = (Dispatched.ofText (h.node.Readlink k args.Path w).1, (h.node.Readlink k args.Path w).2) := by
  unfold FileHandler.dispatch
  rw [if_neg (by decide), if_neg (by decide), if_neg (by decide), if_neg (by decide), if_neg (by decide), if_neg (by decide), if_neg (by decide), if_neg (by decide), if_neg (by decide), if_neg (by decide), if_pos rfl]

theorem dispatch_open {σ : Type} (lib : Lib) (k : Kernel σ) (kd : KernelDir σ)
    (h : FileHandler) (r : Request) (args : CallArgs) (w : World σ) :
    h.dispatch lib k kd r (str "open") args w
      = (Dispatched.ofStat (h.node.Open k args.Path args.Attr w).1, (h.node.Open k args.Path args.Attr w).2) := by
  unfold FileHandler.dispatch
  rw [if_neg (by decide), if_neg (by decide), if_neg (by decide), if_neg (by decide), if_neg (by decide), if_neg (by decide), if_neg (by decide), if_neg (by decide), if_neg (by decide), if_neg (by decide), if_neg (by decide), if_pos rfl]

theorem dispatch_create {σ : Type} (lib : Lib) (k : Kernel σ) (kd : KernelDir σ)
    (h : FileHandler) (r : Request) (args : CallArgs) (w : World σ) :
    h.dispatch lib k kd r (str "create") args w
      = (Dispatched.ofStat (h.node.Create k args.Path args.Attr w).1, (h.node.Create k args.Path args.Attr w).2) := by
  unfold FileHandler.dispatch
  rw [if_neg (by decide), if_neg (by decide), if_neg (by decide), if_neg (by decide), if_neg (by decide), if_neg (by decide), if_neg (by decide), if_neg (by decide), if_neg (by decide), if_neg (by decide), if_neg (by decide), if_neg (by decide), if_pos rfl]

theorem dispatch_opendir {σ : Type} (lib : Lib) (k : Kernel σ) (kd : KernelDir σ)
    (h : FileHandler) (r : Request) (args : CallArgs) (w : World σ) :
    h.dispatch lib k kd r (str "opendir") args w
      = (Dispatched.ofUnit (h.node.Opendir k args.Path w).1, (h.node.Opendir k args.Path w).2) := by
  unfold FileHandler.dispatch
  rw [if_neg (by decide), if_neg (by decide), if_neg (by decide), if_neg (by decide), if_neg (by decide), if_neg (by decide), if_neg (by decide), if_neg (by decide), if_neg (by decide), if_neg (by decide), if_neg (by decide), if_neg (by decide), if_neg (by decide), if_pos rfl]

theorem dispatch_readdir {σ : Type} (lib : Lib) (k : Kernel σ) (kd : KernelDir σ)
    (h : FileHandler) (r : Request) (args : CallArgs) (w : World σ) :
    h.dispatch lib k kd r (str "readdir") args w
      = (.outcome (.entries (h.node.Readdir kd args.Path w).1.1)
          (h.node.Readdir kd args.Path w).1.2, (h.node.Readdir kd args.Path w).2) := by
  unfold FileHandler.dispatch
  rw [if_neg (by decide), if_neg (by decide), if_neg (by decide), if_neg (by decide), if_neg (by decide), if_neg (by decide), if_neg (by decide), if_neg (by decide), if_neg (by decide), if_neg (by decide), if_neg (by decide), if_neg (by decide), if_neg (by decide), if_neg (by decide), if_pos rfl]

theorem dispatch_chmod {σ : Type} (lib : Lib) (k : Kernel σ) (kd : KernelDir σ)
    (h : FileHandler) (r : Request) (args : CallArgs) (w : World σ) :
    h.dispatch lib k kd r (str "chmod") args w
      = (Dispatched.ofUnit (h.node.Chmod k args.Path args.Attr w).1, (h.node.Chmod k args.Path args.Attr w).2) := by
  unfold FileHandler.dispatch
  rw [if_neg (by decide), if_neg (by decide), if_neg (by decide), if_neg (by decide), if_neg (by decide), if_neg (by decide), if_neg (by decide), if_neg (by decide), if_neg (by decide), if_neg (by decide), if_neg (by decide), if_neg (by decide), if_neg (by decide), if_neg (by decide), if_neg (by decide), if_pos rfl]

theorem dispatch_chown {σ : Type} (lib : Lib) (k : Kernel σ) (kd : KernelDir σ)
    (h : FileHandler) (r : Request) (args : CallArgs) (w : World σ) :
    h.dispatch lib k kd r (str "chown") args w
      = (Dispatched.ofUnit (h.node.Chown k args.Path args.Attr w).1, (h.node.Chown k args.Path args.Attr w).2) := by
  unfold FileHandler.dispatch
  rw [if_neg (by decide), if_neg (by decide), if_neg (by decide), if_neg (by decide), if_neg (by decide), if_neg (by decide), if_neg (by decide), if_neg (by decide), if_neg (by decide), if_neg (by decide), if_neg (by decide), if_neg (by decide), if_neg (by decide), if_neg (by decide), if_neg (by decide), if_neg (by decide), if_pos rfl]

theorem dispatch_truncate {σ : Type} (lib : Lib) (k : Kernel σ) (kd : KernelDir σ)
    (h : FileHandler) (r : Request) (args : CallArgs) (w : World σ) :
    h.dispatch lib k kd r (str "truncate") args w
      = (Dispatched.ofUnit (h.node.Truncate k args.Path args.Attr w).1, (h.node.Truncate k args.Path args.Attr w).2) := by
  unfold FileHandler.dispatch
  rw [if_neg (by decide), if_neg (by decide), if_neg (by decide), if_neg (by decide), if_neg (by decide), if_neg (by decide), if_neg (by decide), if_neg (by decide), if_neg (by decide), if_neg (by decide), if_neg (by decide), if_neg (by decide), if_neg (by decide), if_neg (by decide), if_neg (by decide), if_neg (by decide), if_neg (by decide), if_pos rfl]

theorem dispatch_setattr {σ : Type} (lib : Lib) (k : Kernel σ) (kd : KernelDir σ)
    (h : FileHandler) (r : Request) (args : CallArgs) (w : World σ) :
    h.dispatch lib k kd r (str "setattr") args w
      = (Dispatched.ofStat (h.node.Setattr k args.Path args.Attr w).1, (h.node.Setattr k args.Path args.Attr w).2) := by
  unfold FileHandler.dispatch
  rw [if_neg (by decide), if_neg (by decide), if_neg (by decide), if_neg (by decide), if_neg (by decide), if_neg (by decide), if_neg (by decide), if_neg (by decide), if_neg (by decide), if_neg (by decide), if_neg (by decide), if_neg (by decide), if_neg (by decide), if_neg (by decide), if_neg (by decide), if_neg (by decide), if_neg (by decide), if_neg (by decide), if_pos rfl]

theorem dispatch_read {σ : Type} (lib : Lib) (k : Kernel σ) (kd : KernelDir σ)
    (h : FileHandler) (r : Request) (args : CallArgs) (w : World σ) :
    h.dispatch lib k kd r (str "read") args w
      = (Dispatched.ofBlob (h.node.Read k args.Path args.Attr w).1, (h.node.Read k args.Path args.Attr w).2) := by
  unfold FileHandler.dispatch
  rw [if_neg (by decide), if_neg (by decide), if_neg (by decide), if_neg (by decide), if_neg (by decide), if_neg (by decide), if_neg (by decide), if_neg (by decide), if_neg (by decide), if_neg (by decide), if_neg (by decide), if_neg (by decide), if_neg (by decide), if_neg (by decide), if_neg (by decide), if_neg (by decide), if_neg (by decide), if_neg (by decide), if_neg (by decide), if_pos rfl]

theorem dispatch_write {σ : Type} (lib : Lib) (k : Kernel σ) (kd : KernelDir σ)
    (h : FileHandler) (r : Request) (args : CallArgs) (w : World σ) :
    h.dispatch lib k kd r (str "write") args w
      = (Dispatched.ofBlob (h.node.Write k args.Path args.Attr w).1, (h.node.Write k args.Path args.Attr w).2) := by
  unfold FileHandler.dispatch
  rw [if_neg (by decide), if_neg (by decide), if_neg (by decide), if_neg (by decide), if_neg (by decide), if_neg (by decide), if_neg (by decide), if_neg (by decide), if_neg (by decide), if_neg (by decide), if_neg (by decide), if_neg (by decide), if_neg (by decide), if_neg (by decide), if_neg (by decide), if_neg (by decide), if_neg (by decide), if_neg (by decide), if_neg (by decide), if_neg (by decide), if_pos rfl]

end Nomad

namespace Nomad

theorem readlinkLoop_err {σ : Type} (k : Kernel σ) (n : FileNode) (path : GoString) :
    ∀ (fuel l : Nat) (w : World σ) (e : GoError),
      (readlinkLoop k n path fuel l w).1 = .err e → toErrno e ≠ none := by
  intro fuel
  induction fuel with
  | zero =>
    intro l w e h
    simp [readlinkLoop] at h
  | succ f ih =>
    intro l w e h
    unfold readlinkLoop at h
    simp only [World.call] at h
    repeat' split at h
    all_goals first
      | (simp at h; done)
      | (simp at h; subst h; simp [toErrno])
      | exact ih _ _ _ h

theorem Readlink_err {σ : Type} (k : Kernel σ) (n : FileNode) (p : GoString) (w : World σ)
    (e : GoError) (h : (n.Readlink k p w).1 = .err e) : toErrno e ≠ none :=
  readlinkLoop_err k n _ _ _ _ e h

theorem Readdir_err {σ : Type} (kd : KernelDir σ) (n : FileNode) (p : GoString) (w : World σ) :
    ToErrno (n.Readdir kd p w).1.2 ≠ none := by
  unfold FileNode.Readdir
  rcases kd.readDir (n.abs p) w.st with ⟨⟨es, err⟩, s1⟩
  cases err <;> simp [ToErrno, toErrno]

theorem ofStat_settled (res : Res Stat_t) (hg : ∀ e, res = .err e → toErrno e ≠ none) :
    (Dispatched.ofStat res).Settled ∧ ∀ data sterr, Dispatched.ofStat res = .outcome data sterr →
      ∃ st, data = .stat st := by
  cases res with
  | ok st => exact ⟨Or.inr ⟨_, _, rfl, by simp [ToErrno]⟩, fun d s h => by cases h; exact ⟨_, rfl⟩⟩
  | err e => exact ⟨Or.inr ⟨_, _, rfl, hg e rfl⟩, fun d s h => by cases h; exact ⟨_, rfl⟩⟩
  | panic => exact ⟨Or.inl rfl, fun d s h => by cases h⟩

theorem ofUnit_settled (res : Res Unit) (hg : ∀ e, res = .err e → toErrno e ≠ none) :
    (Dispatched.ofUnit res).Settled ∧ ∀ data sterr, Dispatched.ofUnit res = .outcome data sterr →
      data = .text [] := by
  cases res with
  | ok st => exact ⟨Or.inr ⟨_, _, rfl, by simp [ToErrno]⟩, fun d s h => by cases h; rfl⟩
  | err e => exact ⟨Or.inr ⟨_, _, rfl, hg e rfl⟩, fun d s h => by cases h; rfl⟩
  | panic => exact ⟨Or.inl rfl, fun d s h => by cases h⟩

theorem ofText_settled (res : Res GoString) (hg : ∀ e, res = .err e → toErrno e ≠ none) :
    (Dispatched.ofText res).Settled ∧ ∀ data sterr, Dispatched.ofText res = .outcome data sterr →
      ∃ s, data = .text s := by
  cases res with
  | ok st => exact ⟨Or.inr ⟨_, _, rfl, by simp [ToErrno]⟩, fun d s h => by cases h; exact ⟨_, rfl⟩⟩
  | err e => exact ⟨Or.inr ⟨_, _, rfl, hg e rfl⟩, fun d s h => by cases h; exact ⟨_, rfl⟩⟩
  | panic => exact ⟨Or.inl rfl, fun d s h => by cases h⟩

theorem ofBlob_settled (res : Res BlobInfo) (hg : ∀ e, res = .err e → toErrno e ≠ none) :
    (Dispatched.ofBlob res).Settled ∧ ∀ data sterr, Dispatched.ofBlob res = .outcome data sterr →
      ∃ b, data = .blob b := by
  cases res with
  | ok st => exact ⟨Or.inr ⟨_, _, rfl, by simp [ToErrno]⟩, fun d s h => by cases h; exact ⟨_, rfl⟩⟩
  | err e => exact ⟨Or.inr ⟨_, _, rfl, hg e rfl⟩, fun d s h => by cases h; exact ⟨_, rfl⟩⟩
  | panic => exact ⟨Or.inl rfl, fun d s h => by cases h⟩

end Nomad

namespace Nomad

theorem fits_of_stat (op : GoString) (res : Res Stat_t)
    (hg : ∀ e, res = .err e → toErrno e ≠ none) (hu : op ∉ unitOps) :
    (Dispatched.ofStat res).Fits op := by
  obtain ⟨h1, h2⟩ := ofStat_settled res hg
  refine ⟨h1, fun _ data sterr hd es hes => ?_, fun h => absurd h hu⟩
  obtain ⟨st, hst⟩ := h2 data sterr hd
  rw [hst] at hes
  cases hes

theorem fits_of_text (op : GoString) (res : Res GoString)
    (hg : ∀ e, res = .err e → toErrno e ≠ none) (hu : op ∉ unitOps) :
    (Dispatched.ofText res).Fits op := by
  obtain ⟨h1, h2⟩ := ofText_settled res hg
  refine ⟨h1, fun _ data sterr hd es hes => ?_, fun h => absurd h hu⟩
  obtain ⟨st, hst⟩ := h2 data sterr hd
  rw [hst] at hes
  cases hes

theorem fits_of_blob (op : GoString) (res : Res BlobInfo)
    (hg : ∀ e, res = .err e → toErrno e ≠ none) (hu : op ∉ unitOps) :
    (Dispatched.ofBlob res).Fits op := by
  obtain ⟨h1, h2⟩ := ofBlob_settled res hg
  refine ⟨h1, fun _ data sterr hd es hes => ?_, fun h => absurd h hu⟩
  obtain ⟨st, hst⟩ := h2 data sterr hd
  rw [hst] at hes
  cases hes

theorem fits_of_unit (op : GoString) (res : Res Unit)
    (hg : ∀ e, res = .err e → toErrno e ≠ none) :
    (Dispatched.ofUnit res).Fits op := by
  obtain ⟨h1, h2⟩ := ofUnit_settled res hg
  refine ⟨h1, fun _ data sterr hd es hes => ?_, fun _ data sterr hd => h2 data sterr hd⟩
  rw [h2 data sterr hd] at hes
  cases hes

/-- For every known operation other than `statfs`, the switch of `handle`
leaves a panic of the node method or a `data` and an `sterr` that fit the
operation. -/
theorem dispatch_fits {σ : Type} (lib : Lib) (k : Kernel σ) (kd : KernelDir σ)
    (h : FileHandler) (r : Request) (op : GoString) (args : CallArgs) (w : World σ)
    (hk : op ∈ knownOps) (hs : op ≠ str "statfs") :
    (h.dispatch lib k kd r op args w).1.Fits op := by
  simp only [knownOps, List.mem_cons, List.mem_singleton, List.not_mem_nil, or_false] at hk
  rcases hk with rfl | rfl | rfl | rfl | rfl | rfl | rfl | rfl | rfl | rfl | rfl | rfl | rfl | rfl | rfl | rfl | rfl | rfl | rfl | rfl | rfl
  · exact absurd rfl hs
  · rw [dispatch_stat]
    exact fits_of_stat _ _ (Stat_err k h.node args.Path w) (by decide)
  · rw [dispatch_lstat]
    exact fits_of_stat _ _ (Lstat_err k h.node args.Path w) (by decide)
  · rw [dispatch_mknod]
    exact fits_of_stat _ _ (Mknod_err k h.node args.Path args.Attr w) (by decide)
  · rw [dispatch_mkdir]
    exact fits_of_stat _ _ (Mkdir_err k h.node args.Path args.Attr w) (by decide)
  · rw [dispatch_rmdir]
    exact fits_of_unit _ _ (Rmdir_err k h.node args.Path w)
  · rw [dispatch_unlink]
    exact fits_of_unit _ _ (Unlink_err k h.node args.Path w)
  · rw [dispatch_rename]
    exact fits_of_unit _ _ (Rename_err k h.node args.Path args.To w)
  · rw [dispatch_symlink]
    exact fits_of_stat _ _ (Symlink_err k h.node args.Path args.Link w) (by decide)
  · rw [dispatch_link]
    exact fits_of_stat _ _ (Link_err k h.node args.Path args.Link w) (by decide)
  · rw [dispatch_readlink]
    exact fits_of_text _ _ (Readlink_err k h.node args.Path w) (by decide)
  · rw [dispatch_open]
    exact fits_of_stat _ _ (Open_err k h.node args.Path args.Attr w) (by decide)
  · rw [dispatch_create]
    exact fits_of_stat _ _ (Create_err k h.node args.Path args.Attr w) (by decide)
  · rw [dispatch_opendir]
    exact fits_of_unit _ _ (Opendir_err k h.node args.Path w)
  · rw [dispatch_readdir]
    exact ⟨Or.inr ⟨_, _, rfl, Readdir_err kd h.node args.Path w⟩,
      fun hne => absurd rfl hne, fun hu => absurd hu (by decide)⟩
  · rw [dispatch_chmod]
    exact fits_of_unit _ _ (Chmod_err k h.node args.Path args.Attr w)
  · rw [dispatch_chown]
    exact fits_of_unit _ _ (Chown_err k h.node args.Path args.Attr w)
  · rw [dispatch_truncate]
    exact fits_of_unit _ _ (Truncate_err k h.node args.Path args.Attr w)
  · rw [dispatch_setattr]
    exact fits_of_stat _ _ (Setattr_err k h.node args.Path args.Attr w) (by decide)
  · rw [dispatch_read]
    exact fits_of_blob _ _ (Read_err k h.node args.Path args.Attr w) (by decide)
  · rw [dispatch_write]
    exact fits_of_blob _ _ (Write_err k h.node args.Path args.Attr w) (by decide)

end Nomad

namespace Nomad

/-! ### `handle` -/

theorem trimPrefix_append (pre s : GoString) : trimPrefix (pre ++ s) pre = s := by
  unfold trimPrefix
  have h : pre.isPrefixOf (pre ++ s) = true := List.isPrefixOf_iff_prefix.2 (List.prefix_append _ _)
  rw [if_pos h, List.drop_left]

theorem stripPrefix_mounted (h : FileHandler) (op : GoString) (hne : h.Prefix ≠ []) :
    h.stripPrefix (h.Prefix ++ op) = .ok op := by
  unfold FileHandler.stripPrefix
  rw [if_neg hne, trimPrefix_append, if_pos]
  have := List.length_pos.2 hne
  simp only [List.length_append]
  omega

/-- `handle` on a request whose path is under the mount point and whose body
is decoded: the switch, and then the envelope. -/
theorem handle_eq {σ : Type} (lib : Lib) (k : Kernel σ) (kd : KernelDir σ) (h : FileHandler)
    (r : Request) (op : GoString) (args : CallArgs) (w : World σ)
    (hpre : h.Prefix = str "/fs/") (hpath : r.Path = str "/fs/" ++ op)
    (hargs : lib.decodeArgs r.Body = .ok args) :
    h.handle lib k kd r w
      = (match (h.dispatch lib k kd r op args w).1 with
          | .early reply => reply
          | .panic => .panic
          | .outcome data sterr => respond lib data sterr,
         (h.dispatch lib k kd r op args w).2) := by
  have hs : h.stripPrefix r.Path = .ok op := by
    rw [hpath, ← hpre]
    exact stripPrefix_mounted h op (by rw [hpre]; decide)
  unfold FileHandler.handle
  simp only [hs, hargs]
  rcases h.dispatch lib k kd r op args w with ⟨d, w1⟩
  cases d <;> rfl

theorem ServeHTTP_eq_handle {σ : Type} (lib : Lib) (k : Kernel σ) (kd : KernelDir σ)
    (h : FileHandler) (r : Request) (w : World σ)
    (hm : r.Method ∈ [str "GET", str "HEAD", str "POST", str "DELETE", str "PUT", str "PATCH"]) :
    h.ServeHTTP lib k kd r w = h.handle lib k kd r w := by
  simp only [List.mem_cons, List.mem_singleton, List.not_mem_nil, or_false] at hm
  unfold FileHandler.ServeHTTP
  rcases hm with hm | hm | hm | hm | hm | hm <;> rw [hm] <;> simp only [
    show str "GET" ≠ str "OPTIONS" by decide, show str "HEAD" ≠ str "OPTIONS" by decide,
    show str "POST" ≠ str "OPTIONS" by decide, show str "DELETE" ≠ str "OPTIONS" by decide,
    show str "PUT" ≠ str "OPTIONS" by decide, show str "PATCH" ≠ str "OPTIONS" by decide,
    if_false, true_or, or_true, if_true, ite_self]

theorem dispatch_unknown {σ : Type} (lib : Lib) (k : Kernel σ) (kd : KernelDir σ)
    (h : FileHandler) (r : Request) (op : GoString) (args : CallArgs) (w : World σ)
    (hk : op ∉ knownOps) :
    h.dispatch lib k kd r op args w = (.early (notSupported lib r r.Path), w) := by
  simp only [knownOps, List.mem_cons, List.mem_singleton, List.not_mem_nil, or_false,
    not_or] at hk
  obtain ⟨h1, h2, h3, h4, h5, h6, h7, h8, h9, h10, h11, h12, h13, h14, h15, h16, h17, h18, h19,
    h20, h21⟩ := hk
  unfold FileHandler.dispatch
  simp only [h1, h2, h3, h4, h5, h6, h7, h8, h9, h10, h11, h12, h13, h14, h15, h16, h17, h18,
    h19, h20, h21, if_false]

theorem jsonResponse_code (lib : Lib) (v : CallResult) :
    (v.marshalError = none ∧ jsonResponse lib v = .response 200 (.json v))
    ∨ ∃ err, v.marshalError = some err ∧ jsonResponse lib v = internalServerError lib err := by
  unfold jsonResponse
  cases hm : v.marshalError with
  | none => exact Or.inl ⟨rfl, rfl⟩
  | some err => exact Or.inr ⟨err, rfl, rfl⟩

theorem respond_not_404 (lib : Lib) (data : Data) (sterr : Option GoError) (b : Body) :
    respond lib data sterr ≠ .response 404 b := by
  unfold respond
  cases ToErrno sterr with
  | none => simp
  | some e =>
    simp only
    rcases jsonResponse_code lib { Status := e, Error := toMsg lib sterr, Data := data }
      with ⟨_, h⟩ | ⟨err, _, h⟩
    · rw [h]; simp
    · rw [h]; simp [internalServerError]

end Nomad

namespace Nomad

set_option maxRecDepth 100000 in
/-- C16, the claim fails for a request that `ServeHTTP` does not pass to
`handle`: a `TRACE` request to `/fs/stat`, a known name, gets the reply 404,
and an `OPTIONS` request to `/fs/bogus`, an unknown name, gets the reply 200.
The body of both is the empty JSON object, which decodes. -/
theorem ServeHTTP_method_decides :
    str "stat" ∈ knownOps ∧ str "bogus" ∉ knownOps
    ∧ exampleLib.decodeArgs [123, 125] = .ok {}
    ∧ (exampleHandler.ServeHTTP exampleLib memKernel farDir
        { Method := str "TRACE", Path := str "/fs/stat", Body := [123, 125] } exampleWorld).1
      = .response 404 (.text (str "not supported: " ++ [34] ++ str "TRACE" ++ [34, 32]
          ++ str "/fs/stat" ++ [10]))
    ∧ (exampleHandler.ServeHTTP exampleLib memKernel farDir
        { Method := str "OPTIONS", Path := str "/fs/bogus", Body := [123, 125] } exampleWorld).1
      = .response 200 (.text []) :=
  ⟨by decide, by decide, rfl, by decide, by decide⟩

/-- C16, amended: for every request to `/fs/<op>` with the method `GET`,
`HEAD`, `POST`, `DELETE`, `PUT` or `PATCH` whose body decodes as `CallArgs`,
`ServeHTTP` is `handle`, and `handle` replies 404 with a text body if and only
if `<op>` is not one of the 21 known names; it then leaves the world as it
was, having called no node method. For a known name the reply is what the
switch of `handle` leaves behind, and the switch calls the node method of that
name on the arguments of the request. -/
theorem handle_not_supported_iff {σ : Type} (lib : Lib) (k : Kernel σ) (kd : KernelDir σ)
    (h : FileHandler) (r : Request) (op : GoString) (args : CallArgs) (w : World σ)
    (hpre : h.Prefix = str "/fs/") (hpath : r.Path = str "/fs/" ++ op)
    (hargs : lib.decodeArgs r.Body = .ok args)
    (hm : r.Method ∈ [str "GET", str "HEAD", str "POST", str "DELETE", str "PUT", str "PATCH"]) :
    h.ServeHTTP lib k kd r w = h.handle lib k kd r w
    ∧ ((∃ b, (h.handle lib k kd r w).1 = .response 404 b) ↔ op ∉ knownOps)
    ∧ (op ∉ knownOps →
        h.handle lib k kd r w
          = (.response 404 (.text (str "not supported: " ++ lib.quote r.Method ++ [32]
              ++ r.Path ++ [10])), w))
    ∧ h.handle lib k kd r w
        = (match (h.dispatch lib k kd r op args w).1 with
            | .early reply => reply
            | .panic => .panic
            | .outcome data sterr => respond lib data sterr,
           (h.dispatch lib k kd r op args w).2)
    ∧ h.dispatch lib k kd r (str "statfs") args w
        = ((match (h.node.Statfs kd args.Path w).1 with
            | .panic => Dispatched.panic
            | .err e => .outcome (.statfs {}) (some e)
            | .ok v =>
              match ToStatfsOut (some v) with
              | .error err => .early (internalServerError lib err)
              | .ok out => .outcome (.statfs out) none),
          (h.node.Statfs kd args.Path w).2)
    ∧ h.dispatch lib k kd r (str "lstat") args w
        = (Dispatched.ofStat (h.node.Lstat k args.Path w).1,
           (h.node.Lstat k args.Path w).2)
    ∧ h.dispatch lib k kd r (str "stat") args w
        = (Dispatched.ofStat (h.node.Stat k args.Path w).1,
           (h.node.Stat k args.Path w).2)
    ∧ h.dispatch lib k kd r (str "mknod") args w
        = (Dispatched.ofStat (h.node.Mknod k args.Path args.Attr w).1,
           (h.node.Mknod k args.Path args.Attr w).2)
    ∧ h.dispatch lib k kd r (str "mkdir") args w
        = (Dispatched.ofStat (h.node.Mkdir k args.Path args.Attr w).1,
           (h.node.Mkdir k args.Path args.Attr w).2)
    ∧ h.dispatch lib k kd r (str "rmdir") args w
        = (Dispatched.ofUnit (h.node.Rmdir k args.Path w).1,
           (h.node.Rmdir k args.Path w).2)
    ∧ h.dispatch lib k kd r (str "unlink") args w
        = (Dispatched.ofUnit (h.node.Unlink k args.Path w).1,
           (h.node.Unlink k args.Path w).2)
    ∧ h.dispatch lib k kd r (str "rename") args w
        = (Dispatched.ofUnit (h.node.Rename k args.Path args.To w).1,
           (h.node.Rename k args.Path args.To w).2)
    ∧ h.dispatch lib k kd r (str "symlink") args w
        = (Dispatched.ofStat (h.node.Symlink k args.Path args.Link w).1,
           (h.node.Symlink k args.Path args.Link w).2)
    ∧ h.dispatch lib k kd r (str "link") args w
        = (Dispatched.ofStat (h.node.Link k args.Path args.Link w).1,
           (h.node.Link k args.Path args.Link w).2)
    ∧ h.dispatch lib k kd r (str "readlink") args w
        = (Dispatched.ofText (h.node.Readlink k args.Path w).1,
           (h.node.Readlink k args.Path w).2)
    ∧ h.dispatch lib k kd r (str "open") args w
        = (Dispatched.ofStat (h.node.Open k args.Path args.Attr w).1,
           (h.node.Open k args.Path args.Attr w).2)
    ∧ h.dispatch lib k kd r (str "create") args w
        = (Dispatched.ofStat (h.node.Create k args.Path args.Attr w).1,
           (h.node.Create k args.Path args.Attr w).2)
    ∧ h.dispatch lib k kd r (str "opendir") args w
        = (Dispatched.ofUnit (h.node.Opendir k args.Path w).1,
           (h.node.Opendir k args.Path w).2)
    ∧ h.dispatch lib k kd r (str "readdir") args w
        = (.outcome (.entries (h.node.Readdir kd args.Path w).1.1)
            (h.node.Readdir kd args.Path w).1.2, (h.node.Readdir kd args.Path w).2)
    ∧ h.dispatch lib k kd r (str "chmod") args w
        = (Dispatched.ofUnit (h.node.Chmod k args.Path args.Attr w).1,
           (h.node.Chmod k args.Path args.Attr w).2)
    ∧ h.dispatch lib k kd r (str "chown") args w
        = (Dispatched.ofUnit (h.node.Chown k args.Path args.Attr w).1,
           (h.node.Chown k args.Path args.Attr w).2)
    ∧ h.dispatch lib k kd r (str "truncate") args w
        = (Dispatched.ofUnit (h.node.Truncate k args.Path args.Attr w).1,
           (h.node.Truncate k args.Path args.Attr w).2)
    ∧ h.dispatch lib k kd r (str "setattr") args w
        = (Dispatched.ofStat (h.node.Setattr k args.Path args.Attr w).1,
           (h.node.Setattr k args.Path args.Attr w).2)
    ∧ h.dispatch lib k kd r (str "read") args w
        = (Dispatched.ofBlob (h.node.Read k args.Path args.Attr w).1,
           (h.node.Read k args.Path args.Attr w).2)
    ∧ h.dispatch lib k kd r (str "write") args w
        = (Dispatched.ofBlob (h.node.Write k args.Path args.Attr w).1,
           (h.node.Write k args.Path args.Attr w).2) := by
  have heq := handle_eq lib k kd h r op args w hpre hpath hargs
  have hunk : op ∉ knownOps → h.handle lib k kd r w = (notSupported lib r r.Path, w) := by
    intro hk
    rw [heq, dispatch_unknown lib k kd h r op args w hk]
  refine ⟨ServeHTTP_eq_handle lib k kd h r w hm, ⟨?_, ?_⟩, hunk, heq, ?_⟩
  · rintro ⟨b, hb⟩
    intro hk
    rw [heq] at hb
    by_cases hs : op = str "statfs"
    · subst hs
      rw [dispatch_statfs] at hb
      simp only at hb
      rcases hx : (h.node.Statfs kd args.Path w).1 with v | e | _
      · rw [hx] at hb
        simp only at hb
        rcases hy : ToStatfsOut (some v) with err | out
        · rw [hy] at hb
          simp [internalServerError] at hb
        · rw [hy] at hb
          exact respond_not_404 lib _ _ b hb
      · rw [hx] at hb
        exact respond_not_404 lib _ _ b hb
      · rw [hx] at hb
        simp at hb
    · rcases (dispatch_fits lib k kd h r op args w hk hs).1 with hp | ⟨data, sterr, hd, _⟩
      · rw [hp] at hb
        simp at hb
      · rw [hd] at hb
        exact respond_not_404 lib _ _ b hb
  · intro hk
    exact ⟨_, congrArg Prod.fst (hunk hk)⟩
  · exact ⟨dispatch_statfs lib k kd h r args w,
      dispatch_lstat lib k kd h r args w,
      dispatch_stat lib k kd h r args w,
      dispatch_mknod lib k kd h r args w,
      dispatch_mkdir lib k kd h r args w,
      dispatch_rmdir lib k kd h r args w,
      dispatch_unlink lib k kd h r args w,
      dispatch_rename lib k kd h r args w,
      dispatch_symlink lib k kd h r args w,
      dispatch_link lib k kd h r args w,
      dispatch_readlink lib k kd h r args w,
      dispatch_open lib k kd h r args w,
      dispatch_create lib k kd h r args w,
      dispatch_opendir lib k kd h r args w,
      dispatch_readdir lib k kd h r args w,
      dispatch_chmod lib k kd h r args w,
      dispatch_chown lib k kd h r args w,
      dispatch_truncate lib k kd h r args w,
      dispatch_setattr lib k kd h r args w,
      dispatch_read lib k kd h r args w,
      dispatch_write lib k kd h r args w⟩

set_option maxRecDepth 100000 in
/-- C16 on the handler of the examples: a `POST` to `/fs/Stat` is answered
with 404 and no call is made, a `POST` to `/fs/stat` is not answered with 404. -/
theorem handle_not_supported_iff_witness :
    ((∃ b, (exampleHandler.handle exampleLib memKernel farDir
        { Method := str "POST", Path := str "/fs/" ++ str "Stat", Body := [123, 125] }
        exampleWorld).1 = .response 404 b) ↔ str "Stat" ∉ knownOps)
    ∧ str "Stat" ∉ knownOps
    ∧ ((∃ b, (exampleHandler.handle exampleLib memKernel farDir
        { Method := str "POST", Path := str "/fs/" ++ str "stat", Body := [123, 125] }
        exampleWorld).1 = .response 404 b) ↔ str "stat" ∉ knownOps)
    ∧ str "stat" ∈ knownOps :=
  ⟨(handle_not_supported_iff exampleLib memKernel farDir exampleHandler
      { Method := str "POST", Path := str "/fs/" ++ str "Stat", Body := [123, 125] }
      (str "Stat") {} exampleWorld rfl rfl rfl (by decide)).2.1,
   by decide,
   (handle_not_supported_iff exampleLib memKernel farDir exampleHandler
      { Method := str "POST", Path := str "/fs/" ++ str "stat", Body := [123, 125] }
      (str "stat") {} exampleWorld rfl rfl rfl (by decide)).2.1,
   by decide⟩

end Nomad

namespace Nomad

theorem marshalError_of_not_entries (v : CallResult) (h : ∀ es, v.Data ≠ .entries es) :
    v.marshalError = none := by
  unfold CallResult.marshalError
  cases hd : v.Data with
  | entries es => exact absurd hd (h es)
  | stat _ => rfl
  | statfs _ => rfl
  | text _ => rfl
  | blob _ => rfl

theorem WallTime.marshalError_none (t : WallTime) (h0 : 0 ≤ t.Year) (h1 : t.Year ≤ 9999)
    (hz : t.ZoneOffset.natAbs < 86400) : t.marshalError = none := by
  unfold WallTime.marshalError
  have h2 : ¬ (t.Year < 0 ∨ 9999 < t.Year) := by omega
  have h3 : ¬ (t.ZoneOffset ≠ 0 ∧ 24 ≤ t.ZoneOffset.natAbs / 60 / 60) := by omega
  rw [if_neg h2, if_neg h3]

theorem marshalError_entries (e : Nat) (msg : GoString) (es : List DirEntry)
    (h : ∀ x ∈ es, 0 ≤ x.Info.ModTime.Year ∧ x.Info.ModTime.Year ≤ 9999
      ∧ x.Info.ModTime.ZoneOffset.natAbs < 86400) :
    CallResult.marshalError { Status := e, Error := msg, Data := .entries es } = none := by
  unfold CallResult.marshalError
  simp only
  rw [List.findSome?_eq_none_iff]
  intro x hx
  exact WallTime.marshalError_none _ (h x hx).1 (h x hx).2.1 (h x hx).2.2

set_option maxRecDepth 100000 in
/-- C15, the claim fails for `readdir` when the envelope cannot be written as
JSON: on a directory that holds a file whose modification time is in the year
10000, the node method returns the entry and a nil error, `json.Marshal`
fails on the time, and the handler replies 500 with a text body. -/
theorem readdir_reply_500 :
    str "readdir" ∈ knownOps ∧ str "readdir" ≠ str "statfs"
    ∧ exampleLib.decodeArgs [123, 125] = .ok {}
    ∧ (exampleNode.Readdir farDir [] exampleWorld).1
      = ([{ Name := str "far", Info := { Name := str "far", ModTime := { Year := 10000 } } }],
          none)
    ∧ (exampleHandler.handle exampleLib memKernel farDir
        { Method := str "POST", Path := str "/fs/readdir", Body := [123, 125] } exampleWorld).1
      = .response 500 (.text (str "internal server error: "
          ++ str "Time.MarshalJSON: year outside of range [0,9999]" ++ [10])) :=
  ⟨by decide, by decide, rfl, rfl, by decide⟩

/-- C15, amended: for every request to `/fs/<op>` with the method `GET`,
`HEAD`, `POST`, `DELETE`, `PUT` or `PATCH`, a body that decodes as `CallArgs`
and a known `<op>` other than `statfs`: unless the node method panics, it
leaves a `data` and an error `sterr` on which `ToErrno` returns, and the
handler replies 200 with the envelope of `ToErrno(sterr)`, the text of `sterr`
(empty for nil) and `data`, provided `json.Marshal` can write the envelope; if
it cannot, the handler replies 500 with the error of `json.Marshal`. The
envelope can always be written for an operation other than `readdir`, and for
`readdir` when the modification time of every entry has a year in 0..9999
and a zone offset of less than a day. For `rmdir`, `unlink`, `rename`,
`opendir`, `chmod`, `chown` and `truncate` the data is the empty string. -/
theorem handle_reply {σ : Type} (lib : Lib) (k : Kernel σ) (kd : KernelDir σ)
    (h : FileHandler) (r : Request) (op : GoString) (args : CallArgs) (w : World σ)
    (hpre : h.Prefix = str "/fs/") (hpath : r.Path = str "/fs/" ++ op)
    (hargs : lib.decodeArgs r.Body = .ok args)
    (hm : r.Method ∈ [str "GET", str "HEAD", str "POST", str "DELETE", str "PUT", str "PATCH"])
    (hk : op ∈ knownOps) (hs : op ≠ str "statfs") :
    h.ServeHTTP lib k kd r w = h.handle lib k kd r w
    ∧ (((h.dispatch lib k kd r op args w).1 = .panic ∧ (h.handle lib k kd r w).1 = .panic)
      ∨ ∃ data sterr e, (h.dispatch lib k kd r op args w).1 = .outcome data sterr
        ∧ ToErrno sterr = some e
        ∧ ((CallResult.marshalError { Status := e, Error := toMsg lib sterr, Data := data } = none
            ∧ (h.handle lib k kd r w).1
              = .response 200 (.json { Status := e, Error := toMsg lib sterr, Data := data }))
          ∨ ∃ err,
            CallResult.marshalError { Status := e, Error := toMsg lib sterr, Data := data }
              = some err
            ∧ (h.handle lib k kd r w).1
              = .response 500 (.text (str "internal server error: " ++ lib.errorText err
                  ++ [10])))
        ∧ (op ≠ str "readdir" →
            (h.handle lib k kd r w).1
              = .response 200 (.json { Status := e, Error := toMsg lib sterr, Data := data }))
        ∧ (∀ es, data = .entries es →
            (∀ x ∈ es, 0 ≤ x.Info.ModTime.Year ∧ x.Info.ModTime.Year ≤ 9999
              ∧ x.Info.ModTime.ZoneOffset.natAbs < 86400) →
            (h.handle lib k kd r w).1
              = .response 200 (.json { Status := e, Error := toMsg lib sterr, Data := data }))
        ∧ (op ∈ unitOps → data = .text []))
    ∧ toMsg lib none = []
    ∧ (∀ err, toMsg lib (some err) = lib.errorText err) := by
  have heq := handle_eq lib k kd h r op args w hpre hpath hargs
  obtain ⟨hset, hdir, hunit⟩ := dispatch_fits lib k kd h r op args w hk hs
  refine ⟨ServeHTTP_eq_handle lib k kd h r w hm, ?_, rfl, fun _ => rfl⟩
  rcases hset with hp | ⟨data, sterr, hd, hne⟩
  · exact Or.inl ⟨hp, by rw [heq, hp]⟩
  · obtain ⟨e, he⟩ := Option.ne_none_iff_exists'.1 hne
    have hreply : (h.handle lib k kd r w).1
        = jsonResponse lib { Status := e, Error := toMsg lib sterr, Data := data } := by
      rw [heq, hd]
      simp only [respond, he]
    have h200 : CallResult.marshalError { Status := e, Error := toMsg lib sterr, Data := data }
        = none → (h.handle lib k kd r w).1
          = .response 200 (.json { Status := e, Error := toMsg lib sterr, Data := data }) := by
      intro hmz
      rw [hreply]
      simp only [jsonResponse, hmz]
    refine Or.inr ⟨data, sterr, e, hd, he, ?_, ?_, ?_, fun hu => hunit hu data sterr hd⟩
    · rcases jsonResponse_code lib { Status := e, Error := toMsg lib sterr, Data := data }
        with ⟨h1, h2⟩ | ⟨err, h1, h2⟩
      · exact Or.inl ⟨h1, hreply.trans h2⟩
      · exact Or.inr ⟨err, h1, hreply.trans h2⟩
    · intro hnd
      exact h200 (marshalError_of_not_entries _ (fun es => hdir hnd data sterr hd es))
    · intro es hes hall
      subst hes
      exact h200 (marshalError_entries e _ es hall)

set_option maxRecDepth 100000 in
/-- C15 on the handler of the examples, with an `rmdir` that refuses a
directory that is not empty: the `rmdir` of the root directory of the example
is answered with 200 and the envelope of `ENOTEMPTY`, its text and the empty
string as data. The body of the request is the object with the member `path`
set to `.`. -/
theorem handle_reply_witness :
    (exampleHandler.handle exampleLib strictKernel farDir
        { Method := str "POST", Path := str "/fs/" ++ str "rmdir",
          Body := [123, 34, 112, 97, 116, 104, 34, 58, 34, 46, 34, 125] } exampleWorld).1
      = .response 200
          (.json { Status := ENOTEMPTY, Error := str "directory not empty", Data := .text [] }) := by
  have hd : (exampleHandler.dispatch exampleLib strictKernel farDir
      { Method := str "POST", Path := str "/fs/" ++ str "rmdir",
        Body := [123, 34, 112, 97, 116, 104, 34, 58, 34, 46, 34, 125] } (str "rmdir")
      { Path := [dot] } exampleWorld).1 = .outcome (.text []) (some (.errno ENOTEMPTY)) := by
    decide
  rcases (handle_reply exampleLib strictKernel farDir exampleHandler
      { Method := str "POST", Path := str "/fs/" ++ str "rmdir",
        Body := [123, 34, 112, 97, 116, 104, 34, 58, 34, 46, 34, 125] } (str "rmdir")
      { Path := [dot] } exampleWorld rfl rfl rfl (by decide) (by decide) (by decide)).2.1
    with ⟨hp, _⟩ | ⟨data, sterr, e, ho, he, _, h200, _, _⟩
  · rw [hd] at hp
    cases hp
  · rw [hd] at ho
    cases ho
    cases he
    exact h200 (by decide)

end Nomad

namespace Nomad

/-! ### The client and the reply to a call -/

theorem statusIsValid_iff (resp : HTTPResponse) :
    statusIsValid resp = true ↔ 200 ≤ resp.StatusCode ∧ resp.StatusCode ≤ 299 := by
  unfold statusIsValid
  rw [decide_eq_true_iff]
  cases hc : resp.StatusCode with
  | ofNat n =>
    have h1 : Int.tdiv (Int.ofNat n) 100 = Int.ofNat (n / 100) := rfl
    rw [h1]
    constructor
    · intro h
      have h2 : n / 100 = 2 := by
        have := Int.ofNat.inj h
        exact this
      have h3 : (Int.ofNat n : Int) = (n : Int) := rfl
      rw [h3]
      omega
    · rintro ⟨h2, h3⟩
      have h4 : (Int.ofNat n : Int) = (n : Int) := rfl
      rw [h4] at h2 h3
      have h5 : n / 100 = 2 := by omega
      rw [h5]
      rfl
  | negSucc n =>
    have h1 : Int.tdiv (Int.negSucc n) 100 = -Int.ofNat ((n + 1) / 100) := rfl
    rw [h1]
    constructor
    · intro h
      have h3 : (Int.ofNat ((n + 1) / 100) : Int) = (((n + 1) / 100 : Nat) : Int) := rfl
      rw [h3] at h
      omega
    · rintro ⟨h2, _⟩
      have := Int.negSucc_lt_zero n
      omega

set_option maxRecDepth 100000 in
/-- C17, the claim fails when the data of a reply does not fit the result:
the reply 200 with the envelope of status 0 and data `5`, read into a string,
makes the client return the error of `json.Unmarshal`, not nil. -/
theorem fsResponse_data_mismatch :
    decodeEnvelope [123, 34, 115, 116, 97, 116, 117, 115, 34, 58, 48, 44, 34, 100, 97, 116, 97,
        34, 58, 53, 125] = .ok { Status := 0, Error := [], Data := [53] }
    ∧ Client.fsResponse unmarshalString
        { StatusCode := 200, Status := "200 OK",
          Body := .ok [123, 34, 115, 116, 97, 116, 117, 115, 34, 58, 48, 44, 34, 100, 97, 116, 97,
            34, 58, 53, 125] } (some (str "old"))
      = (some (.other "json: cannot unmarshal"), some (str "old")) :=
  ⟨rfl, rfl⟩

/-- C17, amended: for every HTTP reply, the client's `fs` returns the error
made of the status line, which is no errno, when the status code is outside
200..299. Otherwise, when the body was read and decodes as an envelope: the
status of the envelope as an errno when it is not zero, with the result of the
caller untouched and whatever `json.Unmarshal` would make of the data; nil
with no decoding when the status is zero and the result pointer is nil; and
when the status is zero and a result pointer was supplied, what
`json.Unmarshal` of the data into the result returns, nil or its error. A body
that cannot be read or that is no envelope gives the error of that step and
leaves the result untouched. -/
theorem fsResponse_cases {ρ : Type} (unmarshal : GoString → ρ → Option GoError × ρ)
    (resp : HTTPResponse) (result : Option ρ) :
    (∀ (send : GoString → CallArgs → Except GoError HTTPResponse) (call : GoString)
        (args : CallArgs), send (str "/fs/" ++ toLower call) args = .ok resp →
      Client.fs send unmarshal call args result = Client.fsResponse unmarshal resp result)
    ∧ (¬ (200 ≤ resp.StatusCode ∧ resp.StatusCode ≤ 299) →
      Client.fsResponse unmarshal resp result = (some (.other resp.Status), result)
      ∧ ∀ e, GoError.other resp.Status ≠ .errno e)
    ∧ (200 ≤ resp.StatusCode ∧ resp.StatusCode ≤ 299 →
        (∀ err, resp.Body = .error err →
          Client.fsResponse unmarshal resp result = (some err, result))
        ∧ (∀ data err, resp.Body = .ok data → decodeEnvelope data = .error err →
          Client.fsResponse unmarshal resp result = (some err, result))
        ∧ (∀ data cr, resp.Body = .ok data → decodeEnvelope data = .ok cr →
          (cr.Status ≠ 0 →
            ∀ other : GoString → ρ → Option GoError × ρ,
              Client.fsResponse other resp result = (some (.errno cr.Status), result))
          ∧ (cr.Status = 0 → result = none →
              Client.fsResponse unmarshal resp result = (none, none))
          ∧ (cr.Status = 0 → ∀ v, result = some v →
              Client.fsResponse unmarshal resp result
                = ((unmarshal cr.Data v).1, some (unmarshal cr.Data v).2)))) := by
  refine ⟨fun send call args hsend => by simp only [Client.fs, hsend], ?_⟩
  constructor
  · intro hc
    have hv : statusIsValid resp = false := by
      rw [Bool.eq_false_iff]
      intro h
      exact hc ((statusIsValid_iff resp).1 h)
    refine ⟨?_, fun e he => by cases he⟩
    simp [Client.fsResponse, hv]
  · intro hc
    have hv : statusIsValid resp = true := (statusIsValid_iff resp).2 hc
    refine ⟨?_, ?_, ?_⟩
    · intro err hb
      simp [Client.fsResponse, hv, hb]
    · intro data err hb hd
      simp [Client.fsResponse, hv, hb, hd]
    · intro data cr hb hd
      refine ⟨?_, ?_, ?_⟩
      · intro hs other
        simp [Client.fsResponse, hv, hb, hd, hs]
      · intro hs hr
        simp [Client.fsResponse, hv, hb, hd, hs, hr]
      · intro hs v hr
        simp [Client.fsResponse, hv, hb, hd, hs, hr]

set_option maxRecDepth 100000 in
/-- C17 on three replies read into a string: 404 gives the status line as
error; 200 with the envelope of `ENOTEMPTY` and the empty string as data
gives the errno and leaves the result; 200 with status 0 and the data `a/b`
gives nil and stores the data. -/
theorem fsResponse_cases_witness :
    Client.fsResponse unmarshalString
        { StatusCode := 404, Status := "404 Not Found", Body := .ok [] } (some (str "old"))
      = (some (.other "404 Not Found"), some (str "old"))
    ∧ Client.fsResponse unmarshalString
        { StatusCode := 200, Status := "200 OK",
          Body := .ok [123, 34, 115, 116, 97, 116, 117, 115, 34, 58, 51, 57, 44, 34, 100, 97,
            116, 97, 34, 58, 34, 34, 125] } (some (str "old"))
      = (some (.errno ENOTEMPTY), some (str "old"))
    ∧ Client.fsResponse unmarshalString
        { StatusCode := 200, Status := "200 OK",
          Body := .ok [123, 34, 115, 116, 97, 116, 117, 115, 34, 58, 48, 44, 34, 100, 97, 116,
            97, 34, 58, 34, 97, 47, 98, 34, 125] } (some (str "old"))
      = (none, some (str "a/b")) :=
  ⟨((fsResponse_cases unmarshalString
      { StatusCode := 404, Status := "404 Not Found", Body := .ok [] } (some (str "old"))).2.1
      (by decide)).1,
   (((fsResponse_cases unmarshalString
      { StatusCode := 200, Status := "200 OK",
        Body := .ok [123, 34, 115, 116, 97, 116, 117, 115, 34, 58, 51, 57, 44, 34, 100, 97,
          116, 97, 34, 58, 34, 34, 125] } (some (str "old"))).2.2 (by decide)).2.2
      _ { Status := 39, Error := [], Data := [34, 34] } rfl rfl).1 (by decide) unmarshalString,
   (((fsResponse_cases unmarshalString
      { StatusCode := 200, Status := "200 OK",
        Body := .ok [123, 34, 115, 116, 97, 116, 117, 115, 34, 58, 48, 44, 34, 100, 97, 116,
          97, 34, 58, 34, 97, 47, 98, 34, 125] } (some (str "old"))).2.2 (by decide)).2.2
      _ { Status := 0, Error := [], Data := [34, 97, 47, 98, 34] } rfl rfl).2.2 rfl _ rfl⟩

end Nomad

namespace Nomad

/-! ### `UtimeToTimespec` of a present timestamp -/

theorem NsecToTimespec_of_nonneg (n : Int) (h : 0 ≤ n) :
    (NsecToTimespec n).Sec * 1000000000 + (NsecToTimespec n).Nsec = n := by
  have h1 : 0 ≤ n.tmod 1000000000 := Int.tmod_nonneg 1000000000 h
  have h2 : 1000000000 * n.tdiv 1000000000 + n.tmod 1000000000 = n := Int.tdiv_add_tmod n 1000000000
  unfold NsecToTimespec
  simp only
  rw [if_neg (by omega)]
  simp only
  omega

/-- C26: for every present timestamp `t`, the nanoseconds field of
`UtimeToTimespec t` is not negative, and it is 0 whenever the conversion
`NsecToTimespec` gives a negative one; when the Unix time `n` of `t` in
nanoseconds is not negative, the result satisfies `sec * 10^9 + nsec = n` with
`0 <= nsec < 10^9`. -/
theorem UtimeToTimespec_present (t : Time) :
    0 ≤ (UtimeToTimespec (some t)).Nsec
    ∧ ((NsecToTimespec t.UnixNano).Nsec < 0 → (UtimeToTimespec (some t)).Nsec = 0)
    ∧ (0 ≤ t.UnixNano →
        (UtimeToTimespec (some t)).Sec * 1000000000 + (UtimeToTimespec (some t)).Nsec
            = t.UnixNano
          ∧ 0 ≤ (UtimeToTimespec (some t)).Nsec
          ∧ (UtimeToTimespec (some t)).Nsec < 1000000000) := by
  have hr := UtimeToTimespec_some_Nsec_range t
  refine ⟨hr.1, ?_, ?_⟩
  · intro h
    simp only [UtimeToTimespec, h, if_true]
  · intro h
    refine ⟨?_, hr.1, hr.2⟩
    have h1 := NsecToTimespec_of_nonneg t.UnixNano h
    have h2 := NsecToTimespec_Nsec_range t.UnixNano
    simp only [UtimeToTimespec]
    rw [if_neg (by omega)]
    exact h1

/-- C26 on the timestamp of 1.5 seconds after the epoch: one second and
500000000 nanoseconds. -/
theorem UtimeToTimespec_present_witness :
    (0 : Int) ≤ (⟨1500000000⟩ : Time).UnixNano
    ∧ UtimeToTimespec (some ⟨1500000000⟩) = ⟨1, 500000000⟩
    ∧ (UtimeToTimespec (some ⟨1500000000⟩)).Sec * 1000000000
        + (UtimeToTimespec (some ⟨1500000000⟩)).Nsec = 1500000000 :=
  ⟨by decide, by decide, ((UtimeToTimespec_present ⟨1500000000⟩).2.2 (by decide)).1⟩

end Nomad

namespace Nomad

/-! ### `ToAttr` -/

/-- C22: for every setattr request of the kernel, the `Attr` that `ToAttr`
produces has an owner if and only if the request marks uid or gid valid; the
owner then carries the value of a side that is marked valid and `-1` for a
side that is not. -/
theorem ToAttr_owner (now : Time) (i : SetAttrIn) :
    ((ToAttr now i).Owner.isSome = true ↔ (i.Valid &&& FATTR_UID ≠ 0 ∨ i.Valid &&& FATTR_GID ≠ 0))
    ∧ (∀ o, (ToAttr now i).Owner = some o →
        o.Uid = (if i.Valid &&& FATTR_UID ≠ 0 then (i.Uid : Int) else -1)
        ∧ o.Gid = (if i.Valid &&& FATTR_GID ≠ 0 then (i.Gid : Int) else -1))
    ∧ ToAttr now { Valid := FATTR_UID, Uid := 1000 } = { Owner := some ⟨1000, -1⟩ }
    ∧ ToAttr now { Valid := FATTR_GID, Gid := 0 } = { Owner := some ⟨-1, 0⟩ }
    ∧ ToAttr now { Valid := FATTR_MODE, Mode := 0o644, Uid := 7, Gid := 7 }
        = { Mode := some 0o644 } := by
  have hu : ∀ n : Nat, (n : Int) ≠ -1 := fun n => by omega
  refine ⟨?_, ?_, ?_, ?_, ?_⟩
  · by_cases h1 : i.Valid &&& FATTR_UID ≠ 0 <;> by_cases h2 : i.Valid &&& FATTR_GID ≠ 0 <;>
      simp [ToAttr, SetAttrIn.GetUID, SetAttrIn.GetGID, h1, h2, hu]
  · intro o ho
    by_cases h1 : i.Valid &&& FATTR_UID ≠ 0 <;> by_cases h2 : i.Valid &&& FATTR_GID ≠ 0 <;>
      simp [ToAttr, SetAttrIn.GetUID, SetAttrIn.GetGID, h1, h2, hu] at ho <;>
      subst ho <;> simp [h1, h2]
  · rfl
  · rfl
  · rfl

/-- C22 on a request that marks only the uid valid, with uid 1000: the owner
is present, with uid 1000 and gid `-1`. -/
theorem ToAttr_owner_witness :
    (ToAttr ⟨0⟩ { Valid := FATTR_UID, Uid := 1000 }).Owner = some ⟨1000, -1⟩
    ∧ ((ToAttr ⟨0⟩ { Valid := FATTR_UID, Uid := 1000 }).Owner.isSome = true ↔
        (({ Valid := FATTR_UID, Uid := 1000 } : SetAttrIn).Valid &&& FATTR_UID ≠ 0
          ∨ ({ Valid := FATTR_UID, Uid := 1000 } : SetAttrIn).Valid &&& FATTR_GID ≠ 0)) :=
  ⟨rfl, (ToAttr_owner ⟨0⟩ { Valid := FATTR_UID, Uid := 1000 }).1⟩

end Nomad

namespace Nomad

/-! ### `Release` of a file handle -/

theorem after_released (ops : List FileMethod) (f : webFile) (h : f.fd = []) :
    (ops.foldl webFile.after f) = f := by
  induction ops with
  | nil => rfl
  | cons op ops ih =>
    have h1 : f.after op = f := by
      cases op <;> simp [webFile.after, webFile.Release, h]
    rw [List.foldl_cons, h1]
    exact ih

/-- C23: for every file handle created with a non-empty path, the first
`Release` returns OK, which is 0, and clears the path of the handle; and after
any calls of the methods of the handle that follow, a later `Release` returns
`EBADF` and leaves the handle as it is. -/
theorem Release_once (fd : GoString) (h : fd ≠ []) :
    (newWebFile fd).Release = (0, { fd := [] })
    ∧ ∀ ops : List FileMethod,
        (ops.foldl webFile.after (newWebFile fd).Release.2).Release
          = (EBADF, ops.foldl webFile.after (newWebFile fd).Release.2)
        ∧ ops.foldl webFile.after (newWebFile fd).Release.2 = { fd := [] } := by
  have h1 : (newWebFile fd).Release = (0, { fd := [] }) := by
    simp [newWebFile, webFile.Release, h]
  refine ⟨h1, fun ops => ?_⟩
  rw [h1]
  have h2 := after_released ops { fd := [] } rfl
  simp only at h2 ⊢
  rw [h2]
  exact ⟨rfl, rfl⟩

/-- C23 on the handle of `/data`: the first `Release` gives 0 and the empty
path, a second one gives `EBADF`, also after a `Read` and a `Flush`. -/
theorem Release_once_witness :
    (newWebFile (str "/data")).Release = (0, { fd := [] })
    ∧ (newWebFile (str "/data")).Release.2.Release = (EBADF, { fd := [] })
    ∧ ((([FileMethod.Read, FileMethod.Flush].foldl webFile.after
          (newWebFile (str "/data")).Release.2).Release).1 = EBADF) :=
  ⟨(Release_once (str "/data") (by decide)).1,
   by decide,
   congrArg Prod.fst ((Release_once (str "/data") (by decide)).2 [.Read, .Flush]).1⟩

end Nomad

namespace Nomad

/-! ### The options of a mount -/

theorem mountCommand_some (env : MountEnv) (flags : MountFlags) (args : List GoString)
    (o : Options) (h : mountCommand env flags args = some o) :
    ∃ a0 a1, args = [a0, a1]
      ∧ o = mountOptions
          { mountPoint := a0, remote := a1, debug := flags.debug, allowOther := flags.allowOther,
            quiet := flags.readOnly, directMount := flags.directMount,
            directMountStrict := flags.directMountStrict, cpuProfile := flags.cpuProfile,
            memProfile := [] } := by
  unfold mountCommand at h
  match args, h with
  | [a0, a1], h =>
    refine ⟨a0, a1, rfl, ?_⟩
    simp only [mountCmd.Run, mount] at h
    split_ifs at h
    exact (Option.some.inj h).symm

/-- C24, the claim fails for `--read-only`: the `Run` of the command stores
that flag in `quiet` and leaves `readOnly` false, so `ro` is never among the
options. For every combination of flags with which the program gets to
`fs.Mount`, the options handed over do not contain `ro`; they contain
`default_permissions` if and only if `--allow-other` was given; both timeouts
are one second and `NullPermissions` is true; and a logger is set if and only
if `--read-only` was not given. With `--read-only` alone the list of options is
empty. -/
theorem mount_read_only_ignored (env : MountEnv) (flags : MountFlags) (args : List GoString)
    (o : Options) (h : mountCommand env flags args = some o) :
    str "ro" ∉ o.MountOptions.Options
    ∧ (str "default_permissions" ∈ o.MountOptions.Options ↔ flags.allowOther = true)
    ∧ o.AttrTimeout = some Second ∧ o.EntryTimeout = some Second
    ∧ Second = 1000000000
    ∧ o.NullPermissions = true
    ∧ (o.Logger = true ↔ flags.readOnly = false)
    ∧ (mountCmd.Run { readOnly := true } [str "/mnt", str "http://host/"]).map mountConfig.readOnly
        = some false
    ∧ ∀ a0 a1, env.rootFails a1 = false →
        (mountCommand env { readOnly := true } [a0, a1]).map (fun x => x.MountOptions.Options)
          = some [] := by
  obtain ⟨a0, a1, _, ho⟩ := mountCommand_some env flags args o h
  subst ho
  refine ⟨?_, ?_, ?_, ?_, rfl, ?_, ?_, rfl, ?_⟩
  · cases hq : flags.readOnly <;> cases ha : flags.allowOther <;>
      simp [mountOptions, hq, ha] <;> decide
  · cases hq : flags.readOnly <;> cases ha : flags.allowOther <;>
      simp [mountOptions, hq, ha]
  · cases hq : flags.readOnly <;> cases ha : flags.allowOther <;>
      simp [mountOptions, hq, ha]
  · cases hq : flags.readOnly <;> cases ha : flags.allowOther <;>
      simp [mountOptions, hq, ha]
  · cases hq : flags.readOnly <;> cases ha : flags.allowOther <;>
      simp [mountOptions, hq, ha]
  · cases hq : flags.readOnly <;> cases ha : flags.allowOther <;>
      simp [mountOptions, hq, ha]
  · intro a0 a1 hr
    simp [mountCommand, mountCmd.Run, mount, hr, mountOptions]

/-- C24 on the command line `mount --read-only --allow-other /mnt
http://host/`, with a remote that can be reached: the options are
`default_permissions` alone. -/
theorem mount_read_only_ignored_witness :
    mountCommand { createFails := (fun _ => false), rootFails := (fun _ => false) }
        { readOnly := true, allowOther := true } [str "/mnt", str "http://host/"]
      = some (mountOptions
          { mountPoint := str "/mnt", remote := str "http://host/", allowOther := true, quiet := true })
    ∧ (mountOptions
          { mountPoint := str "/mnt", remote := str "http://host/", allowOther := true, quiet := true }).MountOptions.Options
        = [str "default_permissions"]
    ∧ str "ro" ∉ (mountOptions
          { mountPoint := str "/mnt", remote := str "http://host/", allowOther := true, quiet := true }).MountOptions.Options :=
  ⟨rfl, rfl,
   (mount_read_only_ignored { createFails := (fun _ => false), rootFails := (fun _ => false) }
      { readOnly := true, allowOther := true } [str "/mnt", str "http://host/"] _ rfl).1⟩

end Nomad

namespace Nomad

/-! ### The cleanup of `Mknod` -/

/-- C21, the claim fails: when the file has been created and the `lstat` that
follows fails with `e`, `Mknod` returns `e` after exactly three system calls,
the `open` that creates the file, the `lstat`, and an `rmdir` of the path;
`unlink` is not called. When that `rmdir` leaves the state as it is, as it
does when it fails on a path that is no directory, the state after `Mknod` is
the one after the `lstat`, in which the file was created. -/
theorem Mknod_cleanup_is_rmdir {σ : Type} (k : Kernel σ) (n : FileNode) (rel : GoString)
    (a : Attr) (mode fd e : Nat) (w : World σ)
    (hm : a.Mode = some mode) (hreg : IsRegular mode = true)
    (hopen : (k.openat (n.abs rel) (O_RDWR ||| O_CREAT ||| O_TRUNC ||| O_CLOEXEC) 0o666 w.st).1
      = .ok fd)
    (hstat : (k.lstat (n.abs rel)
        (k.openat (n.abs rel) (O_RDWR ||| O_CREAT ||| O_TRUNC ||| O_CLOEXEC) 0o666 w.st).2).1
      = .error e) :
    (n.Mknod k rel (some a) w).1 = .err (.errno e)
    ∧ (n.Mknod k rel (some a) w).2.log
        = w.log ++ [.openat (n.abs rel) (O_RDWR ||| O_CREAT ||| O_TRUNC ||| O_CLOEXEC) 0o666,
            .lstat (n.abs rel), .rmdir (n.abs rel)]
    ∧ (∀ c ∈ (n.Mknod k rel (some a) w).2.log, c ∉ w.log → c ≠ .unlink (n.abs rel))
    ∧ (n.Mknod k rel (some a) w).2.st
        = (k.rmdir (n.abs rel) (k.lstat (n.abs rel)
            (k.openat (n.abs rel) (O_RDWR ||| O_CREAT ||| O_TRUNC ||| O_CLOEXEC) 0o666 w.st).2).2).2
    ∧ ((k.rmdir (n.abs rel) (k.lstat (n.abs rel)
            (k.openat (n.abs rel) (O_RDWR ||| O_CREAT ||| O_TRUNC ||| O_CLOEXEC) 0o666 w.st).2).2).2
          = (k.lstat (n.abs rel)
            (k.openat (n.abs rel) (O_RDWR ||| O_CREAT ||| O_TRUNC ||| O_CLOEXEC) 0o666 w.st).2).2 →
        (n.Mknod k rel (some a) w).2.st
          = (k.lstat (n.abs rel)
            (k.openat (n.abs rel) (O_RDWR ||| O_CREAT ||| O_TRUNC ||| O_CLOEXEC) 0o666 w.st).2).2) := by
  have hlog : (n.Mknod k rel (some a) w).2.log
      = w.log ++ [.openat (n.abs rel) (O_RDWR ||| O_CREAT ||| O_TRUNC ||| O_CLOEXEC) 0o666,
          .lstat (n.abs rel), .rmdir (n.abs rel)] := by
    simp only [FileNode.Mknod, hm, hreg, osCreate, World.call, hopen, hstat]
    simp
  have hst : (n.Mknod k rel (some a) w).2.st
      = (k.rmdir (n.abs rel) (k.lstat (n.abs rel)
          (k.openat (n.abs rel) (O_RDWR ||| O_CREAT ||| O_TRUNC ||| O_CLOEXEC) 0o666 w.st).2).2).2 := by
    simp only [FileNode.Mknod, hm, hreg, osCreate, World.call, hopen, hstat]
    simp
  refine ⟨?_, hlog, ?_, hst, ?_⟩
  · simp only [FileNode.Mknod, hm, hreg, osCreate, World.call, hopen, hstat]
    simp
  · intro c hc hnot
    rw [hlog] at hc
    rcases List.mem_append.1 hc with hc | hc
    · exact absurd hc hnot
    · simp only [List.mem_cons, List.mem_singleton, List.not_mem_nil, or_false] at hc
      rcases hc with rfl | rfl | rfl <;> simp
  · intro h1
    rw [hst, h1]

set_option maxRecDepth 100000 in
/-- C21 on the in-memory kernel with an `lstat` that fails with `EIO`, for
`mknod f` with the mode of a regular file under `/srv`: the error is `EIO`, the
calls are `open`, `lstat` and `rmdir`, the `rmdir` fails with `ENOTDIR`, and
the file `/srv/f` is still there after the call, where an `unlink` would have
removed it. -/
theorem Mknod_cleanup_is_rmdir_witness :
    (exampleWorld.st.find (str "/srv/f") = none)
    ∧ (exampleNode.Mknod blindKernel (str "f") (some { Mode := some (S_IFREG ||| 0o644) })
        exampleWorld).1 = .err (.errno EIO)
    ∧ (exampleNode.Mknod blindKernel (str "f") (some { Mode := some (S_IFREG ||| 0o644) })
        exampleWorld).2.log
        = [.openat (str "/srv/f") (O_RDWR ||| O_CREAT ||| O_TRUNC ||| O_CLOEXEC) 0o666,
            .lstat (str "/srv/f"), .rmdir (str "/srv/f")]
    ∧ ((exampleNode.Mknod blindKernel (str "f") (some { Mode := some (S_IFREG ||| 0o644) })
        exampleWorld).2.st.find (str "/srv/f")).map MemFile.mode = some (S_IFREG ||| 0o666)
    ∧ (blindKernel.rmdir (str "/srv/f")
        (exampleNode.Mknod blindKernel (str "f") (some { Mode := some (S_IFREG ||| 0o644) })
          exampleWorld).2.st).1 = .error ENOTDIR
    ∧ ((blindKernel.unlink (str "/srv/f")
        (exampleNode.Mknod blindKernel (str "f") (some { Mode := some (S_IFREG ||| 0o644) })
          exampleWorld).2.st).2.find (str "/srv/f")) = none :=
  ⟨by decide,
   (Mknod_cleanup_is_rmdir blindKernel exampleNode (str "f") { Mode := some (S_IFREG ||| 0o644) }
      (S_IFREG ||| 0o644) 3 EIO exampleWorld rfl (by decide) rfl rfl).1,
   by decide, by decide, rfl, by decide⟩

end Nomad

namespace Nomad

/-! ### Inode ids do not collide -/

theorem xor_left_cancel (a b c : Nat) (h : a ^^^ b = a ^^^ c) : b = c := by
  have h1 : a ^^^ (a ^^^ b) = a ^^^ (a ^^^ c) := by rw [h]
  rwa [Nat.xor_cancel_left, Nat.xor_cancel_left] at h1

theorem swapped_small (d : Nat) (hd : d < 2 ^ 32) :
    ((d <<< 32) % 2 ^ 64) ||| (d >>> 32) = 2 ^ 32 * d := by
  rw [swapped_eq d (by omega)]
  omega

theorem testBit_of_lt_32 (i j : Nat) (hi : i < 2 ^ 32) (hj : 32 ≤ j) : i.testBit j = false := by
  apply Nat.testBit_eq_false_of_lt
  have : 2 ^ 32 ≤ 2 ^ j := Nat.pow_le_pow_right (by decide) hj
  omega

theorem id_high (d i x : Nat) (hi : i < 2 ^ 32) :
    ((2 ^ 32 * d ^^^ x) ^^^ i) / 2 ^ 32 = d ^^^ (x / 2 ^ 32) := by
  apply Nat.eq_of_testBit_eq
  intro j
  rw [← Nat.shiftRight_eq_div_pow, ← Nat.shiftRight_eq_div_pow, Nat.testBit_shiftRight]
  simp only [Nat.testBit_xor, Nat.testBit_shiftRight, Nat.testBit_mul_pow_two]
  rw [testBit_of_lt_32 i (32 + j) hi (by omega)]
  simp

theorem id_low (d i x : Nat) (hi : i < 2 ^ 32) :
    ((2 ^ 32 * d ^^^ x) ^^^ i) % 2 ^ 32 = i ^^^ (x % 2 ^ 32) := by
  apply Nat.eq_of_testBit_eq
  intro j
  simp only [Nat.testBit_xor, Nat.testBit_mod_two_pow, Nat.testBit_mul_pow_two]
  by_cases hj : j < 32
  · have h1 : ¬ j ≥ 32 := by omega
    simp [hj, h1, Bool.xor_comm]
  · rw [testBit_of_lt_32 i j hi (by omega)]
    simp [hj]

/-- C28: for every root device `D`, if `idFromStat` gives the stat buffers
with device and inode `(d, i)` and `(d1, i1)` the same inode id, and either
`d = d1` or all of `d`, `d1`, `i`, `i1` are below `2^32`, then `d = d1` and
`i = i1`. When `d` and `i` are below `2^32`, the high 32 bits of the id are
`d` and its low 32 bits are `i`, each XORed with the corresponding half of
`swap(D)`. -/
theorem idFromStat_injective (r : WebRoot) (st st1 : Stat_t) (hD : r.Dev < 2 ^ 64)
    (hid : (idFromStat r st).Ino = (idFromStat r st1).Ino)
    (h : st.Dev = st1.Dev
      ∨ (st.Dev < 2 ^ 32 ∧ st1.Dev < 2 ^ 32 ∧ st.Ino < 2 ^ 32 ∧ st1.Ino < 2 ^ 32)) :
    (st.Dev = st1.Dev ∧ st.Ino = st1.Ino)
    ∧ (st.Dev < 2 ^ 32 → st.Ino < 2 ^ 32 →
        (idFromStat r st).Ino / 2 ^ 32 = st.Dev ^^^ (swap32 r.Dev / 2 ^ 32)
        ∧ (idFromStat r st).Ino % 2 ^ 32 = st.Ino ^^^ (swap32 r.Dev % 2 ^ 32)) := by
  constructor
  · rcases h with h | ⟨hd, hd1, hi, hi1⟩
    · refine ⟨h, ?_⟩
      simp only [idFromStat, h] at hid
      exact xor_left_cancel _ _ _ hid
    · simp only [idFromStat, swapped_small _ hd, swapped_small _ hd1] at hid
      have hh := congrArg (fun x => x / 2 ^ 32) hid
      have hl := congrArg (fun x => x % 2 ^ 32) hid
      simp only [id_high _ _ _ hi, id_high _ _ _ hi1, id_low _ _ _ hi, id_low _ _ _ hi1] at hh hl
      constructor
      · have h1 : (swap32 r.Dev / 2 ^ 32) ^^^ st.Dev = (swap32 r.Dev / 2 ^ 32) ^^^ st1.Dev := by
          rw [Nat.xor_comm _ st.Dev, Nat.xor_comm _ st1.Dev, swap32_eq _ hD]
          exact hh
        exact xor_left_cancel _ _ _ h1
      · have h1 : (swap32 r.Dev % 2 ^ 32) ^^^ st.Ino = (swap32 r.Dev % 2 ^ 32) ^^^ st1.Ino := by
          rw [Nat.xor_comm _ st.Ino, Nat.xor_comm _ st1.Ino, swap32_eq _ hD]
          exact hl
        exact xor_left_cancel _ _ _ h1
  · intro hd hi
    simp only [idFromStat, swapped_small _ hd, swap32_eq _ hD]
    exact ⟨id_high _ _ _ hi, id_low _ _ _ hi⟩

/-- C28 on root device `0x802`: the stat buffers of device `0x801`, inode 42
and of device `0x801`, inode 43 have different ids, and the id of the first
has the high half `0x801 XOR 0x802` and the low half 42. -/
theorem idFromStat_injective_witness :
    ((idFromStat { Dev := 0x802 } { Dev := 0x801, Ino := 42 }).Ino
        = (idFromStat { Dev := 0x802 } { Dev := 0x801, Ino := 42 }).Ino)
    ∧ (idFromStat { Dev := 0x802 } { Dev := 0x801, Ino := 42 }).Ino
        ≠ (idFromStat { Dev := 0x802 } { Dev := 0x801, Ino := 43 }).Ino
    ∧ (idFromStat { Dev := 0x802 } { Dev := 0x801, Ino := 42 }).Ino / 2 ^ 32
        = 0x801 ^^^ (swap32 0x802 / 2 ^ 32)
    ∧ (idFromStat { Dev := 0x802 } { Dev := 0x801, Ino := 42 }).Ino % 2 ^ 32
        = 42 ^^^ (swap32 0x802 % 2 ^ 32) :=
  ⟨rfl, by decide,
   (idFromStat_injective { Dev := 0x802 } { Dev := 0x801, Ino := 42 } { Dev := 0x801, Ino := 42 }
      (by decide) rfl (Or.inr ⟨by decide, by decide, by decide, by decide⟩)).2
      (by decide) (by decide)⟩

end Nomad

namespace Nomad

/-! ### `ToErrno` and success -/

theorem toErrno_zero (e : GoError) (h : toErrno e = some 0) :
    ∃ ws, e = wrapErr ws (.errno 0) ∨ e = wrapErr ws (.syscallError (.errno 0))
      ∨ e = wrapErr ws .pathErrorNil ∨ e = wrapErr ws .linkErrorNil := by
  induction e with
  | errno x =>
    simp only [toErrno, Option.some.injEq] at h
    exact ⟨[], Or.inl (by rw [h]; rfl)⟩
  | ErrPermission => simp [toErrno, EPERM] at h
  | ErrExist => simp [toErrno, EEXIST] at h
  | ErrNotExist => simp [toErrno, ENOENT] at h
  | ErrInvalid => simp [toErrno, EINVAL] at h
  | syscallError err _ =>
    cases err with
    | errno x =>
      simp only [toErrno, Option.some.injEq] at h
      exact ⟨[], Or.inr (Or.inl (by rw [h]; rfl))⟩
    | _ => simp [toErrno] at h
  | pathError err ih =>
    obtain ⟨ws, hws⟩ := ih (by simpa [toErrno] using h)
    refine ⟨true :: ws, ?_⟩
    rcases hws with hws | hws | hws | hws <;> simp [wrapErr, ← hws]
  | linkError err ih =>
    obtain ⟨ws, hws⟩ := ih (by simpa [toErrno] using h)
    refine ⟨false :: ws, ?_⟩
    rcases hws with hws | hws | hws | hws <;> simp [wrapErr, ← hws]
  | other msg => simp [toErrno, ENOSYS] at h
  | syscallErrorNil => simp [toErrno] at h
  | pathErrorNil => exact ⟨[], Or.inr (Or.inr (Or.inl rfl))⟩
  | linkErrorNil => exact ⟨[], Or.inr (Or.inr (Or.inr rfl))⟩

/-- C30, the claim fails for errors that are no failure of a system call but
are not nil either: `ToErrno` returns 0 for a `SyscallError` that holds the
zero errno and for a `PathError` that holds nil, neither of which is nil or,
under `PathError` and `LinkError` layers, the zero errno itself. -/
theorem ToErrno_zero_not_errno :
    ToErrno (some (.syscallError (.errno 0))) = some 0
    ∧ ToErrno (some .pathErrorNil) = some 0
    ∧ (∀ ws, GoError.syscallError (.errno 0) ≠ wrapErr ws (.errno 0))
    ∧ (∀ ws, GoError.pathErrorNil ≠ wrapErr ws (.errno 0)) := by
  refine ⟨rfl, rfl, ?_, ?_⟩
  · intro ws
    cases ws with
    | nil => simp [wrapErr]
    | cons b ws => cases b <;> simp [wrapErr]
  · intro ws
    cases ws with
    | nil => simp [wrapErr]
    | cons b ws => cases b <;> simp [wrapErr]

/-- C30, amended: `ToErrno` returns 0 for an error value `e` if and only if
`e` is nil or is, under any stack of `PathError` and `LinkError` layers, the
zero errno itself, a `SyscallError` that holds the zero errno, or a
`PathError` or `LinkError` that holds nil; `ToErrno` is idempotent wherever it
returns; and the envelope that the handler writes has status 0 exactly in
those cases. -/
theorem ToErrno_zero_iff :
    (∀ e : Option GoError, ToErrno e = some 0 ↔
        (e = none ∨ ∃ ws, e = some (wrapErr ws (.errno 0))
          ∨ e = some (wrapErr ws (.syscallError (.errno 0)))
          ∨ e = some (wrapErr ws .pathErrorNil) ∨ e = some (wrapErr ws .linkErrorNil)))
    ∧ (∀ (e : Option GoError) (x : Nat), ToErrno e = some x →
        ToErrno (some (.errno x)) = ToErrno e)
    ∧ (∀ (lib : Lib) (data : Data) (sterr : Option GoError) (x : Nat), ToErrno sterr = some x →
        respond lib data sterr
          = jsonResponse lib { Status := x, Error := toMsg lib sterr, Data := data }) := by
  refine ⟨?_, ?_, ?_⟩
  · intro e
    constructor
    · intro h
      cases e with
      | none => exact Or.inl rfl
      | some err =>
        obtain ⟨ws, hws⟩ := toErrno_zero err h
        refine Or.inr ⟨ws, ?_⟩
        rcases hws with hws | hws | hws | hws <;> simp [hws]
    · rintro (h | ⟨ws, h | h | h | h⟩) <;> subst h
      · rfl
      · simp only [ToErrno, toErrno_wrapErr]; rfl
      · simp only [ToErrno, toErrno_wrapErr]; rfl
      · simp only [ToErrno, toErrno_wrapErr]; rfl
      · simp only [ToErrno, toErrno_wrapErr]; rfl
  · intro e x h
    rw [h]
    rfl
  · intro lib data sterr x h
    simp only [respond, h]

/-- C30 on a `PathError` around `ENOENT`: `ToErrno` gives `ENOENT`, which is
not 0, and gives it again for that errno. -/
theorem ToErrno_zero_iff_witness :
    ToErrno (some (.pathError (.errno ENOENT))) = some ENOENT
    ∧ ENOENT ≠ 0
    ∧ ToErrno (some (.errno ENOENT)) = ToErrno (some (.pathError (.errno ENOENT))) :=
  ⟨rfl, by decide, ToErrno_zero_iff.2.1 (some (.pathError (.errno ENOENT))) ENOENT rfl⟩

end Nomad

namespace Nomad

/-! ### The blob handler on a token that does not decode -/

/-- C29, the claim fails: for every blob request with method `GET` or `POST`
whose path matches and whose token does not decode, the handler writes the
reply 500 and then, instead of returning, goes on to read `bi.Offset` on the
nil pointer and panics; no system call is made and the state is as before. -/
theorem blob_decode_failure_panics {σ : Type} (lib : Lib) (k : Kernel σ) (files : BlobFiles σ)
    (h : blobHandler) (r : Request) (w : World σ) (base : URL) (e : GoError)
    (hm : r.Method = str "GET" ∨ r.Method = str "POST")
    (hp : blobReMatch r.Path = true)
    (hbase : Parse h.Prefix = .ok base)
    (hdec : DecodeBlobHref base r.Path = .error e) :
    h.ServeHTTP lib k files r w
      = ({ writes := [internalServerError lib e], panicked := true }, w)
    ∧ internalServerError lib e
        = .response 500 (.text (str "internal server error: " ++ lib.errorText e ++ [10])) := by
  refine ⟨?_, rfl⟩
  have hr : h.readBlobInfo r = some (none, some e) := by
    simp only [blobHandler.readBlobInfo, hbase, hdec]
  rcases hm with hm | hm
  · simp only [blobHandler.ServeHTTP, hm, hp, and_self, if_true, blobHandler.Download, hr]
  · have hne : ¬ (str "POST" = str "GET") := by decide
    simp only [blobHandler.ServeHTTP, hm, hp, hne, false_and, and_self, if_true, if_false,
      blobHandler.Upload, hr]

set_option maxRecDepth 100000 in
/-- C29 on `GET /blob/x`, whose token is no base64 text: the reply 500 is
written and the handler panics. -/
theorem blob_decode_failure_panics_witness :
    blobReMatch (str "/blob/x") = true
    ∧ DecodeBlobHref { Path := str "/blob/" } (str "/blob/x")
        = .error (.other "illegal base64 data")
    ∧ exampleBlobHandler.ServeHTTP exampleLib memKernel noFiles
        { Method := str "GET", Path := str "/blob/x" } exampleWorld
      = ({ writes := [.response 500
            (.text (str "internal server error: illegal base64 data" ++ [10]))],
           panicked := true }, exampleWorld) :=
  ⟨by decide, rfl,
   (blob_decode_failure_panics exampleLib memKernel noFiles exampleBlobHandler
      { Method := str "GET", Path := str "/blob/x" } exampleWorld { Path := str "/blob/" }
      (.other "illegal base64 data") (Or.inl rfl) (by decide) rfl rfl).1.trans rfl⟩

end Nomad

namespace Nomad

/-! ### `resolveArgs` -/

theorem resolve_eq_spec (root : GoString) (options : List GoString) (hopt : [] ∉ options)
    (before : Option GoString) (opt v : GoString)
    (hinv : opt = match before with
      | none => []
      | some b => if (str "-").isPrefixOf b then b else [])
    (hparse : (str "file:").isPrefixOf v = true → ∃ u, Parse v = .ok u) :
    (str "-").isPrefixOf v = false →
      resolveArgs.resolve root options opt v = .ok (resolvedSpec root options before v) := by
  intro hdash
  unfold resolveArgs.resolve resolvedSpec
  rw [hdash]
  by_cases hf : (str "file:").isPrefixOf v = true
  · obtain ⟨u, hu⟩ := hparse hf
    simp [hf, hu, urlPathOf]
  · simp only [hf, Bool.false_eq_true, if_false]
    cases before with
    | none =>
      simp only at hinv
      subst hinv
      have h1 : options.any (fun v => decide (v = [])) = false := by
        rw [List.any_eq_false]
        intro x hx
        simp only [decide_eq_true_eq]
        intro h
        exact hopt (h ▸ hx)
      simp [h1]
    | some b =>
      simp only at hinv
      by_cases hb : (str "-").isPrefixOf b = true
      · rw [if_pos hb] at hinv
        subst hinv
        by_cases hmem : opt ∈ options
        · have h1 : options.any (fun v => decide (v = opt)) = true := by
            simpa using hmem
          simp [h1, hb, hmem]
        · have h1 : options.any (fun v => decide (v = opt)) = false := by
            rw [List.any_eq_false]
            intro x hx
            simp only [decide_eq_true_eq]
            intro h
            exact hmem (h ▸ hx)
          simp [h1, hmem]
      · rw [if_neg hb] at hinv
        subst hinv
        have h1 : options.any (fun v => decide (v = [])) = false := by
          rw [List.any_eq_false]
          intro x hx
          simp only [decide_eq_true_eq]
          intro h
          exact hopt (h ▸ hx)
        simp [h1, hb]

theorem loop_eq_spec (root : GoString) (options : List GoString) (hopt : [] ∉ options) :
    ∀ (args : List GoString) (before : Option GoString) (opt : GoString)
      (resolved : List GoString),
      (opt = match before with
        | none => []
        | some b => if (str "-").isPrefixOf b then b else []) →
      (∀ a ∈ args, (str "file:").isPrefixOf a = true → ∃ u, Parse a = .ok u) →
      resolveArgs.loop root options opt resolved args
        = .ok (resolved ++ resolveArgsSpec root options before args) := by
  intro args
  induction args with
  | nil =>
    intro before opt resolved _ _
    simp [resolveArgs.loop, resolveArgsSpec]
  | cons v rest ih =>
    intro before opt resolved hinv hparse
    have hrest : ∀ a ∈ rest, (str "file:").isPrefixOf a = true → ∃ u, Parse a = .ok u :=
      fun a ha => hparse a (List.mem_cons_of_mem _ ha)
    by_cases hdash : (str "-").isPrefixOf v = true
    · have h1 := ih (some v) v (resolved ++ [v]) (by simp [hdash]) hrest
      simp only [resolveArgs.loop, hdash, if_true, h1, resolveArgsSpec, resolvedSpec]
      simp
    · have hd : (str "-").isPrefixOf v = false := Bool.eq_false_iff.2 hdash
      have h0 := resolve_eq_spec root options hopt before opt v hinv
        (hparse v (List.mem_cons_self _ _)) hd
      have h1 := ih (some v) [] (resolved ++ [resolvedSpec root options before v])
        (by simp [hd]) hrest
      simp only [resolveArgs.loop, hd, Bool.false_eq_true, if_false, h0, h1, resolveArgsSpec]
      simp

theorem resolveArgsSpec_length (root : GoString) (options : List GoString) :
    ∀ (args : List GoString) (before : Option GoString),
      (resolveArgsSpec root options before args).length = args.length := by
  intro args
  induction args with
  | nil => intro _; rfl
  | cons v rest ih =>
    intro before
    simp [resolveArgsSpec, ih]

theorem resolveArgsSpec_get (root : GoString) (options : List GoString) :
    ∀ (args : List GoString) (before : Option GoString) (i : Nat) (a : GoString),
      args[i]? = some a →
      (resolveArgsSpec root options before args)[i]?
        = some (resolvedSpec root options (if i = 0 then before else args[i - 1]?) a) := by
  intro args
  induction args with
  | nil => intro _ i a h; simp at h
  | cons v rest ih =>
    intro before i a h
    cases i with
    | zero =>
      simp only [List.getElem?_cons_zero, Option.some.injEq] at h
      subst h
      simp [resolveArgsSpec]
    | succ j =>
      simp only [List.getElem?_cons_succ] at h
      have h1 := ih (some v) j a h
      simp only [resolveArgsSpec, List.getElem?_cons_succ, h1]
      cases j with
      | zero => simp
      | succ m => simp

theorem resolveArgsSpec_id (root : GoString) :
    ∀ (args : List GoString) (before : Option GoString),
      (∀ a ∈ args, (str "file:").isPrefixOf a = false) →
      resolveArgsSpec root [] before args = args := by
  intro args
  induction args with
  | nil => intro _ _; rfl
  | cons v rest ih =>
    intro before h
    have hv := h v (List.mem_cons_self _ _)
    have h1 := ih (some v) (fun a ha => h a (List.mem_cons_of_mem _ ha))
    simp only [resolveArgsSpec, h1, resolvedSpec, hv]
    cases before <;> simp

/-- C27: for every root, every list of options without an empty string and
every list of arguments in which each `file:` argument parses as a URL,
`resolveArgs` returns, without an error, a list of the same length in which
the argument at each place is what the specification makes of it: unchanged
if it starts with `-`; the root joined with the path of the URL if it starts
with `file:`; the root joined with the argument if the argument immediately
before it starts with `-` and is listed in the options; unchanged otherwise.
With no options and no `file:` argument the result is the input. -/
theorem resolveArgs_spec (root : GoString) (options args : List GoString)
    (hopt : [] ∉ options)
    (hparse : ∀ a ∈ args, (str "file:").isPrefixOf a = true → ∃ u, Parse a = .ok u) :
    resolveArgs root options args = .ok (resolveArgsSpec root options none args)
    ∧ (resolveArgsSpec root options none args).length = args.length
    ∧ (∀ (i : Nat) (a : GoString), args[i]? = some a →
        (resolveArgsSpec root options none args)[i]?
          = some (resolvedSpec root options (if i = 0 then none else args[i - 1]?) a))
    ∧ (options = [] → (∀ a ∈ args, (str "file:").isPrefixOf a = false) →
        resolveArgs root options args = .ok args) := by
  have h1 : resolveArgs root options args = .ok (resolveArgsSpec root options none args) := by
    have h := loop_eq_spec root options hopt args none [] [] rfl hparse
    simpa [resolveArgs] using h
  refine ⟨h1, resolveArgsSpec_length root options args none,
    resolveArgsSpec_get root options args none, ?_⟩
  intro ho hno
  rw [h1, ho, resolveArgsSpec_id root args none hno]

set_option maxRecDepth 100000 in
/-- C27 on the examples of the test, with root `/root`: the options `-al` and
the arguments `-al /tmp file:/bin /etc` give `-al /root/tmp /root/bin /etc`,
and the argument `file:..` gives `/root`. -/
theorem resolveArgs_spec_witness :
    resolveArgs (str "/root") [str "-al"] [str "-al", str "/tmp", str "file:/bin", str "/etc"]
      = .ok [str "-al", str "/root/tmp", str "/root/bin", str "/etc"]
    ∧ resolveArgs (str "/root") [] [str "file:.."] = .ok [str "/root"] :=
  ⟨(resolveArgs_spec (str "/root") [str "-al"]
    [str "-al", str "/tmp", str "file:/bin", str "/etc"] (by decide)
    (by
      intro a ha hpre
      simp only [List.mem_cons, List.mem_singleton, List.not_mem_nil, or_false] at ha
      rcases ha with rfl | rfl | rfl | rfl
      · exact absurd hpre (by decide)
      · exact absurd hpre (by decide)
      · exact ⟨_, rfl⟩
      · exact absurd hpre (by decide))).1.trans rfl, rfl⟩

end Nomad

namespace Nomad

/-! ### The host path of a path from the wire -/

theorem cleanElems_no_dotdot (r : Bool) (es out : List GoString) (hdd : dotdot ∉ es) :
    cleanElems r out es
      = out.reverse ++ es.filter (fun e => decide (e ≠ [] ∧ e ≠ [dot])) := by
  induction es generalizing out with
  | nil => simp [cleanElems]
  | cons x xs ih =>
    have hxs : dotdot ∉ xs := fun h => hdd (List.mem_cons_of_mem _ h)
    have hx : x ≠ dotdot := fun h => hdd (h ▸ List.mem_cons_self _ _)
    by_cases h1 : x = [] ∨ x = [dot]
    · have h2 : ¬ (x ≠ [] ∧ x ≠ [dot]) := by
        rcases h1 with h | h <;> simp [h]
      simp only [cleanElems, h1, if_true, ih out hxs, List.filter_cons, h2, decide_False,
        Bool.false_eq_true, if_false]
    · have h2 : x ≠ [] ∧ x ≠ [dot] := by
        constructor
        · exact fun h => h1 (Or.inl h)
        · exact fun h => h1 (Or.inr h)
      simp only [cleanElems, h1, hx, if_false, ih (x :: out) hxs, List.filter_cons, h2,
        decide_True, if_true, and_self, ne_eq, not_false_eq_true]
      simp

theorem cleanElems_root (es : List GoString) (hes : ∀ e ∈ es, Normal e) :
    cleanElems true [] (splitSlash (joinSlash es)) = es := by
  cases es with
  | nil => rfl
  | cons e es1 =>
    rw [splitSlash_joinSlash _ (by simp) (fun x hx => (hes x hx).2.2.2),
      cleanElems_normal _ _ _ hes]
    simp

/-- The host path in cleaned form: the elements of the root, then the
elements of the path that are not empty and not `.`, when none is `..`. -/
theorem Clean_root_slash_path (es : List GoString) (hes : ∀ e ∈ es, Normal e) (p : GoString)
    (hdd : dotdot ∉ splitSlash p) :
    Clean ((slash :: joinSlash es) ++ slash :: p) = slash :: joinSlash (es ++ keptElems p) := by
  rw [List.cons_append, Clean_rooted_unfold, splitSlash_cons_slash, cleanElems_skip_empty,
    splitSlash_append_slash, cleanElems_append, cleanElems_root es hes,
    cleanElems_no_dotdot _ _ _ hdd]
  simp [keptElems]

theorem keptElems_normal (p : GoString) (hdd : dotdot ∉ splitSlash p) :
    ∀ e ∈ keptElems p, Normal e := by
  intro e he
  simp only [keptElems, List.mem_filter, decide_eq_true_eq] at he
  exact ⟨he.2.1, he.2.2, fun h => hdd (h ▸ he.1), splitSlash_no_slash p e he.1⟩

theorem underRoot_join (es qs : List GoString) (hes : ∀ e ∈ es, Normal e) :
    underRoot (slash :: joinSlash es) (slash :: joinSlash (es ++ qs)) = true := by
  unfold underRoot
  cases qs with
  | nil => simp
  | cons q qs1 =>
    cases es with
    | nil => simp [joinSlash]
    | cons e es1 =>
      have hne : joinSlash (e :: es1) ≠ [] := joinSlash_ne_nil _ (by simp) hes
      have h1 : slash :: joinSlash (e :: es1) ≠ [slash] := by simpa using hne
      rw [joinSlash_append _ _ (by simp) (by simp), if_neg h1]
      have h2 : (slash :: joinSlash (e :: es1) ++ [slash]) <+: 
          (slash :: (joinSlash (e :: es1) ++ slash :: joinSlash (q :: qs1))) := by
        refine ⟨joinSlash (q :: qs1), ?_⟩
        simp
      simp [List.isPrefixOf_iff_prefix.2 h2]

/-- C25, the claim fails for a path with `..` elements: on the root `/srv`
the path `../etc/passwd` resolves to the host path `/etc/passwd`, which is
not under the root, for the server node as for the blob handler; the `lstat`
of the call `lstat` with that path in its envelope is made on `/etc/passwd`;
and a token with that path decodes to it. -/
theorem abs_escapes_root :
    exampleNode.abs (str "../etc/passwd") = str "/etc/passwd"
    ∧ exampleBlobHandler.resolvePath (str "../etc/passwd") = str "/etc/passwd"
    ∧ underRoot (str "/srv") (str "/etc/passwd") = false
    ∧ (exampleHandler.ServeHTTP exampleLib memKernel farDir
        { Method := str "POST", Path := str "/fs/lstat",
          Body := [123, 34] ++ str "path" ++ [34, 58, 34] ++ str "../etc/passwd" ++ [34, 125] }
        exampleWorld).2.log = [.lstat (str "/etc/passwd")]
    ∧ (match DecodeBlobHref { Path := str "/blob/" }
          (str "/blob/" ++ b64Encode (jsonMarshal ⟨0, 10, 0o644, str "../etc/passwd"⟩)) with
        | .ok bi => some bi.Path
        | .error _ => none) = some (str "../etc/passwd") := by
  refine ⟨by decide, by decide, by decide, ?_, ?_⟩
  · rfl
  · rfl

/-- C25, amended: for every root that is absolute and clean and every path
`p` none of whose elements is `..`, the host path that the server node and the
blob handler resolve by joining `p` with the root is the root itself or a
path under the root: it is made of the elements of the root followed by the
elements of `p` that are not empty and not `.`. -/
theorem abs_under_root (root p : GoString) (habs : root.head? = some slash)
    (hroot : Clean root = root) (hdd : dotdot ∉ splitSlash p) :
    (∀ n : FileNode, n.Root = root → underRoot root (n.abs p) = true)
    ∧ (∀ h : blobHandler, h.root = root → underRoot root (h.resolvePath p) = true)
    ∧ ∃ es, (∀ e ∈ es, Normal e) ∧ root = slash :: joinSlash es
        ∧ Join [root, p] = slash :: joinSlash (es ++ keptElems p)
        ∧ ∀ e ∈ keptElems p, Normal e := by
  obtain ⟨es, hes, hR⟩ := Clean_rooted_form root habs hroot
  have hne : root ≠ [] := by
    rw [hR]
    simp
  have hj : Join [root, p] = slash :: joinSlash (es ++ keptElems p) := by
    have h1 : Join [root, p] = Clean (root ++ slash :: p) := by
      unfold Join
      rw [if_neg hne]
      rfl
    rw [h1, hR, Clean_root_slash_path es hes p hdd]
  have hu : underRoot root (Join [root, p]) = true := by
    rw [hj]
    conv => lhs; arg 1; rw [hR]
    exact underRoot_join es _ hes
  refine ⟨?_, ?_, es, hes, hR, hj, keptElems_normal p hdd⟩
  · intro n hn
    unfold FileNode.abs
    rw [hn]
    exact hu
  · intro h hh
    unfold blobHandler.resolvePath
    rw [hh]
    exact hu

/-- C25 on the root `/srv` and the path `a/./b`: the host path is `/srv/a/b`. -/
theorem abs_under_root_witness :
    exampleNode.abs (str "a/./b") = str "/srv/a/b"
    ∧ underRoot (str "/srv") (exampleNode.abs (str "a/./b")) = true :=
  ⟨by decide,
   (abs_under_root (str "/srv") (str "a/./b") (by decide) (by decide) (by decide)).1
     exampleNode rfl⟩

end Nomad

namespace Nomad

/-! ### The target that `Symlink` hands to the system call -/

theorem keptElems_rooted (qs : List GoString) (hqs : ∀ e ∈ qs, Normal e) :
    dotdot ∉ splitSlash (slash :: joinSlash qs) ∧ keptElems (slash :: joinSlash qs) = qs := by
  have hfil : qs.filter (fun e => decide (e ≠ [] ∧ e ≠ [dot])) = qs := by
    rw [List.filter_eq_self]
    intro e he
    simpa using ⟨(hqs e he).1, (hqs e he).2.1⟩
  cases qs with
  | nil => exact ⟨by decide, by decide⟩
  | cons q qs1 =>
    have hs : splitSlash (slash :: joinSlash (q :: qs1)) = [] :: (q :: qs1) := by
      rw [splitSlash_cons_slash, splitSlash_joinSlash _ (by simp) (fun x hx => (hqs x hx).2.2.2)]
    constructor
    · rw [hs]
      intro h
      rcases List.mem_cons.1 h with h | h
      · exact absurd h (by decide)
      · exact (hqs _ h).2.2.1 rfl
    · unfold keptElems
      rw [hs, List.filter_cons]
      simp only [ne_eq, not_true_eq_false, false_and, decide_False, Bool.false_eq_true, if_false]
      exact hfil

/-- The host path of a path is the path itself only on the root `/`, and
there exactly for an absolute clean path. -/
theorem Join_root_eq_self_iff (root p : GoString) (habs : root.head? = some slash)
    (hroot : Clean root = root) :
    Join [root, p] = p ↔ (root = [slash] ∧ p.head? = some slash ∧ Clean p = p) := by
  obtain ⟨es, hes, hR⟩ := Clean_rooted_form root habs hroot
  have hne : root ≠ [] := by
    rw [hR]
    simp
  have h1 : Join [root, p] = Clean (root ++ slash :: p) := by
    unfold Join
    rw [if_neg hne]
    rfl
  constructor
  · intro h
    have hp : p = slash :: joinSlash (cleanElems true []
        (splitSlash (slash :: (joinSlash es ++ slash :: p)))) := by
      have h2 := h1
      rw [h, hR, List.cons_append, Clean_rooted_unfold] at h2
      exact h2
    have hqs : ∀ e ∈ cleanElems true [] (splitSlash (slash :: (joinSlash es ++ slash :: p))),
        Normal e :=
      cleanElems_all_normal true _ [] (by simp) (splitSlash_no_slash _) (Or.inl rfl)
    generalize cleanElems true [] (splitSlash (slash :: (joinSlash es ++ slash :: p))) = qs
      at hp hqs
    obtain ⟨hdd, hk⟩ := keptElems_rooted qs hqs
    rw [← hp] at hdd hk
    have h3 : Join [root, p] = slash :: joinSlash (es ++ keptElems p) := by
      rw [h1, hR, Clean_root_slash_path es hes p hdd]
    rw [h, hk] at h3
    have h4 : joinSlash ([] ++ qs) = joinSlash ([] ++ (es ++ qs)) := by
      have h5 := h3
      rw [hp] at h5
      simpa using h5
    have h6 : qs = es ++ qs :=
      joinSlash_inj_cons [] qs (es ++ qs) (by simp) hqs
        (fun e he => (List.mem_append.1 he).elim (hes e) (hqs e)) h4
    have h7 : es = [] := by
      have := congrArg List.length h6
      simp only [List.length_append] at this
      exact List.length_eq_zero.1 (by omega)
    refine ⟨by rw [hR, h7]; rfl, by rw [hp]; rfl, ?_⟩
    rw [hp]
    exact Clean_rooted_join qs hqs
  · rintro ⟨hr, hpa, hpc⟩
    obtain ⟨qs, hqs, hp⟩ := Clean_rooted_form p hpa hpc
    obtain ⟨hdd, hk⟩ := keptElems_rooted qs hqs
    rw [← hp] at hdd hk
    have h0 : root = slash :: joinSlash [] := by rw [hr]; rfl
    rw [h1, h0, Clean_root_slash_path [] (by simp) p hdd, hk, List.nil_append]
    exact hp.symm

/-- C12, amended: for every target and link path, the first system call of
`Symlink` is the symlink call, with the target resolved against the root,
`Join(root, path)`, as the content of the link and `Join(root, link)` as its
place; what follows is at most the `lstat` of the link and its `unlink`. For
an absolute clean root, the content is the `path` argument as received exactly
when the root is `/` and the path is absolute and clean. -/
theorem Symlink_call {σ : Type} (k : Kernel σ) (n : FileNode) (rel dir : GoString)
    (w : World σ) :
    (∃ tail, (n.Symlink k rel dir w).2.log
        = w.log ++ Call.symlink (Join [n.Root, rel]) (Join [n.Root, dir]) :: tail
      ∧ (tail = [] ∨ tail = [Call.lstat (Join [n.Root, dir])]
          ∨ tail = [Call.lstat (Join [n.Root, dir]), Call.unlink (Join [n.Root, dir])]))
    ∧ (n.Root.head? = some slash → Clean n.Root = n.Root →
        (Join [n.Root, rel] = rel
          ↔ (n.Root = [slash] ∧ rel.head? = some slash ∧ Clean rel = rel))) := by
  refine ⟨?_, fun habs hroot => Join_root_eq_self_iff n.Root rel habs hroot⟩
  unfold FileNode.Symlink FileNode.abs World.call
  simp only
  rcases h1 : (k.symlink (Join [n.Root, rel]) (Join [n.Root, dir]) w.st).1 with e | u
  · exact ⟨[], rfl, Or.inl rfl⟩
  · simp only
    rcases h2 : (k.lstat (Join [n.Root, dir])
        (k.symlink (Join [n.Root, rel]) (Join [n.Root, dir]) w.st).2).1 with e | st
    · exact ⟨_, by simp, Or.inr (Or.inr rfl)⟩
    · exact ⟨_, by simp, Or.inr (Or.inl rfl)⟩

/-- C12 on the root `/`, where the absolute clean target `/a/b` is handed to
the symlink call as it was received, and on the root `/srv`, where it is not. -/
theorem Symlink_call_witness :
    (({ exampleNode with Root := str "/" } : FileNode).Symlink memKernel (str "/a/b") (str "l")
        exampleWorld).2.log = [Call.symlink (str "/a/b") (str "/l"), Call.lstat (str "/l")]
    ∧ Join [str "/", str "/a/b"] = str "/a/b"
    ∧ Join [str "/srv", str "/a/b"] ≠ str "/a/b" :=
  ⟨by decide,
   ((Symlink_call memKernel { exampleNode with Root := str "/" } (str "/a/b") (str "l")
      exampleWorld).2 (by decide) (by decide)).2 ⟨by decide, by decide, by decide⟩,
   fun h => absurd (((Symlink_call memKernel exampleNode (str "/a/b") (str "l")
      exampleWorld).2 (by decide) (by decide)).1 h).1 (by decide)⟩

end Nomad
